import Mathlib

/-!
Dungeoncrawler: grid model, rotation, occupants and links

A shallow embedding of `Dungeoncrawler/Dungeon.cpp` and `Dungeoncrawler/Game.cpp`.

* `int` is embedded as `Int` (mathematical integers; the grids of the program are at most a
  few thousand cells, far from the 32-bit range).
* `std::vector::operator[]` and the dereference of a pointer are fallible: an index outside the
  vector, or a pointer to an entity that is no longer owned, is undefined behaviour in C++ and is
  `none` here.  Every operation therefore returns an `Option`.
* A `std::unique_ptr<Entity>` stored in `_entities` is identified by a serial number; a tile
  occupant (`std::unique_ptr<Entity>*`) is a `Ref`, either that serial number or the player's
  `base` handle.
* `Dungeon::_player` is a reference to the player handle shared by all dungeons; the referenced
  object is the field `player` of `Dungeon`, and `Game` stores the remaining members
  (`DungeonMembers`) of each dungeon next to the one shared player.
* `_entities` is taken to be a `std::list` (Dungeon.h is not part of the sources): the tiles
  keep pointers to its elements, `Events` erases an element after it has advanced the
  iterator, and `GenerateWallsChildren` appends while it iterates, which is well defined for
  a list only.  A loop over `_entities` therefore also visits the elements appended during
  the loop.
* `_vision` is a `std::unordered_set`; the field `vision` lists its elements in the order in
  which they were inserted since the last `clear( )`.  The order in which the set hands out
  its elements to a loop is left open by C++ and depends on the hash function (`HasherVector2`
  is not part of the sources) and on the buckets, which `clear( )` keeps: it is the field
  `rank` of `Functions`.
* The loops of the generation stages that have no bound of their own (`while( true )`,
  `while( remaining > 0 )`) take a `fuel` argument; such a stage is `none` when the code has
  undefined behaviour and also when the loop has not ended within the fuel.  The random
  source, the pathfinder, the entity factory and the border tests are the fields of
  `Collaborators`.
-/

namespace Dungeoncrawler

/-! ## Geometry (Vector2.h, Enums.h, Functions.h) -/

/-- Integer pair `Vector2<int>`: column `x` and row `y`. -/
structure Vector2 where
  x : Int
  y : Int
deriving DecidableEq, Repr

instance : Add Vector2 := ⟨fun a b => ⟨a.x + b.x, a.y + b.y⟩⟩

/-- Scalar multiple `v * k`. -/
def Vector2.scale (v : Vector2) (k : Int) : Vector2 := ⟨v.x * k, v.y * k⟩

/-- Scalar quotient `v / k` of two `int` components (C++ division truncates toward zero). -/
def Vector2.divide (v : Vector2) (k : Int) : Vector2 := ⟨v.x.tdiv k, v.y.tdiv k⟩

/-- Modelled from the spec: `Orientation::Enum` of Enums.h, which is not part of the sources.
The four values carry the integer codes that `Dungeon::GenerateDoors` and `Game::DungeonSwap`
cast from, `((start + i) % 4) - 1`, and stand for turns of 0, 90, 180 and 270 degrees
(Game::NextTurn binds East to "Rotate dungeon 90", South to 180 and West to 270). -/
inductive Orientation where
  | North
  | East
  | South
  | West
deriving DecidableEq, Repr

/-- Integer code of an orientation. -/
def Orientation.toInt : Orientation → Int
  | .West => -1
  | .North => 0
  | .East => 1
  | .South => 2

/-- Modelled from the spec: `InBounds(pos, size)` of Functions.h, "true iff
`0 <= pos.x < size.x` and `0 <= pos.y < size.y`". -/
def InBounds (position size : Vector2) : Prop :=
  0 ≤ position.x ∧ position.x < size.x ∧ 0 ≤ position.y ∧ position.y < size.y

instance (position size : Vector2) : Decidable (InBounds position size) := by
  unfold InBounds
  infer_instance

/-- Modelled from the spec: `PositionRotate(pos, size, orientation)` of Functions.h, which "maps
a position under a 90-degree-multiple rotation of a `size.x × size.y` frame ... applied via
coordinate swap/negation consistent with target frame size (which swaps for odd multiples of
90 degrees)".  A quarter turn sends the `W × H` frame onto the `H × W` frame. -/
def PositionRotate (position size : Vector2) : Orientation → Vector2
  | .North => position
  | .East => ⟨size.y - position.y - 1, position.x⟩
  | .South => ⟨size.x - position.x - 1, size.y - position.y - 1⟩
  | .West => ⟨position.y, size.x - position.x - 1⟩

/-- Modelled from the spec: `PositionMove(position, orientation)` of Functions.h, the
"single-step destination"; the step vectors are those of the `directions` tables of
Dungeon.cpp (north is `(0, -1)`). -/
def PositionMove (position : Vector2) : Orientation → Vector2
  | .North => position + ⟨0, -1⟩
  | .East => position + ⟨1, 0⟩
  | .South => position + ⟨0, 1⟩
  | .West => position + ⟨-1, 0⟩

/-- The rasterisers of Functions.h, which are not part of the sources, are parameters of every
operation that rebuilds the vision set, and so is the order in which the
`std::unordered_set` `_vision` lists its elements. -/
structure Functions where
  BresenhamLine : Vector2 → Vector2 → List Vector2
  BresenhamCircle : Vector2 → Int → List Vector2
  /-- The place `rank stored contents p` of the element `p` in a loop over `_vision`, when the
  set held the elements `stored` before the last `clear( )` (which keeps the buckets) and the
  elements `contents` have been inserted since, in this order: the set lists its elements by
  ascending rank, elements of equal rank in the order of insertion.  With `fun _ _ _ => 0` the
  set lists its elements in the order of insertion, and a loop that inserts visits every
  inserted element; with `fun _ contents p => contents.length - contents.indexOf p` it lists
  the newest element first, and such a loop visits no inserted element. -/
  rank : List Vector2 → List Vector2 → Vector2 → Nat

/-! ## Data model (Dungeon.h, Entity.h, Player.h) -/

/-- Modelled from the spec: the attribute bits of Enums.h ("at minimum: Obstacle, Hostile,
Movement"); the numeric values are not in the sources, distinct single bits are assumed. -/
def Attributes.Obstacle : Nat := 1

/-- See `Attributes.Obstacle`. -/
def Attributes.Hostile : Nat := 2

/-- See `Attributes.Obstacle`. -/
def Attributes.Movement : Nat := 4

/-- Modelled from the spec: the state bit `States::Swapping` of Enums.h. -/
def States.Swapping : Nat := 1

/-- The fields of `Entity` (and of its subclass `Character`, for `health`) that Dungeon.cpp
reads or writes.  `character` records the dynamic type tested by `dynamic_cast<Character*>`. -/
structure Entity where
  name : String
  icon : Char
  attributes : Nat
  position : Vector2
  active : Bool
  character : Bool
  health : Int
deriving DecidableEq, Repr

/-- The player object behind `PlayerHandle`: `real` and `base` denote the same object, seen as a
`Player` and as an `Entity`. -/
structure Player where
  base : Entity
  visionReach : Int
  states : Nat
deriving DecidableEq, Repr

/-- A tile occupant, `std::unique_ptr<Entity>*`: the player's `base` handle or an element of
`_entities`, named by its serial number. -/
inductive Ref where
  | player
  | entity (id : Nat)
deriving DecidableEq, Repr

/-- A tile: display icon and the stack of occupants (last is on top). -/
structure Tile where
  icon : Char
  occupants : List Ref
deriving DecidableEq, Repr

/-- A doorway descriptor, in the field order of the aggregate initialisers of the sources. -/
structure Link where
  indexDungeon : Int
  indexLink : Int
  entrance : Vector2
  exit : Vector2
deriving DecidableEq, Repr

/-- The data members of class `Dungeon` other than the player reference.  `fresh` is the serial
number the next `push_back` on `_entities` will use. -/
structure DungeonMembers where
  size : Vector2
  tiles : List Tile
  entities : List (Nat × Entity)
  vision : List Vector2
  links : List Link
  fresh : Nat
deriving DecidableEq, Repr

/-- A dungeon together with the player object its `_player` member refers to. -/
structure Dungeon extends DungeonMembers where
  player : Player
deriving DecidableEq, Repr

/-- Row-major index `(position.y * _size.x) + position.x`. -/
def tileIndex (size position : Vector2) : Int := position.y * size.x + position.x

/-- Read `tiles[i]` for an `int` index; `none` outside the vector. -/
def tileAt (tiles : List Tile) (i : Int) : Option Tile :=
  if 0 ≤ i then tiles[i.toNat]? else none

/-- Write `tiles[i] = t` for an `int` index; `none` outside the vector. -/
def tileSet (tiles : List Tile) (i : Int) (t : Tile) : Option (List Tile) :=
  if 0 ≤ i ∧ i.toNat < tiles.length then some (tiles.set i.toNat t) else none

/-- Dereference of an occupant pointer; `none` when the entity is no longer owned. -/
def Dungeon.deref (d : Dungeon) : Ref → Option Entity
  | .player => some d.player.base
  | .entity id => d.entities.lookup id

/-- `Dungeon::GetTile`. -/
def Dungeon.GetTile (d : Dungeon) (position : Vector2) : Option Tile :=
  tileAt d.tiles (tileIndex d.size position)

/-- Assignment to `_tiles[(position.y * _size.x) + position.x]`. -/
def Dungeon.putTile (d : Dungeon) (position : Vector2) (t : Tile) : Option Dungeon :=
  (tileSet d.tiles (tileIndex d.size position) t).map fun ts => { d with tiles := ts }

/-- `Dungeon::Visible`. -/
def Dungeon.Visible (d : Dungeon) (position : Vector2) : Bool := decide (position ∈ d.vision)

/-- `_vision.insert(position)`. -/
def Dungeon.visionInsert (d : Dungeon) (position : Vector2) : Dungeon :=
  if position ∈ d.vision then d else { d with vision := d.vision ++ [position] }

/-- `Dungeon::Unoccupied`. -/
def Dungeon.Unoccupied (d : Dungeon) (position : Vector2) : Option Bool :=
  (d.GetTile position).map fun t => t.occupants.isEmpty

/-- The loop of `Dungeon::TileLacking` over the occupants of a tile. -/
def Dungeon.lacking (d : Dungeon) (bitmask : Nat) : List Ref → Option Bool
  | [] => some true
  | r :: rs =>
    match d.deref r with
    | none => none
    | some e => if e.attributes &&& bitmask ≠ 0 then some false else d.lacking bitmask rs

/-- `Dungeon::TileLacking`. -/
def Dungeon.TileLacking (d : Dungeon) (position : Vector2) (bitmask : Nat) : Option Bool :=
  match d.GetTile position with
  | none => none
  | some t => d.lacking bitmask t.occupants

/-- `Dungeon::UpdateTile`. -/
def Dungeon.UpdateTile (d : Dungeon) (position : Vector2) : Option Dungeon :=
  match d.GetTile position with
  | none => none
  | some tile =>
    match tile.occupants.getLast? with
    | none => d.putTile position { tile with icon := '-' }
    | some r =>
      match d.deref r with
      | none => none
      | some e => d.putTile position { tile with icon := e.icon }

/-- `Dungeon::OccupantInsert`. -/
def Dungeon.OccupantInsert (d : Dungeon) (position : Vector2) (entity : Ref) : Option Dungeon :=
  match d.GetTile position with
  | none => none
  | some tile =>
    match d.putTile position { tile with occupants := tile.occupants ++ [entity] } with
    | none => none
    | some d1 => d1.UpdateTile position

/-- `Dungeon::OccupantRemove`.  The predicate of `std::remove_if` dereferences every occupant of
the tile (`it->get( )`), so each of them has to be a live pointer. -/
def Dungeon.OccupantRemove (d : Dungeon) (position : Vector2) (entity : Ref) : Option Dungeon :=
  match d.GetTile position with
  | none => none
  | some tile =>
    if tile.occupants.all (fun r => (d.deref r).isSome) ∧ (d.deref entity).isSome then
      match d.putTile position
          { tile with occupants := tile.occupants.filter (fun r => r ≠ entity) } with
      | none => none
      | some d1 => d1.UpdateTile position
    else none

/-- `Dungeon::EntityInsert`: the new entity is appended to `_entities`, takes `position`, and is
pushed on the tile. -/
def Dungeon.EntityInsert (d : Dungeon) (position : Vector2) (entity : Entity) : Option Dungeon :=
  let d1 : Dungeon :=
    { d with entities := d.entities ++ [(d.fresh, { entity with position := position })],
             fresh := d.fresh + 1 }
  d1.OccupantInsert position (.entity d.fresh)

/-- `Dungeon::EntityRemove`: when `entity` is an element of `_entities` it is removed from the
tile at `position` and erased; otherwise nothing happens. -/
def Dungeon.EntityRemove (d : Dungeon) (position : Vector2) : Ref → Option Dungeon
  | .player => some d
  | .entity id =>
    if (d.entities.lookup id).isSome then
      match d.OccupantRemove position (.entity id) with
      | none => none
      | some d1 => some { d1 with entities := d1.entities.eraseP (fun en => en.1 == id) }
    else some d

/-- Assignment to `_player.real->position`. -/
def Dungeon.setPlayerPosition (d : Dungeon) (position : Vector2) : Dungeon :=
  { d with player := { d.player with base := { d.player.base with position := position } } }

/-- Assignment through an occupant pointer or an element of `_entities`. -/
def Dungeon.modify (d : Dungeon) (f : Entity → Entity) : Ref → Dungeon
  | .player => { d with player := { d.player with base := f d.player.base } }
  | .entity id =>
    { d with entities := d.entities.map fun en => if en.1 = id then (en.1, f en.2) else en }

/-- The cells visited by `for( y = 0; y < size.y; y++ ) for( x = 0; x < size.x; x++ )`, in
that order. -/
def gridCells (size : Vector2) : List Vector2 :=
  (List.range size.y.toNat).flatMap fun (y : Nat) =>
    (List.range size.x.toNat).map fun (x : Nat) => (⟨(x : Int), (y : Int)⟩ : Vector2)

/-! ## Vision (Dungeon::BuildVision) -/

/-- The lambda `LineOfSight` of `Dungeon::BuildVision`. -/
def Dungeon.LineOfSight (d : Dungeon) : List Vector2 → Option Dungeon
  | [] => some d
  | current :: rest =>
    if InBounds current d.size then
      match (d.visionInsert current).TileLacking current Attributes.Obstacle with
      | none => none
      | some true => (d.visionInsert current).LineOfSight rest
      | some false => some (d.visionInsert current)
    else some d

/-- The table `neighbours` of `Dungeon::BuildVision`: a direction and its two diagonal bridges. -/
def neighbours : List (Vector2 × Vector2 × Vector2) :=
  [ (⟨0, -1⟩, ⟨-1, -1⟩, ⟨1, -1⟩),
    (⟨1, 0⟩, ⟨1, -1⟩, ⟨1, 1⟩),
    (⟨0, 1⟩, ⟨1, 1⟩, ⟨-1, 1⟩),
    (⟨-1, 0⟩, ⟨-1, 1⟩, ⟨-1, -1⟩) ]

/-- Innermost loop of the "parallell obstacles" pass: walk `straight`, marking the blocked cell
beside each step, until the step itself is blocked. -/
def Dungeon.probe (d : Dungeon) (direction : Vector2) (polar : Int) :
    List Vector2 → Option Dungeon
  | [] => some d
  | current :: rest =>
    let flip : Vector2 := ⟨direction.y, direction.x⟩
    let adjacent := current + flip.scale polar
    let marked : Option Dungeon :=
      if InBounds adjacent d.size then
        match d.TileLacking adjacent Attributes.Obstacle with
        | none => none
        | some true => some d
        | some false => some (d.visionInsert adjacent)
      else some d
    match marked with
    | none => none
    | some d1 =>
      if InBounds current d1.size then
        match d1.TileLacking current Attributes.Obstacle with
        | none => none
        | some true => d1.probe direction polar rest
        | some false => some d1
      else d1.probe direction polar rest

/-- Body of the "parallell obstacles" pass for one direction: both polarities, `1` then `-1`. -/
def Dungeon.probeBoth (fn : Functions) (position : Vector2) (visionReach : Int) (d : Dungeon)
    (neighbour : Vector2 × Vector2 × Vector2) : Option Dungeon :=
  let direction := neighbour.1
  let straight := fn.BresenhamLine position (position + direction.scale visionReach)
  match d.probe direction 1 straight with
  | none => none
  | some d1 => d1.probe direction (-1) straight

/-- Body of the "surrounded deadspots" pass for one visible cell and one direction. -/
def Dungeon.deadspot (fn : Functions) (position visible : Vector2) (d : Dungeon)
    (neighbour : Vector2 × Vector2 × Vector2) : Option Dungeon :=
  let adjacent := visible + neighbour.1
  if InBounds adjacent d.size ∧ d.Visible adjacent = false then
    let neighbourOne := visible + neighbour.2.1
    let neighbourTwo := visible + neighbour.2.2
    if InBounds neighbourOne d.size ∧ InBounds neighbourTwo d.size ∧
        d.Visible neighbourOne = true ∧ d.Visible neighbourTwo = true then
      d.LineOfSight (fn.BresenhamLine position adjacent)
    else some d
  else some d

/-- The order in which a loop over `_vision` meets the elements of the set, when the set held
`stored` before the last `clear( )`: ascending `rank`, ties in the order of insertion. -/
def Dungeon.listing (fn : Functions) (stored : List Vector2) (d : Dungeon) : List Vector2 :=
  d.vision.insertionSort fun a b => fn.rank stored d.vision a ≤ fn.rank stored d.vision b

/-- The increment of an iterator that points to `current`: the element after `current` in
`order`, or the end. -/
def following (order : List Vector2) (current : Vector2) : Option Vector2 :=
  ((order.dropWhile fun p => decide (p ≠ current)).drop 1).head?

/-- The loop `for( const auto& visible : _vision )` of the "surrounded deadspots" pass, from
the iterator `visible` on (`none` is the end).  The body inserts into the set the loop ranges
over; after the body the iterator moves to the element that follows `visible` in the order of
the set as it is then, so that an inserted cell is visited when the set lists it behind
`visible`, and is not when the set lists it before.  (C++ ends the validity of the iterator
when an insertion makes the set re-hash; a set of linked nodes goes on as described.)
`fuel` bounds the number of rounds. -/
def Dungeon.deadspots (fn : Functions) (stored : List Vector2) (position : Vector2) :
    Nat → Dungeon → Option Vector2 → Option Dungeon
  | _, d, none => some d
  | 0, _, some _ => none
  | fuel + 1, d, some visible =>
    match neighbours.foldlM (Dungeon.deadspot fn position visible) d with
    | none => none
    | some d1 =>
      Dungeon.deadspots fn stored position fuel d1 (following (d1.listing fn stored) visible)

/-- `Dungeon::BuildVision`.  The last pass ranges over the set `_vision` while `LineOfSight`
inserts into it (`Dungeon.deadspots`); the order of the set depends on what it held before
`_vision.clear( )`, the field `vision` of `d`.  Every round of the last pass either inserts a
cell of the grid that was not in the set or moves on in an unchanged order, so that the loop
ends within `(cells + 1) * (cells + 1)` rounds, the fuel it is given here
(`Dungeon.BuildVision_fuel`). -/
def Dungeon.BuildVision (fn : Functions) (d : Dungeon) (position : Vector2)
    (visionReach : Int) : Option Dungeon :=
  let d0 : Dungeon := { d with vision := [] }
  match (fn.BresenhamCircle position visionReach).foldlM
      (fun s endpoint => s.LineOfSight (fn.BresenhamLine position endpoint)) d0 with
  | none => none
  | some d1 =>
    match neighbours.foldlM (Dungeon.probeBoth fn position visionReach) d1 with
    | none => none
    | some d2 =>
      Dungeon.deadspots fn d.vision position
        (((gridCells d.size).length + 1) * ((gridCells d.size).length + 1)) d2
        (d2.listing fn d.vision).head?

/-! ## Player and entity movement -/

/-- The table `directions` of `Dungeon::PlayerPlace`. -/
def directions : List Vector2 := [⟨0, -1⟩, ⟨1, 0⟩, ⟨0, 1⟩, ⟨-1, 0⟩]

/-- The neighbour scan of `Dungeon::PlayerPlace`: the first in-bounds neighbour without an
obstacle takes the player; the scan stops there. -/
def Dungeon.placeNearby (d : Dungeon) (position : Vector2) : List Vector2 → Option Dungeon
  | [] => some d
  | direction :: rest =>
    let nearby := position + direction
    if InBounds nearby d.size then
      match d.TileLacking nearby Attributes.Obstacle with
      | none => none
      | some true => some (d.setPlayerPosition nearby)
      | some false => d.placeNearby position rest
    else d.placeNearby position rest

/-- The part of `Dungeon::PlayerPlace` that decides the player's position (all but the last two
statements). -/
def Dungeon.playerTarget (d : Dungeon) (position : Vector2) : Option Dungeon :=
  let d1 := d.setPlayerPosition (if InBounds position d.size then position else d.size.divide 2)
  match d1.TileLacking position Attributes.Obstacle with
  | none => none
  | some true => some d1
  | some false => d1.placeNearby position directions

/-- `Dungeon::PlayerPlace`. -/
def Dungeon.PlayerPlace (fn : Functions) (d : Dungeon) (position : Vector2) : Option Dungeon :=
  match d.playerTarget position with
  | none => none
  | some d2 =>
    match d2.BuildVision fn d2.player.base.position d2.player.visionReach with
    | none => none
    | some d3 => d3.OccupantInsert d3.player.base.position .player

/-- The lambda `Door` of `Dungeon::MovementPlayer`, over the occupants of a tile. -/
def Dungeon.Door (d : Dungeon) : List Ref → Option Bool
  | [] => some false
  | r :: rs =>
    match d.deref r with
    | none => none
    | some e => if e.name = "Door" then some true else d.Door rs

/-- The condition of the `if` of `Dungeon::MovementPlayer`, with the short-circuit order of
`&&` and `||`. -/
def Dungeon.mayEnter (d : Dungeon) (moving : Vector2) : Option Bool :=
  if InBounds moving d.size then
    match d.TileLacking moving Attributes.Obstacle with
    | none => none
    | some true => some true
    | some false =>
      match d.GetTile moving with
      | none => none
      | some t => d.Door t.occupants
  else some false

/-- `Dungeon::MovementPlayer`. -/
def Dungeon.MovementPlayer (fn : Functions) (d : Dungeon) (orientation : Orientation) :
    Option Dungeon :=
  let moving := PositionMove d.player.base.position orientation
  match d.mayEnter moving with
  | none => none
  | some false => d.BuildVision fn d.player.base.position d.player.visionReach
  | some true =>
    match d.OccupantRemove d.player.base.position .player with
    | none => none
    | some d1 =>
      match (d1.setPlayerPosition moving).OccupantInsert moving .player with
      | none => none
      | some d3 => d3.BuildVision fn d3.player.base.position d3.player.visionReach

/-- Body of the loop of `Dungeon::MovementRandom` for one element of `_entities`.  `draw` is the
result of the call `PositionMoveProbability( entity->position, 1, 1, 1, 1, 12 )` of Functions.h,
a random single step or the position itself, given for the entity's serial number. -/
def Dungeon.moveEntity (draw : Nat → Vector2 → Vector2) (d : Dungeon) (en : Nat × Entity) :
    Option Dungeon :=
  if en.2.attributes &&& Attributes.Movement ≠ 0 then
    let moving := draw en.1 en.2.position
    if InBounds moving d.size then
      match d.TileLacking moving Attributes.Obstacle with
      | none => none
      | some false => some d
      | some true =>
        match d.OccupantRemove en.2.position (.entity en.1) with
        | none => none
        | some d1 =>
          (d1.modify (fun e => { e with position := moving }) (.entity en.1)).OccupantInsert
            moving (.entity en.1)
    else some d
  else some d

/-- `Dungeon::MovementRandom`.  No iteration adds or erases an element of `_entities`, and an
entity is changed by its own iteration only, so the loop ranges over the collection as it is
when the loop starts. -/
def Dungeon.MovementRandom (draw : Nat → Vector2 → Vector2) (d : Dungeon) : Option Dungeon :=
  d.entities.foldlM (Dungeon.moveEntity draw) d

/-! ## Events -/

/-- Body of the first loop of `Dungeon::Events` for one occupant of the player's tile.
Modelled from the spec: `Fight( player, enemy )` is the external combat resolver, which
"mutates health fields"; it is the parameter `Fight`, returning the two new health values
(the player's, then the enemy's). -/
def Dungeon.fightOccupant (Fight : Player → Entity → Int × Int) (d : Dungeon) (occupant : Ref) :
    Option Dungeon :=
  match d.deref occupant with
  | none => none
  | some e =>
    if e.attributes &&& Attributes.Hostile ≠ 0 then
      if e.character then
        let result := Fight d.player e
        let d1 := d.modify (fun p => { p with health := result.1 }) .player
        let d2 := d1.modify (fun c => { c with health := result.2 }) occupant
        if result.2 < 0 then some (d2.modify (fun c => { c with active := false }) occupant)
        else some d2
      else none
    else some d

/-- Body of the second loop of `Dungeon::Events` for one link. -/
def Dungeon.swapOnEntrance (d : Dungeon) (link : Link) : Option Dungeon :=
  if d.player.base.position = link.entrance then
    let d1 : Dungeon := { d with player := { d.player with states := d.player.states ||| States.Swapping } }
    d1.OccupantRemove d1.player.base.position .player
  else some d

/-- Body of the third loop of `Dungeon::Events` for one element of `_entities`; the iterator has
already moved on when the element is erased. -/
def Dungeon.sweep (d : Dungeon) (en : Nat × Entity) : Option Dungeon :=
  if en.2.active then some d else d.EntityRemove en.2.position (.entity en.1)

/-- `Dungeon::Events`. -/
def Dungeon.Events (Fight : Player → Entity → Int × Int) (d : Dungeon) : Option Dungeon :=
  match tileAt d.tiles (tileIndex d.size d.player.base.position) with
  | none => none
  | some tile =>
    match tile.occupants.foldlM (Dungeon.fightOccupant Fight) d with
    | none => none
    | some d1 =>
      match d1.links.foldlM Dungeon.swapOnEntrance d1 with
      | none => none
      | some d2 => d2.entities.foldlM Dungeon.sweep d2

/-! ## Rotation -/

/-- Body of the tile loop of `Dungeon::Rotate`: `rotateTiles[indexNext] = _tiles[indexPrev]`. -/
def rotateCell (tiles : List Tile) (sizePrev sizeNext : Vector2) (orientation : Orientation)
    (rotateTiles : List Tile) (iterator : Vector2) : Option (List Tile) :=
  let rotation := PositionRotate iterator sizePrev orientation
  let indexPrev := rotation.x * sizeNext.y + rotation.y
  let indexNext := iterator.x * sizePrev.y + iterator.y
  match tileAt tiles indexPrev with
  | none => none
  | some t => tileSet rotateTiles indexNext t

/-- Insertion into the local `std::unordered_set` `rotateVision`. -/
def visionAdd (vision : List Vector2) (position : Vector2) : List Vector2 :=
  if position ∈ vision then vision else vision ++ [position]

/-- `Dungeon::Rotate`. -/
def Dungeon.Rotate (d : Dungeon) (orientation : Orientation) : Option Dungeon :=
  let sizeSwap : Vector2 := ⟨d.size.y, d.size.x⟩
  let sizePrev : Vector2 := ⟨d.size.x, d.size.y⟩
  let sizeNext := if (orientation.toInt + 2).tmod 2 ≠ 0 then sizeSwap else sizePrev
  match (gridCells d.size).foldlM (rotateCell d.tiles sizePrev sizeNext orientation) d.tiles with
  | none => none
  | some rotateTiles =>
    let entities := d.entities.map fun en =>
      (en.1, { en.2 with position := PositionRotate en.2.position sizePrev orientation })
    let rotateVision := d.vision.foldl
      (fun v position => visionAdd v (PositionRotate position sizePrev orientation)) []
    some { (d.setPlayerPosition (PositionRotate d.player.base.position sizePrev orientation)) with
      size := sizeNext, tiles := rotateTiles, vision := rotateVision, entities := entities }

/-! ## Configuration (DungeonConfiguration) -/

/-- The member `size` of `DungeonConfiguration`. -/
structure ConfigSize where
  determined : Bool
  dungeon : Vector2
deriving DecidableEq, Repr

/-- The member `generate` of `DungeonConfiguration`. -/
structure ConfigGenerate where
  doors : Bool
  wallsOuter : Bool
  hiddenPath : Bool
  wallsParents : Bool
  wallsChildren : Bool
  wallsFiller : Bool
  enemies : Bool
deriving DecidableEq, Repr

/-- The member `amount` of `DungeonConfiguration`. -/
structure ConfigAmount where
  doors : Int
  wallsParents : Int
  wallsChildren : Int
  wallsFillerCycles : Int
  enemies : Int
deriving DecidableEq, Repr

/-- Struct `DungeonConfiguration`. -/
structure DungeonConfiguration where
  size : ConfigSize
  generate : ConfigGenerate
  amount : ConfigAmount
deriving DecidableEq, Repr

/-- The default constructor `DungeonConfiguration::DungeonConfiguration( )`. -/
def DungeonConfiguration.default : DungeonConfiguration :=
  { size := ⟨false, ⟨0, 0⟩⟩,
    generate := ⟨true, true, true, true, true, true, true⟩,
    amount := ⟨0, 0, 0, 0, 0⟩ }

/-- How the evaluation of an expression inside the `try` block can end early: an exception
(`std::stoi` throws `std::invalid_argument` or `std::out_of_range`), or undefined behaviour
(`data[k]` outside the vector; `operator[]` does not throw). -/
inductive Raised where
  | exception
  | undefined
deriving DecidableEq, Repr

/-- The expression `std::stoi( data[k] )`.  `stoi` is the standard library function, `none` when
it throws. -/
def stoiField (stoi : String → Option Int) (data : List String) (k : Nat) : Except Raised Int :=
  match data[k]? with
  | none => .error .undefined
  | some s =>
    match stoi s with
    | none => .error .exception
    | some v => .ok v

/-- The `try` block of `DungeonConfiguration::DungeonConfiguration( data )`, statement by
statement. -/
def DungeonConfiguration.parse (stoi : String → Option Int) (data : List String) :
    Except Raised DungeonConfiguration := do
  let determined ← stoiField stoi data 0
  let dungeonX ← stoiField stoi data 1
  let dungeonY ← stoiField stoi data 2
  let doors ← stoiField stoi data 3
  let wallsOuter ← stoiField stoi data 4
  let hiddenPath ← stoiField stoi data 5
  let wallsParents ← stoiField stoi data 6
  let wallsChildren ← stoiField stoi data 7
  let wallsFiller ← stoiField stoi data 8
  let enemies ← stoiField stoi data 9
  let amountDoors ← stoiField stoi data 10
  let amountWallsParents ← stoiField stoi data 11
  let amountWallsChildren ← stoiField stoi data 12
  let amountWallsFillerCycles ← stoiField stoi data 13
  let amountEnemies ← stoiField stoi data 14
  pure
    { size := ⟨determined ≠ 0, ⟨dungeonX, dungeonY⟩⟩,
      generate := ⟨doors ≠ 0, wallsOuter ≠ 0, hiddenPath ≠ 0, wallsParents ≠ 0,
        wallsChildren ≠ 0, wallsFiller ≠ 0, enemies ≠ 0⟩,
      amount := ⟨amountDoors, amountWallsParents, amountWallsChildren,
        amountWallsFillerCycles, amountEnemies⟩ }

/-- `DungeonConfiguration::DungeonConfiguration( data )`: the handler `catch( ... )` replaces the
object by the default configuration; undefined behaviour is not an exception and is not caught
(`none`). -/
def DungeonConfiguration.ofData (stoi : String → Option Int) (data : List String) :
    Option DungeonConfiguration :=
  match DungeonConfiguration.parse stoi data with
  | .ok config => some config
  | .error .exception => some DungeonConfiguration.default
  | .error .undefined => none

/-! ## Game (links between dungeons) -/

/-- The members of class `Game` that the link operations use. -/
structure Game where
  player : Player
  dungeons : List DungeonMembers
  index : Int
  config : DungeonConfiguration

/-- Read `v[i]` for an `int` index; `none` outside the vector. -/
def vectorAt {α : Type} (v : List α) (i : Int) : Option α :=
  if 0 ≤ i then v[i.toNat]? else none

/-- Read `_dungeons[indexDungeon].links[indexLink]`. -/
def Game.getLink (g : Game) (indexDungeon indexLink : Int) : Option Link :=
  match vectorAt g.dungeons indexDungeon with
  | none => none
  | some d => vectorAt d.links indexLink

/-- Write `_dungeons[indexDungeon].links[indexLink] = link`. -/
def Game.setLink (g : Game) (indexDungeon indexLink : Int) (link : Link) : Option Game :=
  match vectorAt g.dungeons indexDungeon with
  | none => none
  | some d =>
    if 0 ≤ indexLink ∧ indexLink.toNat < d.links.length then
      some { g with dungeons :=
        g.dungeons.set indexDungeon.toNat { d with links := d.links.set indexLink.toNat link } }
    else none

/-- Body of the loop of `Game::DungeonLink` for one link index.  `construct n` is the dungeon
that `_dungeons.emplace_back( _player, _entityFactory, _config )` builds when the vector holds
`n` dungeons: the generation pipeline draws random numbers, so its result is a parameter. -/
def Game.linkStep (construct : Nat → DungeonMembers) (indexCurrentDungeon : Int) (g : Game)
    (indexCurrentLink : Nat) : Option Game :=
  match g.getLink indexCurrentDungeon indexCurrentLink with
  | none => none
  | some link =>
    if link.indexLink < 0 ∧ link.indexDungeon < 0 then
      let g1 : Game := { g with dungeons := g.dungeons ++ [construct g.dungeons.length] }
      let indexPartnerLink : Int := 0
      let indexPartnerDungeon : Int := (g1.dungeons.length : Int) - 1
      match g1.getLink indexPartnerDungeon indexPartnerLink,
          g1.getLink indexCurrentDungeon indexCurrentLink with
      | some partner, some current =>
        match g1.setLink indexPartnerDungeon indexPartnerLink
            ⟨indexCurrentDungeon, indexCurrentLink, partner.entrance, current.entrance⟩ with
        | none => none
        | some g2 =>
          g2.setLink indexCurrentDungeon indexCurrentLink
            ⟨indexPartnerDungeon, indexPartnerLink, current.entrance, partner.entrance⟩
      | _, _ => none
    else some g

/-- `Game::DungeonLink`. -/
def Game.DungeonLink (construct : Nat → DungeonMembers) (g : Game) (indexCurrentDungeon : Int) :
    Option Game :=
  match vectorAt g.dungeons indexCurrentDungeon with
  | none => none
  | some d => (List.range d.links.length).foldlM (Game.linkStep construct indexCurrentDungeon) g

/-- Body of the loop of `Game::DungeonRotate` for the link `_dungeons[indexDungeon].links[i]`:
the entrance is written first, then the partner's exit is read and written. -/
def Game.rotateLink (indexDungeon : Int) (sizePrev : Vector2) (orientation : Orientation)
    (g : Game) (i : Nat) : Option Game :=
  match g.getLink indexDungeon i with
  | none => none
  | some current =>
    match g.getLink current.indexDungeon current.indexLink with
    | none => none
    | some _ =>
      match g.setLink indexDungeon i
          { current with entrance := PositionRotate current.entrance sizePrev orientation } with
      | none => none
      | some g1 =>
        match g1.getLink current.indexDungeon current.indexLink with
        | none => none
        | some partner =>
          g1.setLink current.indexDungeon current.indexLink
            { partner with exit := PositionRotate partner.exit sizePrev orientation }

/-- `Game::DungeonRotate`. -/
def Game.DungeonRotate (g : Game) (indexDungeon : Int) (orientation : Orientation) :
    Option Game :=
  match vectorAt g.dungeons indexDungeon with
  | none => none
  | some d =>
    let sizePrev := d.size
    match (List.range d.links.length).foldlM
        (Game.rotateLink indexDungeon sizePrev orientation) g with
    | none => none
    | some g1 =>
      match vectorAt g1.dungeons indexDungeon with
      | none => none
      | some d1 =>
        match Dungeon.Rotate { toDungeonMembers := d1, player := g1.player } orientation with
        | none => none
        | some rotated =>
          some { g1 with player := rotated.player,
                         dungeons := g1.dungeons.set indexDungeon.toNat rotated.toDungeonMembers }

/-! ## Predicates on dungeon states -/

/-- The tile vector holds one tile per cell of the grid. -/
def Dungeon.Sized (d : Dungeon) : Prop :=
  0 ≤ d.size.x ∧ 0 ≤ d.size.y ∧ (d.tiles.length : Int) = d.size.x * d.size.y

instance (d : Dungeon) : Decidable d.Sized := by
  unfold Dungeon.Sized
  infer_instance

/-- Every occupant pointer held by a tile can be dereferenced. -/
def Dungeon.Live (d : Dungeon) : Prop :=
  ∀ t ∈ d.tiles, ∀ r ∈ t.occupants, (d.deref r).isSome = true

instance (d : Dungeon) : Decidable d.Live := by
  unfold Dungeon.Live
  infer_instance

/-- The dungeon with its vision set replaced. -/
def Dungeon.withVision (d : Dungeon) (v : List Vector2) : Dungeon := { d with vision := v }

/-- The dungeon with its tile vector replaced. -/
def Dungeon.withTiles (d : Dungeon) (ts : List Tile) : Dungeon := { d with tiles := ts }

/-- The icon `Dungeon::UpdateTile` computes for a stack of occupants: that of the last
occupant, or the empty icon. -/
def Dungeon.topIcon (d : Dungeon) (occupants : List Ref) : Option Char :=
  match occupants.getLast? with
  | none => some '-'
  | some r => (d.deref r).map Entity.icon

/-- The size of the grid after a rotation: width and height trade places for the quarter
turns. -/
def rotatedSize (size : Vector2) : Orientation → Vector2
  | .North => size
  | .South => size
  | .East => ⟨size.y, size.x⟩
  | .West => ⟨size.y, size.x⟩

/-- The tile lists the occupant at an in-bounds cell. -/
def Dungeon.Lists (d : Dungeon) (position : Vector2) (r : Ref) : Prop :=
  InBounds position d.size ∧
    match d.GetTile position with
    | none => False
    | some t => r ∈ t.occupants

instance (d : Dungeon) (position : Vector2) (r : Ref) : Decidable (d.Lists position r) := by
  unfold Dungeon.Lists
  cases d.GetTile position <;> infer_instance

/-- Repeated `Dungeon::Rotate` with one orientation. -/
def Dungeon.RotateTimes (d : Dungeon) (orientation : Orientation) : Nat → Option Dungeon
  | 0 => some d
  | n + 1 =>
    match d.Rotate orientation with
    | none => none
    | some d1 => d1.RotateTimes orientation n

/-! ## Sample states -/

/-- A wall: an obstacle. -/
def sampleWall (position : Vector2) : Entity :=
  { name := "Wall", icon := '#', attributes := Attributes.Obstacle, position := position,
    active := true, character := false, health := 0 }

/-- A door: an obstacle that the player may nevertheless enter. -/
def sampleDoor (position : Vector2) : Entity :=
  { name := "Door", icon := '+', attributes := Attributes.Obstacle, position := position,
    active := true, character := false, health := 0 }

/-- A player standing at `position`. -/
def samplePlayer (position : Vector2) : Player :=
  { base := { name := "Player", icon := '@', attributes := 0, position := position,
              active := true, character := true, health := 10 },
    visionReach := 2, states := 0 }

/-- Rasterisers that return the two end points of a line and the centre of a circle, and a set
that lists its elements in the order of insertion. -/
def sampleFunctions : Functions :=
  { BresenhamLine := fun a b => [a, b], BresenhamCircle := fun c _ => [c],
    rank := fun _ _ _ => 0 }

/-- A 3 × 2 dungeon: a wall in the top right cell `(2, 0)`, the player in `(1, 1)`. -/
def sampleDungeon : Dungeon :=
  { size := ⟨3, 2⟩,
    tiles := [⟨'-', []⟩, ⟨'-', []⟩, ⟨'#', [.entity 0]⟩, ⟨'-', []⟩, ⟨'@', [.player]⟩, ⟨'-', []⟩],
    entities := [(0, sampleWall ⟨2, 0⟩)],
    vision := [⟨1, 1⟩, ⟨2, 0⟩],
    links := [],
    fresh := 1,
    player := samplePlayer ⟨1, 1⟩ }

/-! ## The occupancy invariant -/

/-- How often tile number `i` has to list the entity with serial number `id`: once when the
entity is owned and its stored position is that tile, never otherwise. -/
def Dungeon.listings (d : Dungeon) (i : Nat) (id : Nat) : Nat :=
  match d.entities.lookup id with
  | none => 0
  | some e => if tileIndex d.size e.position = i then 1 else 0

/-- The occupant lists agree with a table of expected multiplicities. -/
def Tracks (tiles : List Tile) (L : Nat → Nat → Nat) : Prop :=
  ∀ i t, tiles[i]? = some t → ∀ id, t.occupants.count (.entity id) = L i id

/-- The representation invariant of a dungeon: one tile per cell, distinct serial numbers below
`fresh`, every entity stored at an in-bounds position, and every tile listing exactly the
entities stored at it, once each. -/
def Dungeon.Consistent (d : Dungeon) : Prop :=
  d.Sized ∧ (d.entities.map Prod.fst).Nodup ∧ (∀ en ∈ d.entities, en.1 < d.fresh) ∧
    (∀ en ∈ d.entities, InBounds en.2.position d.size) ∧ Tracks d.tiles d.listings

/-- The operations of the occupancy claim: `EntityInsert( position, entity )`,
`EntityRemove( entity->position, entity )` for the element of `_entities` with a given serial
number, and `MovementRandom( )` with the outcomes of its random draws. -/
inductive Operation where
  | insert (position : Vector2) (entity : Entity)
  | remove (id : Nat)
  | move (draw : Nat → Vector2 → Vector2)

/-- An insertion is admissible when its position is in bounds. -/
def Operation.Admissible (size : Vector2) : Operation → Prop
  | .insert position _ => InBounds position size
  | .remove _ => True
  | .move _ => True

/-- One operation.  A removal of a serial number that is not owned finds nothing to remove. -/
def Dungeon.apply (d : Dungeon) : Operation → Option Dungeon
  | .insert position entity => d.EntityInsert position entity
  | .remove id =>
    match d.entities.lookup id with
    | none => some d
    | some e => d.EntityRemove e.position (.entity id)
  | .move draw => d.MovementRandom draw

/-- A sequence of operations, left to right. -/
def Dungeon.run (d : Dungeon) : List Operation → Option Dungeon
  | [] => some d
  | op :: ops =>
    match d.apply op with
    | none => none
    | some d1 => d1.run ops

instance (size : Vector2) (op : Operation) : Decidable (op.Admissible size) := by
  cases op <;> unfold Operation.Admissible <;> infer_instance

/-- A monster: hostile and mobile, not an obstacle. -/
def sampleMonster (position : Vector2) : Entity :=
  { name := "Monster", icon := 'M', attributes := Attributes.Hostile ||| Attributes.Movement,
    position := position, active := true, character := true, health := 5 }

/-- A 3 × 2 dungeon without entities; the player is not placed. -/
def sampleEmpty : Dungeon :=
  { size := ⟨3, 2⟩,
    tiles := List.replicate 6 ⟨'-', []⟩,
    entities := [],
    vision := [],
    links := [],
    fresh := 0,
    player := samplePlayer ⟨0, 0⟩ }

/-- Insert a wall and a monster, let the monster step east, remove the wall. -/
def sampleOperations : List Operation :=
  [.insert ⟨2, 0⟩ (sampleWall ⟨0, 0⟩), .insert ⟨0, 1⟩ (sampleMonster ⟨0, 0⟩),
   .move (fun _ position => position + ⟨1, 0⟩), .remove 0]

/-! ## Conditions on a cell, as the claims word them -/

/-- The occupant can be dereferenced and has one of the attributes of `bitmask`. -/
def Dungeon.has (d : Dungeon) (bitmask : Nat) (r : Ref) : Bool :=
  match d.deref r with
  | none => false
  | some e => e.attributes &&& bitmask ≠ 0

/-- The occupant can be dereferenced and is a door. -/
def Dungeon.isDoor (d : Dungeon) (r : Ref) : Bool :=
  match d.deref r with
  | none => false
  | some e => e.name = "Door"

/-- The tile at `position` holds an occupant with the Obstacle attribute. -/
def Dungeon.Blocked (d : Dungeon) (position : Vector2) : Prop :=
  match d.GetTile position with
  | none => False
  | some t => ∃ r ∈ t.occupants, d.has Attributes.Obstacle r = true

/-- Some occupant of the tile at `position` is a door. -/
def Dungeon.HasDoor (d : Dungeon) (position : Vector2) : Prop :=
  match d.GetTile position with
  | none => False
  | some t => ∃ r ∈ t.occupants, d.isDoor r = true

/-- The top (last) occupant of the tile at `position` is a door. -/
def Dungeon.TopIsDoor (d : Dungeon) (position : Vector2) : Prop :=
  match (d.GetTile position).bind fun t => t.occupants.getLast? with
  | none => False
  | some r => d.isDoor r = true

instance (d : Dungeon) (position : Vector2) : Decidable (d.Blocked position) := by
  unfold Dungeon.Blocked
  cases d.GetTile position <;> infer_instance

instance (d : Dungeon) (position : Vector2) : Decidable (d.HasDoor position) := by
  unfold Dungeon.HasDoor
  cases d.GetTile position <;> infer_instance

instance (d : Dungeon) (position : Vector2) : Decidable (d.TopIsDoor position) := by
  unfold Dungeon.TopIsDoor
  cases (d.GetTile position).bind fun t => t.occupants.getLast? <;> infer_instance

/-- A 3 × 2 dungeon whose cell `(1, 0)` holds a door with a wall on top of it; the player
stands in `(0, 0)`. -/
def sampleStacked : Dungeon :=
  { size := ⟨3, 2⟩,
    tiles := [⟨'@', [.player]⟩, ⟨'#', [.entity 0, .entity 1]⟩, ⟨'-', []⟩,
              ⟨'-', []⟩, ⟨'-', []⟩, ⟨'-', []⟩],
    entities := [(0, sampleDoor ⟨1, 0⟩), (1, sampleWall ⟨1, 0⟩)],
    vision := [],
    links := [],
    fresh := 2,
    player := samplePlayer ⟨0, 0⟩ }

/-- A 3 × 3 dungeon with one wall, in the top right cell `(2, 0)`; the player is not placed
yet. -/
def sampleWalled : Dungeon :=
  { size := ⟨3, 3⟩,
    tiles := [⟨'-', []⟩, ⟨'-', []⟩, ⟨'#', [.entity 0]⟩, ⟨'-', []⟩, ⟨'-', []⟩, ⟨'-', []⟩,
              ⟨'-', []⟩, ⟨'-', []⟩, ⟨'-', []⟩],
    entities := [(0, sampleWall ⟨2, 0⟩)],
    vision := [],
    links := [],
    fresh := 1,
    player := samplePlayer ⟨0, 0⟩ }

/-- A 3 × 3 dungeon with walls in the top left corner `(0, 0)` and in its two in-bounds
neighbours `(1, 0)` and `(0, 1)`; the player is not placed yet. -/
def sampleCorner : Dungeon :=
  { size := ⟨3, 3⟩,
    tiles := [⟨'#', [.entity 0]⟩, ⟨'#', [.entity 1]⟩, ⟨'-', []⟩, ⟨'#', [.entity 2]⟩, ⟨'-', []⟩,
              ⟨'-', []⟩, ⟨'-', []⟩, ⟨'-', []⟩, ⟨'-', []⟩],
    entities := [(0, sampleWall ⟨0, 0⟩), (1, sampleWall ⟨1, 0⟩), (2, sampleWall ⟨0, 1⟩)],
    vision := [],
    links := [],
    fresh := 3,
    player := samplePlayer ⟨2, 2⟩ }

/-! ## Links -/

/-- The test of `Game::DungeonLink`: both indices of the link are negative. -/
def Link.Unresolved (l : Link) : Prop := l.indexLink < 0 ∧ l.indexDungeon < 0

instance (l : Link) : Decidable l.Unresolved := by
  unfold Link.Unresolved
  infer_instance

/-- A generated dungeon of size 3 × 2 with one door, in `(0, 1)`, and its unresolved link. -/
def sampleGenerated : DungeonMembers :=
  { size := ⟨3, 2⟩,
    tiles := [⟨'-', []⟩, ⟨'-', []⟩, ⟨'-', []⟩, ⟨'+', [.entity 0]⟩, ⟨'-', []⟩, ⟨'-', []⟩],
    entities := [(0, sampleDoor ⟨0, 1⟩)],
    vision := [],
    links := [⟨-1, -1, ⟨0, 1⟩, ⟨-1, -1⟩⟩],
    fresh := 1 }

/-- A game that has just built its first dungeon. -/
def sampleGame : Game :=
  { player := samplePlayer ⟨1, 1⟩,
    dungeons := [sampleGenerated],
    index := 0,
    config := DungeonConfiguration.default }

/-- The partner link that `l` names exists and stores the entrance of `l` as its exit. -/
def Game.exitMatches (g : Game) (l : Link) : Bool :=
  match g.getLink l.indexDungeon l.indexLink with
  | none => false
  | some partner => decide (partner.exit = l.entrance)

/-- The links of dungeon `indexDungeon` are tied to partner links: each partner link exists,
lies in another dungeon and stores the own entrance as its exit, and no two links share a
partner link. -/
def Game.Partnered (g : Game) (indexDungeon : Int) (links : List Link) : Prop :=
  (∀ l ∈ links, l.indexDungeon ≠ indexDungeon ∧ g.exitMatches l = true) ∧
  (links.map fun l => (l.indexDungeon, l.indexLink)).Nodup

instance (g : Game) (indexDungeon : Int) (links : List Link) :
    Decidable (g.Partnered indexDungeon links) := by
  unfold Game.Partnered
  infer_instance

/-- Two dungeons tied by one doorway: link 0 of dungeon 0 and link 0 of dungeon 1. -/
def sampleLinked : Game :=
  { player := samplePlayer ⟨1, 1⟩,
    dungeons :=
      [{ sampleGenerated with links := [⟨1, 0, ⟨0, 1⟩, ⟨2, 0⟩⟩] },
       { sampleGenerated with links := [⟨0, 0, ⟨2, 0⟩, ⟨0, 1⟩⟩] }],
    index := 0,
    config := DungeonConfiguration.default }

/-- One dungeon whose only link names itself as its partner. -/
def sampleSelfLinked : Game :=
  { player := samplePlayer ⟨1, 1⟩,
    dungeons := [{ sampleGenerated with links := [⟨0, 0, ⟨0, 1⟩, ⟨0, 1⟩⟩] }],
    index := 0,
    config := DungeonConfiguration.default }

/-- Two links of dungeon 0 that name the same partner, link 0 of dungeon 1. -/
def sampleShared : Game :=
  { player := samplePlayer ⟨1, 1⟩,
    dungeons :=
      [{ sampleGenerated with links := [⟨1, 0, ⟨0, 1⟩, ⟨2, 0⟩⟩, ⟨1, 0, ⟨0, 1⟩, ⟨2, 0⟩⟩] },
       { sampleGenerated with links := [⟨0, 0, ⟨2, 0⟩, ⟨0, 1⟩⟩] }],
    index := 0,
    config := DungeonConfiguration.default }

/-! ## The tile-icon invariant -/

/-- Every tile's icon is the icon of its last occupant, or `'-'` when it has none. -/
def Dungeon.IconInv (d : Dungeon) : Prop :=
  ∀ t ∈ d.tiles, d.topIcon t.occupants = some t.icon

instance (d : Dungeon) : Decidable d.IconInv := by
  unfold Dungeon.IconInv
  infer_instance

/-- Every hostile entity (the player included) is a `Character`, so that the
`dynamic_cast<Character*>` of `Dungeon::Events` yields a valid pointer. -/
def Dungeon.HostileAreCharacters (d : Dungeon) : Prop :=
  (d.player.base.attributes &&& Attributes.Hostile ≠ 0 → d.player.base.character = true) ∧
  ∀ en ∈ d.entities, en.2.attributes &&& Attributes.Hostile ≠ 0 → en.2.character = true

instance (d : Dungeon) : Decidable d.HostileAreCharacters := by
  unfold Dungeon.HostileAreCharacters
  infer_instance

/-- The occupant is the player or an entity with a serial number below `n`. -/
def Ref.below (n : Nat) : Ref → Bool
  | .player => true
  | .entity id => decide (id < n)

/-- How often tile number `i` lists the entity with serial number `id`. -/
def Dungeon.countAt (d : Dungeon) (i id : Nat) : Nat :=
  match d.tiles[i]? with
  | none => 0
  | some t => t.occupants.count (.entity id)

/-- A finite check of the occupancy invariant: the serial numbers that tiles list are below
`fresh`, and for the serial numbers below `fresh` every tile lists an entity as often as
`listings` says. -/
def Dungeon.Checked (d : Dungeon) : Prop :=
  d.Sized ∧ (d.entities.map Prod.fst).Nodup ∧ (∀ en ∈ d.entities, en.1 < d.fresh) ∧
    (∀ en ∈ d.entities, InBounds en.2.position d.size) ∧
    (∀ t ∈ d.tiles, ∀ r ∈ t.occupants, r.below d.fresh = true) ∧
    ∀ i < d.tiles.length, ∀ id < d.fresh, d.countAt i id = d.listings i id

instance (d : Dungeon) : Decidable d.Checked := by
  unfold Dungeon.Checked
  infer_instance

/-- A 3 × 2 dungeon: a wall in `(2, 0)`; a monster in `(1, 1)` with the player on top of
it. -/
def sampleArena : Dungeon :=
  { size := ⟨3, 2⟩,
    tiles := [⟨'-', []⟩, ⟨'-', []⟩, ⟨'#', [.entity 0]⟩,
              ⟨'-', []⟩, ⟨'@', [.entity 1, .player]⟩, ⟨'-', []⟩],
    entities := [(0, sampleWall ⟨2, 0⟩), (1, sampleMonster ⟨1, 1⟩)],
    vision := [],
    links := [],
    fresh := 2,
    player := samplePlayer ⟨1, 1⟩ }

/-- A combat resolver that leaves the player at 9 health and the enemy at -1. -/
def sampleFight : Player → Entity → Int × Int := fun _ _ => (9, -1)

/-! ## Game (travel between dungeons) -/

/-- The expression `( ( ( entrance - exit ) + 3 ) % 4 ) - 1` of `Game::DungeonSwap`; `%` on
`int` truncates toward zero. -/
def Game.align (entrance exit : Int) : Int := ((entrance - exit) + 3).tmod 4 - 1

/-- The conversion `static_cast<Orientation::Enum>( value )`: the enumerator with that code;
`none` when no enumerator has it. -/
def Orientation.ofInt (value : Int) : Option Orientation :=
  if value = -1 then some .West
  else if value = 0 then some .North
  else if value = 1 then some .East
  else if value = 2 then some .South
  else none

/-- Body of the `if` of `Game::DungeonSwap` for the link `_dungeons[_index].links[i]`.
`GetQuadrant` stands for the member function `Dungeon::GetQuadrant`, which is not part of the
sources; `construct` and `fn` are as in `Game.DungeonLink` and `Dungeon.PlayerPlace`. -/
def Game.swapThrough (construct : Nat → DungeonMembers) (fn : Functions)
    (GetQuadrant : DungeonMembers → Vector2 → Int) (g : Game) (i : Nat) : Option Game :=
  let indexPrev := g.index
  match g.getLink indexPrev i with
  | none => none
  | some link =>
    let indexNext := link.indexDungeon
    match vectorAt g.dungeons indexPrev, vectorAt g.dungeons indexNext with
    | some dungeonPrev, some dungeonNext =>
      let entrance := GetQuadrant dungeonPrev link.entrance
      let exit := GetQuadrant dungeonNext link.exit
      let align := Game.align entrance exit
      match Game.DungeonLink construct g indexNext with
      | none => none
      | some g1 =>
        let g2 : Game := { g1 with index := indexNext }
        match g2.getLink indexPrev i, vectorAt g2.dungeons indexNext with
        | some passed, some target =>
          match Dungeon.PlayerPlace fn { toDungeonMembers := target, player := g2.player }
              passed.exit with
          | none => none
          | some placed =>
            let g3 : Game :=
              { g2 with player := placed.player,
                        dungeons := g2.dungeons.set indexNext.toNat placed.toDungeonMembers }
            match Orientation.ofInt align with
            | none => none
            | some orientation => g3.DungeonRotate indexNext orientation
        | _, _ => none
    | _, _ => none

/-- `Game::DungeonSwap`: the first link of the current dungeon whose entrance is the player's
position is passed through; the loop ends there. -/
def Game.DungeonSwap (construct : Nat → DungeonMembers) (fn : Functions)
    (GetQuadrant : DungeonMembers → Vector2 → Int) (g : Game) : Option Game :=
  match vectorAt g.dungeons g.index with
  | none => none
  | some d =>
    match (List.range d.links.length).find? fun i =>
        decide (d.links[i]?.map Link.entrance = some g.player.base.position) with
    | none => some g
    | some i => g.swapThrough construct fn GetQuadrant i

/-! ## The cells a line of sight reaches, as the claim words them -/

/-- A cell ends a line of sight: it is out of bounds, or it holds an Obstacle occupant. -/
def Dungeon.stopsSight (d : Dungeon) (c : Vector2) : Bool :=
  decide (¬ InBounds c d.size) || decide (d.Blocked c)

/-- The cells of `path` before the first cell that is out of bounds or blocked, followed by
that cell itself when it is in bounds (it is then the first blocked cell). -/
def Dungeon.sighted (d : Dungeon) (path : List Vector2) : List Vector2 :=
  let clear := path.takeWhile fun c => !d.stopsSight c
  match path.drop clear.length with
  | [] => clear
  | stop :: _ => if InBounds stop d.size then clear ++ [stop] else clear

/-! ## Conditions of the placement claim -/

/-- The neighbour of `position` in `direction` is in bounds and holds no Obstacle occupant. -/
def Dungeon.freeNeighbour (d : Dungeon) (position direction : Vector2) : Bool :=
  decide (InBounds (position + direction) d.size) && !decide (d.Blocked (position + direction))

/-- The top (last) occupant of the tile at `position`. -/
def Dungeon.topOccupant (d : Dungeon) (position : Vector2) : Option Ref :=
  (d.GetTile position).bind fun t => t.occupants.getLast?

/-! ## Conditions of the sweep claim -/

/-- The occupant is an element of the collection `l` whose `active` flag is cleared. -/
def inactiveIn (l : List (Nat × Entity)) : Ref → Bool
  | .player => false
  | .entity id =>
    match l.lookup id with
    | none => false
    | some e => !e.active

/-! ## Generation (Dungeon::Dungeon and Dungeon::Generate*) -/

/-- The collaborators of the generation stages that are not part of the sources: the random
source, the pathfinder, the entity factory, the character catalog and the border tests of
Functions.h.  Whatever they return, the stages below run as written. -/
structure Collaborators where
  /-- The value that call number `n` of `RandomNumberGenerator( min, max )` returns; calls are
  counted from the start of the constructor. -/
  RandomNumberGenerator : Nat → Int → Int → Int
  /-- The call `AStarAlgorithm( start, finish, gridSize, obstacles )`. -/
  AStarAlgorithm : Vector2 → Vector2 → Vector2 → List Vector2 → List Vector2
  /-- The object built by `entityFactory.Get( name )->Clone( )`. -/
  Get : String → Entity
  /-- The result of `LoadCharacters( LoadAbilities( ) )`. -/
  characters : List Entity
  /-- The test `OnBorder( position, size )`. -/
  OnBorder : Vector2 → Vector2 → Bool
  /-- The test `InCorner( position, size, sensitivity )`. -/
  InCorner : Vector2 → Vector2 → Int → Bool
  /-- The side `Quadrant( position, size )`. -/
  Quadrant : Vector2 → Vector2 → Orientation

/-- A dungeon under construction, with the number of calls of `RandomNumberGenerator` made so
far. -/
structure Build where
  dungeon : Dungeon
  calls : Nat
deriving DecidableEq, Repr

/-- The least natural number whose square is at least `a`: the square root of `a`, rounded
up. -/
def rootCeil (a : Nat) : Nat :=
  ((List.range (a + 1)).find? fun r => decide (a ≤ r * r)).getD a

/-- The greatest natural number whose square is at most `a`: the square root of `a`, rounded
down. -/
def rootFloor (a : Nat) : Nat := rootCeil (a + 1) - 1

/-- The constant `sensitivity` of `Dungeon::GenerateDoors`,
`static_cast<int>( std::ceil( ( std::sqrt( _size.x * _size.y ) + 6.0 ) / 10.0 ) - 1.0 )`.  For
an area `a ≥ 0` the ceiling of `(√a + 6) / 10` is the ceiling of `(⌈√a⌉ + 6) / 10`, which is
computed in integers; for a negative area the square root is not a number and its conversion
to `int` is undefined. -/
def doorSensitivity (size : Vector2) : Option Int :=
  if 0 ≤ size.x * size.y then
    some (((rootCeil (size.x * size.y).toNat : Int) + 6 + 9) / 10 - 1)
  else none

/-- The map `sides` of `Dungeon::GenerateDoors` after its first loop, keyed by the integer code
of the side. -/
def doorSides (c : Collaborators) (size : Vector2) (sensitivity : Int) : Int → List Vector2 :=
  (gridCells size).foldl
    (fun sides iterator =>
      if c.OnBorder iterator size && !c.InCorner iterator size sensitivity then
        fun side =>
          if side = (c.Quadrant iterator size).toInt then sides side ++ [iterator]
          else sides side
      else sides)
    (fun _ => [])

/-- The vector `spacing` of `Dungeon::GenerateDoors`: `( ( start + i ) % 4 ) - 1` for
`i = 0, ..., limit - 1`. -/
def doorSpacing (start limit : Int) : List Int :=
  (List.range limit.toNat).map fun (i : Nat) => (start + (i : Int)).tmod 4 - 1

/-- Body of the last loop of `Dungeon::GenerateDoors` for one element of `spacing`.  The upper
bound of the draw is `sides[side].size( ) - 1` converted to `int`. -/
def Build.placeDoor (c : Collaborators) (state : Build × (Int → List Vector2)) (value : Int) :
    Option (Build × (Int → List Vector2)) :=
  let b := state.1
  let sides := state.2
  let side := value
  let index := c.RandomNumberGenerator b.calls 0 (((sides side).length : Int) - 1)
  match vectorAt (sides side) index with
  | none => none
  | some cell =>
    match b.dungeon.EntityInsert cell (c.Get "Door") with
    | none => none
    | some d1 =>
      some
        ({ dungeon := { d1 with links := d1.links ++ [⟨-1, -1, cell, ⟨-1, -1⟩⟩] },
           calls := b.calls + 1 },
         fun k => if k = side then (sides side).eraseIdx index.toNat else sides k)

/-- `Dungeon::GenerateDoors`. -/
def Build.GenerateDoors (c : Collaborators) (b : Build) (amount : Int) : Option Build :=
  let limit := if amount ≠ 0 then amount else 3
  let start := c.RandomNumberGenerator b.calls 0 3
  match doorSensitivity b.dungeon.size with
  | none => none
  | some sensitivity =>
    let sides := doorSides c b.dungeon.size sensitivity
    let spacing := doorSpacing start limit
    (spacing.foldlM (Build.placeDoor c) ({ b with calls := b.calls + 1 }, sides)).map Prod.fst

/-- Body of the loop of `Dungeon::GenerateWallsOuter` for one cell. -/
def Dungeon.wallOuter (c : Collaborators) (d : Dungeon) (iterator : Vector2) : Option Dungeon :=
  match d.Unoccupied iterator with
  | none => none
  | some false => some d
  | some true =>
    if c.OnBorder iterator d.size then d.EntityInsert iterator (c.Get "Wall") else some d

/-- `Dungeon::GenerateWallsOuter`. -/
def Dungeon.GenerateWallsOuter (c : Collaborators) (d : Dungeon) : Option Dungeon :=
  (gridCells d.size).foldlM (Dungeon.wallOuter c) d

/-- Body of the loop of the lambda `PathAdd` of `Dungeon::GenerateHiddenPath`. -/
def Dungeon.pathStep (c : Collaborators) (d : Dungeon) (position : Vector2) : Option Dungeon :=
  match d.Unoccupied position with
  | none => none
  | some false => some d
  | some true => d.EntityInsert position (c.Get "Path")

/-- The lambda `PathAdd` of `Dungeon::GenerateHiddenPath`. -/
def Dungeon.PathAdd (c : Collaborators) (d : Dungeon) (path : List Vector2) : Option Dungeon :=
  path.foldlM (Dungeon.pathStep c) d

/-- The vector `obstacles` of `Dungeon::GenerateHiddenPath`: the positions of the obstacles
that are not doors. -/
def Dungeon.pathObstacles (d : Dungeon) : List Vector2 :=
  (d.entities.filter fun en =>
    decide (en.2.attributes &&& Attributes.Obstacle ≠ 0) && decide (en.2.name ≠ "Door")).map
    fun en => en.2.position

/-- The loop `while( true )` of `Dungeon::GenerateHiddenPath` that draws an unoccupied interior
cell; `none` also when no such cell has been drawn after `fuel` rounds. -/
def Build.redirect (c : Collaborators) : Nat → Build → Option (Vector2 × Build)
  | 0, _ => none
  | fuel + 1, b =>
    let random : Vector2 :=
      ⟨c.RandomNumberGenerator b.calls 1 (b.dungeon.size.x - 2),
       c.RandomNumberGenerator (b.calls + 1) 1 (b.dungeon.size.y - 2)⟩
    match b.dungeon.Unoccupied random with
    | none => none
    | some true => some (random, { b with calls := b.calls + 2 })
    | some false => Build.redirect c fuel { b with calls := b.calls + 2 }

/-- The loop of `Dungeon::GenerateHiddenPath` over `links` that fills `redirection`. -/
def Build.redirections (c : Collaborators) (fuel : Nat) :
    Build → List Link → Option (List (Vector2 × Vector2) × Build)
  | b, [] => some ([], b)
  | b, link :: rest =>
    match Build.redirect c fuel b with
    | none => none
    | some (random, b1) =>
      match Build.redirections c fuel b1 rest with
      | none => none
      | some (pairs, b2) => some ((link.entrance, random) :: pairs, b2)

/-- Body of the last loop of `Dungeon::GenerateHiddenPath` for one pair of `redirection`. -/
def Dungeon.layPaths (c : Collaborators) (center : Vector2) (obstacles : List Vector2)
    (d : Dungeon) (pair : Vector2 × Vector2) : Option Dungeon :=
  match d.PathAdd c (c.AStarAlgorithm pair.1 pair.2 d.size obstacles) with
  | none => none
  | some d1 => d1.PathAdd c (c.AStarAlgorithm pair.2 center d1.size obstacles)

/-- `Dungeon::GenerateHiddenPath`. -/
def Build.GenerateHiddenPath (c : Collaborators) (fuel : Nat) (b : Build) : Option Build :=
  let center := b.dungeon.size.divide 2
  let obstacles := b.dungeon.pathObstacles
  match Build.redirections c fuel b b.dungeon.links with
  | none => none
  | some (redirection, b1) =>
    (redirection.foldlM (Dungeon.layPaths c center obstacles) b1.dungeon).map
      fun d => { b1 with dungeon := d }

/-- The loop `while( remaining > 0 )` of `Dungeon::GenerateWallsParents`; `none` also when the
loop has not ended after `fuel` rounds. -/
def Build.wallsParents (c : Collaborators) : Nat → Build → Int → Option Build
  | 0, b, remaining => if remaining > 0 then none else some b
  | fuel + 1, b, remaining =>
    if remaining > 0 then
      let position : Vector2 :=
        ⟨c.RandomNumberGenerator b.calls 1 (b.dungeon.size.x - 2),
         c.RandomNumberGenerator (b.calls + 1) 1 (b.dungeon.size.y - 2)⟩
      match b.dungeon.Unoccupied position with
      | none => none
      | some false => Build.wallsParents c fuel { b with calls := b.calls + 2 } remaining
      | some true =>
        match b.dungeon.EntityInsert position (c.Get "Wall") with
        | none => none
        | some d1 =>
          Build.wallsParents c fuel { dungeon := d1, calls := b.calls + 2 } (remaining - 1)
    else some b

/-- `Dungeon::GenerateWallsParents`. -/
def Build.GenerateWallsParents (c : Collaborators) (fuel : Nat) (b : Build) (amount : Int) :
    Option Build :=
  Build.wallsParents c fuel b
    (if amount ≠ 0 then amount else (b.dungeon.size.x * b.dungeon.size.y).tdiv 10)

/-- One pass `for( const auto& entity : _entities )` of `Dungeon::GenerateWallsChildren`, from
element number `k` on, with the counter `remaining`.  `_entities` is a `std::list` (the tiles
keep pointers to its elements, and `Dungeon::Events` erases from it while iterating), so the
walls that the pass appends are visited by the same pass.  `none` also when the pass has not
ended after `fuel` elements. -/
def Build.childrenPass (c : Collaborators) : Nat → Nat → Build → Int → Option (Build × Int)
  | 0, _, _, _ => none
  | fuel + 1, k, b, remaining =>
    match b.dungeon.entities[k]? with
    | none => some (b, remaining)
    | some en =>
      if en.2.attributes &&& Attributes.Obstacle ≠ 0 then
        let index := c.RandomNumberGenerator b.calls 0 ((directions.length : Int) - 1)
        match vectorAt directions index with
        | none => none
        | some direction =>
          let position := en.2.position + direction
          if InBounds position b.dungeon.size then
            match b.dungeon.Unoccupied position with
            | none => none
            | some false =>
              Build.childrenPass c fuel (k + 1) { b with calls := b.calls + 1 } remaining
            | some true =>
              match b.dungeon.EntityInsert position (c.Get "Wall") with
              | none => none
              | some d1 =>
                Build.childrenPass c fuel (k + 1) { dungeon := d1, calls := b.calls + 1 }
                  (remaining - 1)
          else Build.childrenPass c fuel (k + 1) { b with calls := b.calls + 1 } remaining
      else Build.childrenPass c fuel (k + 1) b remaining

/-- The loop `while( remaining > 0 )` of `Dungeon::GenerateWallsChildren`; `none` also when the
loop has not ended after `fuel` passes of at most `fuel` elements each. -/
def Build.wallsChildren (c : Collaborators) (passFuel : Nat) : Nat → Build → Int → Option Build
  | 0, b, remaining => if remaining > 0 then none else some b
  | fuel + 1, b, remaining =>
    if remaining > 0 then
      match Build.childrenPass c passFuel 0 b remaining with
      | none => none
      | some (b1, remaining1) => Build.wallsChildren c passFuel fuel b1 remaining1
    else some b

/-- `Dungeon::GenerateWallsChildren`. -/
def Build.GenerateWallsChildren (c : Collaborators) (fuel : Nat) (b : Build) (amount : Int) :
    Option Build :=
  Build.wallsChildren c fuel fuel b
    (if amount ≠ 0 then amount else (b.dungeon.size.x * b.dungeon.size.y).tdiv 4)

/-- The table `directions` of `Dungeon::Surrounded`. -/
def directionsAround : List Vector2 :=
  [⟨0, -1⟩, ⟨1, -1⟩, ⟨1, 0⟩, ⟨1, 1⟩, ⟨0, 1⟩, ⟨-1, 1⟩, ⟨-1, 0⟩, ⟨-1, -1⟩]

/-- `Dungeon::Surrounded`. -/
def Dungeon.Surrounded (d : Dungeon) (position : Vector2) (threshold : Int) : Option Bool :=
  (directionsAround.foldlM
    (fun (count : Int) direction =>
      match d.TileLacking (position + direction) Attributes.Obstacle with
      | none => none
      | some true => some count
      | some false => some (count + 1))
    0).map fun count => decide (count ≥ threshold)

/-- The cells visited by `for( y = 1; y < size.y - 1; y++ ) for( x = 1; x < size.x - 1; x++ )`,
in that order. -/
def interiorCells (size : Vector2) : List Vector2 :=
  (List.range (size.y - 1 - 1).toNat).flatMap fun (j : Nat) =>
    (List.range (size.x - 1 - 1).toNat).map fun (i : Nat) =>
      (⟨(i : Int) + 1, (j : Int) + 1⟩ : Vector2)

/-- Body of the innermost loop of `Dungeon::GenerateWallsFiller` for one cell. -/
def Dungeon.fillStep (c : Collaborators) (d : Dungeon) (iterator : Vector2) : Option Dungeon :=
  match d.Unoccupied iterator with
  | none => none
  | some false => some d
  | some true =>
    match d.Surrounded iterator 5 with
    | none => none
    | some false => some d
    | some true => d.EntityInsert iterator (c.Get "Wall")

/-- `Dungeon::GenerateWallsFiller`. -/
def Dungeon.GenerateWallsFiller (c : Collaborators) (d : Dungeon) (amount : Int) :
    Option Dungeon :=
  let limit := if amount ≠ 0 then amount else 5
  (List.range limit.toNat).foldlM
    (fun s _ => (interiorCells s.size).foldlM (Dungeon.fillStep c) s) d

/-- The static vector `enemies` of `Dungeon::GenerateEnemies`: the characters that are both
hostile and mobile. -/
def Collaborators.enemies (c : Collaborators) : List Entity :=
  c.characters.filter fun character =>
    decide (character.attributes &&& Attributes.Hostile ≠ 0) &&
      decide (character.attributes &&& Attributes.Movement ≠ 0)

/-- The loop `while( true )` of `Dungeon::GenerateEnemies` that places one enemy; `none` also
when no unoccupied cell has been drawn after `fuel` rounds. -/
def Build.placeEnemy (c : Collaborators) : Nat → Build → Option Build
  | 0, _ => none
  | fuel + 1, b =>
    let position : Vector2 :=
      ⟨c.RandomNumberGenerator b.calls 1 (b.dungeon.size.x - 2),
       c.RandomNumberGenerator (b.calls + 1) 1 (b.dungeon.size.y - 2)⟩
    match b.dungeon.Unoccupied position with
    | none => none
    | some false => Build.placeEnemy c fuel { b with calls := b.calls + 2 }
    | some true =>
      let index := c.RandomNumberGenerator (b.calls + 2) 0 ((c.enemies.length : Int) - 1)
      match vectorAt c.enemies index with
      | none => none
      | some character =>
        match b.dungeon.EntityInsert position (c.Get character.name) with
        | none => none
        | some d1 => some { dungeon := d1, calls := b.calls + 3 }

/-- `Dungeon::GenerateEnemies`.  `min` and `max` are `static_cast<int>( sqrt( area ) / 3.0 )`
and `static_cast<int>( sqrt( area ) / 1.5 )`, in integers the quotients by 3 of the square
roots of `area` and of `4 * area`, rounded down; for a negative area the square root is not a
number and its conversion to `int` is undefined. -/
def Build.GenerateEnemies (c : Collaborators) (fuel : Nat) (b : Build) (amount : Int) :
    Option Build :=
  let area := b.dungeon.size.x * b.dungeon.size.y
  if 0 ≤ area then
    let min : Int := (rootFloor area.toNat : Int) / 3
    let max : Int := (rootFloor (4 * area.toNat) : Int) / 3
    let drawn : Int × Build :=
      if amount ≠ 0 then (amount, b)
      else (c.RandomNumberGenerator b.calls min max, { b with calls := b.calls + 1 })
    (List.range drawn.1.toNat).foldlM (fun s _ => Build.placeEnemy c fuel s) drawn.2
  else none

/-- A stage that works on the dungeon alone. -/
def Build.onDungeon (stage : Dungeon → Option Dungeon) (b : Build) : Option Build :=
  (stage b.dungeon).map fun d => { b with dungeon := d }

/-- A stage behind its switch `if( config.generate... )`. -/
def Build.stage (enabled : Bool) (stage : Build → Option Build) (b : Build) : Option Build :=
  if enabled then stage b else some b

/-- The member initialisers of the constructor `Dungeon::Dungeon( player, entityFactory,
config )`: the size (both draws are made, whether the size is determined or not), and one
value-initialised tile per cell; `none` when the tile count is negative, for which the
constructor of `std::vector` throws.  Modelled from the spec: the icon of a
value-initialised `Tile` (Dungeon.h is not part of the sources) is the "default empty icon",
the `'-'` that `UpdateTile` writes. -/
def Build.create (c : Collaborators) (player : Player) (config : DungeonConfiguration) :
    Option Build :=
  let random : Vector2 :=
    ⟨c.RandomNumberGenerator 0 30 50, c.RandomNumberGenerator 1 30 50⟩
  let size := if config.size.determined then config.size.dungeon else random
  if 0 ≤ size.x * size.y then
    some
      { dungeon :=
          { size := size, tiles := List.replicate (size.x * size.y).toNat ⟨'-', []⟩,
            entities := [], vision := [], links := [], fresh := 0, player := player },
        calls := 2 }
  else none

/-- The constructor `Dungeon::Dungeon( player, entityFactory, config )`; `fuel` bounds every
loop of the stages that has no bound of its own. -/
def Build.construct (c : Collaborators) (fuel : Nat) (player : Player)
    (config : DungeonConfiguration) : Option Build :=
  (Build.create c player config).bind fun b0 =>
  (Build.stage config.generate.doors (fun b => b.GenerateDoors c config.amount.doors) b0).bind
    fun b1 =>
  (Build.stage config.generate.wallsOuter
    (Build.onDungeon (Dungeon.GenerateWallsOuter c)) b1).bind fun b2 =>
  (Build.stage config.generate.hiddenPath (Build.GenerateHiddenPath c fuel) b2).bind fun b3 =>
  (Build.stage config.generate.wallsParents
    (fun b => b.GenerateWallsParents c fuel config.amount.wallsParents) b3).bind fun b4 =>
  (Build.stage config.generate.wallsChildren
    (fun b => b.GenerateWallsChildren c fuel config.amount.wallsChildren) b4).bind fun b5 =>
  (Build.stage config.generate.wallsFiller
    (Build.onDungeon fun d => d.GenerateWallsFiller c config.amount.wallsFillerCycles) b5).bind
    fun b6 =>
  Build.stage config.generate.enemies
    (fun b => b.GenerateEnemies c fuel config.amount.enemies) b6

/-! ## Predicates on generation -/

/-- `Dungeon.Inserted Q d0 log d`: the state `d` arises from `d0` by calls of `EntityInsert`
and by `links.push_back`; `log` lists the position and the entity of each `EntityInsert` in
the order of the calls, and `Q` held for the state, the position and the entity of each
call. -/
inductive Dungeon.Inserted (Q : Dungeon → Vector2 → Entity → Prop) :
    Dungeon → List (Vector2 × Entity) → Dungeon → Prop
  | refl (d : Dungeon) : Dungeon.Inserted Q d [] d
  | step {d0 d d1 : Dungeon} {log : List (Vector2 × Entity)} {position : Vector2}
      {entity : Entity} :
      Dungeon.Inserted Q d0 log d → Q d position entity →
      d.EntityInsert position entity = some d1 →
      Dungeon.Inserted Q d0 (log ++ [(position, entity)]) d1
  | linked {d0 d : Dungeon} {log : List (Vector2 × Entity)} (link : Link) :
      Dungeon.Inserted Q d0 log d →
      Dungeon.Inserted Q d0 log { d with links := d.links ++ [link] }

/-- The frame of a stage from `d0` to `d`: same size, as many tiles, the former entities
first in the collection, every tile that had occupants is identical, and every tile that had
none has at most one. -/
def Dungeon.Untouched (d0 d : Dungeon) : Prop :=
  d.size = d0.size ∧ d.tiles.length = d0.tiles.length ∧ d0.entities <+: d.entities ∧
  ∀ (i : Nat) (t0 : Tile), d0.tiles[i]? = some t0 →
    ∃ t, d.tiles[i]? = some t ∧ (t0.occupants ≠ [] → t = t0) ∧
      (t0.occupants = [] → t.occupants.length ≤ 1)

/-- What a stage after the doors knows of the cell when it calls `EntityInsert`: the cell was
found unoccupied, and it is a cell of the grid, or a cell of a path of the pathfinder, or a
pair of draws from `1 .. size.x - 2` and `1 .. size.y - 2`. -/
def Collaborators.Placed (c : Collaborators) (s : Dungeon) (position : Vector2)
    (_ : Entity) : Prop :=
  s.Unoccupied position = some true ∧
  (InBounds position s.size ∨
    (∃ start finish obstacles,
      position ∈ c.AStarAlgorithm start finish s.size obstacles) ∨
    ∃ n m, position = ⟨c.RandomNumberGenerator n 1 (s.size.x - 2),
      c.RandomNumberGenerator m 1 (s.size.y - 2)⟩)

/-- The random source returns values inside the requested inclusive range. -/
def Collaborators.InRange (c : Collaborators) : Prop :=
  ∀ (n : Nat) (min max : Int), min ≤ max →
    min ≤ c.RandomNumberGenerator n min max ∧ c.RandomNumberGenerator n min max ≤ max

/-- The pathfinder returns only cells of the grid. -/
def Collaborators.PathsInside (c : Collaborators) : Prop :=
  ∀ (start finish size : Vector2) (obstacles : List Vector2),
    ∀ p ∈ c.AStarAlgorithm start finish size obstacles, InBounds p size

/-- The stage from `d0` to `d` has called `EntityInsert` only for cells that `Unoccupied`
reported free at the moment of the call, and has left the frame `Dungeon.Untouched`. -/
def Dungeon.Guarded (d0 d : Dungeon) : Prop :=
  (∃ log, Dungeon.Inserted (fun s position _ => s.Unoccupied position = some true) d0 log d) ∧
    d0.Untouched d

/-- The elements of a list with the serial numbers `n`, `n + 1`, ... -/
def numbered {α : Type} : Nat → List α → List (Nat × α)
  | _, [] => []
  | n, x :: xs => (n, x) :: numbered (n + 1) xs

/-- The element of `_entities` that `EntityInsert( position, entity )` creates under the
serial number `id`. -/
def stored (x : Nat × Vector2 × Entity) : Nat × Entity :=
  (x.1, { x.2.2 with position := x.2.1 })

/-- Every serial number in the collection is below `fresh`. -/
def Dungeon.Serial (d : Dungeon) : Prop := ∀ en ∈ d.entities, en.1 < d.fresh

instance (d : Dungeon) : Decidable d.Serial := by
  unfold Dungeon.Serial
  infer_instance

/-- What `GenerateWallsOuter` knows when it calls `EntityInsert`: the cell is a cell of the
grid that `Unoccupied` reported free and `OnBorder` accepted, and the entity is a wall of the
factory. -/
def Collaborators.OuterWall (c : Collaborators) (s : Dungeon) (position : Vector2)
    (entity : Entity) : Prop :=
  s.Unoccupied position = some true ∧ InBounds position s.size ∧
    c.OnBorder position s.size = true ∧ entity = c.Get "Wall"

/-- Every side still holds a cell when its door is placed: `sizes` gives the number of cells
of each side, and each element of `spacing` takes one cell from its side. -/
def doorsSupplied (sizes : Int → Nat) : List Int → Bool
  | [] => true
  | value :: spacing =>
    decide (0 < sizes value) &&
      doorsSupplied (fun k => if k = value then sizes value - 1 else sizes k) spacing

/-- The link that `GenerateDoors` appends for a door: no partner dungeon, no partner link, the
door's cell as entrance, no exit. -/
def Link.unresolved (entrance : Vector2) : Link := ⟨-1, -1, entrance, ⟨-1, -1⟩⟩

/-! ## Sample collaborators and sample states of generation -/

/-- A path marker: no attributes. -/
def samplePath (position : Vector2) : Entity :=
  { name := "Path", icon := ':', attributes := 0, position := position,
    active := true, character := false, health := 0 }

/-- Collaborators for the examples: a random source that walks through the requested range
(call `n` returns `min + n mod (max - min + 1)`), a pathfinder that returns the end points that
lie in the grid, a factory for doors, walls, path markers and monsters, the outer ring as border, the cells
within `sensitivity` of a corner in both coordinates as corners, and the sides in the order
north, east, south, west. -/
def sampleCollaborators : Collaborators :=
  { RandomNumberGenerator := fun n min max =>
      if max < min then min else min + (n : Int) % (max - min + 1),
    AStarAlgorithm := fun start finish size _ =>
      [start, finish].filter fun p => decide (InBounds p size),
    Get := fun name =>
      if name = "Door" then sampleDoor ⟨0, 0⟩
      else if name = "Wall" then sampleWall ⟨0, 0⟩
      else if name = "Path" then samplePath ⟨0, 0⟩
      else sampleMonster ⟨0, 0⟩,
    characters := [sampleWall ⟨0, 0⟩, sampleMonster ⟨0, 0⟩],
    OnBorder := fun p size =>
      decide (p.x = 0 ∨ p.y = 0 ∨ p.x = size.x - 1 ∨ p.y = size.y - 1),
    InCorner := fun p size sensitivity =>
      decide ((p.x ≤ sensitivity ∨ size.x - 1 - p.x ≤ sensitivity) ∧
        (p.y ≤ sensitivity ∨ size.y - 1 - p.y ≤ sensitivity)),
    Quadrant := fun p size =>
      if p.y = 0 then .North
      else if p.x = size.x - 1 then .East
      else if p.y = size.y - 1 then .South
      else .West }

/-- A 4 × 4 dungeon under construction: a door in `(1, 0)` with its unresolved link, nothing
else. -/
def sampleBuild : Build :=
  { dungeon :=
      { size := ⟨4, 4⟩,
        tiles := [⟨'-', []⟩, ⟨'+', [.entity 0]⟩, ⟨'-', []⟩, ⟨'-', []⟩,
                  ⟨'-', []⟩, ⟨'-', []⟩, ⟨'-', []⟩, ⟨'-', []⟩,
                  ⟨'-', []⟩, ⟨'-', []⟩, ⟨'-', []⟩, ⟨'-', []⟩,
                  ⟨'-', []⟩, ⟨'-', []⟩, ⟨'-', []⟩, ⟨'-', []⟩],
        entities := [(0, sampleDoor ⟨1, 0⟩)],
        vision := [],
        links := [⟨-1, -1, ⟨1, 0⟩, ⟨-1, -1⟩⟩],
        fresh := 1,
        player := samplePlayer ⟨0, 0⟩ },
    calls := 0 }

/-- A configuration for a 7 × 6 dungeon with all stages switched on: 3 doors, 2 parent walls,
3 child walls, 1 filler cycle, 2 enemies. -/
def sampleConfiguration : DungeonConfiguration :=
  { DungeonConfiguration.default with size := ⟨true, ⟨7, 6⟩⟩, amount := ⟨3, 2, 3, 1, 2⟩ }

/-- The 7 × 6 dungeon that the member initialisers of the constructor build: no entities, no
links, two draws made. -/
def sampleBlank : Build :=
  { dungeon :=
      { size := ⟨7, 6⟩, tiles := List.replicate 42 ⟨'-', []⟩, entities := [], vision := [],
        links := [], fresh := 0, player := samplePlayer ⟨0, 0⟩ },
    calls := 2 }

/-- A configuration for a 4 × 4 dungeon with the outer walls only. -/
def sampleRingConfiguration : DungeonConfiguration :=
  { size := ⟨true, ⟨4, 4⟩⟩, generate := ⟨false, true, false, false, false, false, false⟩,
    amount := ⟨0, 0, 0, 0, 0⟩ }

/-- The configuration `sampleRingConfiguration` with the child walls switched on and a quota
of one child wall. -/
def sampleQuotaConfiguration : DungeonConfiguration :=
  { size := ⟨true, ⟨4, 4⟩⟩, generate := ⟨false, true, false, false, true, false, false⟩,
    amount := ⟨0, 0, 1, 0, 0⟩ }

/-! ## Conditions of the vision claims -/

/-- Two states agree on what `BuildVision` reads apart from the vision set: the size, the
tiles, the entities and the attributes of the player object. -/
def Dungeon.SameGround (s1 s2 : Dungeon) : Prop :=
  s1.size = s2.size ∧ s1.tiles = s2.tiles ∧ s1.entities = s2.entities ∧
    s1.player.base.attributes = s2.player.base.attributes

/-- Two outcomes agree: both are undefined, or both are states on the same ground with the same
vision set. -/
def Dungeon.SameOutcome : Option Dungeon → Option Dungeon → Prop
  | none, none => True
  | some s1, some s2 => s1.SameGround s2 ∧ s1.vision = s2.vision
  | _, _ => False


/-! ## The segments of the hidden paths -/

/-- The paths that `GenerateHiddenPath` asks the pathfinder for, in the order of the calls: for
each pair of `redirection` the route from the entrance to the drawn cell, then the route from
the drawn cell to the centre. -/
def Collaborators.segments (c : Collaborators) (size center : Vector2)
    (obstacles : List Vector2) (redirection : List (Vector2 × Vector2)) : List (List Vector2) :=
  redirection.flatMap fun pair =>
    [c.AStarAlgorithm pair.1 pair.2 size obstacles, c.AStarAlgorithm pair.2 center size obstacles]

/-- The stage in the words of the specification ("handle an empty result by skipping that path
segment rather than aborting dungeon generation"): a cell is drawn for every link, then the
segments that are not empty are laid in the order of the calls, each by `PathAdd`; an empty
segment is passed over. -/
def Build.hiddenPathSkipping (c : Collaborators) (fuel : Nat) (b : Build) : Option Build :=
  match Build.redirections c fuel b b.dungeon.links with
  | none => none
  | some (redirection, b1) =>
    (((c.segments b.dungeon.size (b.dungeon.size.divide 2) b.dungeon.pathObstacles
        redirection).filter fun segment => !segment.isEmpty).foldlM
      (Dungeon.PathAdd c) b1.dungeon).map fun d => { b1 with dungeon := d }

/-- The sample collaborators with a pathfinder that finds no route at all: every call returns
the empty path. -/
def sampleNoRoute : Collaborators :=
  { sampleCollaborators with AStarAlgorithm := fun _ _ _ _ => [] }

/-- The sample collaborators with a pathfinder that finds no route from the cell `(1, 0)` and
otherwise returns the start, the corner of the L between start and finish, and the finish, as
far as they lie in the grid. -/
def sampleHalfRoute : Collaborators :=
  { sampleCollaborators with
    AStarAlgorithm := fun start finish size _ =>
      if start = ⟨1, 0⟩ then []
      else [start, ⟨start.x, finish.y⟩, finish].filter fun p => decide (InBounds p size) }

/-- A 4 × 4 dungeon under construction with two doors, in `(1, 0)` and in `(3, 1)`, and their
unresolved links. -/
def sampleTwoDoors : Build :=
  { dungeon :=
      { size := ⟨4, 4⟩,
        tiles := [⟨'-', []⟩, ⟨'+', [.entity 0]⟩, ⟨'-', []⟩, ⟨'-', []⟩,
                  ⟨'-', []⟩, ⟨'-', []⟩, ⟨'-', []⟩, ⟨'+', [.entity 1]⟩,
                  ⟨'-', []⟩, ⟨'-', []⟩, ⟨'-', []⟩, ⟨'-', []⟩,
                  ⟨'-', []⟩, ⟨'-', []⟩, ⟨'-', []⟩, ⟨'-', []⟩],
        entities := [(0, sampleDoor ⟨1, 0⟩), (1, sampleDoor ⟨3, 1⟩)],
        vision := [],
        links := [⟨-1, -1, ⟨1, 0⟩, ⟨-1, -1⟩⟩, ⟨-1, -1, ⟨3, 1⟩, ⟨-1, -1⟩⟩],
        fresh := 2,
        player := samplePlayer ⟨0, 0⟩ },
    calls := 0 }

/-! ## BuildVision with a record of the cells handed to TileLacking -/

/-- Every cell of the vision set lies in the grid. -/
def Dungeon.VisionInside (d : Dungeon) : Prop := ∀ p ∈ d.vision, InBounds p d.size

/-- Sequencing of two recorded parts: the second part runs on the state the first returns, and
the records are joined; nothing more runs (and nothing more is recorded) after an undefined
part. -/
def andThenLogged (r : List Vector2 × Option Dungeon)
    (f : Dungeon → List Vector2 × Option Dungeon) : List Vector2 × Option Dungeon :=
  match r.2 with
  | none => (r.1, none)
  | some d => (r.1 ++ (f d).1, (f d).2)

/-- A loop over `l` whose body is a recorded part. -/
def foldLogged {α : Type} (step : Dungeon → α → List Vector2 × Option Dungeon) :
    List α → Dungeon → List Vector2 × Option Dungeon
  | [], d => ([], some d)
  | x :: xs, d => andThenLogged (step d x) (foldLogged step xs)

/-- The lambda `LineOfSight` of `Dungeon::BuildVision` as in `Dungeon.LineOfSight`, returning
also the cells for which `TileLacking` has been called, in the order of the calls. -/
def Dungeon.LineOfSightLogged (d : Dungeon) : List Vector2 → List Vector2 × Option Dungeon
  | [] => ([], some d)
  | current :: rest =>
    if InBounds current d.size then
      match (d.visionInsert current).TileLacking current Attributes.Obstacle with
      | none => ([current], none)
      | some true =>
        (current :: ((d.visionInsert current).LineOfSightLogged rest).1,
          ((d.visionInsert current).LineOfSightLogged rest).2)
      | some false => ([current], some (d.visionInsert current))
    else ([], some d)

/-- Innermost loop of the "parallell obstacles" pass as in `Dungeon.probe`, returning also the
cells for which `TileLacking` has been called, in the order of the calls. -/
def Dungeon.probeLogged (d : Dungeon) (direction : Vector2) (polar : Int) :
    List Vector2 → List Vector2 × Option Dungeon
  | [] => ([], some d)
  | current :: rest =>
    let flip : Vector2 := ⟨direction.y, direction.x⟩
    let adjacent := current + flip.scale polar
    let marked : List Vector2 × Option Dungeon :=
      if InBounds adjacent d.size then
        match d.TileLacking adjacent Attributes.Obstacle with
        | none => ([adjacent], none)
        | some true => ([adjacent], some d)
        | some false => ([adjacent], some (d.visionInsert adjacent))
      else ([], some d)
    match marked.2 with
    | none => (marked.1, none)
    | some d1 =>
      if InBounds current d1.size then
        match d1.TileLacking current Attributes.Obstacle with
        | none => (marked.1 ++ [current], none)
        | some true =>
          (marked.1 ++ current :: (d1.probeLogged direction polar rest).1,
            (d1.probeLogged direction polar rest).2)
        | some false => (marked.1 ++ [current], some d1)
      else (marked.1 ++ (d1.probeLogged direction polar rest).1,
        (d1.probeLogged direction polar rest).2)

/-- Body of the "parallell obstacles" pass as in `Dungeon.probeBoth`, with the record. -/
def Dungeon.probeBothLogged (fn : Functions) (position : Vector2) (visionReach : Int)
    (d : Dungeon) (neighbour : Vector2 × Vector2 × Vector2) : List Vector2 × Option Dungeon :=
  let direction := neighbour.1
  let straight := fn.BresenhamLine position (position + direction.scale visionReach)
  andThenLogged (d.probeLogged direction 1 straight)
    fun d1 => d1.probeLogged direction (-1) straight

/-- Body of the "surrounded deadspots" pass as in `Dungeon.deadspot`, with the record. -/
def Dungeon.deadspotLogged (fn : Functions) (position visible : Vector2) (d : Dungeon)
    (neighbour : Vector2 × Vector2 × Vector2) : List Vector2 × Option Dungeon :=
  let adjacent := visible + neighbour.1
  if InBounds adjacent d.size ∧ d.Visible adjacent = false then
    let neighbourOne := visible + neighbour.2.1
    let neighbourTwo := visible + neighbour.2.2
    if InBounds neighbourOne d.size ∧ InBounds neighbourTwo d.size ∧
        d.Visible neighbourOne = true ∧ d.Visible neighbourTwo = true then
      d.LineOfSightLogged (fn.BresenhamLine position adjacent)
    else ([], some d)
  else ([], some d)

/-- The loop of the "surrounded deadspots" pass as in `Dungeon.deadspots`, with the record. -/
def Dungeon.deadspotsLogged (fn : Functions) (stored : List Vector2) (position : Vector2) :
    Nat → Dungeon → Option Vector2 → List Vector2 × Option Dungeon
  | _, d, none => ([], some d)
  | 0, _, some _ => ([], none)
  | fuel + 1, d, some visible =>
    andThenLogged (foldLogged (Dungeon.deadspotLogged fn position visible) neighbours d)
      fun d1 =>
        Dungeon.deadspotsLogged fn stored position fuel d1
          (following (d1.listing fn stored) visible)

/-- `Dungeon::BuildVision` as in `Dungeon.BuildVision`, returning also the cells for which
`TileLacking` has been called, in the order of the calls. -/
def Dungeon.BuildVisionLogged (fn : Functions) (d : Dungeon) (position : Vector2)
    (visionReach : Int) : List Vector2 × Option Dungeon :=
  let d0 : Dungeon := { d with vision := [] }
  andThenLogged
    (foldLogged (fun s endpoint => s.LineOfSightLogged (fn.BresenhamLine position endpoint))
      (fn.BresenhamCircle position visionReach) d0)
    fun d1 =>
      andThenLogged (foldLogged (Dungeon.probeBothLogged fn position visionReach) neighbours d1)
        fun d2 =>
          Dungeon.deadspotsLogged fn d.vision position
            (((gridCells d.size).length + 1) * ((gridCells d.size).length + 1)) d2
            (d2.listing fn d.vision).head?

/-- What a part of `BuildVision` may do to the vision set, from `d` to `s`: the size stays, a
vision set inside the grid stays inside, a vision set without repetition stays so, and the
vision set is the same list or a longer one. -/
@[reducible]
def Dungeon.Grown (d s : Dungeon) : Prop :=
  s.size = d.size ∧ (d.VisionInside → s.VisionInside) ∧ (d.vision.Nodup → s.vision.Nodup) ∧
    (s.vision = d.vision ∨ d.vision.length < s.vision.length)

/-- A recorded part `r` run on `d` agrees with the plain part `o`: same outcome, every recorded
cell in the grid, and a returned state is `Dungeon.Grown` from `d`. -/
@[reducible]
def Dungeon.Traced (d : Dungeon) (r : List Vector2 × Option Dungeon) (o : Option Dungeon) :
    Prop :=
  r.2 = o ∧ (∀ c ∈ r.1, InBounds c d.size) ∧ ∀ s, o = some s → d.Grown s

/-! ## A set with chained buckets, and a dungeon with a deadspot behind a deadspot -/

/-- Insertion into a hash table with chained buckets, as a list of its nodes: the new node
goes to the front of the nodes of its bucket, and a bucket that was empty goes to the front
of the list. -/
def insertChained (bucket : Vector2 → Nat) (nodes : List Vector2) (p : Vector2) :
    List Vector2 :=
  if nodes.any (fun q => bucket q == bucket p) then
    nodes.takeWhile (fun q => bucket q != bucket p) ++
      p :: nodes.dropWhile (fun q => bucket q != bucket p)
  else p :: nodes

/-- The nodes of a table with chained buckets after the insertion of `contents`. -/
def chained (bucket : Vector2 → Nat) (contents : List Vector2) : List Vector2 :=
  contents.foldl (insertChained bucket) []

/-- Rasterisers that return the two end points of a line and, as the circle, the four cells
`(0, 1)`, `(1, 0)`, `(1, 2)`, `(2, 2)`; and a set with chained buckets and the hash
`x + 3 * y`, which keeps 2 buckets while it has held at most two cells and 16 buckets
otherwise. -/
def sampleChained : Functions :=
  { BresenhamLine := fun a b => [a, b],
    BresenhamCircle := fun _ _ => [⟨0, 1⟩, ⟨1, 0⟩, ⟨1, 2⟩, ⟨2, 2⟩],
    rank := fun stored contents p =>
      (chained (fun q => (q.x + 3 * q.y).toNat % (if stored.length ≤ 2 then 2 else 16))
        contents).indexOf p }

/-- A 3 × 3 dungeon without entities, the player in the top right cell `(2, 0)`, and an empty
vision set. -/
def sampleOpen : Dungeon :=
  { size := ⟨3, 3⟩,
    tiles := [⟨'-', []⟩, ⟨'-', []⟩, ⟨'@', [.player]⟩, ⟨'-', []⟩, ⟨'-', []⟩, ⟨'-', []⟩,
              ⟨'-', []⟩, ⟨'-', []⟩, ⟨'-', []⟩],
    entities := [],
    vision := [],
    links := [],
    fresh := 0,
    player := samplePlayer ⟨2, 0⟩ }

/-! ## Doors at the entrances of the links -/

/-- Every link of the dungeon has as its entrance the stored position of an element of
`_entities` that is a clone of `door`. -/
def DungeonMembers.DoorsAt (door : Entity) (m : DungeonMembers) : Prop :=
  ∀ l ∈ m.links, ∃ en ∈ m.entities, en.2 = { door with position := l.entrance }

instance (door : Entity) (m : DungeonMembers) : Decidable (m.DoorsAt door) := by
  unfold DungeonMembers.DoorsAt
  infer_instance

/-! ## A grid whose sides hold one door cell each -/

/-- The 3 × 3 dungeon that the member initialisers of the constructor build: no entities, no
links, two draws made. -/
def sampleTiny : Build :=
  { dungeon :=
      { size := ⟨3, 3⟩, tiles := List.replicate 9 ⟨'-', []⟩, entities := [], vision := [],
        links := [], fresh := 0, player := samplePlayer ⟨0, 0⟩ },
    calls := 2 }
/-! ## Tile indexing -/

theorem tileAt_eq_some {tiles : List Tile} {i : Int} {t : Tile} :
    tileAt tiles i = some t ↔ 0 ≤ i ∧ tiles[i.toNat]? = some t := by
  unfold tileAt
  split <;> simp [*]

theorem tileAt_mem {tiles : List Tile} {i : Int} {t : Tile} (h : tileAt tiles i = some t) :
    t ∈ tiles := by
  rw [tileAt_eq_some] at h
  exact List.getElem?_mem h.2

theorem tileAt_of_lt (tiles : List Tile) (i : Int) (h0 : 0 ≤ i) (h1 : i < tiles.length) :
    ∃ t, tileAt tiles i = some t := by
  have h : i.toNat < tiles.length := by omega
  exact ⟨tiles[i.toNat], by simp [tileAt, h0, List.getElem?_eq_getElem h]⟩

theorem tileIndex_bounds {size p : Vector2} (hx : 0 ≤ size.x) (hp : InBounds p size) :
    0 ≤ tileIndex size p ∧ tileIndex size p < size.x * size.y := by
  obtain ⟨h1, h2, h3, h4⟩ := hp
  unfold tileIndex
  constructor
  · positivity
  · nlinarith

theorem Dungeon.GetTile_of_inBounds {d : Dungeon} (hs : d.Sized) {p : Vector2}
    (hp : InBounds p d.size) : ∃ t, d.GetTile p = some t := by
  obtain ⟨h0, h1⟩ := tileIndex_bounds hs.1 hp
  exact tileAt_of_lt _ _ h0 (by rw [hs.2.2]; exact h1)

/-! ## Attribute tests and the vision rebuild leave tiles, entities and player alone -/

theorem Dungeon.lacking_live (d : Dungeon) (m : Nat) :
    ∀ rs : List Ref, (∀ r ∈ rs, (d.deref r).isSome = true) →
      ∃ b, d.lacking m rs = some b ∧
        (b = false ↔ ∃ r ∈ rs, ∃ e, d.deref r = some e ∧ e.attributes &&& m ≠ 0)
  | [], _ => ⟨true, rfl, by simp⟩
  | r :: rs, h => by
    obtain ⟨e, he⟩ := Option.isSome_iff_exists.mp (h r (List.mem_cons_self _ _))
    obtain ⟨b, hb, hiff⟩ := Dungeon.lacking_live d m rs
      (fun r' hr' => h r' (List.mem_cons_of_mem _ hr'))
    by_cases hm : e.attributes &&& m = 0
    · refine ⟨b, by simp [Dungeon.lacking, he, hm, hb], ?_⟩
      rw [hiff]
      constructor
      · rintro ⟨r', hr', e', he', hne⟩
        exact ⟨r', List.mem_cons_of_mem _ hr', e', he', hne⟩
      · rintro ⟨r', hr', e', he', hne⟩
        rcases List.mem_cons.mp hr' with rfl | hr'
        · rw [he] at he'
          cases he'
          exact absurd hm hne
        · exact ⟨r', hr', e', he', hne⟩
    · refine ⟨false, by simp [Dungeon.lacking, he, hm], ?_⟩
      simp only [true_iff]
      exact ⟨r, List.mem_cons_self _ _, e, he, hm⟩

theorem Dungeon.lacking_congr {d d' : Dungeon} (m : Nat) :
    ∀ rs : List Ref,
      (∀ r ∈ rs, (d.deref r).map Entity.attributes = (d'.deref r).map Entity.attributes) →
      d.lacking m rs = d'.lacking m rs
  | [], _ => rfl
  | r :: rs, h => by
    have h1 := h r (List.mem_cons_self _ _)
    have h2 := @Dungeon.lacking_congr d d' m rs
      (fun r' hr' => h r' (List.mem_cons_of_mem _ hr'))
    unfold Dungeon.lacking
    cases hd : d.deref r <;> cases hd' : d'.deref r <;> simp [hd, hd'] at h1 ⊢
    rw [h1, h2]

theorem Dungeon.TileLacking_live {d : Dungeon} (hl : d.Live) {p : Vector2} {t : Tile}
    (ht : d.GetTile p = some t) (m : Nat) :
    ∃ b, d.TileLacking p m = some b ∧
      (b = false ↔ ∃ r ∈ t.occupants, ∃ e, d.deref r = some e ∧ e.attributes &&& m ≠ 0) := by
  unfold Dungeon.TileLacking
  rw [ht]
  exact Dungeon.lacking_live d m t.occupants (hl t (tileAt_mem ht))

theorem Dungeon.TileLacking_inBounds {d : Dungeon} (hs : d.Sized) (hl : d.Live) {p : Vector2}
    (hp : InBounds p d.size) (m : Nat) : ∃ b, d.TileLacking p m = some b := by
  obtain ⟨t, ht⟩ := Dungeon.GetTile_of_inBounds hs hp
  obtain ⟨b, hb, _⟩ := Dungeon.TileLacking_live hl ht m
  exact ⟨b, hb⟩

theorem Dungeon.visionInsert_eq (d : Dungeon) (p : Vector2) :
    ∃ v, d.visionInsert p = d.withVision v := by
  unfold Dungeon.visionInsert
  split
  · exact ⟨d.vision, rfl⟩
  · exact ⟨_, rfl⟩

theorem Dungeon.LineOfSight_frame (d : Dungeon) (hs : d.Sized) (hl : d.Live) :
    ∀ (path : List Vector2) (v : List Vector2),
      ∃ v', (d.withVision v).LineOfSight path = some (d.withVision v')
  | [], v => ⟨v, rfl⟩
  | current :: rest, v => by
    unfold Dungeon.LineOfSight
    by_cases hb : InBounds current (d.withVision v).size
    · rw [if_pos hb]
      obtain ⟨v1, hv1⟩ := Dungeon.visionInsert_eq (d.withVision v) current
      rw [hv1, show (d.withVision v).withVision v1 = d.withVision v1 from rfl]
      obtain ⟨b, hb'⟩ := Dungeon.TileLacking_inBounds (d := d.withVision v1) hs hl hb
        Attributes.Obstacle
      rw [hb']
      cases b
      · exact ⟨v1, rfl⟩
      · exact Dungeon.LineOfSight_frame d hs hl rest v1
    · rw [if_neg hb]
      exact ⟨v, rfl⟩

theorem Dungeon.foldlM_frame {α : Type} (d : Dungeon) (step : Dungeon → α → Option Dungeon)
    (h : ∀ x v, ∃ v', step (d.withVision v) x = some (d.withVision v')) :
    ∀ (l : List α) (v : List Vector2),
      ∃ v', l.foldlM step (d.withVision v) = some (d.withVision v')
  | [], v => ⟨v, rfl⟩
  | x :: l, v => by
    obtain ⟨v1, hv1⟩ := h x v
    obtain ⟨v', hv'⟩ := Dungeon.foldlM_frame d step h l v1
    exact ⟨v', by simp [List.foldlM_cons, hv1, hv']⟩

theorem Dungeon.probe_frame (d : Dungeon) (hs : d.Sized) (hl : d.Live) (direction : Vector2)
    (polar : Int) :
    ∀ (straight : List Vector2) (v : List Vector2),
      ∃ v', (d.withVision v).probe direction polar straight = some (d.withVision v')
  | [], v => ⟨v, rfl⟩
  | current :: rest, v => by
    unfold Dungeon.probe
    have hmark : ∃ v1, (if InBounds (current + (⟨direction.y, direction.x⟩ : Vector2).scale polar)
          (d.withVision v).size then
        match (d.withVision v).TileLacking
            (current + (⟨direction.y, direction.x⟩ : Vector2).scale polar)
            Attributes.Obstacle with
        | none => none
        | some true => some (d.withVision v)
        | some false => some ((d.withVision v).visionInsert
            (current + (⟨direction.y, direction.x⟩ : Vector2).scale polar))
        else some (d.withVision v)) = some (d.withVision v1) := by
      split
      · next hb =>
        obtain ⟨b, hb'⟩ := Dungeon.TileLacking_inBounds (d := d.withVision v) hs hl hb
          Attributes.Obstacle
        rw [hb']
        cases b
        · obtain ⟨v1, hv1⟩ := Dungeon.visionInsert_eq (d.withVision v)
            (current + (⟨direction.y, direction.x⟩ : Vector2).scale polar)
          exact ⟨v1, by rw [hv1]; rfl⟩
        · exact ⟨v, rfl⟩
      · exact ⟨v, rfl⟩
    obtain ⟨v1, hv1⟩ := hmark
    simp only [hv1]
    by_cases hb : InBounds current (d.withVision v1).size
    · rw [if_pos hb]
      obtain ⟨b, hb'⟩ := Dungeon.TileLacking_inBounds (d := d.withVision v1) hs hl hb
        Attributes.Obstacle
      rw [hb']
      cases b
      · exact ⟨v1, rfl⟩
      · exact Dungeon.probe_frame d hs hl direction polar rest v1
    · rw [if_neg hb]
      exact Dungeon.probe_frame d hs hl direction polar rest v1

/-! ## What the tile primitives compute -/

theorem tileSet_eq_some {tiles : List Tile} {i : Int} {t : Tile} {ts : List Tile} :
    tileSet tiles i t = some ts ↔ 0 ≤ i ∧ i.toNat < tiles.length ∧ ts = tiles.set i.toNat t := by
  unfold tileSet
  split
  · next h => simp [h, eq_comm]
  · next h =>
    simp only [false_iff, reduceCtorEq]
    intro h'
    exact h ⟨h'.1, h'.2.1⟩

theorem tileAt_lt {tiles : List Tile} {i : Int} {t : Tile} (h : tileAt tiles i = some t) :
    0 ≤ i ∧ i.toNat < tiles.length := by
  rw [tileAt_eq_some] at h
  exact ⟨h.1, (List.getElem?_eq_some.mp h.2).1⟩

theorem tileAt_set_self {tiles : List Tile} {i : Int} {t : Tile} (h0 : 0 ≤ i)
    (h1 : i.toNat < tiles.length) : tileAt (tiles.set i.toNat t) i = some t := by
  simp [tileAt, h0, h1]

theorem Dungeon.putTile_eq_some {d d' : Dungeon} {p : Vector2} {t : Tile} :
    d.putTile p t = some d' ↔
      0 ≤ tileIndex d.size p ∧ (tileIndex d.size p).toNat < d.tiles.length ∧
      d' = d.withTiles (d.tiles.set (tileIndex d.size p).toNat t) := by
  unfold Dungeon.putTile
  simp only [Option.map_eq_some', tileSet_eq_some]
  constructor
  · rintro ⟨ts, ⟨h0, h1, rfl⟩, rfl⟩
    exact ⟨h0, h1, rfl⟩
  · rintro ⟨h0, h1, rfl⟩
    exact ⟨_, ⟨h0, h1, rfl⟩, rfl⟩

theorem Dungeon.UpdateTile_eq_bind {d : Dungeon} {p : Vector2} {t : Tile}
    (ht : d.GetTile p = some t) :
    d.UpdateTile p = (d.topIcon t.occupants).bind fun c => d.putTile p { t with icon := c } := by
  unfold Dungeon.UpdateTile Dungeon.topIcon
  rw [ht]
  dsimp only
  cases t.occupants.getLast? with
  | none => rfl
  | some r =>
    dsimp only
    cases d.deref r <;> rfl

theorem Dungeon.UpdateTile_eq_some {d d' : Dungeon} {p : Vector2} :
    d.UpdateTile p = some d' ↔
      ∃ t c, d.GetTile p = some t ∧ d.topIcon t.occupants = some c ∧
        d' = d.withTiles (d.tiles.set (tileIndex d.size p).toNat { t with icon := c }) := by
  cases ht : d.GetTile p with
  | none => simp [Dungeon.UpdateTile, ht]
  | some t =>
    obtain ⟨h0, h1⟩ := tileAt_lt ht
    rw [Dungeon.UpdateTile_eq_bind ht]
    simp only [Option.bind_eq_some, Dungeon.putTile_eq_some, h0, h1, true_and]
    constructor
    · rintro ⟨c, hc, rfl⟩
      exact ⟨t, c, rfl, hc, rfl⟩
    · rintro ⟨t', c, ht', hc, rfl⟩
      cases ht'
      exact ⟨c, hc, rfl⟩

theorem Dungeon.OccupantInsert_eq_some {d d' : Dungeon} {p : Vector2} {r : Ref} :
    d.OccupantInsert p r = some d' ↔
      ∃ t e, d.GetTile p = some t ∧ d.deref r = some e ∧
        d' = d.withTiles
          (d.tiles.set (tileIndex d.size p).toNat ⟨e.icon, t.occupants ++ [r]⟩) := by
  unfold Dungeon.OccupantInsert
  cases ht : d.GetTile p with
  | none => simp
  | some t =>
    obtain ⟨h0, h1⟩ := tileAt_lt ht
    have hput : d.putTile p { t with occupants := t.occupants ++ [r] } =
        some (d.withTiles (d.tiles.set (tileIndex d.size p).toNat
          { t with occupants := t.occupants ++ [r] })) :=
      Dungeon.putTile_eq_some.mpr ⟨h0, h1, rfl⟩
    simp only [hput, Dungeon.UpdateTile_eq_some]
    have hget : (d.withTiles (d.tiles.set (tileIndex d.size p).toNat
          { t with occupants := t.occupants ++ [r] })).GetTile p =
        some { t with occupants := t.occupants ++ [r] } := tileAt_set_self h0 h1
    constructor
    · rintro ⟨t', c, ht', hc, rfl⟩
      rw [hget] at ht'
      cases ht'
      have hc' : (d.deref r).map Entity.icon = some c := by
        simpa [Dungeon.topIcon] using hc
      replace hc := hc'
      obtain ⟨e, he, rfl⟩ := Option.map_eq_some'.mp hc
      refine ⟨t, e, rfl, he, ?_⟩
      simp [Dungeon.withTiles, tileIndex]
    · rintro ⟨t', e, ht', he, rfl⟩
      cases ht'
      refine ⟨_, e.icon, hget, ?_, ?_⟩
      · have : (d.deref r).map Entity.icon = some e.icon := by rw [he]; rfl
        simpa [Dungeon.topIcon] using this
      · simp [Dungeon.withTiles, tileIndex]

theorem Dungeon.OccupantRemove_eq_some {d d' : Dungeon} {p : Vector2} {r : Ref} :
    d.OccupantRemove p r = some d' ↔
      ∃ t c, d.GetTile p = some t ∧ (∀ r' ∈ t.occupants, (d.deref r').isSome = true) ∧
        (d.deref r).isSome = true ∧
        d.topIcon (t.occupants.filter (fun r' => r' ≠ r)) = some c ∧
        d' = d.withTiles (d.tiles.set (tileIndex d.size p).toNat
          ⟨c, t.occupants.filter (fun r' => r' ≠ r)⟩) := by
  unfold Dungeon.OccupantRemove
  cases ht : d.GetTile p with
  | none => simp
  | some t =>
    obtain ⟨h0, h1⟩ := tileAt_lt ht
    have hput : d.putTile p { t with occupants := t.occupants.filter (fun r' => r' ≠ r) } =
        some (d.withTiles (d.tiles.set (tileIndex d.size p).toNat
          { t with occupants := t.occupants.filter (fun r' => r' ≠ r) })) :=
      Dungeon.putTile_eq_some.mpr ⟨h0, h1, rfl⟩
    have hget : (d.withTiles (d.tiles.set (tileIndex d.size p).toNat
          { t with occupants := t.occupants.filter (fun r' => r' ≠ r) })).GetTile p =
        some { t with occupants := t.occupants.filter (fun r' => r' ≠ r) } :=
      tileAt_set_self h0 h1
    dsimp only
    split
    · next hcond =>
      simp only [List.all_eq_true, decide_eq_true_eq] at hcond
      simp only [hput, Dungeon.UpdateTile_eq_some]
      constructor
      · rintro ⟨t', c, ht', hc, rfl⟩
        rw [hget] at ht'
        cases ht'
        refine ⟨t, c, rfl, hcond.1, hcond.2, hc, ?_⟩
        simp [Dungeon.withTiles, tileIndex]
      · rintro ⟨t', c, ht', _, _, hc, rfl⟩
        cases ht'
        refine ⟨_, c, hget, hc, ?_⟩
        simp [Dungeon.withTiles, tileIndex]
    · next hcond =>
      simp only [List.all_eq_true, decide_eq_true_eq] at hcond
      simp only [false_iff, reduceCtorEq]
      rintro ⟨t', c, ht', h1', h2', _⟩
      cases ht'
      exact hcond ⟨h1', h2'⟩

/-! ## Rotation -/

theorem mem_gridCells {size c : Vector2} : c ∈ gridCells size ↔ InBounds c size := by
  unfold gridCells InBounds
  simp only [List.mem_flatMap, List.mem_range, List.mem_map]
  constructor
  · rintro ⟨y, hy, x, hx, rfl⟩
    simp only
    omega
  · rintro ⟨h1, h2, h3, h4⟩
    refine ⟨c.y.toNat, by omega, c.x.toNat, by omega, ?_⟩
    obtain ⟨cx, cy⟩ := c
    simp only [Vector2.mk.injEq] at h1 h3 ⊢
    constructor <;> omega

theorem foldlM_tileSet {α : Type} (src : α → Option Tile) (f : α → Int)
    (step : List Tile → α → Option (List Tile))
    (hstep : ∀ acc c, step acc c =
      match src c with
      | none => none
      | some t => tileSet acc (f c) t)
    (init : List Tile) (cells : List α)
    (hv : ∀ c ∈ cells, (src c).isSome = true ∧ 0 ≤ f c ∧ f c < init.length)
    (hinj : ∀ c ∈ cells, ∀ c' ∈ cells, f c = f c' → src c = src c') :
    ∃ r, cells.foldlM step init = some r ∧ r.length = init.length ∧
      (∀ c ∈ cells, tileAt r (f c) = src c) ∧
      (∀ t ∈ r, t ∈ init ∨ ∃ c ∈ cells, src c = some t) := by
  induction cells using List.reverseRecOn with
  | nil => exact ⟨init, rfl, rfl, by simp, fun t ht => Or.inl ht⟩
  | append_singleton cs c0 ih =>
    obtain ⟨r, hr, hlen, hget, hmem⟩ := ih
      (fun c hc => hv c (List.mem_append_left _ hc))
      (fun c hc c' hc' => hinj c (List.mem_append_left _ hc) c' (List.mem_append_left _ hc'))
    obtain ⟨hs0, h0, h1⟩ := hv c0 (by simp)
    obtain ⟨t0, ht0⟩ := Option.isSome_iff_exists.mp hs0
    have hlt : (f c0).toNat < r.length := by omega
    refine ⟨r.set (f c0).toNat t0, ?_, by simp [hlen], ?_, ?_⟩
    · rw [List.foldlM_append, hr]
      simp [hstep, ht0, tileSet, h0, hlt]
      omega
    · intro c hc
      by_cases hfc : f c = f c0
      · rw [hfc, tileAt_set_self h0 hlt, ← ht0]
        exact (hinj c hc c0 (by simp) hfc).symm
      · rcases List.mem_append.mp hc with hc | hc
        · rw [← hget c hc]
          have hc0 := (hv c (List.mem_append_left _ hc)).2.1
          have hne : (f c0).toNat ≠ (f c).toNat := by omega
          simp [tileAt, hc0, List.getElem?_set_ne hne]
        · simp only [List.mem_singleton] at hc
          exact absurd (by rw [hc]) hfc
    · intro t ht
      rcases List.mem_or_eq_of_mem_set ht with ht | rfl
      · rcases hmem t ht with h | ⟨c, hc, hsrc⟩
        · exact Or.inl h
        · exact Or.inr ⟨c, List.mem_append_left _ hc, hsrc⟩
      · exact Or.inr ⟨c0, by simp, ht0⟩

theorem index_range {a b A B : Int} (ha : 0 ≤ a) (ha' : a < A) (hb : 0 ≤ b) (hb' : b < B) :
    0 ≤ a * B + b ∧ a * B + b < A * B := by
  have hB : 0 ≤ B := by omega
  constructor
  · have := mul_nonneg ha hB
    linarith
  · nlinarith

theorem index_inj {x y x' y' H : Int} (hy : 0 ≤ y) (hy' : y < H) (hz : 0 ≤ y') (hz' : y' < H)
    (h : x * H + y = x' * H + y') : x = x' ∧ y = y' := by
  have hx : x = x' := by
    by_contra hne
    rcases lt_or_gt_of_ne hne with hlt | hgt
    · nlinarith
    · nlinarith
  subst hx
  exact ⟨rfl, by linarith⟩

theorem index_split {j W H : Int} (h0 : 0 ≤ j) (h1 : j < W * H) (hH : 0 < H) :
    InBounds ⟨j / H, j % H⟩ ⟨W, H⟩ ∧ j / H * H + j % H = j :=
  ⟨⟨Int.ediv_nonneg h0 hH.le, Int.ediv_lt_of_lt_mul hH h1, Int.emod_nonneg _ hH.ne',
    Int.emod_lt_of_pos _ hH⟩, Int.ediv_add_emod' j H⟩

theorem sizeNext_eq (size : Vector2) (o : Orientation) :
    (if (o.toInt + 2).tmod 2 ≠ 0 then (⟨size.y, size.x⟩ : Vector2) else size) =
      rotatedSize size o := by
  cases o
  · exact if_neg (by decide)
  · exact if_pos (by decide)
  · exact if_neg (by decide)
  · exact if_pos (by decide)

theorem PositionRotate_inBounds {p size : Vector2} (o : Orientation) (hp : InBounds p size) :
    InBounds (PositionRotate p size o) (rotatedSize size o) := by
  obtain ⟨h1, h2, h3, h4⟩ := hp
  cases o <;> simp only [PositionRotate, rotatedSize, InBounds] <;> omega

theorem rotate_tiles_fold (tiles : List Tile) (size : Vector2) (o : Orientation) (hlen : (tiles.length : Int) = size.x * size.y) :
    ∃ ts, (gridCells size).foldlM (rotateCell tiles size (rotatedSize size o) o) tiles = some ts ∧
      ts.length = tiles.length ∧
      (∀ p, InBounds p size →
        tileAt ts (tileIndex (rotatedSize size o) (PositionRotate p size o)) =
          tileAt tiles (tileIndex size p)) ∧
      (∀ t ∈ ts, t ∈ tiles) := by
  have hv : ∀ c ∈ gridCells size,
      (tileAt tiles ((PositionRotate c size o).x * (rotatedSize size o).y +
          (PositionRotate c size o).y)).isSome = true ∧
        0 ≤ c.x * size.y + c.y ∧ c.x * size.y + c.y < tiles.length := by
    intro c hc
    obtain ⟨h1, h2, h3, h4⟩ := mem_gridCells.mp hc
    have hf := index_range h1 h2 h3 h4
    rw [hlen]
    refine ⟨?_, hf⟩
    have hr : 0 ≤ (PositionRotate c size o).x * (rotatedSize size o).y +
          (PositionRotate c size o).y ∧
        (PositionRotate c size o).x * (rotatedSize size o).y + (PositionRotate c size o).y <
          size.x * size.y := by
      cases o <;> simp only [PositionRotate, rotatedSize]
      · exact hf
      · have := index_range (a := size.y - c.y - 1) (A := size.y) (b := c.x) (B := size.x)
          (by omega) (by omega) h1 h2
        rw [mul_comm size.x size.y]
        exact this
      · exact index_range (by omega) (by omega) (by omega) (by omega)
      · have := index_range (a := c.y) (A := size.y) (b := size.x - c.x - 1) (B := size.x)
          h3 h4 (by omega) (by omega)
        rw [mul_comm size.x size.y]
        exact this
    obtain ⟨t, ht⟩ := tileAt_of_lt tiles _ hr.1 (by rw [hlen]; exact hr.2)
    rw [ht]
    rfl
  have hinj : ∀ c ∈ gridCells size, ∀ c' ∈ gridCells size,
      c.x * size.y + c.y = c'.x * size.y + c'.y →
      tileAt tiles ((PositionRotate c size o).x * (rotatedSize size o).y +
          (PositionRotate c size o).y) =
        tileAt tiles ((PositionRotate c' size o).x * (rotatedSize size o).y +
          (PositionRotate c' size o).y) := by
    intro c hc c' hc' h
    obtain ⟨_, _, h3, h4⟩ := mem_gridCells.mp hc
    obtain ⟨_, _, h3', h4'⟩ := mem_gridCells.mp hc'
    obtain ⟨hxx, hyy⟩ := index_inj h3 h4 h3' h4' h
    have : c = c' := by
      cases c
      cases c'
      simp only [Vector2.mk.injEq]
      exact ⟨hxx, hyy⟩
    rw [this]
  obtain ⟨ts, hts, hl, hget, hmem⟩ := foldlM_tileSet
    (fun c => tileAt tiles ((PositionRotate c size o).x * (rotatedSize size o).y +
      (PositionRotate c size o).y))
    (fun c => c.x * size.y + c.y) (rotateCell tiles size (rotatedSize size o) o)
    (fun acc c => rfl) tiles (gridCells size) hv hinj
  refine ⟨ts, hts, hl, ?_, ?_⟩
  · intro p hp
    obtain ⟨h1, h2, h3, h4⟩ := hp
    have hcell : ∃ c, InBounds c size ∧
        c.x * size.y + c.y = tileIndex (rotatedSize size o) (PositionRotate p size o) ∧
        (PositionRotate c size o).x * (rotatedSize size o).y + (PositionRotate c size o).y =
          tileIndex size p := by
      have hH : 0 < size.y := by omega
      cases o
      · have hj := index_range h3 h4 h1 h2
        obtain ⟨hb, he⟩ := index_split (j := p.y * size.x + p.x) (W := size.x) hj.1
          (by rw [mul_comm size.x size.y]; exact hj.2) hH
        exact ⟨_, hb, he, he⟩
      · refine ⟨⟨p.x, size.y - p.y - 1⟩, ⟨h1, h2, by simp only; omega, by simp only; omega⟩, ?_, ?_⟩
        · simp only [PositionRotate, rotatedSize, tileIndex]
        · simp only [PositionRotate, rotatedSize, tileIndex]
          ring
      · have hj := index_range (a := size.y - p.y - 1) (A := size.y) (b := size.x - p.x - 1)
          (B := size.x) (by omega) (by omega) (by omega) (by omega)
        obtain ⟨hb, he⟩ := index_split (W := size.x) hj.1
          (by rw [mul_comm size.x size.y]; exact hj.2) hH
        refine ⟨_, hb, he, ?_⟩
        simp only [PositionRotate, rotatedSize, tileIndex] at he ⊢
        linear_combination (-1 : Int) * he
      · refine ⟨⟨size.x - p.x - 1, p.y⟩, ⟨by simp only; omega, by simp only; omega, h3, h4⟩,
          ?_, ?_⟩
        · simp only [PositionRotate, rotatedSize, tileIndex]
        · simp only [PositionRotate, rotatedSize, tileIndex]
          ring
    obtain ⟨c, hc, hfc, hgc⟩ := hcell
    have := hget c (mem_gridCells.mpr hc)
    simp only [hfc, hgc] at this
    exact this
  · intro t ht
    rcases hmem t ht with h | ⟨c, _, hc⟩
    · exact h
    · exact tileAt_mem hc

theorem mem_foldl_visionAdd (g : Vector2 → Vector2) (p : Vector2) :
    ∀ (l init : List Vector2),
      p ∈ l.foldl (fun v position => visionAdd v (g position)) init ↔
        p ∈ init ∨ ∃ q ∈ l, g q = p
  | [], init => by simp
  | q :: l, init => by
    rw [List.foldl_cons, mem_foldl_visionAdd g p l]
    unfold visionAdd
    split
    · next hmem =>
      constructor
      · rintro (h | ⟨q', hq', rfl⟩)
        · exact Or.inl h
        · exact Or.inr ⟨q', List.mem_cons_of_mem _ hq', rfl⟩
      · rintro (h | ⟨q', hq', rfl⟩)
        · exact Or.inl h
        · rcases List.mem_cons.mp hq' with rfl | hq'
          · exact Or.inl hmem
          · exact Or.inr ⟨q', hq', rfl⟩
    · constructor
      · rintro (h | ⟨q', hq', rfl⟩)
        · rcases List.mem_append.mp h with h | h
          · exact Or.inl h
          · exact Or.inr ⟨q, List.mem_cons_self _ _, (List.mem_singleton.mp h).symm⟩
        · exact Or.inr ⟨q', List.mem_cons_of_mem _ hq', rfl⟩
      · rintro (h | ⟨q', hq', rfl⟩)
        · exact Or.inl (List.mem_append_left _ h)
        · rcases List.mem_cons.mp hq' with rfl | hq'
          · exact Or.inl (List.mem_append_right _ (List.mem_singleton_self _))
          · exact Or.inr ⟨q', hq', rfl⟩

theorem Dungeon.Rotate_spec (d : Dungeon) (o : Orientation) (hs : d.Sized) :
    ∃ d', d.Rotate o = some d' ∧ d'.size = rotatedSize d.size o ∧
      d'.tiles.length = d.tiles.length ∧
      (∀ p, InBounds p d.size →
        d'.GetTile (PositionRotate p d.size o) = d.GetTile p) ∧
      (∀ t ∈ d'.tiles, t ∈ d.tiles) ∧
      d'.entities = d.entities.map (fun en =>
        (en.1, { en.2 with position := PositionRotate en.2.position d.size o })) ∧
      (∀ p, p ∈ d'.vision ↔ ∃ q ∈ d.vision, PositionRotate q d.size o = p) ∧
      d'.links = d.links ∧ d'.fresh = d.fresh ∧
      d'.player = { d.player with base :=
        { d.player.base with position := PositionRotate d.player.base.position d.size o } } := by
  obtain ⟨ts, hts, hlen, hget, hmem⟩ := rotate_tiles_fold d.tiles d.size o hs.2.2
  have hrot : d.Rotate o = some
      { size := rotatedSize d.size o, tiles := ts,
        entities := d.entities.map (fun en =>
          (en.1, { en.2 with position := PositionRotate en.2.position d.size o })),
        vision := d.vision.foldl (fun v q => visionAdd v (PositionRotate q d.size o)) [],
        links := d.links, fresh := d.fresh,
        player := { d.player with base :=
          { d.player.base with
            position := PositionRotate d.player.base.position d.size o } } } := by
    have e : (⟨d.size.x, d.size.y⟩ : Vector2) = d.size := rfl
    unfold Dungeon.Rotate
    simp only [e, sizeNext_eq, hts]
    rfl
  refine ⟨_, hrot, rfl, hlen, ?_, hmem, rfl, ?_, rfl, rfl, rfl⟩
  · intro p hp
    exact hget p hp
  · intro p
    have := mem_foldl_visionAdd (fun q => PositionRotate q d.size o) p d.vision []
    simpa using this

theorem Dungeon.Rotate_sized {d d' : Dungeon} {o : Orientation} (hs : d.Sized)
    (h : d.Rotate o = some d') : d'.Sized := by
  obtain ⟨d1, h1, hsize, hlen, _⟩ := Dungeon.Rotate_spec d o hs
  rw [h] at h1
  cases h1
  obtain ⟨hx, hy, hl⟩ := hs
  unfold Dungeon.Sized
  rw [hsize, hlen, hl]
  cases o
  · exact ⟨hx, hy, rfl⟩
  · exact ⟨hy, hx, mul_comm _ _⟩
  · exact ⟨hx, hy, rfl⟩
  · exact ⟨hy, hx, mul_comm _ _⟩

/-! ## The passes of BuildVision: what they do to the vision set, and that the last one ends -/

theorem Dungeon.Grown.unchanged (d : Dungeon) : d.Grown d := ⟨rfl, id, id, Or.inl rfl⟩

theorem Dungeon.Grown.trans {a b c : Dungeon} (h1 : a.Grown b) (h2 : b.Grown c) : a.Grown c := by
  obtain ⟨s1, i1, n1, g1⟩ := h1
  obtain ⟨s2, i2, n2, g2⟩ := h2
  refine ⟨s2.trans s1, fun h => i2 (i1 h), fun h => n2 (n1 h), ?_⟩
  rcases g1 with g1 | g1 <;> rcases g2 with g2 | g2
  · exact Or.inl (g2.trans g1)
  · exact Or.inr (by rw [← g1]; exact g2)
  · exact Or.inr (by rw [g2]; exact g1)
  · exact Or.inr (by omega)

theorem Dungeon.visionInsert_grown (d : Dungeon) {p : Vector2} (hp : InBounds p d.size) :
    d.Grown (d.visionInsert p) := by
  unfold Dungeon.visionInsert
  split
  · exact Dungeon.Grown.unchanged d
  · next hmem =>
    refine ⟨rfl, fun hv q hq => ?_, fun hn => ?_, Or.inr (by simp)⟩
    · rcases List.mem_append.mp hq with h | h
      · exact hv q h
      · rw [List.mem_singleton] at h
        subst h
        exact hp
    · show (d.vision ++ [p]).Nodup
      rw [List.nodup_append]
      refine ⟨hn, List.nodup_singleton p, ?_⟩
      intro a ha hb
      rw [List.mem_singleton] at hb
      subst hb
      exact hmem ha

theorem Dungeon.Traced.same (d : Dungeon) : d.Traced ([], some d) (some d) :=
  ⟨rfl, fun _ hc => (by cases hc), fun s hs => (by cases hs; exact Dungeon.Grown.unchanged d)⟩

theorem Dungeon.Traced.andThen {d : Dungeon} {r : List Vector2 × Option Dungeon}
    {o : Option Dungeon} (h : d.Traced r o) {f : Dungeon → List Vector2 × Option Dungeon}
    {g : Dungeon → Option Dungeon}
    (hf : ∀ s : Dungeon, s.size = d.size → s.Traced (f s) (g s)) :
    d.Traced (andThenLogged r f) (o.bind g) := by
  obtain ⟨h2, hlog, hout⟩ := h
  unfold andThenLogged
  rw [h2]
  cases o with
  | none => exact ⟨rfl, hlog, fun s hs => by cases hs⟩
  | some s =>
    have hg := hout s rfl
    obtain ⟨k2, klog, kout⟩ := hf s hg.1
    refine ⟨k2, ?_, ?_⟩
    · intro c hc
      rcases List.mem_append.mp hc with h1 | h1
      · exact hlog c h1
      · rw [← hg.1]
        exact klog c h1
    · intro s1 hs1
      exact hg.trans (kout s1 hs1)

theorem Dungeon.Traced.fold {α : Type} {f : Dungeon → α → List Vector2 × Option Dungeon}
    {g : Dungeon → α → Option Dungeon} (hstep : ∀ (x : α) (s : Dungeon),
      s.Traced (f s x) (g s x)) :
    ∀ (l : List α) (d : Dungeon), d.Traced (foldLogged f l d) (l.foldlM g d)
  | [], d => Dungeon.Traced.same d
  | x :: l, d => by
    have h := (hstep x d).andThen (f := foldLogged f l) (g := fun s => l.foldlM g s)
      (fun s _ => Dungeon.Traced.fold hstep l s)
    rw [List.foldlM_cons]
    exact h

theorem Dungeon.Traced.after {d s : Dungeon} (hg : d.Grown s) (pre : List Vector2)
    (hpre : ∀ c ∈ pre, InBounds c d.size) {r : List Vector2 × Option Dungeon}
    {o : Option Dungeon} (h : s.Traced r o) : d.Traced (pre ++ r.1, r.2) o := by
  obtain ⟨h2, hlog, hout⟩ := h
  refine ⟨h2, ?_, ?_⟩
  · intro c hc
    rcases List.mem_append.mp hc with h1 | h1
    · exact hpre c h1
    · rw [← hg.1]
      exact hlog c h1
  · intro s1 hs1
    exact hg.trans (hout s1 hs1)

theorem Dungeon.LineOfSight_traced :
    ∀ (path : List Vector2) (d : Dungeon),
      d.Traced (d.LineOfSightLogged path) (d.LineOfSight path)
  | [], d => Dungeon.Traced.same d
  | current :: rest, d => by
    unfold Dungeon.LineOfSightLogged Dungeon.LineOfSight
    by_cases hb : InBounds current d.size
    · rw [if_pos hb, if_pos hb]
      have hg := d.visionInsert_grown hb
      have hone : ∀ c ∈ [current], InBounds c d.size := by
        intro c hc
        rw [List.mem_singleton] at hc
        subst hc
        exact hb
      cases (d.visionInsert current).TileLacking current Attributes.Obstacle with
      | none => exact ⟨rfl, hone, fun s hs => by cases hs⟩
      | some free =>
        cases free
        · exact ⟨rfl, hone, fun s hs => by cases hs; exact hg⟩
        · exact Dungeon.Traced.after hg [current] hone
            (Dungeon.LineOfSight_traced rest (d.visionInsert current))
    · rw [if_neg hb, if_neg hb]
      exact Dungeon.Traced.same d

theorem Dungeon.probe_traced (direction : Vector2) (polar : Int) :
    ∀ (straight : List Vector2) (d : Dungeon),
      d.Traced (d.probeLogged direction polar straight) (d.probe direction polar straight)
  | [], d => Dungeon.Traced.same d
  | current :: rest, d => by
    have hcont : ∀ (s : Dungeon) (pre : List Vector2), d.Grown s →
        (∀ c ∈ pre, InBounds c d.size) →
        d.Traced
          (if InBounds current s.size then
            match s.TileLacking current Attributes.Obstacle with
            | none => (pre ++ [current], none)
            | some true =>
              (pre ++ current :: (s.probeLogged direction polar rest).1,
                (s.probeLogged direction polar rest).2)
            | some false => (pre ++ [current], some s)
           else (pre ++ (s.probeLogged direction polar rest).1,
             (s.probeLogged direction polar rest).2))
          (if InBounds current s.size then
            match s.TileLacking current Attributes.Obstacle with
            | none => none
            | some true => s.probe direction polar rest
            | some false => some s
           else s.probe direction polar rest) := by
      intro s pre hg hpre
      have ih := Dungeon.probe_traced direction polar rest s
      by_cases hb : InBounds current s.size
      · rw [if_pos hb, if_pos hb]
        have hb' : InBounds current d.size := by rw [← hg.1]; exact hb
        have hlog : ∀ c ∈ pre ++ [current], InBounds c d.size := by
          intro c hc
          rcases List.mem_append.mp hc with h1 | h1
          · exact hpre c h1
          · rw [List.mem_singleton] at h1
            subst h1
            exact hb'
        cases s.TileLacking current Attributes.Obstacle with
        | none => exact ⟨rfl, hlog, fun s1 hs1 => by cases hs1⟩
        | some free =>
          cases free
          · exact ⟨rfl, hlog, fun s1 hs1 => by cases hs1; exact hg⟩
          · have h := Dungeon.Traced.after hg (pre ++ [current]) hlog ih
            simpa using h
      · rw [if_neg hb, if_neg hb]
        exact Dungeon.Traced.after hg pre hpre ih
    unfold Dungeon.probeLogged Dungeon.probe
    dsimp only
    by_cases ha : InBounds (current + (⟨direction.y, direction.x⟩ : Vector2).scale polar) d.size
    · simp only [ha, ↓reduceIte]
      have hone : ∀ c ∈ [current + (⟨direction.y, direction.x⟩ : Vector2).scale polar],
          InBounds c d.size := by
        intro c hc
        rw [List.mem_singleton] at hc
        subst hc
        exact ha
      generalize d.TileLacking (current + (⟨direction.y, direction.x⟩ : Vector2).scale polar)
          Attributes.Obstacle = res
      cases res with
      | none => exact ⟨rfl, hone, fun s hs => by cases hs⟩
      | some free =>
        cases free
        · exact hcont _ _ (d.visionInsert_grown ha) hone
        · exact hcont d _ (Dungeon.Grown.unchanged d) hone
    · simp only [ha, ↓reduceIte]
      have h := hcont d [] (Dungeon.Grown.unchanged d) (fun _ hc => by cases hc)
      simpa using h

theorem Dungeon.probeBoth_traced (fn : Functions) (position : Vector2) (visionReach : Int)
    (neighbour : Vector2 × Vector2 × Vector2) (d : Dungeon) :
    d.Traced (d.probeBothLogged fn position visionReach neighbour)
      (d.probeBoth fn position visionReach neighbour) := by
  have h := (Dungeon.probe_traced neighbour.1 1
    (fn.BresenhamLine position (position + neighbour.1.scale visionReach)) d).andThen
    (f := fun d1 => d1.probeLogged neighbour.1 (-1)
      (fn.BresenhamLine position (position + neighbour.1.scale visionReach)))
    (g := fun d1 => d1.probe neighbour.1 (-1)
      (fn.BresenhamLine position (position + neighbour.1.scale visionReach)))
    (fun s _ => Dungeon.probe_traced _ _ _ s)
  have hplain : d.probeBoth fn position visionReach neighbour =
      (d.probe neighbour.1 1
        (fn.BresenhamLine position (position + neighbour.1.scale visionReach))).bind
        fun d1 => d1.probe neighbour.1 (-1)
          (fn.BresenhamLine position (position + neighbour.1.scale visionReach)) := by
    unfold Dungeon.probeBoth
    dsimp only
    cases d.probe neighbour.1 1
      (fn.BresenhamLine position (position + neighbour.1.scale visionReach)) <;> rfl
  rw [hplain]
  exact h

theorem Dungeon.deadspot_traced (fn : Functions) (position visible : Vector2)
    (neighbour : Vector2 × Vector2 × Vector2) (d : Dungeon) :
    d.Traced (d.deadspotLogged fn position visible neighbour)
      (d.deadspot fn position visible neighbour) := by
  unfold Dungeon.deadspotLogged Dungeon.deadspot
  dsimp only
  split
  · split
    · exact Dungeon.LineOfSight_traced _ d
    · exact Dungeon.Traced.same d
  · exact Dungeon.Traced.same d

theorem Dungeon.deadspots_eq_bind (fn : Functions) (stored : List Vector2) (position : Vector2)
    (fuel : Nat) (d : Dungeon) (visible : Vector2) :
    Dungeon.deadspots fn stored position (fuel + 1) d (some visible) =
      (neighbours.foldlM (Dungeon.deadspot fn position visible) d).bind fun d1 =>
        Dungeon.deadspots fn stored position fuel d1
          (following (d1.listing fn stored) visible) := by
  rw [Dungeon.deadspots]
  cases neighbours.foldlM (Dungeon.deadspot fn position visible) d <;> rfl

theorem Dungeon.deadspots_end (fn : Functions) (stored : List Vector2) (position : Vector2)
    (fuel : Nat) (d : Dungeon) :
    Dungeon.deadspots fn stored position fuel d none = some d := by
  cases fuel <;> rfl

theorem Dungeon.deadspots_traced (fn : Functions) (stored : List Vector2) (position : Vector2) :
    ∀ (fuel : Nat) (d : Dungeon) (visible : Option Vector2),
      d.Traced (Dungeon.deadspotsLogged fn stored position fuel d visible)
        (Dungeon.deadspots fn stored position fuel d visible)
  | fuel, d, none => by
    rw [Dungeon.deadspots_end]
    cases fuel <;> exact Dungeon.Traced.same d
  | 0, d, some visible => ⟨rfl, fun _ hc => (by cases hc), fun s hs => (by cases hs)⟩
  | fuel + 1, d, some visible => by
    rw [Dungeon.deadspots_eq_bind]
    exact (Dungeon.Traced.fold
      (fun neighbour u => Dungeon.deadspot_traced fn position visible neighbour u)
      neighbours d).andThen
      (f := fun d1 => Dungeon.deadspotsLogged fn stored position fuel d1
        (following (d1.listing fn stored) visible))
      (g := fun d1 => Dungeon.deadspots fn stored position fuel d1
        (following (d1.listing fn stored) visible))
      (fun s _ => Dungeon.deadspots_traced fn stored position fuel s _)

theorem Dungeon.BuildVision_eq_bind (fn : Functions) (d : Dungeon) (position : Vector2)
    (visionReach : Int) :
    d.BuildVision fn position visionReach =
      ((fn.BresenhamCircle position visionReach).foldlM
        (fun (s : Dungeon) endpoint => s.LineOfSight (fn.BresenhamLine position endpoint))
        { d with vision := [] }).bind fun d1 =>
        (neighbours.foldlM (Dungeon.probeBoth fn position visionReach) d1).bind fun d2 =>
          Dungeon.deadspots fn d.vision position
            (((gridCells d.size).length + 1) * ((gridCells d.size).length + 1)) d2
            (d2.listing fn d.vision).head? := by
  unfold Dungeon.BuildVision
  dsimp only
  cases (fn.BresenhamCircle position visionReach).foldlM
    (fun s endpoint => s.LineOfSight (fn.BresenhamLine position endpoint))
    { d with vision := [] } with
  | none => rfl
  | some d1 =>
    dsimp only [Option.bind]
    cases neighbours.foldlM (Dungeon.probeBoth fn position visionReach) d1 with
    | none => rfl
    | some d2 => rfl

theorem Dungeon.BuildVision_traced (fn : Functions) (d : Dungeon) (position : Vector2)
    (visionReach : Int) :
    (d.BuildVisionLogged fn position visionReach).2 = d.BuildVision fn position visionReach ∧
    (∀ c ∈ (d.BuildVisionLogged fn position visionReach).1, InBounds c d.size) ∧
    ∀ s, d.BuildVision fn position visionReach = some s →
      s.size = d.size ∧ s.VisionInside ∧ s.vision.Nodup := by
  have h1 := Dungeon.Traced.fold
    (f := fun s endpoint => s.LineOfSightLogged (fn.BresenhamLine position endpoint))
    (g := fun s endpoint => s.LineOfSight (fn.BresenhamLine position endpoint))
    (fun x s => Dungeon.LineOfSight_traced _ s) (fn.BresenhamCircle position visionReach)
    { d with vision := [] }
  have h2 : ∀ s : Dungeon, s.Traced
      (andThenLogged (foldLogged (Dungeon.probeBothLogged fn position visionReach) neighbours s)
        fun d2 =>
          Dungeon.deadspotsLogged fn d.vision position
            (((gridCells d.size).length + 1) * ((gridCells d.size).length + 1)) d2
            (d2.listing fn d.vision).head?)
      ((neighbours.foldlM (Dungeon.probeBoth fn position visionReach) s).bind fun d2 =>
        Dungeon.deadspots fn d.vision position
          (((gridCells d.size).length + 1) * ((gridCells d.size).length + 1)) d2
          (d2.listing fn d.vision).head?) :=
    fun s => (Dungeon.Traced.fold
      (fun neighbour u => Dungeon.probeBoth_traced fn position visionReach neighbour u)
      neighbours s).andThen (fun t _ => Dungeon.deadspots_traced fn d.vision position _ t _)
  have h := h1.andThen
    (f := fun d1 =>
      andThenLogged (foldLogged (Dungeon.probeBothLogged fn position visionReach) neighbours d1)
        fun d2 =>
          Dungeon.deadspotsLogged fn d.vision position
            (((gridCells d.size).length + 1) * ((gridCells d.size).length + 1)) d2
            (d2.listing fn d.vision).head?)
    (g := fun d1 =>
      (neighbours.foldlM (Dungeon.probeBoth fn position visionReach) d1).bind fun d2 =>
        Dungeon.deadspots fn d.vision position
          (((gridCells d.size).length + 1) * ((gridCells d.size).length + 1)) d2
          (d2.listing fn d.vision).head?)
    (fun s _ => h2 s)
  rw [Dungeon.BuildVision_eq_bind]
  obtain ⟨ha, hb, hc⟩ := h
  refine ⟨ha, hb, fun s hs => ?_⟩
  obtain ⟨hsize, hvis, hnd, _⟩ := hc s hs
  exact ⟨hsize, hvis (fun p hp => by cases hp), hnd List.nodup_nil⟩

/-! ### The last pass ends -/

theorem following_mem {order : List Vector2} {current next : Vector2}
    (h : following order current = some next) : next ∈ order := by
  unfold following at h
  have h1 : next ∈ (order.dropWhile fun p => decide (p ≠ current)).drop 1 :=
    List.mem_of_mem_head? h
  exact (List.dropWhile_sublist _).subset (List.mem_of_mem_drop h1)

theorem following_split :
    ∀ (pre : List Vector2) {post : List Vector2} {current : Vector2},
      (pre ++ current :: post).Nodup → following (pre ++ current :: post) current = post.head?
  | [], post, current, _ => by
    unfold following
    rw [List.nil_append, List.dropWhile_cons_of_neg (by simp)]
    rfl
  | a :: pre, post, current, h => by
    have hne : a ≠ current := by
      intro hc
      subst hc
      exact (List.nodup_cons.mp h).1 (List.mem_append_right _ (List.mem_cons_self _ _))
    have ih := following_split pre (List.nodup_cons.mp h).2
    unfold following at ih ⊢
    rw [List.cons_append, List.dropWhile_cons_of_pos (by simpa using hne)]
    exact ih

theorem Dungeon.listing_perm (fn : Functions) (stored : List Vector2) (d : Dungeon) :
    (d.listing fn stored).Perm d.vision :=
  List.perm_insertionSort _ _

theorem length_le_gridCells {size : Vector2} {v : List Vector2} (hn : v.Nodup)
    (hin : ∀ p ∈ v, InBounds p size) : v.length ≤ (gridCells size).length :=
  (List.subperm_of_subset hn (fun p hp => mem_gridCells.mpr (hin p hp))).length_le

theorem Dungeon.deadspotPass_frame (fn : Functions) (d : Dungeon) (hs : d.Sized) (hl : d.Live)
    (position visible : Vector2) (v : List Vector2) :
    ∃ v1, neighbours.foldlM (Dungeon.deadspot fn position visible) (d.withVision v) =
        some (d.withVision v1) ∧ (d.withVision v).Grown (d.withVision v1) := by
  obtain ⟨v1, hv1⟩ := Dungeon.foldlM_frame d (Dungeon.deadspot fn position visible)
    (fun x w => by
      unfold Dungeon.deadspot
      simp only []
      split
      · split
        · exact Dungeon.LineOfSight_frame d hs hl _ w
        · exact ⟨w, rfl⟩
      · exact ⟨w, rfl⟩)
    neighbours v
  exact ⟨v1, hv1, (Dungeon.Traced.fold
    (fun neighbour u => Dungeon.deadspot_traced fn position visible neighbour u)
    neighbours (d.withVision v)).2.2 _ hv1⟩

/-- One round of the last pass uses up the fuel it is counted for: when the body has taken
`d` to `d1` and the iterator moves on to `next`, the rounds that may still follow are fewer. -/
theorem Dungeon.deadspots_step (fn : Functions) (stored : List Vector2) {d d1 : Dungeon}
    (hg : d.Grown d1) (hn : d.vision.Nodup) (hin : d.VisionInside) {c : Vector2} {fuel : Nat}
    {pre post : List Vector2} (hlist : d.listing fn stored = pre ++ c :: post)
    (hle : ((gridCells d.size).length - d.vision.length) * ((gridCells d.size).length + 1) +
      post.length + 1 ≤ fuel + 1) :
    ∀ next, following (d1.listing fn stored) c = some next → ∃ pre1 post1,
      d1.listing fn stored = pre1 ++ next :: post1 ∧
      ((gridCells d1.size).length - d1.vision.length) * ((gridCells d1.size).length + 1) +
        post1.length + 1 ≤ fuel := by
  obtain ⟨hsize, hinside, hnodup, hgrow⟩ := hg
  have hn1 : d1.vision.Nodup := hnodup hn
  have hin1 : ∀ p ∈ d1.vision, InBounds p d.size := by
    intro p hp
    rw [← hsize]
    exact hinside hin p hp
  have hlen1 : d1.vision.length ≤ (gridCells d.size).length := length_le_gridCells hn1 hin1
  intro next hnext
  rw [hsize]
  rcases hgrow with hsame | hlonger
  · have hl1 : d1.listing fn stored = d.listing fn stored := by
      unfold Dungeon.listing
      rw [hsame]
    have hnl : (pre ++ c :: post).Nodup := by
      rw [← hlist]
      exact (Dungeon.listing_perm fn stored _).nodup_iff.mpr hn
    rw [hl1, hlist, following_split pre hnl] at hnext
    cases post with
    | nil => cases hnext
    | cons c2 post2 =>
      cases hnext
      refine ⟨pre ++ [c], post2, by rw [hl1, hlist]; simp, ?_⟩
      simp only [List.length_cons] at hle
      rw [hsame]
      omega
  · obtain ⟨s, t, hst⟩ := List.append_of_mem (following_mem hnext)
    refine ⟨s, t, hst, ?_⟩
    have hlenl : (d1.listing fn stored).length = d1.vision.length :=
      (Dungeon.listing_perm fn stored _).length_eq
    rw [hst] at hlenl
    simp only [List.length_append, List.length_cons] at hlenl
    have hmul : ((gridCells d.size).length - d1.vision.length + 1) *
        ((gridCells d.size).length + 1) ≤
        ((gridCells d.size).length - d.vision.length) * ((gridCells d.size).length + 1) :=
      Nat.mul_le_mul_right _ (by omega)
    rw [Nat.add_mul, Nat.one_mul] at hmul
    generalize ((gridCells d.size).length - d1.vision.length) *
      ((gridCells d.size).length + 1) = a at hmul ⊢
    generalize ((gridCells d.size).length - d.vision.length) *
      ((gridCells d.size).length + 1) = b at hmul hle
    omega

/-- The fuel of the last pass is never used up: from a vision set inside the grid and without
repetition, with the fuel that `Dungeon.BuildVision` gives, more fuel changes nothing. -/
theorem Dungeon.deadspots_fuel (fn : Functions) (stored : List Vector2) (position : Vector2) :
    ∀ (fuel : Nat) (d : Dungeon) (visible : Option Vector2), d.vision.Nodup →
      d.VisionInside →
      (∀ c, visible = some c → ∃ pre post, d.listing fn stored = pre ++ c :: post ∧
        ((gridCells d.size).length - d.vision.length) * ((gridCells d.size).length + 1) +
          post.length + 1 ≤ fuel) →
      ∀ extra : Nat, Dungeon.deadspots fn stored position (fuel + extra) d visible =
        Dungeon.deadspots fn stored position fuel d visible
  | fuel, d, none, _, _, _ => fun extra => by
    rw [Dungeon.deadspots_end, Dungeon.deadspots_end]
  | 0, d, some c, _, _, hb => by
    obtain ⟨pre, post, _, hle⟩ := hb c rfl
    omega
  | fuel + 1, d, some c, hn, hin, hb => by
    intro extra
    obtain ⟨pre, post, hlist, hle⟩ := hb c rfl
    have hsucc : fuel + 1 + extra = (fuel + extra) + 1 := by omega
    rw [hsucc, Dungeon.deadspots_eq_bind, Dungeon.deadspots_eq_bind]
    cases hbody : neighbours.foldlM (Dungeon.deadspot fn position c) d with
    | none => rfl
    | some d1 =>
      have hg : d.Grown d1 := (Dungeon.Traced.fold
        (fun neighbour u => Dungeon.deadspot_traced fn position c neighbour u)
        neighbours d).2.2 _ hbody
      exact Dungeon.deadspots_fuel fn stored position fuel d1 _ (hg.2.2.1 hn) (hg.2.1 hin)
        (fun next hnext => Dungeon.deadspots_step fn stored hg hn hin hlist hle next hnext)
        extra

theorem Dungeon.deadspots_frame (fn : Functions) (stored : List Vector2) (position : Vector2)
    (d : Dungeon) (hs : d.Sized) (hl : d.Live) :
    ∀ (fuel : Nat) (v : List Vector2) (visible : Option Vector2), v.Nodup →
      (∀ p ∈ v, InBounds p d.size) →
      (∀ c, visible = some c → ∃ pre post,
        (d.withVision v).listing fn stored = pre ++ c :: post ∧
        ((gridCells d.size).length - v.length) * ((gridCells d.size).length + 1) +
          post.length + 1 ≤ fuel) →
      ∃ v1, Dungeon.deadspots fn stored position fuel (d.withVision v) visible =
        some (d.withVision v1)
  | fuel, v, none, _, _, _ => ⟨v, Dungeon.deadspots_end fn stored position fuel _⟩
  | 0, v, some c, _, _, hb => by
    obtain ⟨pre, post, _, hle⟩ := hb c rfl
    omega
  | fuel + 1, v, some c, hn, hin, hb => by
    obtain ⟨pre, post, hlist, hle⟩ := hb c rfl
    obtain ⟨v1, hbody, hg⟩ := Dungeon.deadspotPass_frame fn d hs hl position c v
    rw [Dungeon.deadspots_eq_bind, hbody]
    exact Dungeon.deadspots_frame fn stored position d hs hl fuel v1 _ (hg.2.2.1 hn)
      (hg.2.1 hin)
      (fun next hnext => Dungeon.deadspots_step fn stored hg hn hin hlist hle next hnext)

theorem Dungeon.deadspots_start (fn : Functions) (stored : List Vector2) {d : Dungeon}
    (hn : d.vision.Nodup) (hin : d.VisionInside) :
    ∀ c, (d.listing fn stored).head? = some c → ∃ pre post,
      d.listing fn stored = pre ++ c :: post ∧
      ((gridCells d.size).length - d.vision.length) * ((gridCells d.size).length + 1) +
        post.length + 1 ≤ ((gridCells d.size).length + 1) * ((gridCells d.size).length + 1) := by
  intro c hc
  have hlen : d.vision.length ≤ (gridCells d.size).length := length_le_gridCells hn hin
  have hlenl : (d.listing fn stored).length = d.vision.length :=
    (Dungeon.listing_perm fn stored _).length_eq
  cases hl2 : d.listing fn stored with
  | nil => rw [hl2] at hc; cases hc
  | cons c2 post =>
    rw [hl2] at hc hlenl
    cases hc
    refine ⟨[], post, rfl, ?_⟩
    simp only [List.length_cons] at hlenl
    have hmul : ((gridCells d.size).length - d.vision.length) *
        ((gridCells d.size).length + 1) ≤
        (gridCells d.size).length * ((gridCells d.size).length + 1) :=
      Nat.mul_le_mul_right _ (by omega)
    rw [Nat.add_mul, Nat.one_mul]
    generalize ((gridCells d.size).length - d.vision.length) *
      ((gridCells d.size).length + 1) = a at hmul ⊢
    generalize (gridCells d.size).length * ((gridCells d.size).length + 1) = b at hmul ⊢
    omega

/-- The outcome of `Dungeon.BuildVision` does not depend on the fuel of its last pass: with
any amount of fuel added, it is the same. -/
theorem Dungeon.BuildVision_fuel (fn : Functions) (d : Dungeon) (position : Vector2)
    (visionReach : Int) (extra : Nat) :
    d.BuildVision fn position visionReach =
      ((fn.BresenhamCircle position visionReach).foldlM
        (fun (s : Dungeon) endpoint => s.LineOfSight (fn.BresenhamLine position endpoint))
        { d with vision := [] }).bind fun d1 =>
        (neighbours.foldlM (Dungeon.probeBoth fn position visionReach) d1).bind fun d2 =>
          Dungeon.deadspots fn d.vision position
            (((gridCells d.size).length + 1) * ((gridCells d.size).length + 1) + extra) d2
            (d2.listing fn d.vision).head? := by
  rw [Dungeon.BuildVision_eq_bind]
  cases h1 : (fn.BresenhamCircle position visionReach).foldlM
      (fun (s : Dungeon) endpoint => s.LineOfSight (fn.BresenhamLine position endpoint))
      { d with vision := [] } with
  | none => rfl
  | some d1 =>
    have hg1 : Dungeon.Grown { d with vision := [] } d1 := (Dungeon.Traced.fold
      (f := fun s endpoint => s.LineOfSightLogged (fn.BresenhamLine position endpoint))
      (g := fun s endpoint => s.LineOfSight (fn.BresenhamLine position endpoint))
      (fun x s => Dungeon.LineOfSight_traced _ s) (fn.BresenhamCircle position visionReach)
      { d with vision := [] }).2.2 _ h1
    show (neighbours.foldlM (Dungeon.probeBoth fn position visionReach) d1).bind _ =
      (neighbours.foldlM (Dungeon.probeBoth fn position visionReach) d1).bind _
    cases h2 : neighbours.foldlM (Dungeon.probeBoth fn position visionReach) d1 with
    | none => rfl
    | some d2 =>
      have hg2 : d1.Grown d2 := (Dungeon.Traced.fold
        (fun neighbour u => Dungeon.probeBoth_traced fn position visionReach neighbour u)
        neighbours d1).2.2 _ h2
      obtain ⟨hsize, hinside, hnodup, _⟩ := hg1.trans hg2
      have hn2 : d2.vision.Nodup := hnodup List.nodup_nil
      have hin2 : d2.VisionInside := hinside (fun p hp => by cases hp)
      have hsize2 : d2.size = d.size := hsize
      have hstart := Dungeon.deadspots_start fn d.vision hn2 hin2
      rw [hsize2] at hstart
      exact (Dungeon.deadspots_fuel fn d.vision position _ d2 _ hn2 hin2
        (by rw [hsize2]; exact hstart) extra).symm

theorem Dungeon.BuildVision_frame (fn : Functions) (d : Dungeon) (hs : d.Sized) (hl : d.Live)
    (position : Vector2) (visionReach : Int) :
    ∃ v, d.BuildVision fn position visionReach = some (d.withVision v) := by
  obtain ⟨v1, hv1⟩ := Dungeon.foldlM_frame d
    (fun s endpoint => s.LineOfSight (fn.BresenhamLine position endpoint))
    (fun x v => Dungeon.LineOfSight_frame d hs hl _ v)
    (fn.BresenhamCircle position visionReach) []
  obtain ⟨v2, hv2⟩ := Dungeon.foldlM_frame d (Dungeon.probeBoth fn position visionReach)
    (fun x v => by
      unfold Dungeon.probeBoth
      obtain ⟨w1, hw1⟩ := Dungeon.probe_frame d hs hl x.1 1
        (fn.BresenhamLine position (position + x.1.scale visionReach)) v
      obtain ⟨w2, hw2⟩ := Dungeon.probe_frame d hs hl x.1 (-1)
        (fn.BresenhamLine position (position + x.1.scale visionReach)) w1
      exact ⟨w2, by simp only [hw1, hw2]⟩)
    neighbours v1
  have hg1 : (d.withVision []).Grown (d.withVision v1) := (Dungeon.Traced.fold
    (f := fun s endpoint => s.LineOfSightLogged (fn.BresenhamLine position endpoint))
    (g := fun s endpoint => s.LineOfSight (fn.BresenhamLine position endpoint))
    (fun x s => Dungeon.LineOfSight_traced _ s) (fn.BresenhamCircle position visionReach)
    (d.withVision [])).2.2 _ hv1
  have hg2 : (d.withVision v1).Grown (d.withVision v2) := (Dungeon.Traced.fold
    (fun neighbour u => Dungeon.probeBoth_traced fn position visionReach neighbour u)
    neighbours (d.withVision v1)).2.2 _ hv2
  obtain ⟨_, hinside, hnodup, _⟩ := hg1.trans hg2
  have hn2 : v2.Nodup := hnodup List.nodup_nil
  have hin2 : ∀ p ∈ v2, InBounds p d.size := hinside (fun p hp => by cases hp)
  obtain ⟨v3, hv3⟩ := Dungeon.deadspots_frame fn d.vision position d hs hl
    (((gridCells d.size).length + 1) * ((gridCells d.size).length + 1)) v2
    ((d.withVision v2).listing fn d.vision).head? hn2 hin2
    (Dungeon.deadspots_start fn d.vision (d := d.withVision v2) hn2 hin2)
  refine ⟨v3, ?_⟩
  rw [Dungeon.BuildVision_eq_bind]
  have h0 : ({ d with vision := [] } : Dungeon) = d.withVision [] := rfl
  rw [h0, hv1]
  show (neighbours.foldlM (Dungeon.probeBoth fn position visionReach) (d.withVision v1)).bind _ = _
  rw [hv2]
  exact hv3
/-! ## Claims C1 and C2: rotation -/

/-- C1: in a dungeon whose entities are each listed in the tile at their stored position,
`Dungeon::Rotate` returns, and for every cell `p` of the old grid the tile that the new grid
addresses row-major at `PositionRotate(p, oldSize, o)` is the tile the old grid held at `p`
(same occupant sequence, same icon); every entity's position is rotated and is the cell whose
tile lists it, and so is the player's when the player was listed at its position. -/
theorem Rotate_moves_tiles_with_positions (d : Dungeon) (o : Orientation) (hs : d.Sized)
    (hl : ∀ en ∈ d.entities, d.Lists en.2.position (.entity en.1)) :
    ∃ d', d.Rotate o = some d' ∧ d'.size = rotatedSize d.size o ∧
      (∀ p, InBounds p d.size →
        InBounds (PositionRotate p d.size o) d'.size ∧
        ∃ t, d.GetTile p = some t ∧ d'.GetTile (PositionRotate p d.size o) = some t) ∧
      d'.entities = d.entities.map (fun en =>
        (en.1, { en.2 with position := PositionRotate en.2.position d.size o })) ∧
      (∀ en ∈ d'.entities, d'.Lists en.2.position (.entity en.1)) ∧
      d'.player.base.position = PositionRotate d.player.base.position d.size o ∧
      (d.Lists d.player.base.position .player → d'.Lists d'.player.base.position .player) := by
  obtain ⟨d', hrot, hsize, _, hget, _, hent, _, _, _, hplayer⟩ := Dungeon.Rotate_spec d o hs
  have hcell : ∀ p, InBounds p d.size →
      InBounds (PositionRotate p d.size o) d'.size ∧
      ∃ t, d.GetTile p = some t ∧ d'.GetTile (PositionRotate p d.size o) = some t := by
    intro p hp
    obtain ⟨t, ht⟩ := Dungeon.GetTile_of_inBounds hs hp
    exact ⟨by rw [hsize]; exact PositionRotate_inBounds o hp, t, ht, by rw [hget p hp, ht]⟩
  have hlists : ∀ p r, d.Lists p r → d'.Lists (PositionRotate p d.size o) r := by
    intro p r hpr
    obtain ⟨hp, hr⟩ := hpr
    obtain ⟨hb, t, ht, ht'⟩ := hcell p hp
    rw [ht] at hr
    exact ⟨hb, by rw [ht']; exact hr⟩
  refine ⟨d', hrot, hsize, hcell, hent, ?_, by rw [hplayer], ?_⟩
  · intro en hen
    rw [hent] at hen
    obtain ⟨en0, hen0, rfl⟩ := List.mem_map.mp hen
    exact hlists _ _ (hl en0 hen0)
  · intro h
    rw [hplayer]
    exact hlists _ _ h

/-- Witness for C1: the sample dungeon turned by 90 degrees. -/
theorem Rotate_moves_tiles_with_positions_witness :
    ∃ d', sampleDungeon.Rotate .East = some d' ∧ d'.size = ⟨2, 3⟩ ∧
      d'.GetTile ⟨1, 2⟩ = some ⟨'#', [.entity 0]⟩ ∧
      d'.entities = [(0, sampleWall ⟨1, 2⟩)] ∧
      d'.player.base.position = ⟨0, 1⟩ := by
  obtain ⟨d', h, hsize, hcell, hent, _, hpl, _⟩ :=
    Rotate_moves_tiles_with_positions sampleDungeon .East (by decide) (by decide)
  refine ⟨d', h, hsize, ?_, hent, hpl⟩
  obtain ⟨_, t, ht, ht'⟩ := hcell ⟨2, 0⟩ (by decide)
  have : sampleDungeon.GetTile ⟨2, 0⟩ = some ⟨'#', [.entity 0]⟩ := by decide
  rw [this] at ht
  cases ht
  exact ht'

theorem PositionRotate_four (p size : Vector2) :
    PositionRotate (PositionRotate (PositionRotate (PositionRotate p size .East)
      ⟨size.y, size.x⟩ .East) size .East) ⟨size.y, size.x⟩ .East = p := by
  obtain ⟨x, y⟩ := p
  simp only [PositionRotate, Vector2.mk.injEq]
  constructor <;> ring

/-- C2: four successive calls of `Dungeon::Rotate` with the 90-degree orientation return, and
bring the grid size, every entity (hence its position), the vision set and the player (hence
its position) back to their original values. -/
theorem Rotate_four_quarter_turns (d : Dungeon) (hs : d.Sized) :
    ∃ d4, d.RotateTimes .East 4 = some d4 ∧ d4.size = d.size ∧ d4.entities = d.entities ∧
      (∀ p, p ∈ d4.vision ↔ p ∈ d.vision) ∧ d4.player = d.player := by
  obtain ⟨d1, h1, s1, _, _, _, e1, v1, _, _, p1⟩ := Dungeon.Rotate_spec d .East hs
  have hs1 := Dungeon.Rotate_sized hs h1
  obtain ⟨d2, h2, s2, _, _, _, e2, v2, _, _, p2⟩ := Dungeon.Rotate_spec d1 .East hs1
  have hs2 := Dungeon.Rotate_sized hs1 h2
  obtain ⟨d3, h3, s3, _, _, _, e3, v3, _, _, p3⟩ := Dungeon.Rotate_spec d2 .East hs2
  have hs3 := Dungeon.Rotate_sized hs2 h3
  obtain ⟨d4, h4, s4, _, _, _, e4, v4, _, _, p4⟩ := Dungeon.Rotate_spec d3 .East hs3
  have hsize1 : d1.size = ⟨d.size.y, d.size.x⟩ := s1
  have hsize2 : d2.size = d.size := by rw [s2, hsize1]; rfl
  have hsize3 : d3.size = ⟨d.size.y, d.size.x⟩ := by rw [s3, hsize2]; rfl
  refine ⟨d4, by simp [Dungeon.RotateTimes, h1, h2, h3, h4], by rw [s4, hsize3]; rfl, ?_, ?_, ?_⟩
  · rw [e4, e3, e2, e1, hsize1, hsize2, hsize3]
    simp only [List.map_map]
    conv_rhs => rw [← List.map_id d.entities]
    apply List.map_congr_left
    intro en _
    simp only [Function.comp_apply, PositionRotate_four, id_eq]
  · intro p
    rw [v4, hsize3]
    constructor
    · rintro ⟨q3, hq3, rfl⟩
      obtain ⟨q2, hq2, rfl⟩ := (v3 q3).mp hq3
      obtain ⟨q1, hq1, rfl⟩ := (v2 q2).mp hq2
      obtain ⟨q0, hq0, rfl⟩ := (v1 q1).mp hq1
      rw [hsize2, hsize1, PositionRotate_four]
      exact hq0
    · intro hp
      refine ⟨_, (v3 _).mpr ⟨_, (v2 _).mpr ⟨_, (v1 _).mpr ⟨p, hp, rfl⟩, rfl⟩, rfl⟩, ?_⟩
      rw [hsize2, hsize1, PositionRotate_four]
  · rw [p4, p3, p2, p1, hsize1, hsize2, hsize3]
    simp only [PositionRotate_four]

/-- Witness for C2: the sample dungeon. -/
theorem Rotate_four_quarter_turns_witness :
    ∃ d4, sampleDungeon.RotateTimes .East 4 = some d4 ∧ d4.size = sampleDungeon.size ∧
      d4.entities = sampleDungeon.entities ∧
      (∀ p, p ∈ d4.vision ↔ p ∈ sampleDungeon.vision) ∧ d4.player = sampleDungeon.player :=
  Rotate_four_quarter_turns sampleDungeon (by decide)

/-! ## The entity collection as a finite map -/

theorem lookup_cons_ite (k : Nat) (b : Entity) (es : List (Nat × Entity)) (a : Nat) :
    ((k, b) :: es).lookup a = if a = k then some b else es.lookup a := by
  rw [List.lookup_cons]
  by_cases h : a = k
  · have : (a == k) = true := by simpa using h
    rw [this, if_pos h]
  · have : (a == k) = false := by simpa using h
    rw [this, if_neg h]

theorem lookup_of_mem {l : List (Nat × Entity)} (hn : (l.map Prod.fst).Nodup) {id : Nat}
    {e : Entity} (h : (id, e) ∈ l) : l.lookup id = some e := by
  induction l with
  | nil => cases h
  | cons a l ih =>
    obtain ⟨k, v⟩ := a
    simp only [List.map_cons, List.nodup_cons, List.mem_map, not_exists, not_and] at hn
    rw [lookup_cons_ite]
    rcases List.mem_cons.mp h with h1 | h1
    · cases h1
      simp
    · have hne : id ≠ k := by
        rintro rfl
        exact hn.1 (id, e) h1 rfl
      rw [if_neg hne]
      exact ih hn.2 h1

theorem mem_of_lookup {l : List (Nat × Entity)} {id : Nat} {e : Entity}
    (h : l.lookup id = some e) : (id, e) ∈ l := by
  obtain ⟨l1, l2, rfl, _⟩ := List.lookup_eq_some_iff.mp h
  simp

theorem lookup_none_of_fresh {l : List (Nat × Entity)} {n : Nat} (h : ∀ en ∈ l, en.1 < n) :
    l.lookup n = none := by
  rw [List.lookup_eq_none_iff]
  intro p hp
  have := h p hp
  simp only [bne_iff_ne, ne_eq]
  omega

theorem lookup_push {l : List (Nat × Entity)} {n : Nat} (h : ∀ en ∈ l, en.1 < n) (e : Entity)
    (id : Nat) : (l ++ [(n, e)]).lookup id = if id = n then some e else l.lookup id := by
  rw [List.lookup_append, lookup_cons_ite]
  by_cases hid : id = n
  · subst hid
    simp [lookup_none_of_fresh h]
  · simp only [hid, if_false, List.lookup_nil]
    cases l.lookup id <;> rfl

theorem lookup_modify (l : List (Nat × Entity)) (f : Entity → Entity) (id k : Nat) :
    (l.map fun en => if en.1 = id then (en.1, f en.2) else en).lookup k =
      if k = id then (l.lookup k).map f else l.lookup k := by
  induction l with
  | nil => simp
  | cons a l ih =>
    obtain ⟨a1, a2⟩ := a
    simp only [List.map_cons]
    by_cases h1 : a1 = id
    · subst h1
      rw [if_pos rfl, lookup_cons_ite, lookup_cons_ite, ih]
      by_cases h2 : k = a1
      · simp [h2]
      · simp [h2]
    · rw [if_neg h1, lookup_cons_ite, lookup_cons_ite, ih]
      by_cases h2 : k = a1
      · subst h2
        simp [h1]
      · simp [h2]

theorem lookup_eraseP {l : List (Nat × Entity)} (hn : (l.map Prod.fst).Nodup) (id k : Nat) :
    (l.eraseP fun en => en.1 == id).lookup k = if k = id then none else l.lookup k := by
  induction l with
  | nil => simp
  | cons a l ih =>
    obtain ⟨a1, a2⟩ := a
    simp only [List.map_cons, List.nodup_cons, List.mem_map, not_exists, not_and] at hn
    by_cases h1 : a1 = id
    · subst h1
      rw [List.eraseP_cons_of_pos (by simp), lookup_cons_ite]
      by_cases h2 : k = a1
      · subst h2
        simp only [if_true, List.lookup_eq_none_iff, bne_iff_ne, ne_eq]
        intro p hp heq
        exact hn.1 p hp heq.symm
      · simp [h2]
    · rw [List.eraseP_cons_of_neg (by simpa using h1), lookup_cons_ite, lookup_cons_ite,
        ih hn.2]
      by_cases h2 : k = a1
      · subst h2
        simp [h1]
      · simp [h2]

theorem map_fst_modify (l : List (Nat × Entity)) (f : Entity → Entity) (id : Nat) :
    (l.map fun en => if en.1 = id then (en.1, f en.2) else en).map Prod.fst = l.map Prod.fst := by
  rw [List.map_map]
  apply List.map_congr_left
  intro en _
  simp only [Function.comp_apply]
  split <;> rfl

/-! ## Occupant lists under the tile primitives -/

theorem tracks_set {tiles : List Tile} {L L' : Nat → Nat → Nat} {k : Nat} (c : Char)
    {occupants : List Ref} (h : Tracks tiles L)
    (hat : ∀ id, occupants.count (.entity id) = L' k id)
    (hoff : ∀ i, i ≠ k → i < tiles.length → ∀ id, L' i id = L i id) :
    Tracks (tiles.set k ⟨c, occupants⟩) L' := by
  intro i t ht id
  rw [List.getElem?_set] at ht
  by_cases hik : k = i
  · subst hik
    rw [if_pos rfl] at ht
    split at ht
    · cases ht
      exact hat id
    · cases ht
  · rw [if_neg hik] at ht
    rw [h i t ht id, hoff i (Ne.symm hik) (List.getElem?_eq_some.mp ht).1 id]

theorem count_push (l : List Ref) (id id' : Nat) :
    (l ++ [Ref.entity id]).count (.entity id') = l.count (.entity id') + if id' = id then 1 else 0 := by
  rw [List.count_append, List.count_singleton]
  by_cases h : id' = id
  · subst h
    simp
  · have : ¬ (Ref.entity id = Ref.entity id') := by
      intro heq
      cases heq
      exact h rfl
    simp [h, this]

theorem count_scrub (l : List Ref) (id id' : Nat) :
    (l.filter fun r => r ≠ Ref.entity id).count (.entity id') =
      if id' = id then 0 else l.count (.entity id') := by
  by_cases h : id' = id
  · subst h
    rw [if_pos rfl, List.count_eq_zero]
    simp
  · rw [if_neg h, List.count_filter]
    simp only [ne_eq, decide_not, Bool.not_eq_eq_eq_not, Bool.not_true, decide_eq_false_iff_not]
    intro heq
    cases heq
    exact h rfl

theorem Dungeon.topIcon_live (d : Dungeon) {l : List Ref}
    (h : ∀ r ∈ l, (d.deref r).isSome = true) : ∃ c, d.topIcon l = some c := by
  unfold Dungeon.topIcon
  cases hl : l.getLast? with
  | none => exact ⟨'-', rfl⟩
  | some r =>
    obtain ⟨e, he⟩ := Option.isSome_iff_exists.mp (h r (List.mem_of_getLast?_eq_some hl))
    exact ⟨e.icon, by simp [he]⟩

theorem Dungeon.OccupantRemove_live {d : Dungeon} {p : Vector2} {t : Tile} {r : Ref}
    (ht : d.GetTile p = some t) (hl : ∀ r' ∈ t.occupants, (d.deref r').isSome = true)
    (hr : (d.deref r).isSome = true) :
    ∃ c, d.topIcon (t.occupants.filter (fun r' => r' ≠ r)) = some c ∧
      d.OccupantRemove p r = some (d.withTiles (d.tiles.set (tileIndex d.size p).toNat
        ⟨c, t.occupants.filter (fun r' => r' ≠ r)⟩)) := by
  obtain ⟨c, hc⟩ := Dungeon.topIcon_live d (l := t.occupants.filter (fun r' => r' ≠ r))
    (fun r' hr' => hl r' (List.mem_of_mem_filter hr'))
  exact ⟨c, hc, Dungeon.OccupantRemove_eq_some.mpr ⟨t, c, ht, hl, hr, hc, rfl⟩⟩

theorem Dungeon.OccupantInsert_live {d : Dungeon} {p : Vector2} {t : Tile} {r : Ref} {e : Entity}
    (ht : d.GetTile p = some t) (hr : d.deref r = some e) :
    d.OccupantInsert p r = some (d.withTiles (d.tiles.set (tileIndex d.size p).toNat
      ⟨e.icon, t.occupants ++ [r]⟩)) :=
  Dungeon.OccupantInsert_eq_some.mpr ⟨t, e, ht, hr, rfl⟩

theorem Dungeon.Consistent.live {d : Dungeon} (h : d.Consistent) : d.Live := by
  intro t ht r hr
  cases r with
  | player => rfl
  | entity id =>
    obtain ⟨i, hi⟩ := List.mem_iff_getElem?.mp ht
    have hc := h.2.2.2.2 i t hi id
    have hpos : 0 < t.occupants.count (.entity id) := List.count_pos_iff.mpr hr
    rw [hc] at hpos
    unfold Dungeon.listings at hpos
    show (d.entities.lookup id).isSome = true
    cases hlook : d.entities.lookup id with
    | none => simp [hlook] at hpos
    | some e => rfl

theorem tileIndex_inj {size p q : Vector2} (hp : InBounds p size) (hq : InBounds q size)
    (h : tileIndex size p = tileIndex size q) : p = q := by
  obtain ⟨h1, h2, _, _⟩ := hp
  obtain ⟨h1', h2', _, _⟩ := hq
  obtain ⟨hy, hx⟩ := index_inj h1 h2 h1' h2' h
  cases p
  cases q
  simp only [Vector2.mk.injEq]
  exact ⟨hx, hy⟩

theorem Dungeon.GetTile_eq_getElem? {d : Dungeon} {p : Vector2} {t : Tile}
    (h : d.GetTile p = some t) :
    0 ≤ tileIndex d.size p ∧ d.tiles[(tileIndex d.size p).toNat]? = some t :=
  tileAt_eq_some.mp h

/-! ## The occupancy invariant under EntityInsert, EntityRemove and MovementRandom -/

theorem Dungeon.EntityInsert_consistent {d : Dungeon} (h : d.Consistent) {p : Vector2}
    (hp : InBounds p d.size) (e : Entity) :
    ∃ d', d.EntityInsert p e = some d' ∧ d'.Consistent ∧ d'.size = d.size := by
  obtain ⟨hs, hn, hf, hb, htr⟩ := h
  obtain ⟨t, ht⟩ := Dungeon.GetTile_of_inBounds hs hp
  obtain ⟨h0, hget⟩ := Dungeon.GetTile_eq_getElem? ht
  have hlook : ∀ id, (d.entities ++ [(d.fresh, { e with position := p })]).lookup id =
      if id = d.fresh then some { e with position := p } else d.entities.lookup id :=
    lookup_push hf _
  refine ⟨_, Dungeon.OccupantInsert_live (d := { d with
      entities := d.entities ++ [(d.fresh, { e with position := p })],
      fresh := d.fresh + 1 }) (e := { e with position := p }) ht ?_, ?_, rfl⟩
  · show (d.entities ++ [(d.fresh, { e with position := p })]).lookup d.fresh = _
    rw [hlook, if_pos rfl]
  · refine ⟨⟨hs.1, hs.2.1, ?_⟩, ?_, ?_, ?_, ?_⟩
    · show ((d.tiles.set _ _).length : Int) = _
      rw [List.length_set]
      exact hs.2.2
    · show ((d.entities ++ [(d.fresh, { e with position := p })]).map Prod.fst).Nodup
      rw [List.map_append, List.map_singleton]
      refine List.Nodup.append hn (List.nodup_singleton _) ?_
      intro a ha ha'
      rw [List.mem_singleton] at ha'
      obtain ⟨en, hen, rfl⟩ := List.mem_map.mp ha
      have := hf en hen
      omega
    · intro en hen
      show en.1 < d.fresh + 1
      rcases List.mem_append.mp hen with hen | hen
      · have := hf en hen
        omega
      · rw [List.mem_singleton] at hen
        subst hen
        exact Nat.lt_succ_self _
    · intro en hen
      rcases List.mem_append.mp hen with hen | hen
      · exact hb en hen
      · rw [List.mem_singleton] at hen
        subst hen
        exact hp
    · refine tracks_set _ htr ?_ ?_
      · intro id
        rw [count_push, htr _ t hget id]
        unfold Dungeon.listings
        show _ = match (d.entities ++ [(d.fresh, { e with position := p })]).lookup id with
          | none => 0
          | some e' => if tileIndex d.size e'.position = _ then 1 else 0
        rw [hlook]
        by_cases hid : id = d.fresh
        · subst hid
          rw [lookup_none_of_fresh hf]
          simp [Int.toNat_of_nonneg h0]
        · simp [hid]
      · intro i hik _ id
        unfold Dungeon.listings
        show (match (d.entities ++ [(d.fresh, { e with position := p })]).lookup id with
          | none => 0
          | some e' => if tileIndex d.size e'.position = _ then 1 else 0) = _
        rw [hlook]
        by_cases hid : id = d.fresh
        · subst hid
          rw [lookup_none_of_fresh hf]
          have : ¬ tileIndex d.size p = (i : Int) := by
            intro heq
            apply hik
            rw [heq]
            simp
          simp [this]
        · simp [hid]

theorem Dungeon.EntityRemove_consistent {d : Dungeon} (h : d.Consistent) {id : Nat} {e : Entity}
    (he : d.entities.lookup id = some e) :
    ∃ d', d.EntityRemove e.position (.entity id) = some d' ∧ d'.Consistent ∧
      d'.size = d.size := by
  have hlive := h.live
  obtain ⟨hs, hn, hf, hb, htr⟩ := h
  have hp : InBounds e.position d.size := hb (id, e) (mem_of_lookup he)
  obtain ⟨t, ht⟩ := Dungeon.GetTile_of_inBounds hs hp
  obtain ⟨h0, hget⟩ := Dungeon.GetTile_eq_getElem? ht
  obtain ⟨c, _, hrem⟩ := Dungeon.OccupantRemove_live (r := .entity id) ht
    (hlive t (tileAt_mem ht)) (by show (d.entities.lookup id).isSome = true; rw [he]; rfl)
  have hrun : d.EntityRemove e.position (.entity id) = some
      { (d.withTiles (d.tiles.set (tileIndex d.size e.position).toNat
          ⟨c, t.occupants.filter (fun r' => r' ≠ Ref.entity id)⟩)) with
        entities := d.entities.eraseP (fun en => en.1 == id) } := by
    simp only [Dungeon.EntityRemove, he, Option.isSome_some, if_true, hrem]
    rfl
  refine ⟨_, hrun, ?_, rfl⟩
  have hlook : ∀ k, (d.entities.eraseP fun en => en.1 == id).lookup k =
      if k = id then none else d.entities.lookup k := lookup_eraseP hn id
  refine ⟨⟨hs.1, hs.2.1, ?_⟩, ?_, ?_, ?_, ?_⟩
  · show ((d.tiles.set _ _).length : Int) = _
    rw [List.length_set]
    exact hs.2.2
  · exact hn.sublist ((List.eraseP_sublist _).map _)
  · intro en hen
    exact hf en (List.mem_of_mem_eraseP hen)
  · intro en hen
    exact hb en (List.mem_of_mem_eraseP hen)
  · refine tracks_set _ htr ?_ ?_
    · intro id'
      rw [count_scrub, htr _ t hget id']
      unfold Dungeon.listings
      show _ = match (d.entities.eraseP fun en => en.1 == id).lookup id' with
        | none => 0
        | some e' => if tileIndex d.size e'.position = _ then 1 else 0
      rw [hlook]
      by_cases hid : id' = id
      · simp [hid]
      · simp [hid]
    · intro i hik _ id'
      unfold Dungeon.listings
      show (match (d.entities.eraseP fun en => en.1 == id).lookup id' with
        | none => 0
        | some e' => if tileIndex d.size e'.position = _ then 1 else 0) = _
      rw [hlook]
      by_cases hid : id' = id
      · subst hid
        have : ¬ tileIndex d.size e.position = (i : Int) := by
          intro heq
          apply hik
          rw [heq]
          simp
        simp [he, this]
      · simp [hid]

theorem Dungeon.moveEntity_consistent (draw : Nat → Vector2 → Vector2) {d : Dungeon}
    (h : d.Consistent) {id : Nat} {e : Entity} (he : (id, e) ∈ d.entities) :
    ∃ d', d.moveEntity draw (id, e) = some d' ∧ d'.Consistent ∧ d'.size = d.size ∧
      ∀ en ∈ d.entities, en.1 ≠ id → en ∈ d'.entities := by
  have hlive := h.live
  have hkeep : ∃ d', some d = some d' ∧ d'.Consistent ∧ d'.size = d.size ∧
      ∀ en ∈ d.entities, en.1 ≠ id → en ∈ d'.entities :=
    ⟨d, rfl, h, rfl, fun en hen _ => hen⟩
  obtain ⟨hs, hn, hf, hb, htr⟩ := h
  have hlk : d.entities.lookup id = some e := lookup_of_mem hn he
  unfold Dungeon.moveEntity
  split
  swap
  · exact hkeep
  dsimp only
  split
  swap
  · exact hkeep
  next _ hmov =>
  obtain ⟨b, hb'⟩ := Dungeon.TileLacking_inBounds hs hlive hmov Attributes.Obstacle
  rw [hb']
  cases b
  · exact hkeep
  dsimp only
  -- the entity leaves its tile
  have hp : InBounds e.position d.size := hb (id, e) he
  obtain ⟨t1, ht1⟩ := Dungeon.GetTile_of_inBounds hs hp
  obtain ⟨h01, hget1⟩ := Dungeon.GetTile_eq_getElem? ht1
  obtain ⟨c1, _, hrem⟩ := Dungeon.OccupantRemove_live (r := .entity id) ht1
    (hlive t1 (tileAt_mem ht1)) (by show (d.entities.lookup id).isSome = true; rw [hlk]; rfl)
  rw [hrem]
  dsimp only
  -- and enters the tile at `moving`
  have hlen1 : (d.tiles.set (tileIndex d.size e.position).toNat
      ⟨c1, t1.occupants.filter (fun r' => r' ≠ Ref.entity id)⟩).length = d.tiles.length :=
    List.length_set _ _ _
  have hs2 : ((d.withTiles (d.tiles.set (tileIndex d.size e.position).toNat
      ⟨c1, t1.occupants.filter (fun r' => r' ≠ Ref.entity id)⟩)).modify
        (fun e' => { e' with position := draw id e.position }) (.entity id)).Sized :=
    ⟨hs.1, hs.2.1, by
      show ((d.tiles.set _ _).length : Int) = _
      rw [hlen1]
      exact hs.2.2⟩
  obtain ⟨t2, ht2⟩ := Dungeon.GetTile_of_inBounds hs2 hmov
  obtain ⟨h02, hget2⟩ := Dungeon.GetTile_eq_getElem? ht2
  replace h02 : 0 ≤ tileIndex d.size (draw id e.position) := h02
  replace hget2 : (d.tiles.set (tileIndex d.size e.position).toNat
      ⟨c1, t1.occupants.filter (fun r' => r' ≠ Ref.entity id)⟩)[
        (tileIndex d.size (draw id e.position)).toNat]? = some t2 := hget2
  have hlook : ∀ k, (d.entities.map fun en =>
        if en.1 = id then (en.1, { en.2 with position := draw id e.position }) else en).lookup k =
      if k = id then (d.entities.lookup k).map
        (fun e' => { e' with position := draw id e.position }) else d.entities.lookup k :=
    fun k => lookup_modify d.entities (fun e' => { e' with position := draw id e.position }) id k
  have hins := Dungeon.OccupantInsert_live (r := .entity id)
    (e := { e with position := draw id e.position }) ht2
    (by
      show (d.entities.map fun en =>
        if en.1 = id then (en.1, { en.2 with position := draw id e.position })
        else en).lookup id = _
      rw [hlook, if_pos rfl, hlk]
      rfl)
  rw [hins]
  refine ⟨_, rfl, ?_, rfl, ?_⟩
  swap
  · intro en hen hne
    show en ∈ d.entities.map _
    exact List.mem_map.mpr ⟨en, hen, by rw [if_neg hne]⟩
  -- the invariant
  have htr1 : Tracks (d.tiles.set (tileIndex d.size e.position).toNat
      ⟨c1, t1.occupants.filter (fun r' => r' ≠ Ref.entity id)⟩)
      (fun i id' => if i = (tileIndex d.size e.position).toNat ∧ id' = id then 0
        else d.listings i id') := by
    refine tracks_set _ htr ?_ ?_
    · intro id'
      rw [count_scrub, htr _ t1 hget1 id']
      by_cases hid : id' = id
      · simp [hid]
      · simp [hid]
    · intro i hik _ id'
      simp [hik]
  have hlist : ∀ i, d.listings i id = if tileIndex d.size e.position = (i : Int) then 1 else 0 := by
    intro i
    unfold Dungeon.listings
    rw [hlk]
  refine ⟨⟨hs.1, hs.2.1, ?_⟩, ?_, ?_, ?_, ?_⟩
  · show ((List.set _ _ _).length : Int) = _
    rw [List.length_set]
    exact hs2.2.2
  · have hm := map_fst_modify d.entities
      (fun e' => { e' with position := draw id e.position }) id
    show ((d.entities.map fun en => if en.1 = id then
      (en.1, (fun e' => { e' with position := draw id e.position }) en.2) else en).map
        Prod.fst).Nodup
    rw [hm]
    exact hn
  · intro en hen
    obtain ⟨en0, hen0, rfl⟩ := List.mem_map.mp hen
    have := hf en0 hen0
    show _ < d.fresh
    split <;> exact this
  · intro en hen
    obtain ⟨en0, hen0, rfl⟩ := List.mem_map.mp hen
    show InBounds _ d.size
    split
    · exact hmov
    · exact hb en0 hen0
  · show Tracks ((d.tiles.set (tileIndex d.size e.position).toNat
      ⟨c1, t1.occupants.filter (fun r' => r' ≠ Ref.entity id)⟩).set
        (tileIndex d.size (draw id e.position)).toNat
        ⟨Entity.icon { e with position := draw id e.position },
          t2.occupants ++ [Ref.entity id]⟩) _
    refine tracks_set _ htr1 ?_ ?_
    · intro id'
      rw [count_push, htr1 _ t2 hget2 id']
      unfold Dungeon.listings
      show _ = match (d.entities.map fun en =>
          if en.1 = id then (en.1, { en.2 with position := draw id e.position })
          else en).lookup id' with
        | none => 0
        | some e' => if tileIndex d.size e'.position = _ then 1 else 0
      rw [hlook]
      have hk2 : (((tileIndex d.size (draw id e.position)).toNat : Nat) : Int) =
          tileIndex d.size (draw id e.position) := Int.toNat_of_nonneg h02
      have hk1 : (((tileIndex d.size e.position).toNat : Nat) : Int) =
          tileIndex d.size e.position := Int.toNat_of_nonneg h01
      by_cases hid : id' = id
      · subst hid
        simp only [if_true, hlk, Option.map_some', and_true, hlist]
        split_ifs <;> omega
      · simp only [hid, and_false, if_false, Nat.add_zero]
    · intro i hik _ id'
      unfold Dungeon.listings
      show (match (d.entities.map fun en =>
          if en.1 = id then (en.1, { en.2 with position := draw id e.position })
          else en).lookup id' with
        | none => 0
        | some e' => if tileIndex d.size e'.position = _ then 1 else 0) = _
      rw [hlook]
      have hk2 : (((tileIndex d.size (draw id e.position)).toNat : Nat) : Int) =
          tileIndex d.size (draw id e.position) := Int.toNat_of_nonneg h02
      have hk1 : (((tileIndex d.size e.position).toNat : Nat) : Int) =
          tileIndex d.size e.position := Int.toNat_of_nonneg h01
      by_cases hid : id' = id
      · subst hid
        simp only [if_true, hlk, Option.map_some', and_true, hlist]
        split_ifs <;> omega
      · simp only [hid, and_false, if_false]

theorem Dungeon.foldlM_moveEntity_consistent (draw : Nat → Vector2 → Vector2) :
    ∀ (l : List (Nat × Entity)) (d : Dungeon), d.Consistent → (l.map Prod.fst).Nodup →
      (∀ en ∈ l, en ∈ d.entities) →
      ∃ d', l.foldlM (Dungeon.moveEntity draw) d = some d' ∧ d'.Consistent ∧ d'.size = d.size
  | [], d, h, _, _ => ⟨d, rfl, h, rfl⟩
  | en :: l, d, h, hn, hmem => by
    obtain ⟨id, e⟩ := en
    obtain ⟨d1, h1, hc1, hs1, hkeep⟩ :=
      Dungeon.moveEntity_consistent draw h (hmem (id, e) (List.mem_cons_self _ _))
    simp only [List.map_cons, List.nodup_cons, List.mem_map, not_exists, not_and] at hn
    obtain ⟨d', h', hc', hs'⟩ := Dungeon.foldlM_moveEntity_consistent draw l d1 hc1 hn.2
      (fun en hen => hkeep en (hmem en (List.mem_cons_of_mem _ hen))
        (fun heq => hn.1 en hen heq))
    exact ⟨d', by rw [List.foldlM_cons, h1]; exact h', hc', by rw [hs', hs1]⟩

theorem Dungeon.MovementRandom_consistent (draw : Nat → Vector2 → Vector2) {d : Dungeon}
    (h : d.Consistent) :
    ∃ d', d.MovementRandom draw = some d' ∧ d'.Consistent ∧ d'.size = d.size :=
  Dungeon.foldlM_moveEntity_consistent draw d.entities d h h.2.1 (fun _ hen => hen)

theorem Dungeon.apply_consistent {d : Dungeon} (h : d.Consistent) {op : Operation}
    (hop : op.Admissible d.size) :
    ∃ d', d.apply op = some d' ∧ d'.Consistent ∧ d'.size = d.size := by
  cases op with
  | insert position entity => exact Dungeon.EntityInsert_consistent h hop entity
  | remove id =>
    show ∃ d', (match d.entities.lookup id with
      | none => some d
      | some e => d.EntityRemove e.position (.entity id)) = some d' ∧ _
    cases hl : d.entities.lookup id with
    | none => exact ⟨d, rfl, h, rfl⟩
    | some e => exact Dungeon.EntityRemove_consistent h hl
  | move draw => exact Dungeon.MovementRandom_consistent draw h

theorem Dungeon.run_consistent :
    ∀ (ops : List Operation) (d : Dungeon), d.Consistent →
      (∀ op ∈ ops, op.Admissible d.size) →
      ∃ d', d.run ops = some d' ∧ d'.Consistent ∧ d'.size = d.size
  | [], d, h, _ => ⟨d, rfl, h, rfl⟩
  | op :: ops, d, h, hops => by
    obtain ⟨d1, h1, hc1, hs1⟩ := Dungeon.apply_consistent h (hops op (List.mem_cons_self _ _))
    obtain ⟨d', h', hc', hs'⟩ := Dungeon.run_consistent ops d1 hc1
      (fun op' hop' => by rw [hs1]; exact hops op' (List.mem_cons_of_mem _ hop'))
    exact ⟨d', by unfold Dungeon.run; rw [h1]; exact h', hc', by rw [hs', hs1]⟩

theorem Dungeon.consistent_of_empty {d : Dungeon} (hs : d.Sized) (he : d.entities = [])
    (ht : ∀ t ∈ d.tiles, t.occupants = []) : d.Consistent := by
  refine ⟨hs, by rw [he]; exact List.nodup_nil, by rw [he]; simp, by rw [he]; simp, ?_⟩
  intro i t hit id
  rw [ht t (List.getElem?_mem hit)]
  unfold Dungeon.listings
  rw [he]
  rfl

theorem Dungeon.Consistent.listed_once {d : Dungeon} (h : d.Consistent) {id : Nat} {e : Entity}
    (he : (id, e) ∈ d.entities) {q : Vector2} (hq : InBounds q d.size) :
    ∃ t, d.GetTile q = some t ∧
      t.occupants.count (.entity id) = if q = e.position then 1 else 0 := by
  obtain ⟨hs, hn, _, hb, htr⟩ := h
  obtain ⟨t, ht⟩ := Dungeon.GetTile_of_inBounds hs hq
  obtain ⟨h0, hget⟩ := Dungeon.GetTile_eq_getElem? ht
  refine ⟨t, ht, ?_⟩
  rw [htr _ t hget id]
  unfold Dungeon.listings
  rw [lookup_of_mem hn he]
  have hk : (((tileIndex d.size q).toNat : Nat) : Int) = tileIndex d.size q :=
    Int.toNat_of_nonneg h0
  by_cases hqe : q = e.position
  · subst hqe
    simp [hk]
  · have : ¬ tileIndex d.size e.position = ((tileIndex d.size q).toNat : Int) := by
      rw [hk]
      intro heq
      exact hqe (tileIndex_inj hq (hb (id, e) he) heq.symm)
    dsimp only
    rw [if_neg this, if_neg hqe]

theorem Dungeon.Consistent.owned {d : Dungeon} (h : d.Consistent) {q : Vector2} {t : Tile}
    (ht : d.GetTile q = some t) {id : Nat} (hid : Ref.entity id ∈ t.occupants) :
    ∃ e, (id, e) ∈ d.entities := by
  obtain ⟨_, hget⟩ := Dungeon.GetTile_eq_getElem? ht
  have hpos : 0 < t.occupants.count (.entity id) := List.count_pos_iff.mpr hid
  rw [h.2.2.2.2 _ t hget id] at hpos
  unfold Dungeon.listings at hpos
  cases hl : d.entities.lookup id with
  | none => simp [hl] at hpos
  | some e => exact ⟨e, mem_of_lookup hl⟩

theorem Dungeon.consistent_of_checked {d : Dungeon} (h : d.Checked) : d.Consistent := by
  obtain ⟨hs, hn, hf, hb, hids, hcount⟩ := h
  refine ⟨hs, hn, hf, hb, ?_⟩
  intro i t hit id
  have hilt : i < d.tiles.length := (List.getElem?_eq_some.mp hit).1
  by_cases hid : id < d.fresh
  · have := hcount i hilt id hid
    unfold Dungeon.countAt at this
    rw [hit] at this
    exact this
  · have hnot : Ref.entity id ∉ t.occupants := by
      intro hmem
      have := hids t (List.getElem?_mem hit) (.entity id) hmem
      simp only [Ref.below, decide_eq_true_eq] at this
      exact hid this
    rw [List.count_eq_zero.mpr hnot]
    unfold Dungeon.listings
    have hnone : d.entities.lookup id = none := by
      rw [List.lookup_eq_none_iff]
      intro en hen
      have := hf en hen
      simp only [bne_iff_ne, ne_eq]
      omega
    rw [hnone]

/-! ## Claim C3: occupancy after insertions, removals and random movement -/

/-- C3: from a dungeon without entities and without occupants, every sequence of
`EntityInsert` at in-bounds positions, `EntityRemove` called with the entity's stored position,
and `MovementRandom` (whatever the random draws) runs through, and afterwards every owned
entity is stored at an in-bounds position, is listed exactly once by the tile at that position
and by no tile of any other cell, and every entity pointer that a tile lists belongs to an
owned entity. -/
theorem occupancy_after_operations (d0 : Dungeon) (hs : d0.Sized) (he : d0.entities = [])
    (ht : ∀ t ∈ d0.tiles, t.occupants = []) (ops : List Operation)
    (hops : ∀ op ∈ ops, op.Admissible d0.size) :
    ∃ d, d0.run ops = some d ∧
      (∀ id e, (id, e) ∈ d.entities →
        InBounds e.position d.size ∧
        ∀ q, InBounds q d.size →
          ∃ t, d.GetTile q = some t ∧
            t.occupants.count (.entity id) = if q = e.position then 1 else 0) ∧
      (∀ q t, d.GetTile q = some t → ∀ id, Ref.entity id ∈ t.occupants →
        ∃ e, (id, e) ∈ d.entities) := by
  obtain ⟨d, hrun, hc, _⟩ :=
    Dungeon.run_consistent ops d0 (Dungeon.consistent_of_empty hs he ht) hops
  refine ⟨d, hrun, ?_, ?_⟩
  · intro id e hmem
    exact ⟨hc.2.2.2.1 (id, e) hmem, fun q hq => hc.listed_once hmem hq⟩
  · intro q t hq id hid
    exact hc.owned hq hid

/-- Witness for C3: a wall and a monster are inserted, the monster steps east, the wall is
removed. -/
theorem occupancy_after_operations_witness :
    ∃ d, sampleEmpty.run sampleOperations = some d ∧
      (∀ id e, (id, e) ∈ d.entities →
        InBounds e.position d.size ∧
        ∀ q, InBounds q d.size →
          ∃ t, d.GetTile q = some t ∧
            t.occupants.count (.entity id) = if q = e.position then 1 else 0) ∧
      (∀ q t, d.GetTile q = some t → ∀ id, Ref.entity id ∈ t.occupants →
        ∃ e, (id, e) ∈ d.entities) :=
  occupancy_after_operations sampleEmpty (by decide) rfl (by decide) sampleOperations
    (by decide)

/-! ## Player placement and player movement -/

theorem Dungeon.TileLacking_setPlayerPosition (d : Dungeon) (p q : Vector2) (m : Nat) :
    (d.setPlayerPosition p).TileLacking q m = d.TileLacking q m := by
  unfold Dungeon.TileLacking
  show (match d.GetTile q with
    | none => none
    | some t => (d.setPlayerPosition p).lacking m t.occupants) = _
  cases d.GetTile q with
  | none => rfl
  | some t =>
    dsimp only
    apply Dungeon.lacking_congr
    intro r _
    cases r <;> rfl

theorem Dungeon.TileLacking_blocked {d : Dungeon} (hl : d.Live) {p : Vector2} {t : Tile}
    (ht : d.GetTile p = some t) :
    ∃ b, d.TileLacking p Attributes.Obstacle = some b ∧ (b = false ↔ d.Blocked p) := by
  obtain ⟨b, hb, hiff⟩ := Dungeon.TileLacking_live hl ht Attributes.Obstacle
  refine ⟨b, hb, ?_⟩
  rw [hiff]
  unfold Dungeon.Blocked
  rw [ht]
  dsimp only
  constructor
  · rintro ⟨r, hr, e, he, hne⟩
    exact ⟨r, hr, by simp [Dungeon.has, he, hne]⟩
  · rintro ⟨r, hr, hhas⟩
    unfold Dungeon.has at hhas
    cases he : d.deref r with
    | none => simp [he] at hhas
    | some e => exact ⟨r, hr, e, he, by simpa [he] using hhas⟩

theorem Dungeon.Door_live (d : Dungeon) :
    ∀ rs : List Ref, (∀ r ∈ rs, (d.deref r).isSome = true) →
      ∃ b, d.Door rs = some b ∧ (b = true ↔ ∃ r ∈ rs, d.isDoor r = true)
  | [], _ => ⟨false, rfl, by simp⟩
  | r :: rs, h => by
    obtain ⟨e, he⟩ := Option.isSome_iff_exists.mp (h r (List.mem_cons_self _ _))
    obtain ⟨b, hb, hiff⟩ := Dungeon.Door_live d rs (fun r' hr' => h r' (List.mem_cons_of_mem _ hr'))
    by_cases hn : e.name = "Door"
    · refine ⟨true, by simp [Dungeon.Door, he, hn], ?_⟩
      simp only [true_iff]
      exact ⟨r, List.mem_cons_self _ _, by simp [Dungeon.isDoor, he, hn]⟩
    · refine ⟨b, by simp [Dungeon.Door, he, hn, hb], ?_⟩
      rw [hiff]
      constructor
      · rintro ⟨r', hr', hd⟩
        exact ⟨r', List.mem_cons_of_mem _ hr', hd⟩
      · rintro ⟨r', hr', hd⟩
        rcases List.mem_cons.mp hr' with rfl | hr'
        · simp [Dungeon.isDoor, he, hn] at hd
        · exact ⟨r', hr', hd⟩

theorem Dungeon.mayEnter_spec {d : Dungeon} (hs : d.Sized) (hl : d.Live) (moving : Vector2) :
    ∃ b, d.mayEnter moving = some b ∧
      (b = true ↔ InBounds moving d.size ∧ (¬ d.Blocked moving ∨ d.HasDoor moving)) := by
  unfold Dungeon.mayEnter
  by_cases hb : InBounds moving d.size
  · rw [if_pos hb]
    obtain ⟨t, ht⟩ := Dungeon.GetTile_of_inBounds hs hb
    obtain ⟨b1, hb1, hiff1⟩ := Dungeon.TileLacking_blocked hl ht
    rw [hb1]
    cases b1
    · dsimp only
      rw [ht]
      dsimp only
      obtain ⟨b2, hb2, hiff2⟩ := Dungeon.Door_live d t.occupants (hl t (tileAt_mem ht))
      refine ⟨b2, hb2, ?_⟩
      rw [hiff2]
      have hblocked : d.Blocked moving := hiff1.mp rfl
      have hdoor : d.HasDoor moving ↔ ∃ r ∈ t.occupants, d.isDoor r = true := by
        unfold Dungeon.HasDoor
        rw [ht]
      rw [hdoor]
      constructor
      · intro h
        exact ⟨hb, Or.inr h⟩
      · rintro ⟨_, h | h⟩
        · exact absurd hblocked h
        · exact h
    · refine ⟨true, rfl, ?_⟩
      simp only [true_iff]
      refine ⟨hb, Or.inl ?_⟩
      intro hblocked
      have := hiff1.mpr hblocked
      cases this
  · rw [if_neg hb]
    refine ⟨false, rfl, ?_⟩
    simp only [Bool.false_eq_true, false_iff, not_and]
    intro h
    exact absurd h hb

theorem Dungeon.live_set {d : Dungeon} (hl : d.Live) (k : Nat) (c : Char) (occupants : List Ref)
    (h : ∀ r ∈ occupants, (d.deref r).isSome = true) :
    (d.withTiles (d.tiles.set k ⟨c, occupants⟩)).Live := by
  intro t ht r hr
  rcases List.mem_or_eq_of_mem_set ht with ht | rfl
  · exact hl t ht r hr
  · exact h r hr

theorem Dungeon.sized_set {d : Dungeon} (hs : d.Sized) (k : Nat) (t : Tile) :
    (d.withTiles (d.tiles.set k t)).Sized :=
  ⟨hs.1, hs.2.1, by
    show ((d.tiles.set k t).length : Int) = _
    rw [List.length_set]
    exact hs.2.2⟩

theorem Vector2.add_def (a b : Vector2) : a + b = ⟨a.x + b.x, a.y + b.y⟩ := rfl

theorem PositionMove_ne (p : Vector2) (o : Orientation) : PositionMove p o ≠ p := by
  obtain ⟨x, y⟩ := p
  cases o <;> simp only [PositionMove, Vector2.add_def] <;> intro h <;>
    simp only [Vector2.mk.injEq] at h <;> omega

theorem Dungeon.live_setPlayerPosition {d : Dungeon} (hl : d.Live) (p : Vector2) :
    (d.setPlayerPosition p).Live := by
  intro t ht r hr
  have := hl t ht r hr
  cases r with
  | player => rfl
  | entity id => exact this

theorem Dungeon.MovementPlayer_spec (fn : Functions) {d : Dungeon} (o : Orientation)
    (hs : d.Sized) (hl : d.Live) (hp : InBounds d.player.base.position d.size) :
    ∃ d', d.MovementPlayer fn o = some d' ∧
      ((InBounds (PositionMove d.player.base.position o) d.size ∧
          (¬ d.Blocked (PositionMove d.player.base.position o) ∨
            d.HasDoor (PositionMove d.player.base.position o))) →
        d'.player.base.position = PositionMove d.player.base.position o) ∧
      (¬ (InBounds (PositionMove d.player.base.position o) d.size ∧
          (¬ d.Blocked (PositionMove d.player.base.position o) ∨
            d.HasDoor (PositionMove d.player.base.position o))) →
        d'.player.base.position = d.player.base.position) := by
  obtain ⟨b, hb, hiff⟩ := Dungeon.mayEnter_spec hs hl (PositionMove d.player.base.position o)
  unfold Dungeon.MovementPlayer
  simp only [hb]
  cases b
  · obtain ⟨v, hv⟩ := Dungeon.BuildVision_frame fn d hs hl d.player.base.position
      d.player.visionReach
    refine ⟨_, hv, ?_, fun _ => rfl⟩
    intro hc
    have := hiff.mpr hc
    cases this
  · have hin : InBounds (PositionMove d.player.base.position o) d.size := (hiff.mp rfl).1
    obtain ⟨t1, ht1⟩ := Dungeon.GetTile_of_inBounds hs hp
    obtain ⟨c1, _, hrem⟩ := Dungeon.OccupantRemove_live (r := .player) ht1
      (hl t1 (tileAt_mem ht1)) rfl
    have hl1 := Dungeon.live_setPlayerPosition
      (Dungeon.live_set hl (tileIndex d.size d.player.base.position).toNat c1
        (t1.occupants.filter (fun r' => r' ≠ Ref.player))
        (fun r hr => hl t1 (tileAt_mem ht1) r (List.mem_of_mem_filter hr)))
      (PositionMove d.player.base.position o)
    have hs1 : ((d.withTiles (d.tiles.set (tileIndex d.size d.player.base.position).toNat
        ⟨c1, t1.occupants.filter (fun r' => r' ≠ Ref.player)⟩)).setPlayerPosition
          (PositionMove d.player.base.position o)).Sized :=
      Dungeon.sized_set hs _ _
    obtain ⟨t2, ht2⟩ := Dungeon.GetTile_of_inBounds hs1 hin
    have hins := Dungeon.OccupantInsert_live (r := .player) ht2 rfl
    obtain ⟨v, hv⟩ := Dungeon.BuildVision_frame fn _ (Dungeon.sized_set hs1 _ _)
      (Dungeon.live_set hl1 (tileIndex d.size (PositionMove d.player.base.position o)).toNat
        (Entity.icon { d.player.base with position := PositionMove d.player.base.position o })
        (t2.occupants ++ [Ref.player])
        (fun r hr => by
          rcases List.mem_append.mp hr with hr | hr
          · exact hl1 t2 (tileAt_mem ht2) r hr
          · rw [List.mem_singleton.mp hr]
            rfl))
      (PositionMove d.player.base.position o) d.player.visionReach
    refine ⟨_, by rw [hrem]; dsimp only; rw [hins]; exact hv, fun _ => rfl, ?_⟩
    intro hc
    exact absurd (hiff.mp rfl) hc

theorem Dungeon.PlayerPlace_of_target (fn : Functions) {d d2 : Dungeon} {p : Vector2}
    (h : d.playerTarget p = some d2) (hs : d2.Sized) (hl : d2.Live)
    (hb : InBounds d2.player.base.position d2.size) :
    ∃ d', d.PlayerPlace fn p = some d' ∧ d'.player = d2.player ∧ d'.size = d2.size ∧
      d'.Lists d'.player.base.position .player := by
  obtain ⟨v, hv⟩ := Dungeon.BuildVision_frame fn d2 hs hl d2.player.base.position
    d2.player.visionReach
  obtain ⟨t, ht⟩ := Dungeon.GetTile_of_inBounds (d := d2.withVision v) hs hb
  have hins := Dungeon.OccupantInsert_live (r := .player) ht rfl
  obtain ⟨h0, h1⟩ := tileAt_lt ht
  have hrun : d.PlayerPlace fn p = some ((d2.withVision v).withTiles
      ((d2.withVision v).tiles.set (tileIndex d2.size d2.player.base.position).toNat
        ⟨d2.player.base.icon, t.occupants ++ [Ref.player]⟩)) := by
    unfold Dungeon.PlayerPlace
    rw [h]
    dsimp only
    rw [hv]
    exact hins
  refine ⟨_, hrun, rfl, rfl, hb, ?_⟩
  have hget : ((d2.withVision v).withTiles
      ((d2.withVision v).tiles.set (tileIndex d2.size d2.player.base.position).toNat
        ⟨d2.player.base.icon, t.occupants ++ [Ref.player]⟩)).GetTile d2.player.base.position =
      some ⟨d2.player.base.icon, t.occupants ++ [Ref.player]⟩ :=
    tileAt_set_self h0 h1
  show match Dungeon.GetTile ((d2.withVision v).withTiles
      ((d2.withVision v).tiles.set (tileIndex d2.size d2.player.base.position).toNat
        ⟨d2.player.base.icon, t.occupants ++ [Ref.player]⟩)) d2.player.base.position with
    | none => False
    | some t => Ref.player ∈ t.occupants
  rw [hget]
  simp

theorem Dungeon.placeNearby_none_free (d : Dungeon) (p : Vector2) :
    ∀ l : List Vector2,
      (∀ direction ∈ l, ¬ InBounds (p + direction) d.size ∨
        d.TileLacking (p + direction) Attributes.Obstacle = some false) →
      d.placeNearby p l = some d
  | [], _ => rfl
  | direction :: rest, h => by
    have ih := Dungeon.placeNearby_none_free d p rest
      (fun x hx => h x (List.mem_cons_of_mem _ hx))
    unfold Dungeon.placeNearby
    dsimp only
    rcases h direction (List.mem_cons_self _ _) with hout | hblocked
    · rw [if_neg hout]
      exact ih
    · split
      · rw [hblocked]
        exact ih
      · exact ih

theorem Dungeon.blocked_lacking {d : Dungeon} (hl : d.Live) {p : Vector2}
    (h : d.Blocked p) : d.TileLacking p Attributes.Obstacle = some false := by
  have hsome : ∃ t, d.GetTile p = some t := by
    unfold Dungeon.Blocked at h
    cases ht : d.GetTile p with
    | none => simp [ht] at h
    | some t => exact ⟨t, rfl⟩
  obtain ⟨t, ht⟩ := hsome
  obtain ⟨b, hb, hiff⟩ := Dungeon.TileLacking_blocked hl ht
  rw [hb, hiff.mpr h]

/-! ## Claim C5: when the player moves -/

/-- C5 as amended: in a dungeon with one tile per cell, live occupant pointers and the player
in bounds, `Dungeon::MovementPlayer` returns and the player ends on the single-step destination
if and only if the destination is in bounds and either no occupant of its tile has the Obstacle
attribute or SOME occupant of its tile (not only the top one) is a door; in every other case
the player's position is unchanged. -/
theorem MovementPlayer_moves_iff (fn : Functions) (d : Dungeon) (o : Orientation)
    (hs : d.Sized) (hl : d.Live) (hp : InBounds d.player.base.position d.size) :
    ∃ d', d.MovementPlayer fn o = some d' ∧
      (d'.player.base.position = PositionMove d.player.base.position o ↔
        InBounds (PositionMove d.player.base.position o) d.size ∧
          (¬ d.Blocked (PositionMove d.player.base.position o) ∨
            d.HasDoor (PositionMove d.player.base.position o))) ∧
      (¬ (InBounds (PositionMove d.player.base.position o) d.size ∧
          (¬ d.Blocked (PositionMove d.player.base.position o) ∨
            d.HasDoor (PositionMove d.player.base.position o))) →
        d'.player.base.position = d.player.base.position) := by
  obtain ⟨d', hrun, hyes, hno⟩ := Dungeon.MovementPlayer_spec fn o hs hl hp
  refine ⟨d', hrun, ⟨?_, hyes⟩, hno⟩
  intro hpos
  by_contra hc
  have := hno hc
  rw [hpos] at this
  exact PositionMove_ne _ _ this

/-- Witness for C5 as amended: in the sample dungeon the player steps north onto a free
cell. -/
theorem MovementPlayer_moves_iff_witness :
    ∃ d', sampleDungeon.MovementPlayer sampleFunctions .North = some d' ∧
      d'.player.base.position = ⟨1, 0⟩ := by
  obtain ⟨d', hrun, hiff, _⟩ :=
    MovementPlayer_moves_iff sampleFunctions sampleDungeon .North (by decide) (by decide)
      (by decide)
  exact ⟨d', hrun, hiff.mpr (by decide)⟩

/-- Counterexample to C5 as stated: the destination `(1, 0)` holds a door with a wall on top.
The destination has an Obstacle occupant and its top occupant is not a door, so the claim's
condition fails; the door below the wall is enough for `MovementPlayer`, and the player
moves. -/
theorem MovementPlayer_top_door_counterexample :
    ∃ d', sampleStacked.MovementPlayer sampleFunctions .East = some d' ∧
      ¬ (InBounds (PositionMove sampleStacked.player.base.position .East) sampleStacked.size ∧
        (¬ sampleStacked.Blocked (PositionMove sampleStacked.player.base.position .East) ∨
          sampleStacked.TopIsDoor (PositionMove sampleStacked.player.base.position .East))) ∧
      d'.player.base.position = PositionMove sampleStacked.player.base.position .East ∧
      d'.player.base.position ≠ sampleStacked.player.base.position := by
  obtain ⟨d', hrun, hyes, _⟩ :=
    Dungeon.MovementPlayer_spec sampleFunctions (d := sampleStacked) .East (by decide)
      (by decide) (by decide)
  have hpos := hyes (by decide)
  refine ⟨d', hrun, by decide, hpos, ?_⟩
  rw [hpos]
  decide

/-! ## Claims C9 and C10: placing the player -/

/-- C9, the code evaluated at failing inputs (3 × 3 grid, one wall in `(2, 0)`): for the
out-of-bounds position `(-1, 1)` `Dungeon::PlayerPlace` reads `_tiles[1 * 3 + -1]`, the wall's
tile, finds it blocked, scans the neighbours of `(-1, 1)` and leaves the player in `(0, 1)`
although the grid centre is `(1, 1)`; for `(5, 5)` it reads `_tiles[20]`, outside the vector
of nine tiles, which is undefined behaviour. -/
theorem PlayerPlace_out_of_bounds_reads_tile (fn : Functions) :
    ¬ InBounds ⟨-1, 1⟩ sampleWalled.size ∧
    (∃ d', sampleWalled.PlayerPlace fn ⟨-1, 1⟩ = some d' ∧
      d'.player.base.position = ⟨0, 1⟩ ∧ sampleWalled.size.divide 2 = ⟨1, 1⟩) ∧
    ¬ InBounds ⟨5, 5⟩ sampleWalled.size ∧ sampleWalled.PlayerPlace fn ⟨5, 5⟩ = none := by
  refine ⟨by decide, ?_, by decide, ?_⟩
  · have htarget : sampleWalled.playerTarget ⟨-1, 1⟩ =
        some ((sampleWalled.setPlayerPosition ⟨1, 1⟩).setPlayerPosition ⟨0, 1⟩) := by decide
    obtain ⟨d', hrun, hpl, _⟩ := Dungeon.PlayerPlace_of_target fn htarget (by decide)
      (by decide) (by decide)
    exact ⟨d', hrun, by rw [hpl]; rfl, by decide⟩
  · have htarget : sampleWalled.playerTarget ⟨5, 5⟩ = none := by decide
    unfold Dungeon.PlayerPlace
    rw [htarget]

/-- C10 as amended: when the in-bounds target holds an Obstacle occupant and each of its four
cardinal neighbours is out of bounds or holds an Obstacle occupant, `Dungeon::PlayerPlace`
leaves the player on the target itself and registers it as occupant there (the grid centre is
used for out-of-bounds targets only). -/
theorem PlayerPlace_enclosed_target (fn : Functions) (d : Dungeon) (target : Vector2)
    (hs : d.Sized) (hl : d.Live) (hin : InBounds target d.size) (hblocked : d.Blocked target)
    (hring : ∀ direction ∈ directions,
      ¬ InBounds (target + direction) d.size ∨ d.Blocked (target + direction)) :
    ∃ d', d.PlayerPlace fn target = some d' ∧ d'.player.base.position = target ∧
      d'.Lists target .player := by
  have hl1 : (d.setPlayerPosition target).Live := Dungeon.live_setPlayerPosition hl target
  have htarget : d.playerTarget target = some (d.setPlayerPosition target) := by
    unfold Dungeon.playerTarget
    rw [if_pos hin]
    dsimp only
    rw [Dungeon.TileLacking_setPlayerPosition, Dungeon.blocked_lacking hl hblocked]
    dsimp only
    apply Dungeon.placeNearby_none_free
    intro direction hdir
    rcases hring direction hdir with h | h
    · exact Or.inl h
    · right
      rw [Dungeon.TileLacking_setPlayerPosition]
      exact Dungeon.blocked_lacking hl h
  obtain ⟨d', hrun, hpl, _, hlist⟩ := Dungeon.PlayerPlace_of_target fn htarget hs hl1 hin
  have hpos : d'.player.base.position = target := by rw [hpl]; rfl
  exact ⟨d', hrun, hpos, by rw [hpos] at hlist; exact hlist⟩

/-- Witness for C10 as amended: the walled-in corner of the sample dungeon. -/
theorem PlayerPlace_enclosed_target_witness :
    ∃ d', sampleCorner.PlayerPlace sampleFunctions ⟨0, 0⟩ = some d' ∧
      d'.player.base.position = ⟨0, 0⟩ ∧ d'.Lists ⟨0, 0⟩ .player :=
  PlayerPlace_enclosed_target sampleFunctions sampleCorner ⟨0, 0⟩ (by decide) (by decide)
    (by decide) (by decide) (by decide)

/-- Counterexample to C10 as stated: the target `(0, 0)` is in bounds and holds a wall, its
neighbours `(1, 0)` and `(0, 1)` hold walls and the other two are out of bounds, yet the player
is left on `(0, 0)`, not on the grid centre `(1, 1)`. -/
theorem PlayerPlace_enclosed_counterexample :
    InBounds ⟨0, 0⟩ sampleCorner.size ∧ sampleCorner.Blocked ⟨0, 0⟩ ∧
    (∀ direction ∈ directions, ¬ InBounds ((⟨0, 0⟩ : Vector2) + direction) sampleCorner.size ∨
      sampleCorner.Blocked (⟨0, 0⟩ + direction)) ∧
    ∃ d', sampleCorner.PlayerPlace sampleFunctions ⟨0, 0⟩ = some d' ∧
      d'.player.base.position ≠ sampleCorner.size.divide 2 := by
  refine ⟨by decide, by decide, by decide, ?_⟩
  have htarget : sampleCorner.playerTarget ⟨0, 0⟩ =
      some (sampleCorner.setPlayerPosition ⟨0, 0⟩) := by decide
  obtain ⟨d', hrun, hpl, _⟩ := Dungeon.PlayerPlace_of_target sampleFunctions htarget
    (by decide) (by decide) (by decide)
  exact ⟨d', hrun, by rw [hpl]; decide⟩

/-! ## Claim C8: configuration from a vector of strings -/

theorem stoiField_inside (stoi : String → Option Int) {data : List String} {k : Nat}
    (hk : k < data.length) :
    stoiField stoi data k = match stoi data[k] with
      | none => .error .exception
      | some v => .ok v := by
  unfold stoiField
  rw [List.getElem?_eq_getElem hk]

theorem DungeonConfiguration.parse_error {stoi : String → Option Int} {data : List String}
    {r : Raised} (h : DungeonConfiguration.parse stoi data = .error r) :
    ∃ k, k < 15 ∧ stoiField stoi data k = .error r := by
  unfold DungeonConfiguration.parse at h
  simp only [bind, Except.bind, pure, Except.pure] at h
  repeat' split at h
  all_goals
    (cases h <;> first
        | exact ⟨0, by omega, by assumption⟩
        | exact ⟨1, by omega, by assumption⟩
        | exact ⟨2, by omega, by assumption⟩
        | exact ⟨3, by omega, by assumption⟩
        | exact ⟨4, by omega, by assumption⟩
        | exact ⟨5, by omega, by assumption⟩
        | exact ⟨6, by omega, by assumption⟩
        | exact ⟨7, by omega, by assumption⟩
        | exact ⟨8, by omega, by assumption⟩
        | exact ⟨9, by omega, by assumption⟩
        | exact ⟨10, by omega, by assumption⟩
        | exact ⟨11, by omega, by assumption⟩
        | exact ⟨12, by omega, by assumption⟩
        | exact ⟨13, by omega, by assumption⟩
        | exact ⟨14, by omega, by assumption⟩)


theorem DungeonConfiguration.parse_ok {stoi : String → Option Int} {data : List String}
    {c : DungeonConfiguration} (h : DungeonConfiguration.parse stoi data = .ok c) :
    ∀ k, k < 15 → ∃ v, stoiField stoi data k = .ok v := by
  unfold DungeonConfiguration.parse at h
  simp only [bind, Except.bind, pure, Except.pure] at h
  repeat' split at h
  all_goals first
    | cases h; done
    | (intro k hk
       interval_cases k <;> exact ⟨_, by assumption⟩)

/-- The part of C8 that holds: when the vector has its 15 fields and `std::stoi` throws on one
of them, the constructed configuration is the default one, whatever had been parsed before. -/
theorem DungeonConfiguration.ofData_parse_failure (stoi : String → Option Int)
    (data : List String) (hlen : 15 ≤ data.length) (k : Nat) (hk : k < 15)
    (hfail : ∀ h : k < data.length, stoi data[k] = none) :
    DungeonConfiguration.ofData stoi data = some DungeonConfiguration.default := by
  have hkl : k < data.length := by omega
  have hfield : stoiField stoi data k = .error .exception := by
    rw [stoiField_inside stoi hkl, hfail hkl]
  unfold DungeonConfiguration.ofData
  cases hp : DungeonConfiguration.parse stoi data with
  | ok c =>
    obtain ⟨v, hv⟩ := DungeonConfiguration.parse_ok hp k hk
    rw [hfield] at hv
    cases hv
  | error r =>
    cases r with
    | exception => rfl
    | undefined =>
      obtain ⟨j, hj, hjf⟩ := DungeonConfiguration.parse_error hp
      rw [stoiField_inside stoi (by omega : j < data.length)] at hjf
      cases hs : stoi data[j] <;> rw [hs] at hjf <;> cases hjf

/-- C8, the code evaluated at failing inputs: with a field missing (an empty vector, or a
vector of 14 strings that all parse) `data[k]` is read outside the vector, which is undefined
behaviour and not an exception, so the handler `catch( ... )` does not run and no default
configuration results. -/
theorem DungeonConfiguration_missing_field (stoi : String → Option Int) :
    DungeonConfiguration.ofData stoi [] = none ∧
    DungeonConfiguration.ofData (fun _ => some 1) (List.replicate 14 "1") = none :=
  ⟨rfl, by decide⟩

/-! ## Links between dungeons -/

theorem vectorAt_eq_some {α : Type} {v : List α} {i : Int} {x : α} :
    vectorAt v i = some x ↔ 0 ≤ i ∧ v[i.toNat]? = some x := by
  unfold vectorAt
  split <;> simp [*]

theorem vectorAt_nat {α : Type} (v : List α) (i : Nat) : vectorAt v (i : Int) = v[i]? := by
  simp [vectorAt]

theorem vectorAt_append_left {α : Type} {v : List α} {i : Int} (x : α)
    (h : i < v.length) : vectorAt (v ++ [x]) i = vectorAt v i := by
  unfold vectorAt
  split
  · rw [List.getElem?_append_left (by omega)]
  · rfl

theorem vectorAt_append_length {α : Type} (v : List α) (x : α) :
    vectorAt (v ++ [x]) (v.length : Int) = some x := by
  simp [vectorAt]

theorem vectorAt_set {α : Type} {v : List α} {i j : Int} {x : α} (hi : 0 ≤ i)
    (hl : i.toNat < v.length) :
    vectorAt (v.set i.toNat x) j = if j = i then some x else vectorAt v j := by
  unfold vectorAt
  by_cases hj : 0 ≤ j
  · rw [if_pos hj, if_pos hj, List.getElem?_set]
    by_cases hji : j = i
    · subst hji
      simp [hl]
    · have : ¬ i.toNat = j.toNat := by omega
      rw [if_neg this, if_neg hji]
  · rw [if_neg hj, if_neg hj]
    have : ¬ j = i := by omega
    rw [if_neg this]

theorem Game.setLink_eq_some {g g' : Game} {a b : Int} {l : Link} :
    g.setLink a b l = some g' ↔
      ∃ D, vectorAt g.dungeons a = some D ∧ 0 ≤ b ∧ b.toNat < D.links.length ∧
        g' = { g with dungeons :=
          g.dungeons.set a.toNat { D with links := D.links.set b.toNat l } } := by
  unfold Game.setLink
  cases hD : vectorAt g.dungeons a with
  | none => simp
  | some D =>
    dsimp only
    split
    · next h =>
      simp only [Option.some.injEq, exists_eq_left']
      constructor
      · rintro rfl
        exact ⟨h.1, h.2, rfl⟩
      · rintro ⟨_, _, rfl⟩
        rfl
    · next h =>
      simp only [reduceCtorEq, Option.some.injEq, exists_eq_left', false_iff, not_and]
      intro h0 h1
      exact absurd ⟨h0, h1⟩ h

theorem Game.getLink_setLink {g g' : Game} {a b : Int} {l : Link}
    (h : g.setLink a b l = some g') (a' b' : Int) :
    g'.getLink a' b' = if a' = a ∧ b' = b then some l else g.getLink a' b' := by
  obtain ⟨D, hD, hb0, hbl, rfl⟩ := Game.setLink_eq_some.mp h
  obtain ⟨ha0, hDget⟩ := vectorAt_eq_some.mp hD
  have hal : a.toNat < g.dungeons.length := (List.getElem?_eq_some.mp hDget).1
  unfold Game.getLink
  dsimp only
  rw [vectorAt_set ha0 hal]
  by_cases haa : a' = a
  · subst haa
    rw [if_pos rfl, hD]
    dsimp only
    rw [vectorAt_set hb0 hbl]
    by_cases hbb : b' = b
    · simp [hbb]
    · simp [hbb]
  · rw [if_neg haa]
    simp [haa]

theorem Game.setLink_of_getLink {g : Game} {a b : Int} {l0 : Link}
    (h : g.getLink a b = some l0) (l : Link) : ∃ g', g.setLink a b l = some g' := by
  unfold Game.getLink at h
  cases hD : vectorAt g.dungeons a with
  | none => simp [hD] at h
  | some D =>
    rw [hD] at h
    obtain ⟨hb0, hget⟩ := vectorAt_eq_some.mp h
    exact ⟨_, Game.setLink_eq_some.mpr ⟨D, hD, hb0, (List.getElem?_eq_some.mp hget).1, rfl⟩⟩

theorem Game.setLink_length {g g' : Game} {a b : Int} {l : Link}
    (h : g.setLink a b l = some g') : g'.dungeons.length = g.dungeons.length := by
  obtain ⟨D, _, _, _, rfl⟩ := Game.setLink_eq_some.mp h
  simp

theorem Game.getLink_lt {g : Game} {a b : Int} {l : Link} (h : g.getLink a b = some l) :
    0 ≤ a ∧ a < g.dungeons.length ∧ 0 ≤ b := by
  unfold Game.getLink at h
  cases hD : vectorAt g.dungeons a with
  | none => simp [hD] at h
  | some D =>
    rw [hD] at h
    obtain ⟨ha0, hget⟩ := vectorAt_eq_some.mp hD
    have := (List.getElem?_eq_some.mp hget).1
    exact ⟨ha0, by omega, (vectorAt_eq_some.mp h).1⟩

theorem Game.getLink_append (g : Game) (N : DungeonMembers) (a b : Int) :
    ({ g with dungeons := g.dungeons ++ [N] } : Game).getLink a b =
      if a = g.dungeons.length then vectorAt N.links b else g.getLink a b := by
  unfold Game.getLink
  dsimp only
  by_cases ha : a = g.dungeons.length
  · rw [if_pos ha, ha, vectorAt_append_length]
  · rw [if_neg ha]
    by_cases hlt : a < g.dungeons.length
    · rw [vectorAt_append_left N hlt]
    · have h1 : vectorAt (g.dungeons ++ [N]) a = none := by
        unfold vectorAt
        split
        · rw [List.getElem?_eq_none]
          simp only [List.length_append, List.length_singleton]
          omega
        · rfl
      have h2 : vectorAt g.dungeons a = none := by
        unfold vectorAt
        split
        · rw [List.getElem?_eq_none]
          omega
        · rfl
      rw [h1, h2]

theorem Game.linkStep_resolved (c : Nat → DungeonMembers) {g : Game} {d : Int} {i : Nat}
    {link : Link} (h : g.getLink d i = some link)
    (hr : ¬ (link.indexLink < 0 ∧ link.indexDungeon < 0)) : g.linkStep c d i = some g := by
  unfold Game.linkStep
  rw [h]
  dsimp only
  rw [if_neg hr]

theorem Game.linkStep_unresolved (c : Nat → DungeonMembers) {g : Game} {d : Int} {i : Nat}
    {link : Link} (h : g.getLink d i = some link)
    (hu : link.indexLink < 0 ∧ link.indexDungeon < 0) {partner : Link}
    (hp : (c g.dungeons.length).links[0]? = some partner) :
    ∃ g', g.linkStep c d i = some g' ∧ g'.dungeons.length = g.dungeons.length + 1 ∧
      ∀ a b, g'.getLink a b =
        if a = d ∧ b = i then
          some ⟨g.dungeons.length, 0, link.entrance, partner.entrance⟩
        else if a = g.dungeons.length ∧ b = 0 then
          some ⟨d, i, partner.entrance, link.entrance⟩
        else if a = g.dungeons.length then vectorAt (c g.dungeons.length).links b
        else g.getLink a b := by
  obtain ⟨hd0, hdl, _⟩ := Game.getLink_lt h
  have hne : d ≠ (g.dungeons.length : Int) := by omega
  have hpd : (((g.dungeons ++ [c g.dungeons.length]).length : Nat) : Int) - 1 =
      (g.dungeons.length : Int) := by
    simp
  have hg1p : ({ g with dungeons := g.dungeons ++ [c g.dungeons.length] } : Game).getLink
      (g.dungeons.length : Int) 0 = some partner := by
    rw [Game.getLink_append, if_pos rfl]
    have := vectorAt_nat (c g.dungeons.length).links 0
    simp only [Nat.cast_zero] at this
    rw [this, hp]
  have hg1c : ({ g with dungeons := g.dungeons ++ [c g.dungeons.length] } : Game).getLink
      d i = some link := by
    rw [Game.getLink_append, if_neg hne, h]
  obtain ⟨g2, hg2⟩ := Game.setLink_of_getLink hg1p
    ⟨d, i, partner.entrance, link.entrance⟩
  have hg2c : g2.getLink d i = some link := by
    rw [Game.getLink_setLink hg2, if_neg (by intro hc; exact hne hc.1), hg1c]
  obtain ⟨g3, hg3⟩ := Game.setLink_of_getLink hg2c
    ⟨g.dungeons.length, 0, link.entrance, partner.entrance⟩
  refine ⟨g3, ?_, ?_, ?_⟩
  · unfold Game.linkStep
    rw [h]
    dsimp only
    rw [if_pos hu, hpd, hg1p, hg1c]
    dsimp only
    rw [hg2]
    exact hg3
  · rw [Game.setLink_length hg3, Game.setLink_length hg2]
    simp
  · intro a b
    rw [Game.getLink_setLink hg3, Game.getLink_setLink hg2, Game.getLink_append]

theorem foldlM_fixed {α : Type} (step : Game → α → Option Game) (g : Game) :
    ∀ l : List α, (∀ x ∈ l, step g x = some g) → l.foldlM step g = some g
  | [], _ => rfl
  | x :: l, h => by
    rw [List.foldlM_cons, h x (List.mem_cons_self _ _)]
    exact foldlM_fixed step g l (fun y hy => h y (List.mem_cons_of_mem _ hy))

theorem Game.linkFold (c : Nat → DungeonMembers) (hc : ∀ n, (c n).links ≠ []) (g : Game)
    (d : Int) :
    ∀ k : Nat, (∀ i : Nat, i < k → (g.getLink d i).isSome = true) →
      ∃ gk, (List.range k).foldlM (Game.linkStep c d) g = some gk ∧
        g.dungeons.length ≤ gk.dungeons.length ∧
        (∀ (i : Nat) (link : Link), g.getLink d i = some link →
          ((k ≤ i ∨ ¬ link.Unresolved) → gk.getLink d i = some link) ∧
          (i < k → link.Unresolved →
            ∃ (n : Nat) (pe : Vector2), g.dungeons.length ≤ n ∧ n < gk.dungeons.length ∧
              gk.getLink d i = some ⟨n, 0, link.entrance, pe⟩ ∧
              gk.getLink n 0 = some ⟨d, i, pe, link.entrance⟩)) ∧
        (∀ i : Nat, g.getLink d i = none → gk.getLink d i = none)
  | 0, _ => ⟨g, rfl, le_refl _, fun i link h => ⟨fun _ => h, fun hi => absurd hi (Nat.not_lt_zero _)⟩,
      fun i h => h⟩
  | k + 1, hsome => by
    obtain ⟨gk, hfold, hlen, hinv, hnone⟩ :=
      Game.linkFold c hc g d k (fun i hi => hsome i (Nat.lt_succ_of_lt hi))
    obtain ⟨linkk, hlinkk⟩ := Option.isSome_iff_exists.mp (hsome k (Nat.lt_succ_self k))
    have hgk : gk.getLink d k = some linkk := (hinv k linkk hlinkk).1 (Or.inl (le_refl _))
    obtain ⟨hd0, hdl, _⟩ := Game.getLink_lt hlinkk
    have hsplit : (List.range (k + 1)).foldlM (Game.linkStep c d) g =
        Game.linkStep c d gk k := by
      rw [List.range_succ, List.foldlM_append, hfold]
      simp
    rw [hsplit]
    by_cases hu : linkk.Unresolved
    · obtain ⟨partner, hpartner⟩ : ∃ partner, (c gk.dungeons.length).links[0]? = some partner := by
        cases hl : (c gk.dungeons.length).links with
        | nil => exact absurd hl (hc _)
        | cons a _ => exact ⟨a, by simp⟩
      obtain ⟨g', hstep, hlen', hget⟩ := Game.linkStep_unresolved c hgk hu hpartner
      have hdne : d ≠ (gk.dungeons.length : Int) := by omega
      refine ⟨g', hstep, by omega, ?_, ?_⟩
      · intro i link hlink
        constructor
        · intro hcase
          have hik : i ≠ k := by
            rintro rfl
            rw [hlinkk] at hlink
            cases hlink
            rcases hcase with h | h
            · omega
            · exact h hu
          rw [hget, if_neg (by intro h; exact hik (by exact_mod_cast h.2)),
            if_neg (by intro h; exact hdne h.1), if_neg hdne]
          refine (hinv i link hlink).1 ?_
          rcases hcase with h | h
          · exact Or.inl (by omega)
          · exact Or.inr h
        · intro hi hlu
          by_cases hik : i = k
          · subst hik
            rw [hlinkk] at hlink
            cases hlink
            refine ⟨gk.dungeons.length, partner.entrance, hlen, by omega, ?_, ?_⟩
            · rw [hget, if_pos ⟨rfl, rfl⟩]
            · rw [hget, if_neg (by intro h; exact hdne h.1.symm), if_pos ⟨rfl, rfl⟩]
          · obtain ⟨n, pe, hn0, hn1, hown, hpart⟩ := (hinv i link hlink).2 (by omega) hlu
            refine ⟨n, pe, hn0, by omega, ?_, ?_⟩
            · rw [hget, if_neg (by intro h; exact hik (by exact_mod_cast h.2)),
                if_neg (by intro h; exact hdne h.1), if_neg hdne]
              exact hown
            · have hnd : (n : Int) ≠ d := by omega
              have hnl : (n : Int) ≠ (gk.dungeons.length : Int) := by omega
              rw [hget, if_neg (by intro h; exact hnd h.1), if_neg (by intro h; exact hnl h.1),
                if_neg hnl]
              exact hpart
      · intro i hi
        have hik : i ≠ k := by
          rintro rfl
          rw [hlinkk] at hi
          cases hi
        rw [hget, if_neg (by intro h; exact hik (by exact_mod_cast h.2)),
          if_neg (by intro h; exact hdne h.1), if_neg hdne]
        exact hnone i hi
    · rw [Game.linkStep_resolved c hgk hu]
      refine ⟨gk, rfl, hlen, ?_, hnone⟩
      intro i link hlink
      constructor
      · intro hcase
        by_cases hik : i = k
        · subst hik
          rw [hlinkk] at hlink
          cases hlink
          exact hgk
        · refine (hinv i link hlink).1 ?_
          rcases hcase with h | h
          · exact Or.inl (by omega)
          · exact Or.inr h
      · intro hi hlu
        have hik : i ≠ k := by
          rintro rfl
          rw [hlinkk] at hlink
          cases hlink
          exact hu hlu
        obtain ⟨n, pe, hn0, hn1, hown, hpart⟩ := (hinv i link hlink).2 (by omega) hlu
        exact ⟨n, pe, hn0, hn1, hown, hpart⟩

/-! ## Claim C6: link reciprocity after DungeonLink -/

/-- C6: for an existing dungeon `d`, provided every newly generated dungeon has at least one
link, `Game::DungeonLink( d )` returns; every link `i` of `d` that was unresolved (both indices
negative) keeps its entrance and now references link 0 of a dungeon appended by this call, and
that partner link references `(d, i)` with the two positions swapped
(`partner.exit == own.entrance`, `partner.entrance == own.exit`); every other link of `d` is
unchanged; and a second call `DungeonLink( d )` changes nothing. -/
theorem DungeonLink_reciprocal (construct : Nat → DungeonMembers) (g : Game) (d : Int)
    (hd : (vectorAt g.dungeons d).isSome = true) (hc : ∀ n, (construct n).links ≠ []) :
    ∃ g', g.DungeonLink construct d = some g' ∧
      (∀ (i : Nat) (link : Link), g.getLink d i = some link → link.Unresolved →
        ∃ (n : Nat) (own partner : Link), g'.getLink d i = some own ∧
          own.indexDungeon = n ∧ own.indexLink = 0 ∧ own.entrance = link.entrance ∧
          g.dungeons.length ≤ n ∧ n < g'.dungeons.length ∧
          g'.getLink n 0 = some partner ∧
          partner.indexDungeon = d ∧ partner.indexLink = i ∧
          partner.exit = own.entrance ∧ partner.entrance = own.exit) ∧
      (∀ (i : Nat) (link : Link), g.getLink d i = some link → ¬ link.Unresolved →
        g'.getLink d i = some link) ∧
      ∀ construct', g'.DungeonLink construct' d = some g' := by
  obtain ⟨D, hD⟩ := Option.isSome_iff_exists.mp hd
  have hsome : ∀ i : Nat, i < D.links.length → (g.getLink d i).isSome = true := by
    intro i hi
    unfold Game.getLink
    rw [hD]
    dsimp only
    rw [vectorAt_nat, List.getElem?_eq_getElem hi]
    rfl
  obtain ⟨g', hfold, hlen, hinv, hnone⟩ := Game.linkFold construct hc g d D.links.length hsome
  have hlt : ∀ (i : Nat) (link : Link), g.getLink d i = some link → i < D.links.length := by
    intro i link h
    unfold Game.getLink at h
    rw [hD] at h
    dsimp only at h
    rw [vectorAt_nat] at h
    exact (List.getElem?_eq_some.mp h).1
  have hresolved : ∀ (i : Nat) (l' : Link), g'.getLink d i = some l' → ¬ l'.Unresolved := by
    intro i l' hl'
    cases hgi : g.getLink d i with
    | none =>
      rw [hnone i hgi] at hl'
      cases hl'
    | some link =>
      by_cases hu : link.Unresolved
      · obtain ⟨n, pe, _, _, hown, _⟩ := (hinv i link hgi).2 (hlt i link hgi) hu
        rw [hown] at hl'
        cases hl'
        intro h
        have := h.2
        simp only at this
        omega
      · rw [(hinv i link hgi).1 (Or.inr hu)] at hl'
        cases hl'
        exact hu
  refine ⟨g', by unfold Game.DungeonLink; rw [hD]; exact hfold, ?_, ?_, ?_⟩
  · intro i link hlink hu
    obtain ⟨n, pe, hn0, hn1, hown, hpart⟩ := (hinv i link hlink).2 (hlt i link hlink) hu
    exact ⟨n, _, _, hown, rfl, rfl, rfl, hn0, hn1, hpart, rfl, rfl, rfl, rfl⟩
  · intro i link hlink hu
    exact (hinv i link hlink).1 (Or.inr hu)
  · intro construct'
    unfold Game.DungeonLink
    cases hD' : vectorAt g'.dungeons d with
    | none =>
      exfalso
      obtain ⟨h0, hget⟩ := vectorAt_eq_some.mp hD
      have h1 := (List.getElem?_eq_some.mp hget).1
      unfold vectorAt at hD'
      rw [if_pos h0, List.getElem?_eq_none_iff] at hD'
      omega
    | some D' =>
      dsimp only
      apply foldlM_fixed
      intro i hi
      have hi' : i < D'.links.length := List.mem_range.mp hi
      have hget : g'.getLink d i = some D'.links[i] := by
        unfold Game.getLink
        rw [hD']
        dsimp only
        rw [vectorAt_nat, List.getElem?_eq_getElem hi']
      exact Game.linkStep_resolved construct' hget (hresolved i _ hget)

/-- Witness for C6: the first dungeon of a new game has one unresolved link; `DungeonLink( 0 )`
appends one generated dungeon and ties the two links together. -/
theorem DungeonLink_reciprocal_witness :
    ∃ g', sampleGame.DungeonLink (fun _ => sampleGenerated) 0 = some g' ∧
      g'.getLink 0 0 = some ⟨1, 0, ⟨0, 1⟩, ⟨0, 1⟩⟩ ∧
      g'.getLink 1 0 = some ⟨0, 0, ⟨0, 1⟩, ⟨0, 1⟩⟩ ∧
      g'.DungeonLink (fun _ => sampleGenerated) 0 = some g' := by
  obtain ⟨g', hrun, _, _, hagain⟩ :=
    DungeonLink_reciprocal (fun _ => sampleGenerated) sampleGame 0 (by decide)
      (fun _ => List.cons_ne_nil _ _)
  have hval : sampleGame.DungeonLink (fun _ => sampleGenerated) 0 =
      some { sampleGame with dungeons :=
        [{ sampleGenerated with links := [⟨1, 0, ⟨0, 1⟩, ⟨0, 1⟩⟩] },
         { sampleGenerated with links := [⟨0, 0, ⟨0, 1⟩, ⟨0, 1⟩⟩] }] } := by
    rfl
  rw [hval] at hrun
  cases hrun
  exact ⟨_, hval, rfl, rfl, hagain _⟩

/-! ## Rotation of a dungeon with its links -/

theorem Game.setLink_body {g g' : Game} {a b : Int} {l : Link}
    (h : g.setLink a b l = some g') (x : Int) :
    (vectorAt g'.dungeons x).map (fun D => { D with links := [] }) =
      (vectorAt g.dungeons x).map (fun D => { D with links := [] }) := by
  obtain ⟨D, hD, _, _, rfl⟩ := Game.setLink_eq_some.mp h
  obtain ⟨ha0, hDget⟩ := vectorAt_eq_some.mp hD
  have hal : a.toNat < g.dungeons.length := (List.getElem?_eq_some.mp hDget).1
  dsimp only
  rw [vectorAt_set ha0 hal]
  by_cases hx : x = a
  · subst hx
    rw [if_pos rfl, hD]
    rfl
  · rw [if_neg hx]

theorem Game.setLink_player {g g' : Game} {a b : Int} {l : Link}
    (h : g.setLink a b l = some g') : g'.player = g.player := by
  obtain ⟨D, _, _, _, rfl⟩ := Game.setLink_eq_some.mp h
  rfl

theorem Game.rotateLink_spec {g : Game} {D : Int} {i : Nat} (size : Vector2) (o : Orientation)
    {current partner : Link} (hcur : g.getLink D i = some current)
    (hpar : g.getLink current.indexDungeon current.indexLink = some partner)
    (hne : current.indexDungeon ≠ D) :
    ∃ g', g.rotateLink D size o i = some g' ∧ g'.player = g.player ∧
      (∀ x, (vectorAt g'.dungeons x).map (fun D => { D with links := [] }) =
        (vectorAt g.dungeons x).map (fun D => { D with links := [] })) ∧
      ∀ a b, g'.getLink a b =
        if a = current.indexDungeon ∧ b = current.indexLink then
          some { partner with exit := PositionRotate partner.exit size o }
        else if a = D ∧ b = i then
          some { current with entrance := PositionRotate current.entrance size o }
        else g.getLink a b := by
  obtain ⟨g1, hg1⟩ := Game.setLink_of_getLink hcur
    { current with entrance := PositionRotate current.entrance size o }
  have hp1 : g1.getLink current.indexDungeon current.indexLink = some partner := by
    rw [Game.getLink_setLink hg1, if_neg (by intro h; exact hne h.1), hpar]
  obtain ⟨g2, hg2⟩ := Game.setLink_of_getLink hp1
    { partner with exit := PositionRotate partner.exit size o }
  refine ⟨g2, ?_, ?_, ?_, ?_⟩
  · unfold Game.rotateLink
    rw [hcur]
    dsimp only
    rw [hpar]
    dsimp only
    rw [hg1]
    dsimp only
    rw [hp1]
    exact hg2
  · rw [Game.setLink_player hg2, Game.setLink_player hg1]
  · intro x
    rw [Game.setLink_body hg2, Game.setLink_body hg1]
  · intro a b
    rw [Game.getLink_setLink hg2, Game.getLink_setLink hg1]

theorem Game.getLink_of_links {g : Game} {D : Int} {Dm : DungeonMembers}
    (hD : vectorAt g.dungeons D = some Dm) (i : Nat) : g.getLink D i = Dm.links[i]? := by
  unfold Game.getLink
  rw [hD]
  exact vectorAt_nat _ _

theorem Game.exitMatches_some {g : Game} {l : Link} (h : g.exitMatches l = true) :
    ∃ partner, g.getLink l.indexDungeon l.indexLink = some partner ∧
      partner.exit = l.entrance := by
  unfold Game.exitMatches at h
  cases hp : g.getLink l.indexDungeon l.indexLink with
  | none => simp [hp] at h
  | some partner => exact ⟨partner, rfl, by simpa [hp] using h⟩

theorem Game.rotateFold (g : Game) (D : Int) (links : List Link)
    (hlinks : ∀ i : Nat, g.getLink D i = links[i]?) (hp : g.Partnered D links)
    (size : Vector2) (o : Orientation) :
    ∀ k : Nat, k ≤ links.length →
      ∃ gk, (List.range k).foldlM (Game.rotateLink D size o) g = some gk ∧
        gk.player = g.player ∧
        (∀ x, (vectorAt gk.dungeons x).map (fun D => { D with links := [] }) =
          (vectorAt g.dungeons x).map (fun D => { D with links := [] })) ∧
        ∀ (i : Nat) (own partner : Link), links[i]? = some own →
          g.getLink own.indexDungeon own.indexLink = some partner →
          (i < k →
            gk.getLink D i = some { own with entrance := PositionRotate own.entrance size o } ∧
            gk.getLink own.indexDungeon own.indexLink =
              some { partner with exit := PositionRotate partner.exit size o }) ∧
          (k ≤ i →
            gk.getLink D i = some own ∧
            gk.getLink own.indexDungeon own.indexLink = some partner)
  | 0, _ => ⟨g, rfl, rfl, fun _ => rfl, fun i own partner hown hpar =>
      ⟨fun hi => absurd hi (Nat.not_lt_zero _), fun _ => ⟨by rw [hlinks, hown], hpar⟩⟩⟩
  | k + 1, hk => by
    obtain ⟨gk, hfold, hplayer, hbody, hinv⟩ :=
      Game.rotateFold g D links hlinks hp size o k (by omega)
    have hklt : k < links.length := by omega
    have hownk : links[k]? = some links[k] := List.getElem?_eq_getElem hklt
    obtain ⟨hnek, hexk⟩ := hp.1 links[k] (List.getElem_mem hklt)
    obtain ⟨partnerk, hpark, _⟩ := Game.exitMatches_some hexk
    obtain ⟨hgk1, hgk2⟩ := (hinv k links[k] partnerk hownk hpark).2 (le_refl _)
    obtain ⟨g', hstep, hplayer', hbody', hget⟩ := Game.rotateLink_spec size o hgk1 hgk2 hnek
    have hsplit : (List.range (k + 1)).foldlM (Game.rotateLink D size o) g =
        Game.rotateLink D size o gk k := by
      rw [List.range_succ, List.foldlM_append, hfold]
      simp
    refine ⟨g', by rw [hsplit]; exact hstep, by rw [hplayer', hplayer],
      fun x => by rw [hbody', hbody], ?_⟩
    intro i own partner hown hpar
    have hilt : i < links.length := (List.getElem?_eq_some.mp hown).1
    have howni : links[i] = own := (List.getElem?_eq_some.mp hown).2
    obtain ⟨hnei, _⟩ := hp.1 own (List.getElem?_mem hown)
    have hdistinct : i ≠ k →
        ¬ (own.indexDungeon = links[k].indexDungeon ∧ own.indexLink = links[k].indexLink) := by
      intro hik hc
      apply hik
      have hi' : i < (links.map fun l => (l.indexDungeon, l.indexLink)).length := by
        rw [List.length_map]
        exact hilt
      have hk' : k < (links.map fun l => (l.indexDungeon, l.indexLink)).length := by
        rw [List.length_map]
        exact hklt
      have heq : (links.map fun l => (l.indexDungeon, l.indexLink))[i] =
          (links.map fun l => (l.indexDungeon, l.indexLink))[k] := by
        simp only [List.getElem_map, howni, Prod.mk.injEq]
        exact hc
      exact hp.2.getElem_inj_iff.mp heq
    by_cases hik : i = k
    · subst hik
      have hoo : links[i] = own := howni
      rw [hoo] at hpark hget hgk1 hgk2
      rw [hpark] at hpar
      cases hpar
      constructor
      · intro _
        constructor
        · rw [hget, if_neg (by intro h; exact hnei h.1.symm), if_pos ⟨rfl, rfl⟩]
        · rw [hget, if_pos ⟨rfl, rfl⟩]
      · intro h
        omega
    · have hfirst := hdistinct hik
      have hDi : gk.getLink D i = g'.getLink D i := by
        rw [hget, if_neg (by intro h; exact hnek h.1.symm),
          if_neg (by intro h; exact hik (by exact_mod_cast h.2))]
      have hPi : gk.getLink own.indexDungeon own.indexLink =
          g'.getLink own.indexDungeon own.indexLink := by
        rw [hget, if_neg hfirst, if_neg (by intro h; exact hnei h.1)]
      rw [← hDi, ← hPi]
      obtain ⟨h1, h2⟩ := hinv i own partner hown hpar
      exact ⟨fun hi => h1 (by omega), fun hi => h2 (by omega)⟩

/-! ## Claim C7: link reciprocity under DungeonRotate -/

theorem Game.getLink_replace {g : Game} {D : Int} {Dk N : DungeonMembers} (p : Player)
    (hD : vectorAt g.dungeons D = some Dk) (hN : N.links = Dk.links) (a b : Int) :
    ({ g with player := p, dungeons := g.dungeons.set D.toNat N } : Game).getLink a b =
      g.getLink a b := by
  obtain ⟨h0, hget⟩ := vectorAt_eq_some.mp hD
  have hl : D.toNat < g.dungeons.length := (List.getElem?_eq_some.mp hget).1
  unfold Game.getLink
  dsimp only
  rw [vectorAt_set h0 hl]
  by_cases ha : a = D
  · subst ha
    rw [if_pos rfl, hD]
    dsimp only
    rw [hN]
  · rw [if_neg ha]

/-- C7 as amended: let every link of the existing dungeon `D` name a partner link that exists,
lies in another dungeon and stores the own entrance as its exit, and let no two links of `D`
name the same partner link.  Then `Game::DungeonRotate( D, o )` returns; each link of `D` has
its entrance replaced by `PositionRotate( entrance, size of D before the rotation, o )` and is
otherwise unchanged (same exit, same indices); its partner link has its exit replaced by that
same rotated position and is otherwise unchanged (same entrance, same indices). -/
theorem DungeonRotate_links (g : Game) (D : Int) (o : Orientation) (members : DungeonMembers)
    (hD : vectorAt g.dungeons D = some members)
    (hs : (Dungeon.mk members g.player).Sized) (hp : g.Partnered D members.links) :
    ∃ g', g.DungeonRotate D o = some g' ∧
      ∀ (i : Nat) (own partner : Link), g.getLink D i = some own →
        g.getLink own.indexDungeon own.indexLink = some partner →
        partner.exit = own.entrance ∧
        g'.getLink D i =
          some { own with entrance := PositionRotate own.entrance members.size o } ∧
        g'.getLink own.indexDungeon own.indexLink =
          some { partner with exit := PositionRotate own.entrance members.size o } := by
  have hlinks : ∀ i : Nat, g.getLink D i = members.links[i]? := Game.getLink_of_links hD
  obtain ⟨gk, hfold, hplayer, hbody, hinv⟩ :=
    Game.rotateFold g D members.links hlinks hp members.size o members.links.length (le_refl _)
  -- the dungeon that is rotated after the loop over the links
  have hDk : ∃ Dk, vectorAt gk.dungeons D = some Dk ∧
      ({ Dk with links := [] } : DungeonMembers) = { members with links := [] } := by
    have := hbody D
    rw [hD] at this
    cases hk : vectorAt gk.dungeons D with
    | none => simp [hk] at this
    | some Dk =>
      rw [hk] at this
      exact ⟨Dk, rfl, by simpa using this⟩
  obtain ⟨Dk, hDk, hsame⟩ := hDk
  have hsize : Dk.size = members.size := by
    have := congrArg DungeonMembers.size hsame
    exact this
  have htiles : Dk.tiles = members.tiles := by
    have := congrArg DungeonMembers.tiles hsame
    exact this
  have hsk : (Dungeon.mk Dk gk.player).Sized := by
    obtain ⟨h1, h2, h3⟩ := hs
    refine ⟨?_, ?_, ?_⟩
    · show 0 ≤ Dk.size.x
      rw [hsize]
      exact h1
    · show 0 ≤ Dk.size.y
      rw [hsize]
      exact h2
    · show (Dk.tiles.length : Int) = Dk.size.x * Dk.size.y
      rw [hsize, htiles]
      exact h3
  obtain ⟨rotated, hrot, _, _, _, _, _, _, hrl, _, _⟩ :=
    Dungeon.Rotate_spec (Dungeon.mk Dk gk.player) o hsk
  have hrun : g.DungeonRotate D o = some
      { gk with player := rotated.player,
                dungeons := gk.dungeons.set D.toNat rotated.toDungeonMembers } := by
    unfold Game.DungeonRotate
    rw [hD]
    dsimp only
    rw [hfold]
    dsimp only
    rw [hDk]
    dsimp only
    rw [hrot]
  refine ⟨_, hrun, ?_⟩
  intro i own partner hown hpar
  have hown' : members.links[i]? = some own := by rw [← hlinks]; exact hown
  have hilt : i < members.links.length := (List.getElem?_eq_some.mp hown').1
  obtain ⟨_, hex⟩ := hp.1 own (List.getElem?_mem hown')
  obtain ⟨partner', hpar', hexit⟩ := Game.exitMatches_some hex
  rw [hpar] at hpar'
  cases hpar'
  obtain ⟨h1, h2⟩ := (hinv i own partner hown' hpar).1 hilt
  refine ⟨hexit, ?_, ?_⟩
  · rw [Game.getLink_replace rotated.player hDk hrl]
    exact h1
  · rw [Game.getLink_replace rotated.player hDk hrl, h2, hexit]

/-- Witness for C7 as amended: two dungeons tied by one doorway, the first one turned by 90
degrees; the entrance `(0, 1)` and the partner's exit both become `(0, 0)`. -/
theorem DungeonRotate_links_witness :
    ∃ g', sampleLinked.DungeonRotate 0 .East = some g' ∧
      g'.getLink 0 0 = some ⟨1, 0, ⟨0, 0⟩, ⟨2, 0⟩⟩ ∧
      g'.getLink 1 0 = some ⟨0, 0, ⟨2, 0⟩, ⟨0, 0⟩⟩ := by
  obtain ⟨g', hrun, hlinks⟩ :=
    DungeonRotate_links sampleLinked 0 .East
      { sampleGenerated with links := [⟨1, 0, ⟨0, 1⟩, ⟨2, 0⟩⟩] } rfl (by decide) (by decide)
  obtain ⟨_, h1, h2⟩ := hlinks 0 ⟨1, 0, ⟨0, 1⟩, ⟨2, 0⟩⟩ ⟨0, 0, ⟨2, 0⟩, ⟨0, 1⟩⟩ rfl rfl
  exact ⟨g', hrun, h1, h2⟩

/-- Counterexample to C7 as stated.  In both games every link of dungeon 0 is resolved and its
partner's exit equals its entrance `(0, 1)`.  (a) The only link of the dungeon names itself as
partner: after `DungeonRotate( 0, 90 degrees )` the dungeon's own exit field has changed from
`(0, 1)` to `(0, 0)`.  (b) Two links name the same partner link: its exit is rotated twice and
ends as `(1, 0)`, not as the rotated entrance `(0, 0)`. -/
theorem DungeonRotate_links_counterexample :
    (sampleSelfLinked.getLink 0 0 = some ⟨0, 0, ⟨0, 1⟩, ⟨0, 1⟩⟩ ∧
      sampleSelfLinked.exitMatches ⟨0, 0, ⟨0, 1⟩, ⟨0, 1⟩⟩ = true ∧
      (sampleSelfLinked.DungeonRotate 0 .East).bind (fun g' => g'.getLink 0 0) =
        some ⟨0, 0, ⟨0, 0⟩, ⟨0, 0⟩⟩) ∧
    (sampleShared.getLink 0 0 = some ⟨1, 0, ⟨0, 1⟩, ⟨2, 0⟩⟩ ∧
      sampleShared.getLink 0 1 = some ⟨1, 0, ⟨0, 1⟩, ⟨2, 0⟩⟩ ∧
      sampleShared.getLink 1 0 = some ⟨0, 0, ⟨2, 0⟩, ⟨0, 1⟩⟩ ∧
      sampleShared.exitMatches ⟨1, 0, ⟨0, 1⟩, ⟨2, 0⟩⟩ = true ∧
      PositionRotate ⟨0, 1⟩ ⟨3, 2⟩ .East = ⟨0, 0⟩ ∧
      (sampleShared.DungeonRotate 0 .East).bind (fun g' => g'.getLink 1 0) =
        some ⟨0, 0, ⟨2, 0⟩, ⟨1, 0⟩⟩) := by
  decide

/-! ## The tile-icon invariant under the operations -/

theorem Dungeon.IconInv.transfer {d d' : Dungeon} (hi : d.IconInv)
    (ht : ∀ t ∈ d'.tiles, t ∈ d.tiles)
    (hd : ∀ r e, d.deref r = some e → ∃ e', d'.deref r = some e' ∧ e'.icon = e.icon) :
    d'.IconInv := by
  intro t htm
  have h := hi t (ht t htm)
  unfold Dungeon.topIcon at h ⊢
  cases hl : t.occupants.getLast? with
  | none =>
    rw [hl] at h
    exact h
  | some r =>
    rw [hl] at h
    dsimp only at h ⊢
    obtain ⟨e, he, hicon⟩ := Option.map_eq_some'.mp h
    obtain ⟨e', he', hicon'⟩ := hd r e he
    rw [he']
    simp [hicon', hicon]

theorem Dungeon.IconInv.set {d : Dungeon} (hi : d.IconInv) (k : Nat) {c : Char}
    {occupants : List Ref} (hc : d.topIcon occupants = some c) :
    (d.withTiles (d.tiles.set k ⟨c, occupants⟩)).IconInv := by
  intro t ht
  rcases List.mem_or_eq_of_mem_set ht with ht | rfl
  · exact hi t ht
  · exact hc

theorem Dungeon.OccupantInsert_iconInv {d d' : Dungeon} (hi : d.IconInv) {p : Vector2} {r : Ref}
    (h : d.OccupantInsert p r = some d') : d'.IconInv := by
  obtain ⟨t, e, _, he, rfl⟩ := Dungeon.OccupantInsert_eq_some.mp h
  apply hi.set
  have : (d.deref r).map Entity.icon = some e.icon := by rw [he]; rfl
  simpa [Dungeon.topIcon] using this

theorem Dungeon.OccupantRemove_iconInv {d d' : Dungeon} (hi : d.IconInv) {p : Vector2} {r : Ref}
    (h : d.OccupantRemove p r = some d') : d'.IconInv := by
  obtain ⟨t, c, _, _, _, hc, rfl⟩ := Dungeon.OccupantRemove_eq_some.mp h
  exact hi.set _ hc

theorem Dungeon.EntityInsert_iconInv {d d' : Dungeon} (hf : ∀ en ∈ d.entities, en.1 < d.fresh)
    (hi : d.IconInv) {p : Vector2} {e : Entity} (h : d.EntityInsert p e = some d') :
    d'.IconInv := by
  refine Dungeon.OccupantInsert_iconInv (d := { d with
      entities := d.entities ++ [(d.fresh, { e with position := p })],
      fresh := d.fresh + 1 }) ?_ h
  refine hi.transfer (fun t ht => ht) ?_
  intro r e0 he0
  cases r with
  | player => exact ⟨e0, he0, rfl⟩
  | entity id =>
    refine ⟨e0, ?_, rfl⟩
    show (d.entities ++ [(d.fresh, { e with position := p })]).lookup id = some e0
    rw [lookup_push hf]
    have hid : id ≠ d.fresh := by
      rintro rfl
      have : d.entities.lookup d.fresh = some e0 := he0
      rw [lookup_none_of_fresh hf] at this
      cases this
    rw [if_neg hid]
    exact he0

theorem Dungeon.EntityRemove_iconInv {d d' : Dungeon} (hc : d.Consistent) (hi : d.IconInv)
    {id : Nat} {e : Entity} (he : d.entities.lookup id = some e)
    (h : d.EntityRemove e.position (.entity id) = some d') : d'.IconInv := by
  have hlive := hc.live
  obtain ⟨hs, hn, hf, hb, htr⟩ := hc
  have hp : InBounds e.position d.size := hb (id, e) (mem_of_lookup he)
  obtain ⟨t, ht⟩ := Dungeon.GetTile_of_inBounds hs hp
  obtain ⟨h0, hget⟩ := Dungeon.GetTile_eq_getElem? ht
  obtain ⟨c, hc1, hrem⟩ := Dungeon.OccupantRemove_live (r := .entity id) ht
    (hlive t (tileAt_mem ht)) (by show (d.entities.lookup id).isSome = true; rw [he]; rfl)
  have hrun : d.EntityRemove e.position (.entity id) = some
      { (d.withTiles (d.tiles.set (tileIndex d.size e.position).toNat
          ⟨c, t.occupants.filter (fun r' => r' ≠ Ref.entity id)⟩)) with
        entities := d.entities.eraseP (fun en => en.1 == id) } := by
    simp only [Dungeon.EntityRemove, he, Option.isSome_some, if_true, hrem]
    rfl
  rw [hrun] at h
  cases h
  have hi1 : (d.withTiles (d.tiles.set (tileIndex d.size e.position).toNat
      ⟨c, t.occupants.filter (fun r' => r' ≠ Ref.entity id)⟩)).IconInv := hi.set _ hc1
  -- after the removal no tile lists the entity
  have hgone : ∀ t' ∈ d.tiles.set (tileIndex d.size e.position).toNat
      ⟨c, t.occupants.filter (fun r' => r' ≠ Ref.entity id)⟩,
      Ref.entity id ∉ t'.occupants := by
    intro t' ht' hmem
    obtain ⟨i, hi'⟩ := List.mem_iff_getElem?.mp ht'
    rw [List.getElem?_set] at hi'
    by_cases hik : (tileIndex d.size e.position).toNat = i
    · rw [if_pos hik] at hi'
      split at hi'
      · cases hi'
        simp at hmem
      · cases hi'
    · rw [if_neg hik] at hi'
      have hcount := htr i t' hi' id
      unfold Dungeon.listings at hcount
      rw [he] at hcount
      have hne : ¬ tileIndex d.size e.position = (i : Int) := by
        intro heq
        apply hik
        rw [heq]
        simp
      simp only [hne, if_false] at hcount
      exact (List.count_eq_zero.mp hcount) hmem
  intro t' ht'
  have h1 := hi1 t' ht'
  unfold Dungeon.topIcon at h1 ⊢
  cases hl : t'.occupants.getLast? with
  | none =>
    rw [hl] at h1
    exact h1
  | some r =>
    rw [hl] at h1
    dsimp only at h1 ⊢
    cases r with
    | player => exact h1
    | entity id' =>
      have hne : id' ≠ id := by
        rintro rfl
        exact hgone t' ht' (List.mem_of_getLast?_eq_some hl)
      show ((d.entities.eraseP fun en => en.1 == id).lookup id').map Entity.icon = _
      rw [lookup_eraseP hn, if_neg hne]
      exact h1

theorem Dungeon.BuildVision_eq {fn : Functions} {d d' : Dungeon} (hs : d.Sized) (hl : d.Live)
    {p : Vector2} {reach : Int} (h : d.BuildVision fn p reach = some d') :
    ∃ v, d' = d.withVision v := by
  obtain ⟨v, hv⟩ := Dungeon.BuildVision_frame fn d hs hl p reach
  rw [hv] at h
  cases h
  exact ⟨v, rfl⟩

theorem Dungeon.IconInv.withVision {d : Dungeon} (hi : d.IconInv) (v : List Vector2) :
    (d.withVision v).IconInv := hi

theorem Dungeon.IconInv.setPlayerPosition {d : Dungeon} (hi : d.IconInv) (p : Vector2) :
    (d.setPlayerPosition p).IconInv := by
  refine hi.transfer (fun t ht => ht) ?_
  intro r e he
  cases r with
  | player =>
    cases he
    exact ⟨_, rfl, rfl⟩
  | entity id => exact ⟨e, he, rfl⟩

theorem Dungeon.placeNearby_total {d : Dungeon} (hs : d.Sized) (hl : d.Live) (p : Vector2) :
    ∀ l : List Vector2, ∃ d2, d.placeNearby p l = some d2 ∧
      (d2 = d ∨ ∃ q, InBounds q d.size ∧ d2 = d.setPlayerPosition q)
  | [] => ⟨d, rfl, Or.inl rfl⟩
  | direction :: rest => by
    obtain ⟨d2, h2, hform⟩ := Dungeon.placeNearby_total hs hl p rest
    unfold Dungeon.placeNearby
    dsimp only
    by_cases hb : InBounds (p + direction) d.size
    · rw [if_pos hb]
      obtain ⟨b, hb'⟩ := Dungeon.TileLacking_inBounds hs hl hb Attributes.Obstacle
      rw [hb']
      cases b
      · exact ⟨d2, h2, hform⟩
      · exact ⟨_, rfl, Or.inr ⟨_, hb, rfl⟩⟩
    · rw [if_neg hb]
      exact ⟨d2, h2, hform⟩

theorem Dungeon.playerTarget_total {d : Dungeon} (hs : d.Sized) (hl : d.Live) {p : Vector2}
    (hp : InBounds p d.size) :
    ∃ q, InBounds q d.size ∧ d.playerTarget p = some (d.setPlayerPosition q) := by
  unfold Dungeon.playerTarget
  rw [if_pos hp]
  dsimp only
  obtain ⟨b, hb⟩ := Dungeon.TileLacking_inBounds (d := d.setPlayerPosition p) hs
    (Dungeon.live_setPlayerPosition hl p) hp Attributes.Obstacle
  rw [hb]
  cases b
  · dsimp only
    obtain ⟨d2, h2, hform⟩ := Dungeon.placeNearby_total (d := d.setPlayerPosition p) hs
      (Dungeon.live_setPlayerPosition hl p) p directions
    rw [h2]
    rcases hform with rfl | ⟨q, hq, rfl⟩
    · exact ⟨p, hp, rfl⟩
    · exact ⟨q, hq, rfl⟩
  · exact ⟨p, hp, rfl⟩

theorem Dungeon.PlayerPlace_iconInv (fn : Functions) {d : Dungeon} (hs : d.Sized) (hl : d.Live)
    (hi : d.IconInv) {p : Vector2} (hp : InBounds p d.size) :
    ∃ d', d.PlayerPlace fn p = some d' ∧ d'.IconInv := by
  obtain ⟨q, hq, htarget⟩ := Dungeon.playerTarget_total hs hl hp
  obtain ⟨v, hv⟩ := Dungeon.BuildVision_frame fn (d.setPlayerPosition q) hs
    (Dungeon.live_setPlayerPosition hl q) q d.player.visionReach
  obtain ⟨t, ht⟩ := Dungeon.GetTile_of_inBounds (d := (d.setPlayerPosition q).withVision v) hs hq
  have hins := Dungeon.OccupantInsert_live (r := .player) ht rfl
  have hrun : d.PlayerPlace fn p = some (((d.setPlayerPosition q).withVision v).withTiles
      (((d.setPlayerPosition q).withVision v).tiles.set (tileIndex d.size q).toNat
        ⟨d.player.base.icon, t.occupants ++ [Ref.player]⟩)) := by
    unfold Dungeon.PlayerPlace
    rw [htarget]
    dsimp only
    have hv' : (d.setPlayerPosition q).BuildVision fn
        (d.setPlayerPosition q).player.base.position
        (d.setPlayerPosition q).player.visionReach =
        some ((d.setPlayerPosition q).withVision v) := hv
    rw [hv']
    exact hins
  exact ⟨_, hrun, Dungeon.OccupantInsert_iconInv
    ((hi.setPlayerPosition q).withVision v) hins⟩

theorem Dungeon.MovementPlayer_iconInv (fn : Functions) {d d' : Dungeon} (hs : d.Sized)
    (hl : d.Live) (hi : d.IconInv) {o : Orientation} (h : d.MovementPlayer fn o = some d') :
    d'.IconInv := by
  unfold Dungeon.MovementPlayer at h
  dsimp only at h
  cases hm : d.mayEnter (PositionMove d.player.base.position o) with
  | none => simp [hm] at h
  | some b =>
    rw [hm] at h
    cases b
    · dsimp only at h
      obtain ⟨v, rfl⟩ := Dungeon.BuildVision_eq hs hl h
      exact hi.withVision v
    · dsimp only at h
      cases h1 : d.OccupantRemove d.player.base.position Ref.player with
      | none => simp [h1] at h
      | some d1 =>
        rw [h1] at h
        dsimp only at h
        cases h3 : (d1.setPlayerPosition (PositionMove d.player.base.position o)).OccupantInsert
            (PositionMove d.player.base.position o) Ref.player with
        | none => simp [h3] at h
        | some d3 =>
          rw [h3] at h
          dsimp only at h
          have hi3 : d3.IconInv := Dungeon.OccupantInsert_iconInv
            ((Dungeon.OccupantRemove_iconInv hi h1).setPlayerPosition _) h3
          -- the state before the vision rebuild is sized and live
          obtain ⟨t1, c1, ht1, hl1, _, _, rfl⟩ := Dungeon.OccupantRemove_eq_some.mp h1
          obtain ⟨t2, e2, ht2, _, rfl⟩ := Dungeon.OccupantInsert_eq_some.mp h3
          have hlive1 := Dungeon.live_setPlayerPosition
            (Dungeon.live_set hl (tileIndex d.size d.player.base.position).toNat c1
              (t1.occupants.filter (fun r' => r' ≠ Ref.player))
              (fun r hr => hl1 r (List.mem_of_mem_filter hr)))
            (PositionMove d.player.base.position o)
          have hsized1 : ((d.withTiles (d.tiles.set
              (tileIndex d.size d.player.base.position).toNat
              ⟨c1, t1.occupants.filter (fun r' => r' ≠ Ref.player)⟩)).setPlayerPosition
                (PositionMove d.player.base.position o)).Sized := Dungeon.sized_set hs _ _
          have hlive3 := Dungeon.live_set hlive1
            (tileIndex d.size (PositionMove d.player.base.position o)).toNat e2.icon
            (t2.occupants ++ [Ref.player])
            (fun r hr => by
              rcases List.mem_append.mp hr with hr | hr
              · exact hlive1 t2 (tileAt_mem ht2) r hr
              · rw [List.mem_singleton.mp hr]
                rfl)
          obtain ⟨v, rfl⟩ := Dungeon.BuildVision_eq (Dungeon.sized_set hsized1 _ _) hlive3 h
          exact hi3.withVision v

theorem Dungeon.moveEntity_iconInv (draw : Nat → Vector2 → Vector2) {d d' : Dungeon}
    (hi : d.IconInv) {en : Nat × Entity} (h : d.moveEntity draw en = some d') : d'.IconInv := by
  unfold Dungeon.moveEntity at h
  split at h
  swap
  · cases h
    exact hi
  dsimp only at h
  split at h
  swap
  · cases h
    exact hi
  cases hb : d.TileLacking (draw en.1 en.2.position) Attributes.Obstacle with
  | none => simp [hb] at h
  | some b =>
    rw [hb] at h
    cases b
    · cases h
      exact hi
    · dsimp only at h
      cases h1 : d.OccupantRemove en.2.position (Ref.entity en.1) with
      | none => simp [h1] at h
      | some d1 =>
        rw [h1] at h
        dsimp only at h
        refine Dungeon.OccupantInsert_iconInv ?_ h
        refine (Dungeon.OccupantRemove_iconInv hi h1).transfer (fun t ht => ht) ?_
        intro r e he
        cases r with
        | player => exact ⟨e, he, rfl⟩
        | entity id =>
          have hlook := lookup_modify d1.entities
            (fun e' => { e' with position := draw en.1 en.2.position }) en.1 id
          have he' : d1.entities.lookup id = some e := he
          by_cases hid : id = en.1
          · refine ⟨{ e with position := draw en.1 en.2.position }, ?_, rfl⟩
            show (d1.entities.map fun x => if x.1 = en.1 then
              (x.1, (fun e' => { e' with position := draw en.1 en.2.position }) x.2)
              else x).lookup id = _
            rw [hlook, if_pos hid, he']
            rfl
          · refine ⟨e, ?_, rfl⟩
            show (d1.entities.map fun x => if x.1 = en.1 then
              (x.1, (fun e' => { e' with position := draw en.1 en.2.position }) x.2)
              else x).lookup id = _
            rw [hlook, if_neg hid, he']

theorem Dungeon.foldlM_iconInv {α : Type} (step : Dungeon → α → Option Dungeon)
    (hstep : ∀ d d' x, d.IconInv → step d x = some d' → d'.IconInv) :
    ∀ (l : List α) (d d' : Dungeon), d.IconInv → l.foldlM step d = some d' → d'.IconInv
  | [], d, d', hi, h => by
    cases h
    exact hi
  | x :: l, d, d', hi, h => by
    rw [List.foldlM_cons] at h
    cases h1 : step d x with
    | none => simp [h1] at h
    | some d1 =>
      rw [h1] at h
      exact Dungeon.foldlM_iconInv step hstep l d1 d' (hstep d d1 x hi h1) h

theorem Dungeon.MovementRandom_iconInv (draw : Nat → Vector2 → Vector2) {d d' : Dungeon}
    (hi : d.IconInv) (h : d.MovementRandom draw = some d') : d'.IconInv :=
  Dungeon.foldlM_iconInv (Dungeon.moveEntity draw)
    (fun _ _ _ hi' h' => Dungeon.moveEntity_iconInv draw hi' h') d.entities d d' hi h

theorem lookup_map_snd (l : List (Nat × Entity)) (f : Entity → Entity) (k : Nat) :
    (l.map fun en => (en.1, f en.2)).lookup k = (l.lookup k).map f := by
  induction l with
  | nil => simp
  | cons a l ih =>
    obtain ⟨a1, a2⟩ := a
    simp only [List.map_cons]
    rw [lookup_cons_ite, lookup_cons_ite, ih]
    split <;> rfl

theorem Dungeon.Rotate_iconInv {d : Dungeon} (hs : d.Sized) (hi : d.IconInv) (o : Orientation) :
    ∃ d', d.Rotate o = some d' ∧ d'.IconInv := by
  obtain ⟨d', hrot, _, _, _, hmem, hent, _, _, _, hpl⟩ := Dungeon.Rotate_spec d o hs
  refine ⟨d', hrot, hi.transfer hmem ?_⟩
  intro r e he
  cases r with
  | player =>
    cases he
    refine ⟨d'.player.base, rfl, ?_⟩
    rw [hpl]
  | entity id =>
    refine ⟨{ e with position := PositionRotate e.position d.size o }, ?_, rfl⟩
    show d'.entities.lookup id = _
    rw [hent, lookup_map_snd
      d.entities (fun e' => { e' with position := PositionRotate e'.position d.size o }) id]
    have he' : d.entities.lookup id = some e := he
    rw [he']
    rfl

theorem Dungeon.placeNearby_form {d d2 : Dungeon} (p : Vector2) :
    ∀ l : List Vector2, d.placeNearby p l = some d2 →
      d2 = d ∨ ∃ q, d2 = d.setPlayerPosition q
  | [], h => by
    cases h
    exact Or.inl rfl
  | direction :: rest, h => by
    unfold Dungeon.placeNearby at h
    dsimp only at h
    split at h
    · cases hb : d.TileLacking (p + direction) Attributes.Obstacle with
      | none => simp [hb] at h
      | some b =>
        rw [hb] at h
        cases b
        · exact Dungeon.placeNearby_form p rest h
        · cases h
          exact Or.inr ⟨_, rfl⟩
    · exact Dungeon.placeNearby_form p rest h

theorem Dungeon.playerTarget_form {d d2 : Dungeon} {p : Vector2}
    (h : d.playerTarget p = some d2) : ∃ q, d2 = d.setPlayerPosition q := by
  unfold Dungeon.playerTarget at h
  dsimp only at h
  cases hb : (d.setPlayerPosition
      (if InBounds p d.size then p else d.size.divide 2)).TileLacking p
      Attributes.Obstacle with
  | none => simp [hb] at h
  | some b =>
    rw [hb] at h
    cases b
    · rcases Dungeon.placeNearby_form p directions h with rfl | ⟨q, rfl⟩
      · exact ⟨_, rfl⟩
      · exact ⟨q, rfl⟩
    · cases h
      exact ⟨_, rfl⟩

theorem Dungeon.PlayerPlace_iconInv_of_some (fn : Functions) {d d' : Dungeon} (hs : d.Sized)
    (hl : d.Live) (hi : d.IconInv) {p : Vector2} (h : d.PlayerPlace fn p = some d') :
    d'.IconInv := by
  unfold Dungeon.PlayerPlace at h
  cases h2 : d.playerTarget p with
  | none => simp [h2] at h
  | some d2 =>
    rw [h2] at h
    dsimp only at h
    obtain ⟨q, rfl⟩ := Dungeon.playerTarget_form h2
    cases h3 : (d.setPlayerPosition q).BuildVision fn (d.setPlayerPosition q).player.base.position
        (d.setPlayerPosition q).player.visionReach with
    | none => simp [h3] at h
    | some d3 =>
      rw [h3] at h
      dsimp only at h
      obtain ⟨v, rfl⟩ := Dungeon.BuildVision_eq (d := d.setPlayerPosition q) hs
        (Dungeon.live_setPlayerPosition hl q) h3
      exact Dungeon.OccupantInsert_iconInv ((hi.setPlayerPosition q).withVision v) h

/-! ## Events -/

theorem Dungeon.foldlM_inv {α : Type} (P : Dungeon → Prop) (step : Dungeon → α → Option Dungeon) :
    ∀ (l : List α) (d : Dungeon),
      (∀ s x, x ∈ l → P s → ∃ s', step s x = some s' ∧ P s') → P d →
      ∃ d', l.foldlM step d = some d' ∧ P d'
  | [], d, _, hp => ⟨d, rfl, hp⟩
  | x :: l, d, hstep, hp => by
    obtain ⟨d1, h1, hp1⟩ := hstep d x (List.mem_cons_self _ _) hp
    obtain ⟨d', h', hp'⟩ := Dungeon.foldlM_inv P step l d1
      (fun s y hy => hstep s y (List.mem_cons_of_mem _ hy)) hp1
    exact ⟨d', by rw [List.foldlM_cons, h1]; exact h', hp'⟩

theorem Dungeon.Consistent.modify_keeps {d : Dungeon} (hc : d.Consistent) (f : Entity → Entity)
    (hf : ∀ e, (f e).position = e.position) (r : Ref) : (d.modify f r).Consistent := by
  cases r with
  | player => exact hc
  | entity id =>
    obtain ⟨hs, hn, hfr, hb, htr⟩ := hc
    have hlook := lookup_modify d.entities f id
    refine ⟨hs, ?_, ?_, ?_, ?_⟩
    · show ((d.entities.map fun en => if en.1 = id then (en.1, f en.2) else en).map
        Prod.fst).Nodup
      rw [map_fst_modify]
      exact hn
    · intro en hen
      obtain ⟨en0, hen0, rfl⟩ := List.mem_map.mp hen
      have := hfr en0 hen0
      show _ < d.fresh
      split <;> exact this
    · intro en hen
      obtain ⟨en0, hen0, rfl⟩ := List.mem_map.mp hen
      show InBounds _ d.size
      split
      · show InBounds (f en0.2).position d.size
        rw [hf]
        exact hb en0 hen0
      · exact hb en0 hen0
    · intro i t hit k
      rw [htr i t hit k]
      unfold Dungeon.listings
      show _ = match (d.entities.map fun en =>
          if en.1 = id then (en.1, f en.2) else en).lookup k with
        | none => 0
        | some e' => if tileIndex d.size e'.position = _ then 1 else 0
      rw [hlook]
      by_cases hk : k = id
      · rw [if_pos hk]
        cases d.entities.lookup k with
        | none => rfl
        | some e =>
          show _ = if tileIndex d.size (f e).position = _ then 1 else 0
          rw [hf]
      · rw [if_neg hk]

theorem Dungeon.IconInv.modify_icons {d : Dungeon} (hi : d.IconInv) (f : Entity → Entity)
    (hf : ∀ e, (f e).icon = e.icon) (r : Ref) : (d.modify f r).IconInv := by
  refine hi.transfer (fun t ht => by cases r <;> exact ht) ?_
  intro r' e he
  cases r with
  | player =>
    cases r' with
    | player =>
      cases he
      exact ⟨f d.player.base, rfl, hf _⟩
    | entity id' => exact ⟨e, he, rfl⟩
  | entity id =>
    cases r' with
    | player => exact ⟨e, he, rfl⟩
    | entity id' =>
      have hlook := lookup_modify d.entities f id id'
      have he' : d.entities.lookup id' = some e := he
      by_cases hk : id' = id
      · refine ⟨f e, ?_, hf e⟩
        show (d.entities.map fun en => if en.1 = id then (en.1, f en.2) else en).lookup id' = _
        rw [hlook, if_pos hk, he']
        rfl
      · refine ⟨e, ?_, rfl⟩
        show (d.entities.map fun en => if en.1 = id then (en.1, f en.2) else en).lookup id' = _
        rw [hlook, if_neg hk, he']

theorem Dungeon.HostileAreCharacters.modify_hostile {d : Dungeon} (hh : d.HostileAreCharacters)
    (f : Entity → Entity)
    (hf : ∀ e, (f e).attributes = e.attributes ∧ (f e).character = e.character) (r : Ref) :
    (d.modify f r).HostileAreCharacters := by
  cases r with
  | player =>
    refine ⟨?_, hh.2⟩
    show (f d.player.base).attributes &&& _ ≠ 0 → (f d.player.base).character = true
    rw [(hf _).1, (hf _).2]
    exact hh.1
  | entity id =>
    refine ⟨hh.1, ?_⟩
    intro en hen
    obtain ⟨en0, hen0, rfl⟩ := List.mem_map.mp hen
    split
    · show (f en0.2).attributes &&& _ ≠ 0 → (f en0.2).character = true
      rw [(hf _).1, (hf _).2]
      exact hh.2 en0 hen0
    · exact hh.2 en0 hen0

theorem Dungeon.HostileAreCharacters.deref {d : Dungeon} (hh : d.HostileAreCharacters)
    {r : Ref} {e : Entity} (he : d.deref r = some e)
    (hhost : e.attributes &&& Attributes.Hostile ≠ 0) : e.character = true := by
  cases r with
  | player =>
    cases he
    exact hh.1 hhost
  | entity id => exact hh.2 (id, e) (mem_of_lookup he) hhost

theorem Dungeon.modify_frame (d : Dungeon) (f : Entity → Entity) (hf : ∀ e, (f e).position = e.position)
    (r : Ref) :
    (d.modify f r).tiles = d.tiles ∧ (d.modify f r).size = d.size ∧
      (d.modify f r).links = d.links ∧
      (d.modify f r).player.base.position = d.player.base.position := by
  cases r with
  | player => exact ⟨rfl, rfl, rfl, hf _⟩
  | entity id => exact ⟨rfl, rfl, rfl, rfl⟩

/-- What the first loop of `Dungeon::Events` maintains. -/
theorem Dungeon.fightOccupant_inv (Fight : Player → Entity → Int × Int) (d0 : Dungeon)
    {s : Dungeon} {r : Ref} (hr : (s.deref r).isSome = true)
    (h : (s.Consistent ∧ s.IconInv ∧ s.HostileAreCharacters) ∧ s.tiles = d0.tiles ∧
      s.size = d0.size ∧ s.links = d0.links ∧
      s.player.base.position = d0.player.base.position) :
    ∃ s', s.fightOccupant Fight r = some s' ∧
      (s'.Consistent ∧ s'.IconInv ∧ s'.HostileAreCharacters) ∧ s'.tiles = d0.tiles ∧
      s'.size = d0.size ∧ s'.links = d0.links ∧
      s'.player.base.position = d0.player.base.position := by
  obtain ⟨e, he⟩ := Option.isSome_iff_exists.mp hr
  have hmod : ∀ (s : Dungeon) (f : Entity → Entity) (r : Ref),
      (∀ e, (f e).position = e.position ∧ (f e).icon = e.icon ∧
        (f e).attributes = e.attributes ∧ (f e).character = e.character) →
      ((s.Consistent ∧ s.IconInv ∧ s.HostileAreCharacters) ∧ s.tiles = d0.tiles ∧
        s.size = d0.size ∧ s.links = d0.links ∧
        s.player.base.position = d0.player.base.position) →
      ((s.modify f r).Consistent ∧ (s.modify f r).IconInv ∧
          (s.modify f r).HostileAreCharacters) ∧ (s.modify f r).tiles = d0.tiles ∧
        (s.modify f r).size = d0.size ∧ (s.modify f r).links = d0.links ∧
        (s.modify f r).player.base.position = d0.player.base.position := by
    intro s f r hf ⟨⟨hc, hi, hh⟩, h1, h2, h3, h4⟩
    obtain ⟨f1, f2, f3, f4⟩ := Dungeon.modify_frame s f (fun e => (hf e).1) r
    exact ⟨⟨hc.modify_keeps f (fun e => (hf e).1) r, hi.modify_icons f (fun e => (hf e).2.1) r,
      hh.modify_hostile f (fun e => (hf e).2.2) r⟩, by rw [f1, h1], by rw [f2, h2], by rw [f3, h3],
      by rw [f4, h4]⟩
  unfold Dungeon.fightOccupant
  rw [he]
  dsimp only
  split
  · next hhost =>
    rw [if_pos (h.1.2.2.deref he hhost)]
    have h1 := hmod s (fun p => { p with health := (Fight s.player e).1 }) .player
      (fun _ => ⟨rfl, rfl, rfl, rfl⟩) h
    have h2 := hmod _ (fun c => { c with health := (Fight s.player e).2 }) r
      (fun _ => ⟨rfl, rfl, rfl, rfl⟩) h1
    split
    · exact ⟨_, rfl, hmod _ (fun c => { c with active := false }) r
        (fun _ => ⟨rfl, rfl, rfl, rfl⟩) h2⟩
    · exact ⟨_, rfl, h2⟩
  · exact ⟨s, rfl, h⟩

theorem Dungeon.Consistent.removePlayer {d : Dungeon} (hc : d.Consistent) {k : Nat} {t : Tile}
    (ht : d.tiles[k]? = some t) (c : Char) :
    (d.withTiles (d.tiles.set k ⟨c, t.occupants.filter (fun r' => r' ≠ Ref.player)⟩)).Consistent := by
  obtain ⟨hs, hn, hf, hb, htr⟩ := hc
  refine ⟨Dungeon.sized_set hs _ _, hn, hf, hb, ?_⟩
  refine tracks_set _ htr ?_ ?_
  · intro id
    rw [List.count_filter (by simp)]
    exact htr k t ht id
  · intro i _ _ id
    rfl

theorem Dungeon.swapOnEntrance_inv {s : Dungeon} {link : Link}
    (h : s.Consistent ∧ s.IconInv ∧ InBounds s.player.base.position s.size) :
    ∃ s', s.swapOnEntrance link = some s' ∧
      s'.Consistent ∧ s'.IconInv ∧ InBounds s'.player.base.position s'.size := by
  obtain ⟨hc, hi, hb⟩ := h
  unfold Dungeon.swapOnEntrance
  split
  swap
  · exact ⟨s, rfl, hc, hi, hb⟩
  dsimp only
  have hc1 : ({ s with player :=
      { s.player with states := s.player.states ||| States.Swapping } } : Dungeon).Consistent := hc
  have hi1 : ({ s with player :=
      { s.player with states := s.player.states ||| States.Swapping } } : Dungeon).IconInv := by
    refine hi.transfer (fun t ht => ht) ?_
    intro r e he
    cases r with
    | player =>
      cases he
      exact ⟨_, rfl, rfl⟩
    | entity id => exact ⟨e, he, rfl⟩
  have hb1 : InBounds s.player.base.position ({ s with player :=
      { s.player with states := s.player.states ||| States.Swapping } } : Dungeon).size := hb
  obtain ⟨t, ht⟩ := Dungeon.GetTile_of_inBounds hc1.1 hb1
  obtain ⟨_, hget⟩ := Dungeon.GetTile_eq_getElem? ht
  obtain ⟨c, _, hrem⟩ := Dungeon.OccupantRemove_live (r := .player) ht
    (hc1.live t (tileAt_mem ht)) rfl
  exact ⟨_, hrem, hc1.removePlayer hget c, Dungeon.OccupantRemove_iconInv hi1 hrem, hb⟩

theorem Dungeon.EntityRemove_entities {d d' : Dungeon} (hc : d.Consistent) {id : Nat}
    {e : Entity} (he : d.entities.lookup id = some e)
    (h : d.EntityRemove e.position (.entity id) = some d') :
    d'.entities = d.entities.eraseP (fun en => en.1 == id) := by
  have hlive := hc.live
  have hp : InBounds e.position d.size := hc.2.2.2.1 (id, e) (mem_of_lookup he)
  obtain ⟨t, ht⟩ := Dungeon.GetTile_of_inBounds hc.1 hp
  obtain ⟨c, _, hrem⟩ := Dungeon.OccupantRemove_live (r := .entity id) ht
    (hlive t (tileAt_mem ht)) (by show (d.entities.lookup id).isSome = true; rw [he]; rfl)
  have hrun : d.EntityRemove e.position (.entity id) = some
      { (d.withTiles (d.tiles.set (tileIndex d.size e.position).toNat
          ⟨c, t.occupants.filter (fun r' => r' ≠ Ref.entity id)⟩)) with
        entities := d.entities.eraseP (fun en => en.1 == id) } := by
    simp only [Dungeon.EntityRemove, he, Option.isSome_some, if_true, hrem]
    rfl
  rw [hrun] at h
  cases h
  rfl

theorem Dungeon.foldlM_sweep :
    ∀ (l : List (Nat × Entity)) (d : Dungeon), d.Consistent → d.IconInv →
      (l.map Prod.fst).Nodup → (∀ en ∈ l, en ∈ d.entities) →
      ∃ d', l.foldlM Dungeon.sweep d = some d' ∧ d'.Consistent ∧ d'.IconInv
  | [], d, hc, hi, _, _ => ⟨d, rfl, hc, hi⟩
  | en :: l, d, hc, hi, hn, hmem => by
    obtain ⟨id, e⟩ := en
    simp only [List.map_cons, List.nodup_cons, List.mem_map, not_exists, not_and] at hn
    rw [List.foldlM_cons]
    unfold Dungeon.sweep
    dsimp only
    by_cases hact : e.active = true
    · rw [if_pos hact]
      exact Dungeon.foldlM_sweep l d hc hi hn.2
        (fun en' hen' => hmem en' (List.mem_cons_of_mem _ hen'))
    · rw [if_neg hact]
      have hlk : d.entities.lookup id = some e :=
        lookup_of_mem hc.2.1 (hmem (id, e) (List.mem_cons_self _ _))
      obtain ⟨d1, h1, hc1, _⟩ := Dungeon.EntityRemove_consistent hc hlk
      have hi1 := Dungeon.EntityRemove_iconInv hc hi hlk h1
      have hent := Dungeon.EntityRemove_entities hc hlk h1
      rw [h1]
      refine Dungeon.foldlM_sweep l d1 hc1 hi1 hn.2 ?_
      intro en' hen'
      rw [hent]
      refine (List.mem_eraseP_of_neg ?_).mpr (hmem en' (List.mem_cons_of_mem _ hen'))
      simp only [beq_iff_eq]
      exact hn.1 en' hen'

theorem Dungeon.Events_iconInv (Fight : Player → Entity → Int × Int) {d : Dungeon}
    (hc : d.Consistent) (hi : d.IconInv) (hb : InBounds d.player.base.position d.size)
    (hh : d.HostileAreCharacters) :
    ∃ d', d.Events Fight = some d' ∧ d'.IconInv ∧ d'.Consistent := by
  obtain ⟨tile, htile⟩ := Dungeon.GetTile_of_inBounds hc.1 hb
  have htile' : tileAt d.tiles (tileIndex d.size d.player.base.position) = some tile := htile
  -- fights
  obtain ⟨d1, hfight, ⟨hc1, hi1, _⟩, ht1, hs1, _, hp1⟩ := Dungeon.foldlM_inv
    (fun s => (s.Consistent ∧ s.IconInv ∧ s.HostileAreCharacters) ∧ s.tiles = d.tiles ∧
      s.size = d.size ∧ s.links = d.links ∧
      s.player.base.position = d.player.base.position)
    (Dungeon.fightOccupant Fight) tile.occupants d
    (fun s r hr hs => Dungeon.fightOccupant_inv Fight d
      (hs.1.1.live tile (by rw [hs.2.1]; exact tileAt_mem htile) r hr) hs)
    ⟨⟨hc, hi, hh⟩, rfl, rfl, rfl, rfl⟩
  -- swap
  obtain ⟨d2, hswap, hc2, hi2, _⟩ := Dungeon.foldlM_inv
    (fun s => s.Consistent ∧ s.IconInv ∧ InBounds s.player.base.position s.size)
    Dungeon.swapOnEntrance d1.links d1
    (fun s link _ hs => Dungeon.swapOnEntrance_inv hs)
    ⟨hc1, hi1, by rw [hp1, hs1]; exact hb⟩
  -- sweep
  obtain ⟨d3, hsweep, hc3, hi3⟩ := Dungeon.foldlM_sweep d2.entities d2 hc2 hi2 hc2.2.1
    (fun _ hen => hen)
  refine ⟨d3, ?_, hi3, hc3⟩
  unfold Dungeon.Events
  rw [htile']
  dsimp only
  rw [hfight]
  dsimp only
  rw [hswap]
  exact hsweep

/-! ## Claim C4: the tile-icon invariant -/

/-- C4: let the dungeon satisfy its occupancy invariant (`Dungeon.Consistent`) and let every
tile's icon be the icon of its last occupant, or `'-'` for a tile without occupants.  Then the
same holds for every tile after any one of `OccupantInsert`, `OccupantRemove`, `EntityInsert`,
`PlayerPlace`, `MovementPlayer` and `MovementRandom` whenever the call returns, and these calls
do return for in-bounds positions and live pointers; after `EntityRemove` called with the
entity's stored position; after `Events` when the player is in bounds and hostile entities are
characters; and after `Rotate`. -/
theorem icon_invariant_preserved (fn : Functions) (Fight : Player → Entity → Int × Int)
    (d : Dungeon) (hc : d.Consistent) (hi : d.IconInv) :
    ((∀ p r d', d.OccupantInsert p r = some d' → d'.IconInv) ∧
      ∀ p r, InBounds p d.size → (d.deref r).isSome = true →
        (d.OccupantInsert p r).isSome = true) ∧
    ((∀ p r d', d.OccupantRemove p r = some d' → d'.IconInv) ∧
      ∀ p r, InBounds p d.size → (d.deref r).isSome = true →
        (d.OccupantRemove p r).isSome = true) ∧
    ((∀ p e d', d.EntityInsert p e = some d' → d'.IconInv) ∧
      ∀ p e, InBounds p d.size → (d.EntityInsert p e).isSome = true) ∧
    (∀ id e, d.entities.lookup id = some e →
      ∃ d', d.EntityRemove e.position (.entity id) = some d' ∧ d'.IconInv) ∧
    ((∀ p d', d.PlayerPlace fn p = some d' → d'.IconInv) ∧
      ∀ p, InBounds p d.size → (d.PlayerPlace fn p).isSome = true) ∧
    ((∀ o d', d.MovementPlayer fn o = some d' → d'.IconInv) ∧
      ∀ o, InBounds d.player.base.position d.size → (d.MovementPlayer fn o).isSome = true) ∧
    (∀ draw, ∃ d', d.MovementRandom draw = some d' ∧ d'.IconInv) ∧
    (InBounds d.player.base.position d.size → d.HostileAreCharacters →
      ∃ d', d.Events Fight = some d' ∧ d'.IconInv) ∧
    (∀ o, ∃ d', d.Rotate o = some d' ∧ d'.IconInv) := by
  have hs := hc.1
  have hl := hc.live
  refine ⟨⟨?_, ?_⟩, ⟨?_, ?_⟩, ⟨?_, ?_⟩, ?_, ⟨?_, ?_⟩, ⟨?_, ?_⟩, ?_, ?_, ?_⟩
  · intro p r d' h
    exact Dungeon.OccupantInsert_iconInv hi h
  · intro p r hp hr
    obtain ⟨t, ht⟩ := Dungeon.GetTile_of_inBounds hs hp
    obtain ⟨e, he⟩ := Option.isSome_iff_exists.mp hr
    rw [Dungeon.OccupantInsert_live ht he]
    rfl
  · intro p r d' h
    exact Dungeon.OccupantRemove_iconInv hi h
  · intro p r hp hr
    obtain ⟨t, ht⟩ := Dungeon.GetTile_of_inBounds hs hp
    obtain ⟨c, _, hrem⟩ := Dungeon.OccupantRemove_live ht (hl t (tileAt_mem ht)) hr
    rw [hrem]
    rfl
  · intro p e d' h
    exact Dungeon.EntityInsert_iconInv hc.2.2.1 hi h
  · intro p e hp
    obtain ⟨d', h, _⟩ := Dungeon.EntityInsert_consistent hc hp e
    rw [h]
    rfl
  · intro id e he
    obtain ⟨d', h, _⟩ := Dungeon.EntityRemove_consistent hc he
    exact ⟨d', h, Dungeon.EntityRemove_iconInv hc hi he h⟩
  · intro p d' h
    exact Dungeon.PlayerPlace_iconInv_of_some fn hs hl hi h
  · intro p hp
    obtain ⟨d', h, _⟩ := Dungeon.PlayerPlace_iconInv fn hs hl hi hp
    rw [h]
    rfl
  · intro o d' h
    exact Dungeon.MovementPlayer_iconInv fn hs hl hi h
  · intro o hp
    obtain ⟨d', h, _⟩ := Dungeon.MovementPlayer_spec fn o hs hl hp
    rw [h]
    rfl
  · intro draw
    obtain ⟨d', h, _⟩ := Dungeon.MovementRandom_consistent draw hc
    exact ⟨d', h, Dungeon.MovementRandom_iconInv draw hi h⟩
  · intro hp hh
    obtain ⟨d', h, hi', _⟩ := Dungeon.Events_iconInv Fight hc hi hp hh
    exact ⟨d', h, hi'⟩
  · intro o
    exact Dungeon.Rotate_iconInv hs hi o

/-- Witness for C4: a dungeon with a wall, and a monster sharing the player's cell.  `Events`
removes the beaten monster, `MovementRandom` lets the monster step east, `Rotate` turns the
grid; the icon invariant holds after each. -/
theorem icon_invariant_preserved_witness :
    (∃ d', sampleArena.Events sampleFight = some d' ∧ d'.IconInv) ∧
    (∃ d', sampleArena.MovementRandom (fun _ position => position + ⟨1, 0⟩) = some d' ∧
      d'.IconInv) ∧
    (∃ d', sampleArena.Rotate .East = some d' ∧ d'.IconInv) := by
  obtain ⟨_, _, _, _, _, _, hmove, hevents, hrotate⟩ :=
    icon_invariant_preserved sampleFunctions sampleFight sampleArena
      (Dungeon.consistent_of_checked (by decide)) (by decide)
  exact ⟨hevents (by decide) (by decide), hmove _, hrotate .East⟩

/-! ## Claim C18: the size of a rotated dungeon -/

/-- C18: for a dungeon of size `(W, H)` with one tile per cell, `Dungeon::Rotate` returns; after
a turn by 90 or 270 degrees (East, West) the size is `(H, W)`, after a turn by 0 or 180 degrees
(North, South) it is `(W, H)`, and the tile vector holds `W * H` tiles in every case. -/
theorem Rotate_size (d : Dungeon) (o : Orientation) (hs : d.Sized) :
    ∃ d', d.Rotate o = some d' ∧
      (o = .East ∨ o = .West → d'.size = ⟨d.size.y, d.size.x⟩) ∧
      (o = .North ∨ o = .South → d'.size = d.size) ∧
      (d'.tiles.length : Int) = d.size.x * d.size.y := by
  obtain ⟨d', hrot, hsize, hlen, _⟩ := Dungeon.Rotate_spec d o hs
  refine ⟨d', hrot, ?_, ?_, ?_⟩
  · rintro (rfl | rfl) <;> exact hsize
  · rintro (rfl | rfl) <;> exact hsize
  · rw [hlen]
    exact hs.2.2

/-- Witness for C18: the 3 × 2 sample dungeon turned by 90 degrees becomes 2 × 3 and keeps its
six tiles. -/
theorem Rotate_size_witness :
    ∃ d', sampleDungeon.Rotate .East = some d' ∧ d'.size = ⟨2, 3⟩ ∧ d'.tiles.length = 6 := by
  obtain ⟨d', h, hq, _, hlen⟩ := Rotate_size sampleDungeon .East (by decide)
  refine ⟨d', h, hq (Or.inl rfl), ?_⟩
  have h6 : (d'.tiles.length : Int) = 6 := hlen
  exact_mod_cast h6
/-! ## Claim C20: the alignment computed by DungeonSwap -/

/-- C20: for quadrant codes `entrance` and `exit` with `|entrance - exit| ≤ 3` the alignment
`((entrance - exit + 3) % 4) - 1` of `Game::DungeonSwap` is one of -1, 0, 1, 2 (so the cast to
`Orientation::Enum` yields an enumerator), `exit + align` is congruent to `entrance + 2` modulo
4, equal codes give 2 (a half turn) and codes that differ by 2 (opposite sides) give 0. -/
theorem DungeonSwap_align (entrance exit : Int) (h : |entrance - exit| ≤ 3) :
    (Game.align entrance exit = -1 ∨ Game.align entrance exit = 0 ∨
      Game.align entrance exit = 1 ∨ Game.align entrance exit = 2) ∧
    (Orientation.ofInt (Game.align entrance exit)).isSome = true ∧
    (exit + Game.align entrance exit) % 4 = (entrance + 2) % 4 ∧
    (entrance = exit → Game.align entrance exit = 2) ∧
    (entrance - exit = 2 ∨ exit - entrance = 2 → Game.align entrance exit = 0) := by
  have hb := abs_le.mp h
  have hmod : ((entrance - exit) + 3).tmod 4 = ((entrance - exit) + 3) % 4 :=
    Int.tmod_eq_emod (by omega) (by omega)
  have hval : Game.align entrance exit = ((entrance - exit) + 3) % 4 - 1 := by
    unfold Game.align
    rw [hmod]
  have hcases : Game.align entrance exit = -1 ∨ Game.align entrance exit = 0 ∨
      Game.align entrance exit = 1 ∨ Game.align entrance exit = 2 := by
    rw [hval]
    omega
  refine ⟨hcases, ?_, ?_, ?_, ?_⟩
  · rcases hcases with h1 | h1 | h1 | h1 <;> rw [h1] <;> rfl
  · rw [hval]
    omega
  · intro he
    rw [hval]
    omega
  · intro he
    rw [hval]
    omega

/-- Witness for C20: leaving through the east side (code 1) and arriving at the west side
(code -1) needs no turn. -/
theorem DungeonSwap_align_witness :
    Game.align 1 (-1) = 0 ∧ (Orientation.ofInt (Game.align 1 (-1))).isSome = true := by
  obtain ⟨_, h2, _, _, h5⟩ := DungeonSwap_align 1 (-1) (by decide)
  exact ⟨h5 (Or.inl (by decide)), h2⟩
/-! ## Claim C19: the line-of-sight step -/

theorem Dungeon.sighted_cons (d : Dungeon) (c : Vector2) (rest : List Vector2) :
    d.sighted (c :: rest) =
      if InBounds c d.size then (if d.Blocked c then [c] else c :: d.sighted rest) else [] := by
  unfold Dungeon.sighted
  by_cases hb : InBounds c d.size
  · by_cases hk : d.Blocked c
    · simp [List.takeWhile_cons, Dungeon.stopsSight, hb, hk]
    · simp only [List.takeWhile_cons, Dungeon.stopsSight, hb, hk, not_true_eq_false,
        decide_False, Bool.or_self, Bool.not_false, if_true, List.length_cons, List.drop_succ_cons]
      split <;> simp
      split <;> simp
  · simp [List.takeWhile_cons, Dungeon.stopsSight, hb]

theorem Dungeon.sighted_prefix (d : Dungeon) : ∀ path : List Vector2, d.sighted path <+: path
  | [] => by simp [Dungeon.sighted]
  | c :: rest => by
    rw [Dungeon.sighted_cons]
    split
    · split
      · exact ⟨rest, rfl⟩
      · exact (List.prefix_cons_inj c).mpr (Dungeon.sighted_prefix d rest)
    · exact List.nil_prefix

theorem Dungeon.LineOfSight_vision (d : Dungeon) (hs : d.Sized) (hl : d.Live) :
    ∀ (path : List Vector2) (v : List Vector2),
      ∃ v', (d.withVision v).LineOfSight path = some (d.withVision v') ∧
        ∀ p, p ∈ v' ↔ p ∈ v ∨ p ∈ d.sighted path
  | [], v => ⟨v, rfl, by simp [Dungeon.sighted]⟩
  | current :: rest, v => by
    rw [Dungeon.sighted_cons]
    unfold Dungeon.LineOfSight
    by_cases hb : InBounds current d.size
    · have hb' : InBounds current (d.withVision v).size := hb
      rw [if_pos hb', if_pos hb]
      have hins : (d.withVision v).visionInsert current =
          d.withVision (if current ∈ v then v else v ++ [current]) := by
        unfold Dungeon.visionInsert Dungeon.withVision
        split <;> rfl
      rw [hins]
      have hmem : ∀ p, p ∈ (if current ∈ v then v else v ++ [current]) ↔ p ∈ v ∨ p = current := by
        intro p
        split
        · constructor
          · exact Or.inl
          · rintro (h | rfl)
            · exact h
            · assumption
        · simp
      obtain ⟨t, ht⟩ := Dungeon.GetTile_of_inBounds hs hb
      obtain ⟨b, hlack, hiff'⟩ := Dungeon.TileLacking_blocked
        (d := d.withVision (if current ∈ v then v else v ++ [current])) hl ht
      have hiff : b = false ↔ d.Blocked current := hiff'
      rw [hlack]
      cases b
      · rw [if_pos (hiff.mp rfl)]
        exact ⟨_, rfl, fun p => by rw [hmem]; simp⟩
      · have hk : ¬ d.Blocked current := fun h => by
          have := hiff.mpr h
          cases this
        rw [if_neg hk]
        obtain ⟨v', hv', hp⟩ := Dungeon.LineOfSight_vision d hs hl rest
          (if current ∈ v then v else v ++ [current])
        refine ⟨v', hv', fun p => ?_⟩
        rw [hp, hmem, List.mem_cons, or_assoc]
    · have hb' : ¬ InBounds current (d.withVision v).size := hb
      rw [if_neg hb', if_neg hb]
      exact ⟨v, rfl, by simp⟩

/-- C19: in a dungeon with one tile per cell and live occupant pointers, the lambda
`LineOfSight` of `Dungeon::BuildVision` returns for every `path`, changes nothing but the vision
set, and the cells in the vision set afterwards are those that were in it before together with
the cells of `Dungeon.sighted`: the initial stretch of `path` that ends before the first
out-of-bounds cell, or with the first cell holding an Obstacle occupant, whichever comes
first. -/
theorem LineOfSight_adds_sighted (d : Dungeon) (path : List Vector2) (hs : d.Sized)
    (hl : d.Live) :
    ∃ d', d.LineOfSight path = some d' ∧ d' = d.withVision d'.vision ∧
      (∀ p, p ∈ d'.vision ↔ p ∈ d.vision ∨ p ∈ d.sighted path) ∧ d.sighted path <+: path := by
  obtain ⟨v', hv', hp⟩ := Dungeon.LineOfSight_vision d hs hl path d.vision
  exact ⟨d.withVision v', hv', rfl, hp, Dungeon.sighted_prefix d path⟩

/-- Witness for C19: in the sample dungeon the path `(0,0), (1,0), (2,0), (3,0), (0,1)` is seen
up to the wall in `(2, 0)`, wall included; the cells after it are not added. -/
theorem LineOfSight_adds_sighted_witness :
    sampleDungeon.sighted [⟨0, 0⟩, ⟨1, 0⟩, ⟨2, 0⟩, ⟨3, 0⟩, ⟨0, 1⟩] = [⟨0, 0⟩, ⟨1, 0⟩, ⟨2, 0⟩] ∧
    ∃ d', sampleDungeon.LineOfSight [⟨0, 0⟩, ⟨1, 0⟩, ⟨2, 0⟩, ⟨3, 0⟩, ⟨0, 1⟩] = some d' ∧
      ∀ p, p ∈ d'.vision ↔
        p ∈ sampleDungeon.vision ∨
          p ∈ sampleDungeon.sighted [⟨0, 0⟩, ⟨1, 0⟩, ⟨2, 0⟩, ⟨3, 0⟩, ⟨0, 1⟩] := by
  obtain ⟨d', h, _, hp, _⟩ := LineOfSight_adds_sighted sampleDungeon
    [⟨0, 0⟩, ⟨1, 0⟩, ⟨2, 0⟩, ⟨3, 0⟩, ⟨0, 1⟩] (by decide) (by decide)
  exact ⟨by decide, d', h, hp⟩
/-! ## Claim C11: where PlayerPlace puts the player -/

theorem Dungeon.has_setPlayerPosition (d : Dungeon) (q : Vector2) (m : Nat) (r : Ref) :
    (d.setPlayerPosition q).has m r = d.has m r := by
  cases r <;> rfl

theorem Dungeon.blocked_setPlayerPosition (d : Dungeon) (q p : Vector2) :
    (d.setPlayerPosition q).Blocked p ↔ d.Blocked p := by
  unfold Dungeon.Blocked
  have hget : (d.setPlayerPosition q).GetTile p = d.GetTile p := rfl
  rw [hget]
  cases d.GetTile p with
  | none => exact Iff.rfl
  | some t => simp only [Dungeon.has_setPlayerPosition]

theorem Dungeon.placeNearby_find {d : Dungeon} (hs : d.Sized) (hl : d.Live) (p : Vector2) :
    ∀ l : List Vector2, d.placeNearby p l =
      some (match l.find? (d.freeNeighbour p) with
        | some direction => d.setPlayerPosition (p + direction)
        | none => d)
  | [] => rfl
  | direction :: rest => by
    have ih := Dungeon.placeNearby_find hs hl p rest
    unfold Dungeon.placeNearby
    dsimp only
    by_cases hb : InBounds (p + direction) d.size
    · rw [if_pos hb]
      obtain ⟨t, ht⟩ := Dungeon.GetTile_of_inBounds hs hb
      obtain ⟨b, hlack, hiff⟩ := Dungeon.TileLacking_blocked hl ht
      rw [hlack]
      cases b
      · have hfree : d.freeNeighbour p direction = false := by
          simp [Dungeon.freeNeighbour, hiff.mp rfl]
        rw [List.find?_cons_of_neg _ (by simp [hfree])]
        exact ih
      · have hk : ¬ d.Blocked (p + direction) := fun h => by
          have := hiff.mpr h
          cases this
        have hfree : d.freeNeighbour p direction = true := by
          simp [Dungeon.freeNeighbour, hb, hk]
        rw [List.find?_cons_of_pos _ hfree]
    · rw [if_neg hb]
      have hfree : d.freeNeighbour p direction = false := by
        simp [Dungeon.freeNeighbour, hb]
      rw [List.find?_cons_of_neg _ (by simp [hfree])]
      exact ih

theorem Dungeon.PlayerPlace_top (fn : Functions) {d d2 : Dungeon} {p : Vector2}
    (h : d.playerTarget p = some d2) (hs : d2.Sized) (hl : d2.Live)
    (hb : InBounds d2.player.base.position d2.size) :
    ∃ d', d.PlayerPlace fn p = some d' ∧ d'.player = d2.player ∧ d'.size = d2.size ∧
      d'.topOccupant d'.player.base.position = some .player := by
  obtain ⟨v, hv⟩ := Dungeon.BuildVision_frame fn d2 hs hl d2.player.base.position
    d2.player.visionReach
  obtain ⟨t, ht⟩ := Dungeon.GetTile_of_inBounds (d := d2.withVision v) hs hb
  have hins := Dungeon.OccupantInsert_live (r := .player) ht rfl
  obtain ⟨h0, h1⟩ := tileAt_lt ht
  have hrun : d.PlayerPlace fn p = some ((d2.withVision v).withTiles
      ((d2.withVision v).tiles.set (tileIndex d2.size d2.player.base.position).toNat
        ⟨d2.player.base.icon, t.occupants ++ [Ref.player]⟩)) := by
    unfold Dungeon.PlayerPlace
    rw [h]
    dsimp only
    rw [hv]
    exact hins
  refine ⟨_, hrun, rfl, rfl, ?_⟩
  have hget : ((d2.withVision v).withTiles
      ((d2.withVision v).tiles.set (tileIndex d2.size d2.player.base.position).toNat
        ⟨d2.player.base.icon, t.occupants ++ [Ref.player]⟩)).GetTile d2.player.base.position =
      some ⟨d2.player.base.icon, t.occupants ++ [Ref.player]⟩ :=
    tileAt_set_self h0 h1
  show (Dungeon.GetTile ((d2.withVision v).withTiles
      ((d2.withVision v).tiles.set (tileIndex d2.size d2.player.base.position).toNat
        ⟨d2.player.base.icon, t.occupants ++ [Ref.player]⟩)) d2.player.base.position).bind
      (fun t => t.occupants.getLast?) = some Ref.player
  rw [hget]
  simp

/-- C11: in a dungeon with one tile per cell and live occupant pointers, `Dungeon::PlayerPlace`
returns for every in-bounds target.  When the target tile holds no Obstacle occupant the player
is put on the target; when it is blocked and some cardinal neighbour is in bounds and unblocked,
the player is put on the first such neighbour in the order (0,-1), (1,0), (0,1), (-1,0) of the
table `directions`.  The final position is in bounds and the player is the top (last) occupant
of the tile there. -/
theorem PlayerPlace_target_or_first_free (fn : Functions) (d : Dungeon) (target : Vector2)
    (hs : d.Sized) (hl : d.Live) (hin : InBounds target d.size) :
    ∃ d', d.PlayerPlace fn target = some d' ∧
      (¬ d.Blocked target → d'.player.base.position = target) ∧
      (d.Blocked target → ∀ direction,
        directions.find? (d.freeNeighbour target) = some direction →
          d'.player.base.position = target + direction) ∧
      InBounds d'.player.base.position d'.size ∧
      d'.topOccupant d'.player.base.position = some .player := by
  have hl1 : (d.setPlayerPosition target).Live := Dungeon.live_setPlayerPosition hl target
  have hs1 : (d.setPlayerPosition target).Sized := hs
  obtain ⟨t, ht⟩ := Dungeon.GetTile_of_inBounds hs hin
  obtain ⟨b, hlack, hiff⟩ := Dungeon.TileLacking_blocked hl ht
  have hfree : (d.setPlayerPosition target).freeNeighbour target = d.freeNeighbour target := by
    funext direction
    unfold Dungeon.freeNeighbour
    have hsize : (d.setPlayerPosition target).size = d.size := rfl
    rw [hsize]
    congr 2
    exact decide_eq_decide.mpr (Dungeon.blocked_setPlayerPosition d target _)
  have htarget : d.playerTarget target = some
      (if d.Blocked target then
        (match directions.find? (d.freeNeighbour target) with
          | some direction => d.setPlayerPosition (target + direction)
          | none => d.setPlayerPosition target)
       else d.setPlayerPosition target) := by
    unfold Dungeon.playerTarget
    rw [if_pos hin]
    dsimp only
    rw [Dungeon.TileLacking_setPlayerPosition, hlack]
    cases b
    · rw [if_pos (hiff.mp rfl)]
      dsimp only
      rw [Dungeon.placeNearby_find hs1 hl1, hfree]
      cases directions.find? (d.freeNeighbour target) <;> rfl
    · have hk : ¬ d.Blocked target := fun h => by
        have := hiff.mpr h
        cases this
      rw [if_neg hk]
  by_cases hk : d.Blocked target
  · rw [if_pos hk] at htarget
    cases hfind : directions.find? (d.freeNeighbour target) with
    | none =>
      rw [hfind] at htarget
      obtain ⟨d', hrun, hpl, hsize, htop⟩ := Dungeon.PlayerPlace_top fn htarget hs hl1 hin
      have hpos : d'.player.base.position = target := by rw [hpl]; rfl
      refine ⟨d', hrun, fun _ => hpos, fun _ direction h => (by cases h), ?_, htop⟩
      rw [hpos, hsize]
      exact hin
    | some direction =>
      rw [hfind] at htarget
      have hd : d.freeNeighbour target direction = true := List.find?_some hfind
      have hnb : InBounds (target + direction) d.size := by
        unfold Dungeon.freeNeighbour at hd
        simp only [Bool.and_eq_true, decide_eq_true_eq] at hd
        exact hd.1
      obtain ⟨d', hrun, hpl, hsize, htop⟩ := Dungeon.PlayerPlace_top fn htarget hs
        (Dungeon.live_setPlayerPosition hl (target + direction)) hnb
      have hpos : d'.player.base.position = target + direction := by rw [hpl]; rfl
      refine ⟨d', hrun, fun h => absurd hk h, fun _ direction' h => ?_, ?_, htop⟩
      · cases h
        exact hpos
      · rw [hpos, hsize]
        exact hnb
  · rw [if_neg hk] at htarget
    obtain ⟨d', hrun, hpl, hsize, htop⟩ := Dungeon.PlayerPlace_top fn htarget hs hl1 hin
    have hpos : d'.player.base.position = target := by rw [hpl]; rfl
    refine ⟨d', hrun, fun _ => hpos, fun h => absurd h hk, ?_, htop⟩
    rw [hpos, hsize]
    exact hin

/-- Witness for C11: in the 3 × 3 sample dungeon with walls in (0,0), (1,0) and (0,1), the
target (1,0) is blocked, its neighbour (1,-1) is out of bounds, and the player is put on the
next neighbour in the order, (2,0). -/
theorem PlayerPlace_target_or_first_free_witness :
    sampleCorner.Blocked ⟨1, 0⟩ ∧
    directions.find? (sampleCorner.freeNeighbour ⟨1, 0⟩) = some ⟨1, 0⟩ ∧
    ∃ d', sampleCorner.PlayerPlace sampleFunctions ⟨1, 0⟩ = some d' ∧
      d'.player.base.position = ⟨2, 0⟩ ∧ InBounds d'.player.base.position d'.size ∧
      d'.topOccupant d'.player.base.position = some .player := by
  obtain ⟨d', h, _, hfirst, hb, htop⟩ := PlayerPlace_target_or_first_free sampleFunctions
    sampleCorner ⟨1, 0⟩ (by decide) (by decide) (by decide)
  exact ⟨by decide, by decide, d', h, hfirst (by decide) ⟨1, 0⟩ (by decide), hb, htop⟩
/-! ## Claim C17: the sweep of Events -/

theorem Dungeon.EntityRemove_shape {d : Dungeon} (hc : d.Consistent) {id : Nat} {e : Entity}
    (he : d.entities.lookup id = some e) :
    ∃ d', d.EntityRemove e.position (.entity id) = some d' ∧ d'.Consistent ∧
      d'.size = d.size ∧ d'.player = d.player ∧
      d'.entities = d.entities.eraseP (fun en => en.1 == id) ∧
      ∀ (i : Nat) (t : Tile), d.tiles[i]? = some t →
        ∃ t', d'.tiles[i]? = some t' ∧
          t'.occupants = t.occupants.filter (fun r => r ≠ Ref.entity id) := by
  obtain ⟨d', hrun, hc', hsize⟩ := Dungeon.EntityRemove_consistent hc he
  have hlive := hc.live
  have hp : InBounds e.position d.size := hc.2.2.2.1 (id, e) (mem_of_lookup he)
  obtain ⟨t0, ht0⟩ := Dungeon.GetTile_of_inBounds hc.1 hp
  obtain ⟨h0, hget⟩ := Dungeon.GetTile_eq_getElem? ht0
  obtain ⟨c, _, hrem⟩ := Dungeon.OccupantRemove_live (r := .entity id) ht0
    (hlive t0 (tileAt_mem ht0)) (by show (d.entities.lookup id).isSome = true; rw [he]; rfl)
  have hshape : d.EntityRemove e.position (.entity id) = some
      { (d.withTiles (d.tiles.set (tileIndex d.size e.position).toNat
          ⟨c, t0.occupants.filter (fun r' => r' ≠ Ref.entity id)⟩)) with
        entities := d.entities.eraseP (fun en => en.1 == id) } := by
    simp only [Dungeon.EntityRemove, he, Option.isSome_some, if_true, hrem]
    rfl
  rw [hshape] at hrun
  cases hrun
  refine ⟨_, hshape, hc', rfl, rfl, rfl, ?_⟩
  intro i t hit
  have hilt : i < d.tiles.length := (List.getElem?_eq_some.mp hit).1
  show ∃ t', (d.tiles.set (tileIndex d.size e.position).toNat
      ⟨c, t0.occupants.filter (fun r' => r' ≠ Ref.entity id)⟩)[i]? = some t' ∧ _
  by_cases hik : (tileIndex d.size e.position).toNat = i
  · subst hik
    rw [hget] at hit
    cases hit
    exact ⟨_, by rw [List.getElem?_set_self hilt], rfl⟩
  · refine ⟨t, by rw [List.getElem?_set_ne hik]; exact hit, ?_⟩
    have hcount : t.occupants.count (.entity id) = 0 := by
      rw [hc.2.2.2.2 i t hit id]
      unfold Dungeon.listings
      rw [he]
      have : ¬ tileIndex d.size e.position = (i : Int) := by
        intro heq
        apply hik
        rw [heq]
        simp
      simp [this]
    symm
    rw [List.filter_eq_self]
    intro r hr
    simp only [ne_eq, decide_not, Bool.not_eq_true', decide_eq_false_iff_not]
    rintro rfl
    exact absurd (List.count_pos_iff.mpr hr) (by omega)

theorem inactiveIn_cons_active {id : Nat} {e : Entity} {l : List (Nat × Entity)}
    (hact : e.active = true) (hid : ∀ en ∈ l, en.1 ≠ id) (r : Ref) :
    inactiveIn ((id, e) :: l) r = inactiveIn l r := by
  cases r with
  | player => rfl
  | entity k =>
    simp only [inactiveIn, lookup_cons_ite]
    by_cases hk : k = id
    · subst hk
      have hnone : l.lookup k = none := by
        rw [List.lookup_eq_none_iff]
        intro p hp
        simp only [bne_iff_ne, ne_eq]
        exact fun h => hid p hp h.symm
      simp [hnone, hact]
    · rw [if_neg hk]

theorem inactiveIn_cons_inactive {id : Nat} {e : Entity} {l : List (Nat × Entity)}
    (hact : ¬ e.active = true) (r : Ref) :
    (!inactiveIn ((id, e) :: l) r) = (decide (r ≠ Ref.entity id) && !inactiveIn l r) := by
  cases r with
  | player => simp [inactiveIn]
  | entity k =>
    simp only [inactiveIn, lookup_cons_ite]
    by_cases hk : k = id
    · subst hk
      simp [hact]
    · rw [if_neg hk]
      simp [hk]

theorem Dungeon.foldlM_sweep_filter :
    ∀ (l pre : List (Nat × Entity)) (d : Dungeon), d.Consistent → d.entities = pre ++ l →
      ∃ d', l.foldlM Dungeon.sweep d = some d' ∧ d'.Consistent ∧
        d'.entities = pre ++ l.filter (fun en => en.2.active) ∧ d'.size = d.size ∧
        d'.player = d.player ∧
        ∀ (i : Nat) (t : Tile), d.tiles[i]? = some t →
          ∃ t', d'.tiles[i]? = some t' ∧
            t'.occupants = t.occupants.filter (fun r => !inactiveIn l r)
  | [], pre, d, hc, hent => by
    refine ⟨d, rfl, hc, by simpa using hent, rfl, rfl, fun i t hit => ⟨t, hit, ?_⟩⟩
    symm
    rw [List.filter_eq_self]
    intro r _
    cases r <;> rfl
  | (id, e) :: l, pre, d, hc, hent => by
    have hn : ((pre ++ (id, e) :: l).map Prod.fst).Nodup := by
      rw [← hent]
      exact hc.2.1
    have hidl : ∀ en ∈ l, en.1 ≠ id := by
      intro en hen heq
      rw [List.map_append, List.map_cons, List.nodup_append] at hn
      have := (List.nodup_cons.mp hn.2.1).1
      exact this (List.mem_map.mpr ⟨en, hen, heq⟩)
    have hidpre : ∀ en ∈ pre, en.1 ≠ id := by
      intro en hen heq
      rw [List.map_append, List.map_cons, List.nodup_append] at hn
      exact hn.2.2 (List.mem_map.mpr ⟨en, hen, heq⟩) (by simp)
    rw [List.foldlM_cons]
    unfold Dungeon.sweep
    dsimp only
    by_cases hact : e.active = true
    · rw [if_pos hact]
      obtain ⟨d', hrun, hc', hent', hsize, hpl, htiles⟩ :=
        Dungeon.foldlM_sweep_filter l (pre ++ [(id, e)]) d hc (by rw [hent]; simp)
      refine ⟨d', hrun, hc', ?_, hsize, hpl, ?_⟩
      · rw [hent', List.filter_cons_of_pos (by simpa using hact)]
        simp
      · intro i t hit
        obtain ⟨t', ht', hocc⟩ := htiles i t hit
        refine ⟨t', ht', ?_⟩
        rw [hocc]
        apply List.filter_congr
        intro r _
        rw [inactiveIn_cons_active hact hidl]
    · rw [if_neg hact]
      have hlk : d.entities.lookup id = some e := by
        apply lookup_of_mem hc.2.1
        rw [hent]
        simp
      obtain ⟨d1, h1, hc1, hsize1, hpl1, hent1, htiles1⟩ := Dungeon.EntityRemove_shape hc hlk
      rw [h1]
      have hent1' : d1.entities = pre ++ l := by
        rw [hent1, hent, List.eraseP_append_right]
        · rw [List.eraseP_cons_of_pos (by simp)]
        · intro b hb
          simp only [beq_iff_eq]
          exact hidpre b hb
      obtain ⟨d', hrun, hc', hent', hsize, hpl, htiles⟩ :=
        Dungeon.foldlM_sweep_filter l pre d1 hc1 hent1'
      refine ⟨d', hrun, hc', ?_, by rw [hsize, hsize1], by rw [hpl, hpl1], ?_⟩
      · rw [hent', List.filter_cons_of_neg (by simpa using hact)]
      · intro i t hit
        obtain ⟨t1, ht1, hocc1⟩ := htiles1 i t hit
        obtain ⟨t', ht', hocc⟩ := htiles i t1 ht1
        refine ⟨t', ht', ?_⟩
        rw [hocc, hocc1, List.filter_filter]
        apply List.filter_congr
        intro r _
        rw [inactiveIn_cons_inactive hact, Bool.and_comm]

theorem Dungeon.fightOccupant_keeps (Fight : Player → Entity → Int × Int) (d0 : Dungeon)
    {s : Dungeon} {r : Ref} (hr : (s.deref r).isSome = true)
    (h : (s.Consistent ∧ s.HostileAreCharacters) ∧ s.tiles = d0.tiles ∧
      s.size = d0.size ∧ s.links = d0.links ∧
      s.player.base.position = d0.player.base.position) :
    ∃ s', s.fightOccupant Fight r = some s' ∧
      (s'.Consistent ∧ s'.HostileAreCharacters) ∧ s'.tiles = d0.tiles ∧
      s'.size = d0.size ∧ s'.links = d0.links ∧
      s'.player.base.position = d0.player.base.position := by
  obtain ⟨e, he⟩ := Option.isSome_iff_exists.mp hr
  have hmod : ∀ (s : Dungeon) (f : Entity → Entity) (r : Ref),
      (∀ e, (f e).position = e.position ∧
        (f e).attributes = e.attributes ∧ (f e).character = e.character) →
      ((s.Consistent ∧ s.HostileAreCharacters) ∧ s.tiles = d0.tiles ∧
        s.size = d0.size ∧ s.links = d0.links ∧
        s.player.base.position = d0.player.base.position) →
      ((s.modify f r).Consistent ∧
          (s.modify f r).HostileAreCharacters) ∧ (s.modify f r).tiles = d0.tiles ∧
        (s.modify f r).size = d0.size ∧ (s.modify f r).links = d0.links ∧
        (s.modify f r).player.base.position = d0.player.base.position := by
    intro s f r hf ⟨⟨hc, hh⟩, h1, h2, h3, h4⟩
    obtain ⟨f1, f2, f3, f4⟩ := Dungeon.modify_frame s f (fun e => (hf e).1) r
    exact ⟨⟨hc.modify_keeps f (fun e => (hf e).1) r,
      hh.modify_hostile f (fun e => (hf e).2) r⟩, by rw [f1, h1], by rw [f2, h2], by rw [f3, h3],
      by rw [f4, h4]⟩
  unfold Dungeon.fightOccupant
  rw [he]
  dsimp only
  split
  · next hhost =>
    rw [if_pos (h.1.2.deref he hhost)]
    have h1 := hmod s (fun p => { p with health := (Fight s.player e).1 }) .player
      (fun _ => ⟨rfl, rfl, rfl⟩) h
    have h2 := hmod _ (fun c => { c with health := (Fight s.player e).2 }) r
      (fun _ => ⟨rfl, rfl, rfl⟩) h1
    split
    · exact ⟨_, rfl, hmod _ (fun c => { c with active := false }) r
        (fun _ => ⟨rfl, rfl, rfl⟩) h2⟩
    · exact ⟨_, rfl, h2⟩
  · exact ⟨s, rfl, h⟩

theorem Dungeon.swapOnEntrance_keeps {s : Dungeon} {link : Link}
    (h : s.Consistent ∧ InBounds s.player.base.position s.size) :
    ∃ s', s.swapOnEntrance link = some s' ∧
      (s'.Consistent ∧ InBounds s'.player.base.position s'.size) ∧
      s'.entities = s.entities ∧
      ∀ (i : Nat) (t : Tile), s.tiles[i]? = some t →
        ∃ t', s'.tiles[i]? = some t' ∧
          t'.occupants.filter (fun r => r ≠ Ref.player) =
            t.occupants.filter (fun r => r ≠ Ref.player) := by
  obtain ⟨hc, hb⟩ := h
  unfold Dungeon.swapOnEntrance
  split
  swap
  · exact ⟨s, rfl, ⟨hc, hb⟩, rfl, fun i t hit => ⟨t, hit, rfl⟩⟩
  dsimp only
  have hc1 : ({ s with player :=
      { s.player with states := s.player.states ||| States.Swapping } } : Dungeon).Consistent := hc
  have hb1 : InBounds s.player.base.position ({ s with player :=
      { s.player with states := s.player.states ||| States.Swapping } } : Dungeon).size := hb
  obtain ⟨t0, ht0⟩ := Dungeon.GetTile_of_inBounds hc1.1 hb1
  obtain ⟨_, hget⟩ := Dungeon.GetTile_eq_getElem? ht0
  obtain ⟨c, _, hrem⟩ := Dungeon.OccupantRemove_live (r := .player) ht0
    (hc1.live t0 (tileAt_mem ht0)) rfl
  refine ⟨_, hrem, ⟨hc1.removePlayer hget c, hb⟩, rfl, ?_⟩
  intro i t hit
  have hilt : i < s.tiles.length := (List.getElem?_eq_some.mp hit).1
  show ∃ t', (s.tiles.set (tileIndex s.size s.player.base.position).toNat
      ⟨c, t0.occupants.filter (fun r' => r' ≠ Ref.player)⟩)[i]? = some t' ∧ _
  by_cases hik : (tileIndex s.size s.player.base.position).toNat = i
  · subst hik
    have hget' : s.tiles[(tileIndex s.size s.player.base.position).toNat]? = some t0 := hget
    rw [hget'] at hit
    cases hit
    refine ⟨_, by rw [List.getElem?_set_self hilt], ?_⟩
    simp [List.filter_filter]
  · exact ⟨t, by rw [List.getElem?_set_ne hik]; exact hit, rfl⟩

theorem filter_swap {α : Type} (p q : α → Bool) (l : List α) :
    (l.filter p).filter q = (l.filter q).filter p := by
  simp only [List.filter_filter, Bool.and_comm]

/-- C17: in a dungeon that satisfies the occupancy invariant (position/tile agreement), with
the player in bounds and hostile entities being Characters, `Dungeon::Events` returns.  With
`d1` the state after the combat step: the collection afterwards is `d1`'s collection without
its inactive entities, in the same order, so no entity of it is inactive and every active one
remains; every occupant pointer held by a tile refers to an owned entity; the occupancy
invariant holds again, so each remaining entity is listed by the tile at its position; and in
every tile the occupants other than the player handle are the former ones without the inactive
entities, in their former order. -/
theorem Events_removes_inactive (Fight : Player → Entity → Int × Int) (d : Dungeon)
    (hc : d.Consistent) (hb : InBounds d.player.base.position d.size)
    (hh : d.HostileAreCharacters) :
    ∃ tile d1 d', d.GetTile d.player.base.position = some tile ∧
      tile.occupants.foldlM (Dungeon.fightOccupant Fight) d = some d1 ∧
      d.Events Fight = some d' ∧
      d'.entities = d1.entities.filter (fun en => en.2.active) ∧
      (∀ en ∈ d'.entities, en.2.active = true) ∧
      d'.Live ∧ d'.Consistent ∧
      ∀ (i : Nat) (t : Tile), d.tiles[i]? = some t →
        ∃ t', d'.tiles[i]? = some t' ∧
          t'.occupants.filter (fun r => r ≠ Ref.player) =
            (t.occupants.filter (fun r => r ≠ Ref.player)).filter
              (fun r => !inactiveIn d1.entities r) := by
  obtain ⟨tile, htile⟩ := Dungeon.GetTile_of_inBounds hc.1 hb
  have htile' : tileAt d.tiles (tileIndex d.size d.player.base.position) = some tile := htile
  obtain ⟨d1, hfight, ⟨hc1, _⟩, ht1, hs1, _, hp1⟩ := Dungeon.foldlM_inv
    (fun s => (s.Consistent ∧ s.HostileAreCharacters) ∧ s.tiles = d.tiles ∧
      s.size = d.size ∧ s.links = d.links ∧
      s.player.base.position = d.player.base.position)
    (Dungeon.fightOccupant Fight) tile.occupants d
    (fun s r hr hs => Dungeon.fightOccupant_keeps Fight d
      (hs.1.1.live tile (by rw [hs.2.1]; exact tileAt_mem htile) r hr) hs)
    ⟨⟨hc, hh⟩, rfl, rfl, rfl, rfl⟩
  obtain ⟨d2, hswap, ⟨hc2, _⟩, hent2, htiles2⟩ := Dungeon.foldlM_inv
    (fun s => (s.Consistent ∧ InBounds s.player.base.position s.size) ∧
      s.entities = d1.entities ∧
      ∀ (i : Nat) (t : Tile), d1.tiles[i]? = some t →
        ∃ t', s.tiles[i]? = some t' ∧
          t'.occupants.filter (fun r => r ≠ Ref.player) =
            t.occupants.filter (fun r => r ≠ Ref.player))
    Dungeon.swapOnEntrance d1.links d1
    (fun s link _ hs => by
      obtain ⟨s', hrun, hinv, hent, htiles⟩ := @Dungeon.swapOnEntrance_keeps s link hs.1
      refine ⟨s', hrun, hinv, by rw [hent, hs.2.1], fun i t hit => ?_⟩
      obtain ⟨t1, ht1, hocc1⟩ := hs.2.2 i t hit
      obtain ⟨t', ht', hocc⟩ := htiles i t1 ht1
      exact ⟨t', ht', by rw [hocc, hocc1]⟩)
    ⟨⟨hc1, by rw [hp1, hs1]; exact hb⟩, rfl, fun i t hit => ⟨t, hit, rfl⟩⟩
  obtain ⟨d3, hsweep, hc3, hent3, _, _, htiles3⟩ :=
    Dungeon.foldlM_sweep_filter d2.entities [] d2 hc2 rfl
  have hrun : d.Events Fight = some d3 := by
    unfold Dungeon.Events
    rw [htile']
    dsimp only
    rw [hfight]
    dsimp only
    rw [hswap]
    exact hsweep
  have hent : d3.entities = d1.entities.filter (fun en => en.2.active) := by
    rw [hent3, hent2]
    rfl
  refine ⟨tile, d1, d3, htile, hfight, hrun, hent, ?_, hc3.live, hc3, ?_⟩
  · intro en hen
    rw [hent] at hen
    exact (List.mem_filter.mp hen).2
  · intro i t hit
    obtain ⟨t2, ht2, hocc2⟩ := htiles2 i t (by rw [ht1]; exact hit)
    obtain ⟨t', ht', hocc⟩ := htiles3 i t2 ht2
    refine ⟨t', ht', ?_⟩
    rw [hocc, filter_swap, hocc2, hent2]

/-- Witness for C17: in the sample arena the monster under the player loses the fight, is
marked inactive and is swept from the collection and from its tile; the wall stays. -/
theorem Events_removes_inactive_witness :
    ∃ d', sampleArena.Events sampleFight = some d' ∧
      d'.entities = [(0, sampleWall ⟨2, 0⟩)] ∧ d'.Live ∧
      ∃ t', d'.tiles[4]? = some t' ∧ t'.occupants.filter (fun r => r ≠ Ref.player) = [] := by
  obtain ⟨tile, d1, d', htile, hfight, hrun, hent, _, hlive, _, htiles⟩ :=
    Events_removes_inactive sampleFight sampleArena
      (Dungeon.consistent_of_checked (by decide)) (by decide) (by decide)
  have h1 : sampleArena.GetTile sampleArena.player.base.position =
      some ⟨'@', [.entity 1, .player]⟩ := by decide
  rw [h1] at htile
  cases htile
  have h2 : [Ref.entity 1, Ref.player].foldlM (Dungeon.fightOccupant sampleFight) sampleArena =
      some { sampleArena with
        entities := [(0, sampleWall ⟨2, 0⟩),
          (1, { sampleMonster ⟨1, 1⟩ with health := -1, active := false })],
        player := { sampleArena.player with
          base := { sampleArena.player.base with health := 9 } } } := by decide
  rw [h2] at hfight
  cases hfight
  refine ⟨d', hrun, ?_, hlive, ?_⟩
  · rw [hent]
    decide
  · obtain ⟨t', ht', hocc⟩ := htiles 4 ⟨'@', [.entity 1, .player]⟩ (by decide)
    refine ⟨t', ht', ?_⟩
    rw [hocc]
    decide
/-! ## Generation: what a sequence of insertions preserves -/

theorem Dungeon.EntityInsert_shape {d d1 : Dungeon} {p : Vector2} {e : Entity}
    (h : d.EntityInsert p e = some d1) :
    ∃ t c, d.GetTile p = some t ∧
      d1 = { d with
        entities := d.entities ++ [(d.fresh, { e with position := p })],
        fresh := d.fresh + 1,
        tiles := d.tiles.set (tileIndex d.size p).toNat ⟨c, t.occupants ++ [.entity d.fresh]⟩ } := by
  unfold Dungeon.EntityInsert at h
  obtain ⟨t, e', ht, _, rfl⟩ := Dungeon.OccupantInsert_eq_some.mp h
  exact ⟨t, e'.icon, ht, rfl⟩

theorem Dungeon.Inserted.mono {Q Q' : Dungeon → Vector2 → Entity → Prop}
    (hQ : ∀ s p e, Q s p e → Q' s p e) {d0 d : Dungeon} {log : List (Vector2 × Entity)}
    (h : Dungeon.Inserted Q d0 log d) : Dungeon.Inserted Q' d0 log d := by
  induction h with
  | refl => exact .refl _
  | step _ hq hins ih => exact .step ih (hQ _ _ _ hq) hins
  | linked link _ ih => exact .linked link ih

theorem Dungeon.Inserted.append {Q : Dungeon → Vector2 → Entity → Prop} {d0 d1 d2 : Dungeon}
    {log1 log2 : List (Vector2 × Entity)} (h1 : Dungeon.Inserted Q d0 log1 d1)
    (h2 : Dungeon.Inserted Q d1 log2 d2) : Dungeon.Inserted Q d0 (log1 ++ log2) d2 := by
  induction h2 with
  | refl => simpa using h1
  | step _ hq hins ih =>
    rw [← List.append_assoc]
    exact .step ih hq hins
  | linked link _ ih => exact .linked link ih

theorem Dungeon.Inserted.frame {Q : Dungeon → Vector2 → Entity → Prop} {d0 d : Dungeon}
    {log : List (Vector2 × Entity)} (h : Dungeon.Inserted Q d0 log d) :
    d.size = d0.size ∧ d.tiles.length = d0.tiles.length ∧ d.player = d0.player ∧
      d.vision = d0.vision ∧ d.fresh = d0.fresh + log.length ∧
      d.entities.length = d0.entities.length + log.length := by
  induction h with
  | refl => simp
  | step _ _ hins ih =>
    obtain ⟨t, c, _, rfl⟩ := Dungeon.EntityInsert_shape hins
    obtain ⟨h1, h2, h3, h4, h5, h6⟩ := ih
    refine ⟨h1, ?_, h3, h4, ?_, ?_⟩
    · simp only [List.length_set]
      exact h2
    · simp only [List.length_append, List.length_singleton]
      omega
    · simp only [List.length_append, List.length_singleton]
      omega
  | linked link _ ih => exact ih

theorem Dungeon.Inserted.untouched {Q : Dungeon → Vector2 → Entity → Prop}
    (hQ : ∀ s p e, Q s p e → s.Unoccupied p = some true) {d0 d : Dungeon}
    {log : List (Vector2 × Entity)} (h : Dungeon.Inserted Q d0 log d) : d0.Untouched d := by
  induction h with
  | refl => exact ⟨rfl, rfl, List.prefix_refl _, fun i t0 h0 => ⟨t0, h0, fun _ => rfl,
      fun h => by simp [h]⟩⟩
  | @step d d1 log p e _ hq hins ih =>
    obtain ⟨t, c, ht, rfl⟩ := Dungeon.EntityInsert_shape hins
    obtain ⟨h1, h2, h3, h4⟩ := ih
    have hfree := hQ _ _ _ hq
    unfold Dungeon.Unoccupied at hfree
    rw [ht] at hfree
    have hempty : t.occupants = [] := by
      simpa [List.isEmpty_iff] using hfree
    obtain ⟨_, hget⟩ := Dungeon.GetTile_eq_getElem? ht
    refine ⟨h1, ?_, h3.trans (List.prefix_append _ _), ?_⟩
    · simp only [List.length_set]
      exact h2
    · intro i t0 hi0
      obtain ⟨ti, hti, hkeep, hone⟩ := h4 i t0 hi0
      have hilt : i < d.tiles.length := (List.getElem?_eq_some.mp hti).1
      by_cases hik : (tileIndex d.size p).toNat = i
      · subst hik
        rw [hget] at hti
        cases hti
        refine ⟨⟨c, t.occupants ++ [.entity d.fresh]⟩,
          by simp only [List.getElem?_set_self hilt], ?_, ?_⟩
        · intro hne
          rw [hkeep hne] at hempty
          exact absurd hempty hne
        · intro _
          simp [hempty]
      · exact ⟨ti, by simp only [List.getElem?_set_ne hik]; exact hti, hkeep, hone⟩
  | linked link _ ih => exact ih

theorem Dungeon.Inserted.inBounds {Q : Dungeon → Vector2 → Entity → Prop} {d0 d : Dungeon}
    (hQ : ∀ s p e, s.size = d0.size → Q s p e → InBounds p s.size)
    {log : List (Vector2 × Entity)} (h : Dungeon.Inserted Q d0 log d)
    (h0 : ∀ en ∈ d0.entities, InBounds en.2.position d0.size) :
    ∀ en ∈ d.entities, InBounds en.2.position d.size := by
  induction h with
  | refl => exact h0
  | @step d d1 log p e hprev hq hins ih =>
    obtain ⟨t, c, ht, rfl⟩ := Dungeon.EntityInsert_shape hins
    intro en hen
    rcases List.mem_append.mp hen with hold | hnew
    · exact ih en hold
    · rw [List.mem_singleton] at hnew
      subst hnew
      show InBounds p d.size
      exact hQ _ _ _ hprev.frame.1 hq
  | linked link _ ih => exact ih

theorem Dungeon.Inserted.foldlM {α : Type} {Q : Dungeon → Vector2 → Entity → Prop}
    (step : Dungeon → α → Option Dungeon) (d0 : Dungeon) :
    ∀ (l : List α),
      (∀ s x s', x ∈ l → s.size = d0.size → step s x = some s' →
        ∃ log, Dungeon.Inserted Q s log s') →
      ∀ d d', d.size = d0.size → l.foldlM step d = some d' →
        ∃ log, Dungeon.Inserted Q d log d'
  | [], _, d, d', _, h => by
    cases h
    exact ⟨[], .refl d⟩
  | x :: l, hstep, d, d', hsize, h => by
    rw [List.foldlM_cons] at h
    cases h1 : step d x with
    | none => simp [h1] at h
    | some d1 =>
      rw [h1] at h
      obtain ⟨log1, hins1⟩ := hstep d x d1 (List.mem_cons_self _ _) hsize h1
      obtain ⟨log2, hins2⟩ := Dungeon.Inserted.foldlM step d0 l
        (fun s y s' hy => hstep s y s' (List.mem_cons_of_mem _ hy)) d1 d'
        (by rw [hins1.frame.1, hsize]) h
      exact ⟨log1 ++ log2, hins1.append hins2⟩
/-! ## Generation: every stage after the doors is a sequence of guarded insertions -/

theorem Collaborators.placed_step (c : Collaborators) {d d1 : Dungeon} {p : Vector2}
    {e : Entity} (hq : c.Placed d p e) (h : d.EntityInsert p e = some d1) :
    ∃ log, Dungeon.Inserted c.Placed d log d1 :=
  ⟨[] ++ [(p, e)], .step (.refl d) hq h⟩

theorem Dungeon.wallOuter_inserted (c : Collaborators) {d d1 : Dungeon} {iterator : Vector2}
    (hin : InBounds iterator d.size) (h : d.wallOuter c iterator = some d1) :
    ∃ log, Dungeon.Inserted c.Placed d log d1 := by
  unfold Dungeon.wallOuter at h
  cases hu : d.Unoccupied iterator with
  | none => simp [hu] at h
  | some free =>
    rw [hu] at h
    cases free
    · cases h
      exact ⟨[], .refl d⟩
    · dsimp only at h
      split at h
      · exact c.placed_step ⟨hu, Or.inl hin⟩ h
      · cases h
        exact ⟨[], .refl d⟩

theorem Dungeon.GenerateWallsOuter_inserted (c : Collaborators) {d d' : Dungeon}
    (h : d.GenerateWallsOuter c = some d') : ∃ log, Dungeon.Inserted c.Placed d log d' := by
  unfold Dungeon.GenerateWallsOuter at h
  refine Dungeon.Inserted.foldlM (Dungeon.wallOuter c) d (gridCells d.size) ?_ d d' rfl h
  intro s x s' hx hsize hstep
  exact Dungeon.wallOuter_inserted c (by rw [hsize]; exact mem_gridCells.mp hx) hstep

theorem Dungeon.PathAdd_inserted (c : Collaborators) (start finish : Vector2)
    (obstacles : List Vector2) {d d' : Dungeon}
    (h : d.PathAdd c (c.AStarAlgorithm start finish d.size obstacles) = some d') :
    ∃ log, Dungeon.Inserted c.Placed d log d' := by
  unfold Dungeon.PathAdd at h
  refine Dungeon.Inserted.foldlM (Dungeon.pathStep c) d _ ?_ d d' rfl h
  intro s x s' hx hsize hstep
  unfold Dungeon.pathStep at hstep
  cases hu : s.Unoccupied x with
  | none => simp [hu] at hstep
  | some free =>
    rw [hu] at hstep
    cases free
    · cases hstep
      exact ⟨[], .refl s⟩
    · exact c.placed_step ⟨hu, Or.inr (Or.inl ⟨start, finish, obstacles, by rw [hsize]; exact hx⟩)⟩
        hstep

theorem Dungeon.layPaths_inserted (c : Collaborators) (center : Vector2)
    (obstacles : List Vector2) {d d' : Dungeon} {pair : Vector2 × Vector2}
    (h : d.layPaths c center obstacles pair = some d') :
    ∃ log, Dungeon.Inserted c.Placed d log d' := by
  unfold Dungeon.layPaths at h
  cases h1 : d.PathAdd c (c.AStarAlgorithm pair.1 pair.2 d.size obstacles) with
  | none => simp [h1] at h
  | some d1 =>
    rw [h1] at h
    obtain ⟨log1, hins1⟩ := Dungeon.PathAdd_inserted c _ _ _ h1
    obtain ⟨log2, hins2⟩ := Dungeon.PathAdd_inserted c _ _ _ h
    exact ⟨log1 ++ log2, hins1.append hins2⟩

theorem Build.redirect_dungeon (c : Collaborators) :
    ∀ (fuel : Nat) (b : Build) {r : Vector2} {b1 : Build},
      Build.redirect c fuel b = some (r, b1) → b1.dungeon = b.dungeon
  | 0, _, _, _, h => by cases h
  | fuel + 1, b, r, b1, h => by
    unfold Build.redirect at h
    dsimp only at h
    split at h
    · cases h
    · cases h
      rfl
    · have h' := Build.redirect_dungeon c fuel _ h
      exact h'

theorem Build.redirections_dungeon (c : Collaborators) (fuel : Nat) :
    ∀ (links : List Link) (b : Build) {pairs : List (Vector2 × Vector2)} {b1 : Build},
      Build.redirections c fuel b links = some (pairs, b1) → b1.dungeon = b.dungeon
  | [], b, _, _, h => by
    cases h
    rfl
  | link :: rest, b, pairs, b1, h => by
    unfold Build.redirections at h
    cases h1 : Build.redirect c fuel b with
    | none => simp [h1] at h
    | some rb =>
      obtain ⟨random, b2⟩ := rb
      rw [h1] at h
      dsimp only at h
      cases h2 : Build.redirections c fuel b2 rest with
      | none => simp [h2] at h
      | some pb =>
        obtain ⟨pairs2, b3⟩ := pb
        rw [h2] at h
        cases h
        rw [Build.redirections_dungeon c fuel rest b2 h2, Build.redirect_dungeon c fuel b h1]

theorem Build.GenerateHiddenPath_inserted (c : Collaborators) (fuel : Nat) {b b' : Build}
    (h : b.GenerateHiddenPath c fuel = some b') :
    ∃ log, Dungeon.Inserted c.Placed b.dungeon log b'.dungeon := by
  unfold Build.GenerateHiddenPath at h
  dsimp only at h
  cases h1 : Build.redirections c fuel b b.dungeon.links with
  | none => simp [h1] at h
  | some pb =>
    obtain ⟨redirection, b1⟩ := pb
    rw [h1] at h
    dsimp only at h
    obtain ⟨d', hfold, rfl⟩ := Option.map_eq_some'.mp h
    have hd := Build.redirections_dungeon c fuel _ b h1
    rw [hd] at hfold
    exact Dungeon.Inserted.foldlM _ b.dungeon redirection
      (fun s x s' _ _ hstep => Dungeon.layPaths_inserted c _ _ hstep) b.dungeon d' rfl hfold

theorem Build.wallsParents_inserted (c : Collaborators) :
    ∀ (fuel : Nat) (b : Build) (remaining : Int) {b' : Build},
      Build.wallsParents c fuel b remaining = some b' →
      ∃ log, Dungeon.Inserted c.Placed b.dungeon log b'.dungeon
  | 0, b, remaining, b', h => by
    unfold Build.wallsParents at h
    split at h
    · cases h
    · cases h
      exact ⟨[], .refl _⟩
  | fuel + 1, b, remaining, b', h => by
    unfold Build.wallsParents at h
    split at h
    swap
    · cases h
      exact ⟨[], .refl _⟩
    dsimp only at h
    split at h
    · cases h
    · have h' := Build.wallsParents_inserted c fuel _ remaining h
      exact h'
    · next hu =>
      split at h
      · cases h
      · next d1 hins =>
        obtain ⟨log1, h1⟩ := c.placed_step (e := c.Get "Wall") ⟨hu, Or.inr (Or.inr ⟨_, _, rfl⟩)⟩ hins
        obtain ⟨log2, h2⟩ := Build.wallsParents_inserted c fuel _ _ h
        exact ⟨log1 ++ log2, h1.append h2⟩

theorem Build.childrenPass_inserted (c : Collaborators) :
    ∀ (fuel k : Nat) (b : Build) (remaining : Int) {b' : Build} {remaining' : Int},
      Build.childrenPass c fuel k b remaining = some (b', remaining') →
      ∃ log, Dungeon.Inserted c.Placed b.dungeon log b'.dungeon ∧
        remaining' = remaining - log.length
  | 0, _, _, _, _, _, h => by cases h
  | fuel + 1, k, b, remaining, b', remaining', h => by
    unfold Build.childrenPass at h
    split at h
    · cases h
      exact ⟨[], .refl _, by simp⟩
    · split at h
      swap
      · exact Build.childrenPass_inserted c fuel _ _ _ h
      dsimp only at h
      split at h
      · cases h
      · split at h
        swap
        · have h' := Build.childrenPass_inserted c fuel _ _ _ h
          exact h'
        next hin =>
        split at h
        · cases h
        · have h' := Build.childrenPass_inserted c fuel _ _ _ h
          exact h'
        · next hu =>
          split at h
          · cases h
          · next d1 hins =>
            obtain ⟨log1, h1⟩ := c.placed_step (e := c.Get "Wall") ⟨hu, Or.inl hin⟩ hins
            obtain ⟨log2, h2, hr⟩ := Build.childrenPass_inserted c fuel _ _ _ h
            refine ⟨[(_, _)] ++ log2, (Dungeon.Inserted.step (.refl _) ⟨hu, Or.inl hin⟩ hins).append h2, ?_⟩
            rw [hr]
            simp only [List.length_append, List.length_singleton, Nat.cast_add, Nat.cast_one]
            omega

theorem Build.wallsChildren_inserted (c : Collaborators) (passFuel : Nat) :
    ∀ (fuel : Nat) (b : Build) (remaining : Int) {b' : Build},
      Build.wallsChildren c passFuel fuel b remaining = some b' →
      ∃ log, Dungeon.Inserted c.Placed b.dungeon log b'.dungeon ∧
        remaining ≤ log.length
  | 0, b, remaining, b', h => by
    unfold Build.wallsChildren at h
    split at h
    · cases h
    · cases h
      exact ⟨[], .refl _, by simp only [List.length_nil, Nat.cast_zero]; omega⟩
  | fuel + 1, b, remaining, b', h => by
    unfold Build.wallsChildren at h
    split at h
    swap
    · cases h
      exact ⟨[], .refl _, by simp only [List.length_nil, Nat.cast_zero]; omega⟩
    cases h1 : Build.childrenPass c passFuel 0 b remaining with
    | none => simp [h1] at h
    | some br =>
      obtain ⟨b1, remaining1⟩ := br
      rw [h1] at h
      dsimp only at h
      obtain ⟨log1, hins1, hr1⟩ := Build.childrenPass_inserted c passFuel 0 b remaining h1
      obtain ⟨log2, hins2, hr2⟩ := Build.wallsChildren_inserted c passFuel fuel b1 remaining1 h
      refine ⟨log1 ++ log2, hins1.append hins2, ?_⟩
      simp only [List.length_append, Nat.cast_add]
      omega

theorem mem_interiorCells {size p : Vector2} (h : p ∈ interiorCells size) :
    1 ≤ p.x ∧ p.x < size.x - 1 ∧ 1 ≤ p.y ∧ p.y < size.y - 1 := by
  unfold interiorCells at h
  simp only [List.mem_flatMap, List.mem_range, List.mem_map] at h
  obtain ⟨j, hj, i, hi, rfl⟩ := h
  simp only
  omega

theorem Dungeon.fillStep_inserted (c : Collaborators) {d d1 : Dungeon} {iterator : Vector2}
    (hin : InBounds iterator d.size) (h : d.fillStep c iterator = some d1) :
    ∃ log, Dungeon.Inserted c.Placed d log d1 := by
  unfold Dungeon.fillStep at h
  cases hu : d.Unoccupied iterator with
  | none => simp [hu] at h
  | some free =>
    rw [hu] at h
    cases free
    · cases h
      exact ⟨[], .refl d⟩
    · dsimp only at h
      cases hs : d.Surrounded iterator 5 with
      | none => simp [hs] at h
      | some around =>
        rw [hs] at h
        cases around
        · cases h
          exact ⟨[], .refl d⟩
        · exact c.placed_step ⟨hu, Or.inl hin⟩ h

theorem Dungeon.GenerateWallsFiller_inserted (c : Collaborators) (amount : Int)
    {d d' : Dungeon} (h : d.GenerateWallsFiller c amount = some d') :
    ∃ log, Dungeon.Inserted c.Placed d log d' := by
  unfold Dungeon.GenerateWallsFiller at h
  refine Dungeon.Inserted.foldlM _ d _ ?_ d d' rfl h
  intro s _ s' _ _ hpass
  refine Dungeon.Inserted.foldlM (Dungeon.fillStep c) s (interiorCells s.size) ?_ s s' rfl hpass
  intro s1 x s2 hx hsize hstep
  refine Dungeon.fillStep_inserted c ?_ hstep
  rw [hsize]
  obtain ⟨h1, h2, h3, h4⟩ := mem_interiorCells hx
  exact ⟨by omega, by omega, by omega, by omega⟩

theorem Build.placeEnemy_inserted (c : Collaborators) :
    ∀ (fuel : Nat) (b : Build) {b' : Build},
      Build.placeEnemy c fuel b = some b' →
      ∃ log, Dungeon.Inserted c.Placed b.dungeon log b'.dungeon
  | 0, _, _, h => by cases h
  | fuel + 1, b, b', h => by
    unfold Build.placeEnemy at h
    dsimp only at h
    split at h
    · cases h
    · have h' := Build.placeEnemy_inserted c fuel _ h
      exact h'
    · next hu =>
      split at h
      · cases h
      · next character _ =>
        split at h
        · cases h
        · next d1 hins =>
          cases h
          exact c.placed_step (e := c.Get character.name)
            ⟨hu, Or.inr (Or.inr ⟨_, _, rfl⟩)⟩ hins

theorem Build.foldlM_inserted {α : Type} {Q : Dungeon → Vector2 → Entity → Prop}
    (step : Build → α → Option Build)
    (hstep : ∀ s x s', step s x = some s' → ∃ log, Dungeon.Inserted Q s.dungeon log s'.dungeon) :
    ∀ (l : List α) (b b' : Build), l.foldlM step b = some b' →
      ∃ log, Dungeon.Inserted Q b.dungeon log b'.dungeon
  | [], b, b', h => by
    cases h
    exact ⟨[], .refl _⟩
  | x :: l, b, b', h => by
    rw [List.foldlM_cons] at h
    cases h1 : step b x with
    | none => simp [h1] at h
    | some b1 =>
      rw [h1] at h
      obtain ⟨log1, hins1⟩ := hstep b x b1 h1
      obtain ⟨log2, hins2⟩ := Build.foldlM_inserted step hstep l b1 b' h
      exact ⟨log1 ++ log2, hins1.append hins2⟩

theorem Build.GenerateEnemies_inserted (c : Collaborators) (fuel : Nat) (amount : Int)
    {b b' : Build} (h : b.GenerateEnemies c fuel amount = some b') :
    ∃ log, Dungeon.Inserted c.Placed b.dungeon log b'.dungeon := by
  unfold Build.GenerateEnemies at h
  dsimp only at h
  split at h
  swap
  · cases h
  have hfold := Build.foldlM_inserted (Q := c.Placed) (fun s (_ : Nat) => Build.placeEnemy c fuel s)
    (fun s _ s' hs => Build.placeEnemy_inserted c fuel s hs) _ _ _ h
  split at hfold <;> exact hfold

theorem Build.GenerateWallsParents_inserted (c : Collaborators) (fuel : Nat) (amount : Int)
    {b b' : Build} (h : b.GenerateWallsParents c fuel amount = some b') :
    ∃ log, Dungeon.Inserted c.Placed b.dungeon log b'.dungeon :=
  Build.wallsParents_inserted c fuel b _ h

theorem Build.GenerateWallsChildren_inserted (c : Collaborators) (fuel : Nat) (amount : Int)
    {b b' : Build} (h : b.GenerateWallsChildren c fuel amount = some b') :
    ∃ log, Dungeon.Inserted c.Placed b.dungeon log b'.dungeon := by
  obtain ⟨log, hins, _⟩ := Build.wallsChildren_inserted c fuel fuel b _ h
  exact ⟨log, hins⟩
/-! ## Claim C12: the stages insert into unoccupied cells only -/

theorem Collaborators.guarded_of_placed (c : Collaborators) {d0 d : Dungeon}
    (h : ∃ log, Dungeon.Inserted c.Placed d0 log d) : d0.Guarded d := by
  obtain ⟨log, hins⟩ := h
  have hfree : Dungeon.Inserted (fun s position _ => s.Unoccupied position = some true)
      d0 log d := hins.mono (fun _ _ _ hq => hq.1)
  exact ⟨⟨log, hfree⟩, hfree.untouched (fun _ _ _ hq => hq)⟩

/-- C12: for every dungeon state, every random source, pathfinder and factory, and every
amount, whenever one of the stages `GenerateWallsOuter`, `GenerateHiddenPath`,
`GenerateWallsParents`, `GenerateWallsChildren`, `GenerateWallsFiller` and `GenerateEnemies`
returns, it is `Dungeon.Guarded`: every `EntityInsert` of the stage was made for a cell that
`Unoccupied` reported free in the state of the call; the size and the number of tiles are the
same, the former entities come first in the collection, every tile that had occupants before
the stage is identical after it, and every tile that had none has at most one occupant. -/
theorem stages_insert_into_unoccupied (c : Collaborators) (fuel : Nat) (amount : Int)
    (b : Build) :
    (∀ d', b.dungeon.GenerateWallsOuter c = some d' → b.dungeon.Guarded d') ∧
    (∀ b', b.GenerateHiddenPath c fuel = some b' → b.dungeon.Guarded b'.dungeon) ∧
    (∀ b', b.GenerateWallsParents c fuel amount = some b' → b.dungeon.Guarded b'.dungeon) ∧
    (∀ b', b.GenerateWallsChildren c fuel amount = some b' → b.dungeon.Guarded b'.dungeon) ∧
    (∀ d', b.dungeon.GenerateWallsFiller c amount = some d' → b.dungeon.Guarded d') ∧
    (∀ b', b.GenerateEnemies c fuel amount = some b' → b.dungeon.Guarded b'.dungeon) :=
  ⟨fun _ h => c.guarded_of_placed (Dungeon.GenerateWallsOuter_inserted c h),
   fun _ h => c.guarded_of_placed (Build.GenerateHiddenPath_inserted c fuel h),
   fun _ h => c.guarded_of_placed (Build.GenerateWallsParents_inserted c fuel amount h),
   fun _ h => c.guarded_of_placed (Build.GenerateWallsChildren_inserted c fuel amount h),
   fun _ h => c.guarded_of_placed (Dungeon.GenerateWallsFiller_inserted c amount h),
   fun _ h => c.guarded_of_placed (Build.GenerateEnemies_inserted c fuel amount h)⟩

/-- Witness for C12: each of the six stages returns on the 4 × 4 sample with one door, and the
tile of the door is the same afterwards. -/
theorem stages_insert_into_unoccupied_witness :
    (∃ d', sampleBuild.dungeon.GenerateWallsOuter sampleCollaborators = some d' ∧
      sampleBuild.dungeon.Guarded d' ∧ d'.tiles[1]? = some ⟨'+', [.entity 0]⟩) ∧
    (∃ b', sampleBuild.GenerateHiddenPath sampleCollaborators 20 = some b' ∧
      sampleBuild.dungeon.Guarded b'.dungeon) ∧
    (∃ b', sampleBuild.GenerateWallsParents sampleCollaborators 20 1 = some b' ∧
      sampleBuild.dungeon.Guarded b'.dungeon) ∧
    (∃ b', sampleBuild.GenerateWallsChildren sampleCollaborators 20 1 = some b' ∧
      sampleBuild.dungeon.Guarded b'.dungeon) ∧
    (∃ d', sampleBuild.dungeon.GenerateWallsFiller sampleCollaborators 1 = some d' ∧
      sampleBuild.dungeon.Guarded d') ∧
    (∃ b', sampleBuild.GenerateEnemies sampleCollaborators 20 1 = some b' ∧
      sampleBuild.dungeon.Guarded b'.dungeon) := by
  obtain ⟨h1, h2, h3, h4, h5, h6⟩ :=
    stages_insert_into_unoccupied sampleCollaborators 20 1 sampleBuild
  refine ⟨?_, ?_, ?_, ?_, ?_, ?_⟩
  · obtain ⟨d', h⟩ := Option.isSome_iff_exists.mp
      (by decide : (sampleBuild.dungeon.GenerateWallsOuter sampleCollaborators).isSome = true)
    refine ⟨d', h, h1 d' h, ?_⟩
    obtain ⟨t, ht, hkeep, _⟩ := (h1 d' h).2.2.2.2 1 ⟨'+', [.entity 0]⟩ (by decide)
    rw [ht, hkeep (by decide)]
  · obtain ⟨b', h⟩ := Option.isSome_iff_exists.mp
      (by decide : (sampleBuild.GenerateHiddenPath sampleCollaborators 20).isSome = true)
    exact ⟨b', h, h2 b' h⟩
  · obtain ⟨b', h⟩ := Option.isSome_iff_exists.mp
      (by decide : (sampleBuild.GenerateWallsParents sampleCollaborators 20 1).isSome = true)
    exact ⟨b', h, h3 b' h⟩
  · obtain ⟨b', h⟩ := Option.isSome_iff_exists.mp
      (by decide : (sampleBuild.GenerateWallsChildren sampleCollaborators 20 1).isSome = true)
    exact ⟨b', h, h4 b' h⟩
  · obtain ⟨d', h⟩ := Option.isSome_iff_exists.mp
      (by decide : (sampleBuild.dungeon.GenerateWallsFiller sampleCollaborators 1).isSome = true)
    exact ⟨d', h, h5 d' h⟩
  · obtain ⟨b', h⟩ := Option.isSome_iff_exists.mp
      (by decide : (sampleBuild.GenerateEnemies sampleCollaborators 20 1).isSome = true)
    exact ⟨b', h, h6 b' h⟩
/-! ## Generation: the door stage -/

theorem doorSides_fold (c : Collaborators) (size : Vector2) (sensitivity k : Int) :
    ∀ (cells : List Vector2) (init : Int → List Vector2),
      (cells.foldl
        (fun sides iterator =>
          if c.OnBorder iterator size && !c.InCorner iterator size sensitivity then
            fun side =>
              if side = (c.Quadrant iterator size).toInt then sides side ++ [iterator]
              else sides side
          else sides) init) k =
      init k ++ cells.filter fun iterator =>
        c.OnBorder iterator size && !c.InCorner iterator size sensitivity &&
          decide ((c.Quadrant iterator size).toInt = k)
  | [], init => by simp
  | x :: cells, init => by
    rw [List.foldl_cons, doorSides_fold c size sensitivity k cells]
    by_cases hb : (c.OnBorder x size && !c.InCorner x size sensitivity) = true
    · rw [if_pos hb]
      by_cases hk : k = (c.Quadrant x size).toInt
      · rw [if_pos hk, List.filter_cons_of_pos (by simp [hb, hk])]
        simp
      · rw [if_neg hk, List.filter_cons_of_neg (by simp [Ne.symm hk])]
    · rw [if_neg hb, List.filter_cons_of_neg (by simp [hb])]

theorem doorSides_eq (c : Collaborators) (size : Vector2) (sensitivity k : Int) :
    doorSides c size sensitivity k =
      (gridCells size).filter fun iterator =>
        c.OnBorder iterator size && !c.InCorner iterator size sensitivity &&
          decide ((c.Quadrant iterator size).toInt = k) := by
  unfold doorSides
  rw [doorSides_fold]
  rfl

theorem mem_doorSides {c : Collaborators} {size : Vector2} {sensitivity k : Int}
    {p : Vector2} :
    p ∈ doorSides c size sensitivity k ↔
      InBounds p size ∧ c.OnBorder p size = true ∧ c.InCorner p size sensitivity = false ∧
        (c.Quadrant p size).toInt = k := by
  rw [doorSides_eq, List.mem_filter, mem_gridCells]
  simp only [Bool.and_eq_true, Bool.not_eq_true', decide_eq_true_eq, and_assoc]

theorem Build.placeDoor_eq_some {c : Collaborators} {b b' : Build}
    {sides sides' : Int → List Vector2} {value : Int}
    (h : Build.placeDoor c (b, sides) value = some (b', sides')) :
    ∃ cell d1,
      vectorAt (sides value)
        (c.RandomNumberGenerator b.calls 0 (((sides value).length : Int) - 1)) = some cell ∧
      b.dungeon.EntityInsert cell (c.Get "Door") = some d1 ∧
      b' = { dungeon := { d1 with links := d1.links ++ [⟨-1, -1, cell, ⟨-1, -1⟩⟩] },
             calls := b.calls + 1 } ∧
      sides' = fun k =>
        if k = value then
          (sides value).eraseIdx
            (c.RandomNumberGenerator b.calls 0 (((sides value).length : Int) - 1)).toNat
        else sides k := by
  unfold Build.placeDoor at h
  dsimp only at h
  cases hv : vectorAt (sides value)
      (c.RandomNumberGenerator b.calls 0 (((sides value).length : Int) - 1)) with
  | none => simp [hv] at h
  | some cell =>
    rw [hv] at h
    dsimp only at h
    cases hins : b.dungeon.EntityInsert cell (c.Get "Door") with
    | none => simp [hins] at h
    | some d1 =>
      rw [hins] at h
      simp only [Option.some.injEq, Prod.mk.injEq] at h
      exact ⟨cell, d1, rfl, hins, h.1.symm, h.2.symm⟩

theorem vectorAt_mem {α : Type} {v : List α} {i : Int} {x : α} (h : vectorAt v i = some x) :
    x ∈ v :=
  List.getElem?_mem (vectorAt_eq_some.mp h).2

theorem Build.placeDoors_inserted (c : Collaborators) (size : Vector2) :
    ∀ (spacing : List Int) (b : Build) (sides : Int → List Vector2) {b' : Build}
      {sides' : Int → List Vector2},
      b.dungeon.size = size → (∀ k, ∀ p ∈ sides k, InBounds p size) →
      spacing.foldlM (Build.placeDoor c) (b, sides) = some (b', sides') →
      ∃ log, Dungeon.Inserted (fun s p _ => InBounds p s.size) b.dungeon log b'.dungeon
  | [], b, sides, b', sides', _, _, h => by
    cases h
    exact ⟨[], .refl _⟩
  | value :: spacing, b, sides, b', sides', hsize, hin, h => by
    rw [List.foldlM_cons] at h
    cases h1 : Build.placeDoor c (b, sides) value with
    | none => simp [h1] at h
    | some st =>
      obtain ⟨b1, sides1⟩ := st
      rw [h1] at h
      obtain ⟨cell, d1, hcell, hins, rfl, rfl⟩ := Build.placeDoor_eq_some h1
      have hcin : InBounds cell b.dungeon.size := by
        rw [hsize]
        exact hin value cell (vectorAt_mem hcell)
      have hstep : Dungeon.Inserted (fun s p _ => InBounds p s.size) b.dungeon
          ([] ++ [(cell, c.Get "Door")])
          { d1 with links := d1.links ++ [⟨-1, -1, cell, ⟨-1, -1⟩⟩] } :=
        .linked _ (.step (.refl _) hcin hins)
      obtain ⟨log, hrest⟩ := Build.placeDoors_inserted c size spacing _ _
        (by show d1.size = size; rw [← hsize]; exact hstep.frame.1)
        (by
          intro k p hp
          split at hp
          · exact hin value p ((List.eraseIdx_sublist _ _).subset hp)
          · exact hin k p hp) h
      exact ⟨_, hstep.append hrest⟩

theorem Build.GenerateDoors_inserted (c : Collaborators) (amount : Int) {b b' : Build}
    (h : b.GenerateDoors c amount = some b') :
    ∃ log, Dungeon.Inserted (fun s p _ => InBounds p s.size) b.dungeon log b'.dungeon := by
  unfold Build.GenerateDoors at h
  dsimp only at h
  cases hs : doorSensitivity b.dungeon.size with
  | none => simp [hs] at h
  | some sensitivity =>
    rw [hs] at h
    dsimp only at h
    obtain ⟨st, hfold, rfl⟩ := Option.map_eq_some'.mp h
    obtain ⟨b1, sides1⟩ := st
    exact Build.placeDoors_inserted c b.dungeon.size _ { b with calls := b.calls + 1 } _ rfl
      (fun k p hp => (mem_doorSides.mp hp).1) hfold
/-! ## Claim C13: generated entities lie in the grid -/

theorem Collaborators.placed_inBounds (c : Collaborators) (hr : c.InRange)
    (hp : c.PathsInside) {s : Dungeon} {p : Vector2} {e : Entity} (hx : 3 ≤ s.size.x)
    (hy : 3 ≤ s.size.y) (h : c.Placed s p e) : InBounds p s.size := by
  rcases h.2 with hin | ⟨start, finish, obstacles, hpath⟩ | ⟨n, m, rfl⟩
  · exact hin
  · exact hp start finish s.size obstacles p hpath
  · have h1 := hr n 1 (s.size.x - 2) (by omega)
    have h2 := hr m 1 (s.size.y - 2) (by omega)
    exact ⟨by show (0 : Int) ≤ c.RandomNumberGenerator n 1 (s.size.x - 2); omega,
      by show c.RandomNumberGenerator n 1 (s.size.x - 2) < s.size.x; omega,
      by show (0 : Int) ≤ c.RandomNumberGenerator m 1 (s.size.y - 2); omega,
      by show c.RandomNumberGenerator m 1 (s.size.y - 2) < s.size.y; omega⟩

theorem Build.stage_inserted {Q : Dungeon → Vector2 → Entity → Prop} (enabled : Bool)
    (st : Build → Option Build)
    (hst : ∀ b b', st b = some b' → ∃ log, Dungeon.Inserted Q b.dungeon log b'.dungeon)
    {b b' : Build} (h : Build.stage enabled st b = some b') :
    ∃ log, Dungeon.Inserted Q b.dungeon log b'.dungeon := by
  unfold Build.stage at h
  split at h
  · exact hst b b' h
  · cases h
    exact ⟨[], .refl _⟩

theorem Build.onDungeon_inserted {Q : Dungeon → Vector2 → Entity → Prop}
    (st : Dungeon → Option Dungeon)
    (hst : ∀ d d', st d = some d' → ∃ log, Dungeon.Inserted Q d log d')
    {b b' : Build} (h : Build.onDungeon st b = some b') :
    ∃ log, Dungeon.Inserted Q b.dungeon log b'.dungeon := by
  unfold Build.onDungeon at h
  obtain ⟨d', hd, rfl⟩ := Option.map_eq_some'.mp h
  exact hst _ _ hd

theorem Build.construct_inserted (c : Collaborators) (fuel : Nat) (player : Player)
    (config : DungeonConfiguration) {b : Build}
    (h : Build.construct c fuel player config = some b) :
    ∃ b0 log, Build.create c player config = some b0 ∧
      Dungeon.Inserted (fun s p e => InBounds p s.size ∨ c.Placed s p e)
        b0.dungeon log b.dungeon := by
  unfold Build.construct at h
  simp only [Option.bind_eq_some] at h
  obtain ⟨b0, h0, b1, h1, b2, h2, b3, h3, b4, h4, b5, h5, b6, h6, h7⟩ := h
  have left : ∀ {s : Dungeon} {s' : Dungeon},
      (∃ log, Dungeon.Inserted (fun s p _ => InBounds p s.size) s log s') →
      ∃ log, Dungeon.Inserted (fun s p e => InBounds p s.size ∨ c.Placed s p e) s log s' :=
    fun ⟨log, hl⟩ => ⟨log, hl.mono (fun _ _ _ hq => Or.inl hq)⟩
  have right : ∀ {s : Dungeon} {s' : Dungeon},
      (∃ log, Dungeon.Inserted c.Placed s log s') →
      ∃ log, Dungeon.Inserted (fun s p e => InBounds p s.size ∨ c.Placed s p e) s log s' :=
    fun ⟨log, hl⟩ => ⟨log, hl.mono (fun _ _ _ hq => Or.inr hq)⟩
  obtain ⟨l1, i1⟩ := Build.stage_inserted _ _
    (fun _ _ hs => left (Build.GenerateDoors_inserted c _ hs)) h1
  obtain ⟨l2, i2⟩ := Build.stage_inserted _ _
    (fun _ _ hs => Build.onDungeon_inserted _
      (fun _ _ hd => right (Dungeon.GenerateWallsOuter_inserted c hd)) hs) h2
  obtain ⟨l3, i3⟩ := Build.stage_inserted _ _
    (fun _ _ hs => right (Build.GenerateHiddenPath_inserted c fuel hs)) h3
  obtain ⟨l4, i4⟩ := Build.stage_inserted _ _
    (fun _ _ hs => right (Build.GenerateWallsParents_inserted c fuel _ hs)) h4
  obtain ⟨l5, i5⟩ := Build.stage_inserted _ _
    (fun _ _ hs => right (Build.GenerateWallsChildren_inserted c fuel _ hs)) h5
  obtain ⟨l6, i6⟩ := Build.stage_inserted _ _
    (fun _ _ hs => Build.onDungeon_inserted _
      (fun _ _ hd => right (Dungeon.GenerateWallsFiller_inserted c _ hd)) hs) h6
  obtain ⟨l7, i7⟩ := Build.stage_inserted _ _
    (fun _ _ hs => right (Build.GenerateEnemies_inserted c fuel _ hs)) h7
  exact ⟨b0, _, h0,
    (((((i1.append i2).append i3).append i4).append i5).append i6).append i7⟩

/-- C13: let the random source return values inside the requested inclusive range and the
pathfinder only cells of the grid.  Whenever the constructor
`Dungeon::Dungeon( player, entityFactory, config )` returns (the generation pipeline has
terminated) a dungeon of size `W × H` with `W, H ≥ 3`, every entity of the dungeon has a
position `p` with `0 ≤ p.x < W` and `0 ≤ p.y < H`. -/
theorem generated_entities_in_bounds (c : Collaborators) (fuel : Nat) (player : Player)
    (config : DungeonConfiguration) (b : Build) (hr : c.InRange) (hp : c.PathsInside)
    (h : Build.construct c fuel player config = some b) (hx : 3 ≤ b.dungeon.size.x)
    (hy : 3 ≤ b.dungeon.size.y) :
    ∀ en ∈ b.dungeon.entities,
      0 ≤ en.2.position.x ∧ en.2.position.x < b.dungeon.size.x ∧
      0 ≤ en.2.position.y ∧ en.2.position.y < b.dungeon.size.y := by
  obtain ⟨b0, log, h0, hins⟩ := Build.construct_inserted c fuel player config h
  have hsize := hins.frame.1
  have hempty : b0.dungeon.entities = [] := by
    unfold Build.create at h0
    dsimp only at h0
    split_ifs at h0 <;> cases h0 <;> rfl
  refine hins.inBounds ?_ ?_
  · intro s p e hs hq
    rcases hq with hin | hplaced
    · exact hin
    · exact c.placed_inBounds hr hp (by rw [hs, ← hsize]; exact hx)
        (by rw [hs, ← hsize]; exact hy) hplaced
  · intro en hen
    rw [hempty] at hen
    cases hen

theorem sampleCollaborators_inRange : sampleCollaborators.InRange := by
  intro n min max hle
  show min ≤ (if max < min then min else min + (n : Int) % (max - min + 1)) ∧
    (if max < min then min else min + (n : Int) % (max - min + 1)) ≤ max
  rw [if_neg (by omega)]
  have h1 := Int.emod_nonneg (n : Int) (show max - min + 1 ≠ 0 by omega)
  have h2 := Int.emod_lt_of_pos (n : Int) (show 0 < max - min + 1 by omega)
  omega

theorem sampleCollaborators_pathsInside : sampleCollaborators.PathsInside := by
  intro start finish size obstacles p hp
  have hp' : p ∈ [start, finish].filter fun q => decide (InBounds q size) := hp
  exact of_decide_eq_true (List.mem_filter.mp hp').2

/-- Witness for C13: the constructor returns for the sample configuration of a 7 × 6 dungeon
with all stages switched on, and every generated entity lies in the grid. -/
theorem generated_entities_in_bounds_witness :
    ∃ b, Build.construct sampleCollaborators 200 (samplePlayer ⟨0, 0⟩) sampleConfiguration =
        some b ∧ b.dungeon.size = ⟨7, 6⟩ ∧
      ∀ en ∈ b.dungeon.entities,
        0 ≤ en.2.position.x ∧ en.2.position.x < b.dungeon.size.x ∧
        0 ≤ en.2.position.y ∧ en.2.position.y < b.dungeon.size.y := by
  obtain ⟨b, h⟩ := Option.isSome_iff_exists.mp
    (by decide : (Build.construct sampleCollaborators 200 (samplePlayer ⟨0, 0⟩)
      sampleConfiguration).isSome = true)
  obtain ⟨b0, log, h0, hins⟩ := Build.construct_inserted _ _ _ _ h
  have hsize : b.dungeon.size = ⟨7, 6⟩ := by
    rw [hins.frame.1]
    have : Build.create sampleCollaborators (samplePlayer ⟨0, 0⟩) sampleConfiguration =
        some ⟨{ size := ⟨7, 6⟩, tiles := List.replicate 42 ⟨'-', []⟩, entities := [],
                vision := [], links := [], fresh := 0, player := samplePlayer ⟨0, 0⟩ }, 2⟩ := by
      decide
    rw [this] at h0
    cases h0
    rfl
  exact ⟨b, h, hsize, generated_entities_in_bounds sampleCollaborators 200 _ _ b
    sampleCollaborators_inRange sampleCollaborators_pathsInside h
    (by rw [hsize]; decide) (by rw [hsize]; decide)⟩
/-! ## Generation: the entities and occupants that a sequence of insertions leaves -/

theorem numbered_append {α : Type} :
    ∀ (n : Nat) (xs ys : List α),
      numbered n (xs ++ ys) = numbered n xs ++ numbered (n + xs.length) ys
  | n, [], ys => by simp [numbered]
  | n, x :: xs, ys => by
    have hlen : n + 1 + xs.length = n + (xs.length + 1) := by omega
    show (n, x) :: numbered (n + 1) (xs ++ ys) =
      (n, x) :: numbered (n + 1) xs ++ numbered (n + (xs.length + 1)) ys
    rw [numbered_append (n + 1) xs ys, hlen]
    rfl

theorem mem_numbered {α : Type} {x : Nat × α} :
    ∀ {n : Nat} {xs : List α}, x ∈ numbered n xs → n ≤ x.1 ∧ x.1 < n + xs.length ∧ x.2 ∈ xs
  | n, [], h => by cases h
  | n, y :: ys, h => by
    simp only [numbered, List.mem_cons] at h
    rcases h with rfl | h
    · simp
    · obtain ⟨h1, h2, h3⟩ := mem_numbered h
      simp only [List.length_cons, List.mem_cons]
      exact ⟨by omega, by omega, Or.inr h3⟩

theorem numbered_fst_nodup {α : Type} :
    ∀ (n : Nat) (xs : List α), ((numbered n xs).map Prod.fst).Nodup
  | n, [] => by simp [numbered]
  | n, x :: xs => by
    simp only [numbered, List.map_cons, List.nodup_cons, List.mem_map, not_exists, not_and]
    refine ⟨?_, numbered_fst_nodup (n + 1) xs⟩
    intro y hy heq
    have := (mem_numbered hy).1
    omega

theorem Dungeon.Inserted.entities {Q : Dungeon → Vector2 → Entity → Prop} {d0 d : Dungeon}
    {log : List (Vector2 × Entity)} (h : Dungeon.Inserted Q d0 log d) :
    d.entities = d0.entities ++ (numbered d0.fresh log).map stored := by
  induction h with
  | refl => simp [numbered]
  | @step d d1 log p e hprev _ hins ih =>
    obtain ⟨t, c, _, rfl⟩ := Dungeon.EntityInsert_shape hins
    show d.entities ++ [(d.fresh, { e with position := p })] = _
    rw [ih, numbered_append, List.map_append, ← List.append_assoc, hprev.frame.2.2.2.2.1]
    rfl
  | linked link _ ih => exact ih

theorem Dungeon.Inserted.occupants {Q : Dungeon → Vector2 → Entity → Prop} {d0 d : Dungeon}
    {log : List (Vector2 × Entity)} (h : Dungeon.Inserted Q d0 log d) :
    ∀ (i : Nat) (t0 : Tile), d0.tiles[i]? = some t0 →
      ∃ t, d.tiles[i]? = some t ∧
        t.occupants = t0.occupants ++
          ((numbered d0.fresh log).filter fun x =>
            decide ((tileIndex d0.size x.2.1).toNat = i)).map (fun x => Ref.entity x.1) ∧
        ((∀ q ∈ log.map Prod.fst, (tileIndex d0.size q).toNat ≠ i) → t = t0) := by
  induction h with
  | refl => exact fun i t0 h0 => ⟨t0, h0, by simp [numbered], fun _ => rfl⟩
  | @step d d1 log p e hprev _ hins ih =>
    obtain ⟨t, c, ht, rfl⟩ := Dungeon.EntityInsert_shape hins
    obtain ⟨_, hget⟩ := Dungeon.GetTile_eq_getElem? ht
    obtain ⟨hsize, _, _, _, hfresh, _⟩ := hprev.frame
    intro i t0 hi0
    obtain ⟨ti, hti, hocc, hsame⟩ := ih i t0 hi0
    have hilt : i < d.tiles.length := (List.getElem?_eq_some.mp hti).1
    rw [numbered_append, List.filter_append, List.map_append, ← List.append_assoc, ← hocc]
    simp only [numbered, ← hfresh, ← hsize]
    by_cases hik : (tileIndex d.size p).toNat = i
    · subst hik
      rw [hget] at hti
      cases hti
      refine ⟨⟨c, t.occupants ++ [.entity d.fresh]⟩,
        by simp only [List.getElem?_set_self hilt], by simp, ?_⟩
      intro hall
      exact absurd rfl (hall p (by simp))
    · refine ⟨ti, by simp only [List.getElem?_set_ne hik]; exact hti, by simp [hik], ?_⟩
      intro hall
      exact hsame (fun q hq => by
        have := hall q (by
          rw [List.map_append, List.mem_append]
          exact Or.inl hq)
        rw [← hsize]
        exact this)
  | linked link _ ih => exact ih

theorem Dungeon.Inserted.getTile {Q : Dungeon → Vector2 → Entity → Prop} {d0 d : Dungeon}
    {log : List (Vector2 × Entity)} (h : Dungeon.Inserted Q d0 log d) {p : Vector2}
    {t0 : Tile} (h0 : d0.GetTile p = some t0) :
    ∃ t, d.GetTile p = some t ∧
      t.occupants = t0.occupants ++
        ((numbered d0.fresh log).filter fun x =>
          decide ((tileIndex d0.size x.2.1).toNat = (tileIndex d0.size p).toNat)).map
          fun x => Ref.entity x.1 := by
  obtain ⟨hnn, hget⟩ := Dungeon.GetTile_eq_getElem? h0
  obtain ⟨t, ht, hocc, _⟩ := h.occupants _ t0 hget
  refine ⟨t, ?_, hocc⟩
  unfold Dungeon.GetTile
  rw [h.frame.1]
  exact tileAt_eq_some.mpr ⟨hnn, ht⟩

theorem Dungeon.Inserted.lookup_new {Q : Dungeon → Vector2 → Entity → Prop} {d0 d : Dungeon}
    {log : List (Vector2 × Entity)} (h : Dungeon.Inserted Q d0 log d) (hf : d0.Serial)
    {x : Nat × Vector2 × Entity} (hx : x ∈ numbered d0.fresh log) :
    d.entities.lookup x.1 = some (stored x).2 ∧ d0.entities.lookup x.1 = none := by
  have hnone : d0.entities.lookup x.1 = none := by
    rw [List.lookup_eq_none_iff]
    intro en hen
    have h1 := hf en hen
    have h2 := (mem_numbered hx).1
    simp only [bne_iff_ne, ne_eq]
    omega
  refine ⟨?_, hnone⟩
  rw [h.entities, List.lookup_append, hnone]
  have hmem : (x.1, (stored x).2) ∈ (numbered d0.fresh log).map stored :=
    List.mem_map.mpr ⟨x, hx, rfl⟩
  have hnd : (((numbered d0.fresh log).map stored).map Prod.fst).Nodup := by
    rw [List.map_map]
    exact numbered_fst_nodup d0.fresh log
  simpa using lookup_of_mem hnd hmem

theorem Dungeon.Inserted.calls {Q : Dungeon → Vector2 → Entity → Prop} {d0 d : Dungeon}
    {log : List (Vector2 × Entity)} (h : Dungeon.Inserted Q d0 log d) :
    ∀ x ∈ log, ∃ s, s.size = d0.size ∧ Q s x.1 x.2 := by
  induction h with
  | refl => exact fun x hx => by cases hx
  | @step d d1 log p e hprev hq _ ih =>
    intro x hx
    rcases List.mem_append.mp hx with hold | hnew
    · exact ih x hold
    · rw [List.mem_singleton] at hnew
      subst hnew
      exact ⟨d, hprev.frame.1, hq⟩
  | linked link _ ih => exact ih

theorem Dungeon.EntityInsert_sized {d : Dungeon} (hs : d.Sized) {p : Vector2}
    (hp : InBounds p d.size) (e : Entity) :
    ∃ d1, d.EntityInsert p e = some d1 ∧ d1.Sized := by
  obtain ⟨t, ht⟩ := Dungeon.GetTile_of_inBounds hs hp
  have hderef : ∃ e', (d.entities ++ [(d.fresh, { e with position := p })]).lookup d.fresh =
      some e' := by
    rw [List.lookup_append]
    cases d.entities.lookup d.fresh with
    | none => exact ⟨{ e with position := p }, by simp [lookup_cons_ite]⟩
    | some e0 => exact ⟨e0, rfl⟩
  obtain ⟨e', he'⟩ := hderef
  have hins : d.EntityInsert p e = some
      (({ d with entities := d.entities ++ [(d.fresh, { e with position := p })],
                 fresh := d.fresh + 1 } : Dungeon).withTiles
        (d.tiles.set (tileIndex d.size p).toNat ⟨e'.icon, t.occupants ++ [.entity d.fresh]⟩)) :=
    Dungeon.OccupantInsert_live
      (d := { d with entities := d.entities ++ [(d.fresh, { e with position := p })],
                     fresh := d.fresh + 1 }) ht he'
  exact ⟨_, hins, Dungeon.sized_set
    (d := { d with entities := d.entities ++ [(d.fresh, { e with position := p })],
                   fresh := d.fresh + 1 }) hs _ _⟩

theorem Dungeon.Untouched.occupied {d0 d : Dungeon} (h : d0.Untouched d) {p : Vector2}
    (hp : d0.Unoccupied p = some false) : d.Unoccupied p = some false ∧
      d.GetTile p = d0.GetTile p := by
  unfold Dungeon.Unoccupied at hp
  obtain ⟨t0, ht0, hocc⟩ := Option.map_eq_some'.mp hp
  obtain ⟨hnn, hget⟩ := Dungeon.GetTile_eq_getElem? ht0
  obtain ⟨t, ht, hkeep, _⟩ := h.2.2.2 _ t0 hget
  have hne : t0.occupants ≠ [] := by
    intro hnil
    rw [hnil] at hocc
    simp at hocc
  rw [hkeep hne] at ht
  have hget' : d.GetTile p = some t0 := by
    unfold Dungeon.GetTile
    rw [h.1]
    exact tileAt_eq_some.mpr ⟨hnn, ht⟩
  refine ⟨?_, by rw [hget', ht0]⟩
  unfold Dungeon.Unoccupied
  rw [hget']
  simp [hocc]
/-! ## Claim C16: the outer walls -/

theorem Dungeon.wallOuter_trace (c : Collaborators) {d : Dungeon} (hs : d.Sized)
    {iterator : Vector2} (hin : InBounds iterator d.size) :
    ∃ d1, d.wallOuter c iterator = some d1 ∧ d1.Sized ∧
      (∃ log, Dungeon.Inserted c.OuterWall d log d1) ∧
      (c.OnBorder iterator d.size = true → d1.Unoccupied iterator = some false) := by
  obtain ⟨t, ht⟩ := Dungeon.GetTile_of_inBounds hs hin
  have hu : d.Unoccupied iterator = some t.occupants.isEmpty := by
    unfold Dungeon.Unoccupied
    rw [ht]
    rfl
  unfold Dungeon.wallOuter
  rw [hu]
  cases hempty : t.occupants.isEmpty
  · exact ⟨d, rfl, hs, ⟨[], .refl d⟩, fun _ => by rw [hu, hempty]⟩
  · dsimp only
    by_cases hb : c.OnBorder iterator d.size = true
    · rw [if_pos hb]
      obtain ⟨d1, hins, hs1⟩ := Dungeon.EntityInsert_sized hs hin (c.Get "Wall")
      refine ⟨d1, hins, hs1, ⟨[] ++ [(iterator, c.Get "Wall")],
        .step (.refl d) ⟨by rw [hu, hempty], hin, hb, rfl⟩ hins⟩, fun _ => ?_⟩
      obtain ⟨t', c', ht', rfl⟩ := Dungeon.EntityInsert_shape hins
      rw [ht] at ht'
      cases ht'
      obtain ⟨h0, h1⟩ := tileAt_lt ht
      have hget : Dungeon.GetTile
          { d with
            entities := d.entities ++ [(d.fresh, { c.Get "Wall" with position := iterator })],
            fresh := d.fresh + 1,
            tiles := d.tiles.set (tileIndex d.size iterator).toNat
              ⟨c', t.occupants ++ [.entity d.fresh]⟩ } iterator =
          some ⟨c', t.occupants ++ [.entity d.fresh]⟩ := tileAt_set_self h0 h1
      unfold Dungeon.Unoccupied
      rw [hget]
      simp
    · rw [if_neg hb]
      exact ⟨d, rfl, hs, ⟨[], .refl d⟩, fun h => absurd h hb⟩

theorem Dungeon.wallsOuter_fold (c : Collaborators) (size : Vector2) :
    ∀ (cells : List Vector2) (d : Dungeon), d.Sized → d.size = size →
      (∀ x ∈ cells, InBounds x size) →
      ∃ d', cells.foldlM (Dungeon.wallOuter c) d = some d' ∧ d'.Sized ∧
        (∃ log, Dungeon.Inserted c.OuterWall d log d') ∧
        ∀ p ∈ cells, c.OnBorder p size = true → d'.Unoccupied p = some false
  | [], d, hs, _, _ => ⟨d, rfl, hs, ⟨[], .refl d⟩, fun p hp => by cases hp⟩
  | x :: cells, d, hs, hsize, hin => by
    have hx : InBounds x d.size := by
      rw [hsize]
      exact hin x (List.mem_cons_self _ _)
    obtain ⟨d1, h1, hs1, ⟨log1, hins1⟩, hocc1⟩ := Dungeon.wallOuter_trace c hs hx
    have hsize1 : d1.size = size := by rw [hins1.frame.1, hsize]
    obtain ⟨d', h', hs', ⟨log2, hins2⟩, hocc⟩ := Dungeon.wallsOuter_fold c size cells d1 hs1
      hsize1 (fun y hy => hin y (List.mem_cons_of_mem _ hy))
    refine ⟨d', by rw [List.foldlM_cons, h1]; exact h', hs', ⟨_, hins1.append hins2⟩, ?_⟩
    intro p hp hb
    rcases List.mem_cons.mp hp with rfl | hp
    · have hkeep := hins2.untouched (fun _ _ _ hq => hq.1)
      exact (hkeep.occupied (hocc1 (by rw [hsize]; exact hb))).1
    · exact hocc p hp hb

/-- C16: in a dungeon with one tile per cell whose serial numbers are below `fresh`,
`Dungeon::GenerateWallsOuter` returns, and afterwards every border cell of the grid is
occupied; every border cell that was unoccupied before holds exactly one occupant, a new
entity that is the factory's "Wall" with that cell as its position; and the tile of every cell
that is not on the border or was occupied before is the same as before. -/
theorem GenerateWallsOuter_fills_border (c : Collaborators) (d : Dungeon) (hs : d.Sized)
    (hf : d.Serial) :
    ∃ d', d.GenerateWallsOuter c = some d' ∧ d'.size = d.size ∧
      (∀ p, InBounds p d.size → c.OnBorder p d.size = true →
        d'.Unoccupied p = some false) ∧
      (∀ p, InBounds p d.size → c.OnBorder p d.size = true → d.Unoccupied p = some true →
        ∃ t id, d'.GetTile p = some t ∧ t.occupants = [.entity id] ∧
          d'.entities.lookup id = some { c.Get "Wall" with position := p } ∧
          d.entities.lookup id = none) ∧
      (∀ p, InBounds p d.size →
        c.OnBorder p d.size = false ∨ d.Unoccupied p = some false →
        d'.GetTile p = d.GetTile p) := by
  obtain ⟨d', hrun, _, ⟨log, hins⟩, hocc⟩ := Dungeon.wallsOuter_fold c d.size
    (gridCells d.size) d hs rfl (fun x hx => mem_gridCells.mp hx)
  have hkeep := hins.untouched (fun _ _ _ hq => hq.1)
  have hcalls := hins.calls
  have hsame : ∀ {p q : Vector2}, InBounds p d.size → q ∈ log.map Prod.fst →
      (tileIndex d.size q).toNat = (tileIndex d.size p).toNat →
      q = p ∧ c.OnBorder p d.size = true := by
    intro p q hp hq heq
    obtain ⟨x, hx, rfl⟩ := List.mem_map.mp hq
    obtain ⟨s, hsz, _, hqin, hqb, _⟩ := hcalls x hx
    rw [hsz] at hqin hqb
    have h1 := (tileIndex_bounds hs.1 hqin).1
    have h2 := (tileIndex_bounds hs.1 hp).1
    have hpq : x.1 = p := tileIndex_inj hqin hp (by omega)
    exact ⟨hpq, by rw [← hpq]; exact hqb⟩
  refine ⟨d', hrun, hins.frame.1, fun p hp hb => hocc p (mem_gridCells.mpr hp) hb, ?_, ?_⟩
  · intro p hp hb hfree
    have hafter := hocc p (mem_gridCells.mpr hp) hb
    obtain ⟨t0, ht0⟩ := Dungeon.GetTile_of_inBounds hs hp
    have hempty : t0.occupants = [] := by
      unfold Dungeon.Unoccupied at hfree
      rw [ht0] at hfree
      simpa [List.isEmpty_iff] using hfree
    obtain ⟨t, ht, hoccupants⟩ := hins.getTile ht0
    obtain ⟨_, hget0⟩ := Dungeon.GetTile_eq_getElem? ht0
    obtain ⟨t', ht', _, hone⟩ := hkeep.2.2.2 _ t0 hget0
    have htt : t' = t := by
      obtain ⟨_, hget⟩ := Dungeon.GetTile_eq_getElem? ht
      rw [hins.frame.1, ht'] at hget
      exact Option.some.inj hget
    subst htt
    have hlen := hone hempty
    have hne : t'.occupants ≠ [] := by
      intro hnil
      unfold Dungeon.Unoccupied at hafter
      rw [ht] at hafter
      simp [hnil] at hafter
    rw [hempty, List.nil_append] at hoccupants
    cases hfl : (numbered d.fresh log).filter fun x =>
        decide ((tileIndex d.size x.2.1).toNat = (tileIndex d.size p).toNat) with
    | nil =>
      rw [hfl] at hoccupants
      exact absurd hoccupants hne
    | cons x rest =>
      rw [hfl] at hoccupants
      have hrest : rest = [] := by
        rw [hoccupants] at hlen
        simp only [List.map_cons, List.length_cons, List.length_map] at hlen
        exact List.eq_nil_of_length_eq_zero (by omega)
      subst hrest
      have hx : x ∈ (numbered d.fresh log).filter fun x =>
          decide ((tileIndex d.size x.2.1).toNat = (tileIndex d.size p).toNat) := by
        rw [hfl]
        exact List.mem_cons_self _ _
      obtain ⟨hxn, hxi⟩ := List.mem_filter.mp hx
      have hxi' := of_decide_eq_true hxi
      have hxlog := (mem_numbered hxn).2.2
      obtain ⟨hxp, _⟩ := hsame hp (List.mem_map.mpr ⟨x.2, hxlog, rfl⟩) hxi'
      obtain ⟨s, _, _, _, _, hwall⟩ := hcalls x.2 hxlog
      obtain ⟨hnew, hold⟩ := hins.lookup_new hf hxn
      refine ⟨t', x.1, ht, hoccupants, ?_, hold⟩
      rw [hnew]
      show some { x.2.2 with position := x.2.1 } = _
      rw [hwall, hxp]
  · intro p hp hcase
    rcases hcase with hb | hoccupied
    · obtain ⟨t0, ht0⟩ := Dungeon.GetTile_of_inBounds hs hp
      obtain ⟨hnn, hget0⟩ := Dungeon.GetTile_eq_getElem? ht0
      obtain ⟨t, ht, _, hsame'⟩ := hins.occupants _ t0 hget0
      have htt : t = t0 := hsame' (fun q hq heq => by
        have := (hsame hp hq heq).2
        rw [hb] at this
        cases this)
      rw [ht0]
      unfold Dungeon.GetTile
      rw [hins.frame.1]
      exact tileAt_eq_some.mpr ⟨hnn, by rw [ht, htt]⟩
    · exact (hkeep.occupied hoccupied).2

/-- Witness for C16: on the 4 × 4 sample with one door the stage fills the border; the corner
`(0, 0)` receives a wall, the door in `(1, 0)` and the interior cell `(1, 1)` keep their
tiles. -/
theorem GenerateWallsOuter_fills_border_witness :
    ∃ d', sampleBuild.dungeon.GenerateWallsOuter sampleCollaborators = some d' ∧
      d'.Unoccupied ⟨0, 0⟩ = some false ∧
      (∃ t id, d'.GetTile ⟨0, 0⟩ = some t ∧ t.occupants = [.entity id] ∧
        d'.entities.lookup id = some (sampleWall ⟨0, 0⟩)) ∧
      d'.GetTile ⟨1, 0⟩ = some ⟨'+', [.entity 0]⟩ ∧ d'.GetTile ⟨1, 1⟩ = some ⟨'-', []⟩ := by
  obtain ⟨d', h, _, hborder, hwall, hsame⟩ :=
    GenerateWallsOuter_fills_border sampleCollaborators sampleBuild.dungeon (by decide)
      (by decide)
  refine ⟨d', h, hborder ⟨0, 0⟩ (by decide) (by decide), ?_, ?_, ?_⟩
  · obtain ⟨t, id, ht, hocc, hnew, _⟩ := hwall ⟨0, 0⟩ (by decide) (by decide) (by decide)
    exact ⟨t, id, ht, hocc, hnew⟩
  · rw [hsame ⟨1, 0⟩ (by decide) (Or.inr (by decide))]
    decide
  · rw [hsame ⟨1, 1⟩ (by decide) (Or.inl (by decide))]
    decide
/-! ## Claim C15: the doors and their links -/

theorem Build.placeDoors_spec (c : Collaborators) (hr : c.InRange) (size : Vector2) :
    ∀ (spacing : List Int) (b : Build) (sides : Int → List Vector2),
      b.dungeon.Sized → b.dungeon.size = size →
      (∀ k, ∀ p ∈ sides k, InBounds p size) → (∀ k, (sides k).Nodup) →
      (∀ k k' p, p ∈ sides k → p ∈ sides k' → k = k') →
      doorsSupplied (fun k => (sides k).length) spacing = true →
      ∃ (b' : Build) (sides' : Int → List Vector2) (doors : List Vector2),
        spacing.foldlM (Build.placeDoor c) (b, sides) = some (b', sides') ∧
        doors.length = spacing.length ∧ (∀ p ∈ doors, ∃ k, p ∈ sides k) ∧ doors.Nodup ∧
        (∀ p ∈ doors, ∀ k, p ∉ sides' k) ∧ (∀ k, (sides' k).Sublist (sides k)) ∧
        b'.dungeon.links = b.dungeon.links ++ doors.map Link.unresolved ∧
        Dungeon.Inserted (fun _ _ e => e = c.Get "Door") b.dungeon
          (doors.map fun p => (p, c.Get "Door")) b'.dungeon
  | [], b, sides, _, _, _, _, _, _ =>
    ⟨b, sides, [], rfl, rfl, fun p hp => (by cases hp), List.nodup_nil,
      fun p hp => (by cases hp), fun k => List.Sublist.refl _, (by simp), .refl _⟩
  | value :: spacing, b, sides, hs, hsize, hin, hnd, hdis, hsup => by
    simp only [doorsSupplied, Bool.and_eq_true, decide_eq_true_eq] at hsup
    obtain ⟨hpos, hsup'⟩ := hsup
    obtain ⟨hlo, hhi⟩ := hr b.calls 0 (((sides value).length : Int) - 1) (by omega)
    have hlt : (c.RandomNumberGenerator b.calls 0 (((sides value).length : Int) - 1)).toNat <
        (sides value).length := by omega
    obtain ⟨cell, hcell⟩ : ∃ cell, vectorAt (sides value)
        (c.RandomNumberGenerator b.calls 0 (((sides value).length : Int) - 1)) = some cell :=
      ⟨_, vectorAt_eq_some.mpr ⟨hlo, List.getElem?_eq_getElem hlt⟩⟩
    have hcmem : cell ∈ sides value := vectorAt_mem hcell
    have hcin : InBounds cell b.dungeon.size := by
      rw [hsize]
      exact hin value cell hcmem
    obtain ⟨d1, hins, hs1⟩ := Dungeon.EntityInsert_sized hs hcin (c.Get "Door")
    have hstep : Dungeon.Inserted (fun _ _ e => e = c.Get "Door") b.dungeon
        ([] ++ [(cell, c.Get "Door")])
        { d1 with links := d1.links ++ [⟨-1, -1, cell, ⟨-1, -1⟩⟩] } :=
      .linked _ (.step (.refl _) rfl hins)
    have hlinks1 : d1.links = b.dungeon.links := by
      obtain ⟨t, c', _, rfl⟩ := Dungeon.EntityInsert_shape hins
      rfl
    have hplace : Build.placeDoor c (b, sides) value = some
        ({ dungeon := { d1 with links := d1.links ++ [⟨-1, -1, cell, ⟨-1, -1⟩⟩] },
           calls := b.calls + 1 },
         fun k => if k = value then (sides value).eraseIdx
           (c.RandomNumberGenerator b.calls 0 (((sides value).length : Int) - 1)).toNat
           else sides k) := by
      unfold Build.placeDoor
      dsimp only
      rw [hcell]
      dsimp only
      rw [hins]
    have hsub : ∀ k, (if k = value then (sides value).eraseIdx
        (c.RandomNumberGenerator b.calls 0 (((sides value).length : Int) - 1)).toNat
        else sides k).Sublist (sides k) := by
      intro k
      split
      · next hk =>
        subst hk
        exact List.eraseIdx_sublist _ _
      · exact List.Sublist.refl _
    have hgone : ∀ k, cell ∉ (if k = value then (sides value).eraseIdx
        (c.RandomNumberGenerator b.calls 0 (((sides value).length : Int) - 1)).toNat
        else sides k) := by
      intro k hmem
      split at hmem
      · have hget : (sides value)[(c.RandomNumberGenerator b.calls 0
            (((sides value).length : Int) - 1)).toNat]? = some cell :=
          (vectorAt_eq_some.mp hcell).2
        rw [List.getElem?_eq_getElem hlt] at hget
        have hcell' := Option.some.inj hget
        rw [← hcell', List.mem_eraseIdx_iff_getElem?] at hmem
        obtain ⟨i, hne, hi⟩ := hmem
        have hilt : i < (sides value).length := (List.getElem?_eq_some.mp hi).1
        rw [List.getElem?_eq_getElem hilt] at hi
        exact hne ((hnd value).getElem_inj_iff.mp (Option.some.inj hi))
      · next hk => exact hk (hdis k value cell hmem hcmem)
    obtain ⟨b', sides', doors, hfold, hlen, hfrom, hnodup, hout, hsub', hlinks, htrace⟩ :=
      Build.placeDoors_spec c hr size spacing
        { dungeon := { d1 with links := d1.links ++ [⟨-1, -1, cell, ⟨-1, -1⟩⟩] },
          calls := b.calls + 1 }
        (fun k => if k = value then (sides value).eraseIdx
          (c.RandomNumberGenerator b.calls 0 (((sides value).length : Int) - 1)).toNat
          else sides k)
        hs1 (by show d1.size = size; rw [← hsize]; exact hstep.frame.1)
        (fun k p hp => hin k p ((hsub k).subset hp))
        (fun k => (hnd k).sublist (hsub k))
        (fun k k' p hp hp' => hdis k k' p ((hsub k).subset hp) ((hsub k').subset hp'))
        (by
          have hfun : (fun k => (if k = value then (sides value).eraseIdx
              (c.RandomNumberGenerator b.calls 0 (((sides value).length : Int) - 1)).toNat
              else sides k).length) =
              fun k => if k = value then (sides value).length - 1 else (sides k).length := by
            funext k
            split
            · rw [List.length_eraseIdx, if_pos hlt]
            · rfl
          rw [hfun]
          exact hsup')
    refine ⟨b', sides', cell :: doors, by rw [List.foldlM_cons, hplace]; exact hfold,
      by simp [hlen], ?_, ?_, ?_, fun k => (hsub' k).trans (hsub k), ?_, ?_⟩
    · intro p hp
      rcases List.mem_cons.mp hp with rfl | hp
      · exact ⟨value, hcmem⟩
      · obtain ⟨k, hk⟩ := hfrom p hp
        exact ⟨k, (hsub k).subset hk⟩
    · refine List.nodup_cons.mpr ⟨?_, hnodup⟩
      intro hmem
      obtain ⟨k, hk⟩ := hfrom cell hmem
      exact hgone k hk
    · intro p hp k hmem
      rcases List.mem_cons.mp hp with rfl | hp
      · exact hgone k ((hsub' k).subset hmem)
      · exact hout p hp k hmem
    · rw [hlinks]
      show (d1.links ++ [⟨-1, -1, cell, ⟨-1, -1⟩⟩]) ++ doors.map Link.unresolved = _
      rw [hlinks1, List.append_assoc]
      rfl
    · have := hstep.append htrace
      simpa using this

theorem gridCells_nodup (size : Vector2) : (gridCells size).Nodup := by
  unfold gridCells
  rw [List.nodup_flatMap]
  constructor
  · intro y _
    refine (List.nodup_range _).map ?_
    intro a a' h
    have := congrArg Vector2.x h
    simpa using this
  · refine (List.nodup_range _).imp ?_
    intro a a' hne p hp hp'
    obtain ⟨_, _, rfl⟩ := List.mem_map.mp hp
    obtain ⟨_, _, h⟩ := List.mem_map.mp hp'
    have := congrArg Vector2.y h
    simp only [Nat.cast_inj] at this
    exact hne this.symm

/-- C15: let the dungeon have one tile per cell (an empty grid is a special case), let the
random source return values inside the requested inclusive range, and let every side still
hold a cell whenever one of its doors is placed (`doorsSupplied`).  With `L` the requested
amount, or 3 when it is 0, `Dungeon::GenerateDoors` returns, and there is a list `doors` of
`L` cells such that the links afterwards are the former links followed by one unresolved link
per door (partner dungeon -1, partner link -1, the door's cell as entrance, exit (-1,-1)), in
the order of `doors`; the collection is the former one followed by one factory "Door" per cell
of `doors`, positioned at that cell, in the same order; and the cells of `doors` are pairwise
distinct cells of the grid that `OnBorder` accepts and `InCorner` rejects for the corner
sensitivity. -/
theorem GenerateDoors_links_and_doors (c : Collaborators) (b : Build)
    (amount sensitivity : Int) (hs : b.dungeon.Sized) (hr : c.InRange)
    (hsens : doorSensitivity b.dungeon.size = some sensitivity)
    (hsup : doorsSupplied (fun k => (doorSides c b.dungeon.size sensitivity k).length)
      (doorSpacing (c.RandomNumberGenerator b.calls 0 3) (if amount ≠ 0 then amount else 3)) =
        true) :
    ∃ (b' : Build) (doors : List Vector2), b.GenerateDoors c amount = some b' ∧
      doors.length = (if amount ≠ 0 then amount else 3).toNat ∧
      b'.dungeon.links = b.dungeon.links ++ doors.map Link.unresolved ∧
      b'.dungeon.entities = b.dungeon.entities ++
        (numbered b.dungeon.fresh (doors.map fun p => (p, c.Get "Door"))).map stored ∧
      doors.Nodup ∧
      ∀ p ∈ doors, InBounds p b.dungeon.size ∧ c.OnBorder p b.dungeon.size = true ∧
        c.InCorner p b.dungeon.size sensitivity = false := by
  obtain ⟨b', sides', doors, hfold, hlen, hfrom, hnodup, _, _, hlinks, htrace⟩ :=
    Build.placeDoors_spec c hr b.dungeon.size _ { b with calls := b.calls + 1 }
      (doorSides c b.dungeon.size sensitivity) hs rfl
      (fun k p hp => (mem_doorSides.mp hp).1)
      (fun k => by
        rw [doorSides_eq]
        exact (gridCells_nodup _).filter _)
      (fun k k' p hp hp' => by
        rw [← (mem_doorSides.mp hp).2.2.2, ← (mem_doorSides.mp hp').2.2.2])
      hsup
  refine ⟨b', doors, ?_, ?_, hlinks, htrace.entities, hnodup, ?_⟩
  · unfold Build.GenerateDoors
    dsimp only
    rw [hsens]
    dsimp only
    rw [hfold]
    rfl
  · rw [hlen]
    simp [doorSpacing]
  · intro p hp
    obtain ⟨k, hk⟩ := hfrom p hp
    obtain ⟨h1, h2, h3, _⟩ := mem_doorSides.mp hk
    exact ⟨h1, h2, h3⟩

/-- Witness for C15: on the blank 7 × 6 dungeon with the default amount, three doors and three
unresolved links are made. -/
theorem GenerateDoors_links_and_doors_witness :
    ∃ (b' : Build) (doors : List Vector2),
      sampleBlank.GenerateDoors sampleCollaborators 0 = some b' ∧ doors.length = 3 ∧
      b'.dungeon.links = doors.map Link.unresolved ∧
      b'.dungeon.entities =
        (numbered 0 (doors.map fun p => (p, sampleDoor ⟨0, 0⟩))).map stored ∧
      doors.Nodup := by
  obtain ⟨b', doors, h, hlen, hlinks, hentities, hnodup, _⟩ :=
    GenerateDoors_links_and_doors sampleCollaborators sampleBlank 0 1 (by decide)
      sampleCollaborators_inRange (by decide) (by decide)
  exact ⟨b', doors, h, hlen, hlinks, hentities, hnodup⟩

/-- Counterexample to C15 as stated: the blank 3 × 3 grid has no entities and no links, its
corner sensitivity is 0, and each of its four sides holds one eligible cell, so no side bucket
is empty; with five doors requested, the fifth door falls on the side of the first one, whose
only cell has been erased, and `Dungeon::GenerateDoors` indexes an empty vector: it is
undefined.  With four doors, one per side, it returns four links. -/
theorem GenerateDoors_links_and_doors_counterexample :
    sampleTiny.dungeon.entities = [] ∧ sampleTiny.dungeon.links = [] ∧
    sampleTiny.dungeon.Sized ∧ doorSensitivity sampleTiny.dungeon.size = some 0 ∧
    (∀ k ∈ [(-1 : Int), 0, 1, 2],
      (doorSides sampleCollaborators sampleTiny.dungeon.size 0 k).length = 1) ∧
    doorSpacing (sampleCollaborators.RandomNumberGenerator sampleTiny.calls 0 3) 5 =
      [1, 2, -1, 0, 1] ∧
    sampleTiny.GenerateDoors sampleCollaborators 5 = none ∧
    (sampleTiny.GenerateDoors sampleCollaborators 4).map (fun b => b.dungeon.links.length) =
      some 4 := by
  decide
/-! ## Claim C14: the quota of child walls -/

/-- C14, evaluated: the constructor builds a 4 × 4 dungeon with its 12 outer walls; with the
child walls switched on and a quota of 1, `Dungeon::GenerateWallsChildren` terminates on that
dungeon and leaves 16 entities, all of them walls: it has added 4 walls, not 1. -/
theorem GenerateWallsChildren_exceeds_quota :
    (Build.construct sampleCollaborators 50 (samplePlayer ⟨0, 0⟩) sampleRingConfiguration).map
      (fun b => b.dungeon.entities.length) = some 12 ∧
    ((Build.construct sampleCollaborators 50 (samplePlayer ⟨0, 0⟩)
      sampleRingConfiguration).bind fun b => b.GenerateWallsChildren sampleCollaborators 50 1).map
      (fun b => b.dungeon.entities.length) = some 16 ∧
    (Build.construct sampleCollaborators 50 (samplePlayer ⟨0, 0⟩) sampleQuotaConfiguration).map
      (fun b => b.dungeon.entities.length) = some 16 ∧
    (Build.construct sampleCollaborators 50 (samplePlayer ⟨0, 0⟩) sampleQuotaConfiguration).map
      (fun b => b.dungeon.entities.all fun en => decide (en.2.name = "Wall")) = some true :=
  ⟨by decide, by decide, by decide, by decide⟩

/-- Whenever `Dungeon::GenerateWallsChildren` terminates it has added at least as many walls
as the quota asks for, each by an insertion into an unoccupied cell of the grid. -/
theorem GenerateWallsChildren_meets_quota (c : Collaborators) (fuel : Nat) (amount : Int)
    (b b' : Build) (h : b.GenerateWallsChildren c fuel amount = some b') :
    ∃ log, Dungeon.Inserted c.Placed b.dungeon log b'.dungeon ∧
      (if amount ≠ 0 then amount else (b.dungeon.size.x * b.dungeon.size.y).tdiv 4) ≤
        log.length ∧
      b'.dungeon.entities.length = b.dungeon.entities.length + log.length := by
  obtain ⟨log, hins, hle⟩ := Build.wallsChildren_inserted c fuel fuel b _ h
  exact ⟨log, hins, hle, hins.frame.2.2.2.2.2⟩
/-! ## Claim C21: BuildVision and the vision set stored before -/

theorem Dungeon.SameGround.tileLacking {s1 s2 : Dungeon} (h : s1.SameGround s2) (p : Vector2)
    (m : Nat) : s1.TileLacking p m = s2.TileLacking p m := by
  obtain ⟨hsize, htiles, hent, hattr⟩ := h
  unfold Dungeon.TileLacking Dungeon.GetTile
  rw [hsize, htiles]
  cases tileAt s2.tiles (tileIndex s2.size p) with
  | none => rfl
  | some t =>
    dsimp only
    apply Dungeon.lacking_congr
    intro r _
    cases r with
    | player =>
      show some s1.player.base.attributes = some s2.player.base.attributes
      rw [hattr]
    | entity id =>
      show (s1.entities.lookup id).map Entity.attributes = (s2.entities.lookup id).map _
      rw [hent]

theorem Dungeon.SameGround.visionInsert {s1 s2 : Dungeon} (h : s1.SameGround s2)
    (hv : s1.vision = s2.vision) (p : Vector2) :
    (s1.visionInsert p).SameGround (s2.visionInsert p) ∧
      (s1.visionInsert p).vision = (s2.visionInsert p).vision := by
  unfold Dungeon.visionInsert
  rw [hv]
  split
  · exact ⟨h, hv⟩
  · exact ⟨h, rfl⟩

theorem Dungeon.SameOutcome.of_same {s1 s2 : Dungeon} (h : s1.SameGround s2)
    (hv : s1.vision = s2.vision) : Dungeon.SameOutcome (some s1) (some s2) := ⟨h, hv⟩

theorem Dungeon.LineOfSight_same :
    ∀ (path : List Vector2) {s1 s2 : Dungeon}, s1.SameGround s2 → s1.vision = s2.vision →
      Dungeon.SameOutcome (s1.LineOfSight path) (s2.LineOfSight path)
  | [], _, _, h, hv => ⟨h, hv⟩
  | current :: rest, s1, s2, h, hv => by
    unfold Dungeon.LineOfSight
    by_cases hb : InBounds current s1.size
    · have hb' : InBounds current s2.size := by rw [← h.1]; exact hb
      rw [if_pos hb, if_pos hb']
      obtain ⟨hg, hvi⟩ := h.visionInsert hv current
      rw [hg.tileLacking]
      cases (s2.visionInsert current).TileLacking current Attributes.Obstacle with
      | none => trivial
      | some free =>
        cases free
        · exact ⟨hg, hvi⟩
        · exact Dungeon.LineOfSight_same rest hg hvi
    · have hb' : ¬ InBounds current s2.size := by rw [← h.1]; exact hb
      rw [if_neg hb, if_neg hb']
      exact ⟨h, hv⟩

theorem Dungeon.probe_same (direction : Vector2) (polar : Int) :
    ∀ (straight : List Vector2) {s1 s2 : Dungeon}, s1.SameGround s2 → s1.vision = s2.vision →
      Dungeon.SameOutcome (s1.probe direction polar straight)
        (s2.probe direction polar straight)
  | [], _, _, h, hv => ⟨h, hv⟩
  | current :: rest, s1, s2, h, hv => by
    have hcont : ∀ {t1 t2 : Dungeon}, t1.SameGround t2 → t1.vision = t2.vision →
        Dungeon.SameOutcome
          (if InBounds current t1.size then
            match t1.TileLacking current Attributes.Obstacle with
            | none => none
            | some true => t1.probe direction polar rest
            | some false => some t1
           else t1.probe direction polar rest)
          (if InBounds current t2.size then
            match t2.TileLacking current Attributes.Obstacle with
            | none => none
            | some true => t2.probe direction polar rest
            | some false => some t2
           else t2.probe direction polar rest) := by
      intro t1 t2 hg hvi
      rw [hg.1, hg.tileLacking]
      split
      · cases t2.TileLacking current Attributes.Obstacle with
        | none => trivial
        | some free =>
          cases free
          · exact ⟨hg, hvi⟩
          · exact Dungeon.probe_same direction polar rest hg hvi
      · exact Dungeon.probe_same direction polar rest hg hvi
    unfold Dungeon.probe
    dsimp only
    rw [h.1, h.tileLacking]
    by_cases ha : InBounds (current + (⟨direction.y, direction.x⟩ : Vector2).scale polar) s2.size
    · simp only [ha, ↓reduceIte]
      generalize s2.TileLacking (current + (⟨direction.y, direction.x⟩ : Vector2).scale polar)
          Attributes.Obstacle = res
      cases res with
      | none => trivial
      | some free =>
        cases free
        · obtain ⟨hg, hvi⟩ := h.visionInsert hv
            (current + (⟨direction.y, direction.x⟩ : Vector2).scale polar)
          exact hcont hg hvi
        · exact hcont h hv
    · simp only [ha, ↓reduceIte]
      exact hcont h hv

theorem Dungeon.SameOutcome.bind {a b : Option Dungeon} (h : Dungeon.SameOutcome a b)
    (f : Dungeon → Option Dungeon)
    (hf : ∀ {s1 s2 : Dungeon}, s1.SameGround s2 → s1.vision = s2.vision →
      Dungeon.SameOutcome (f s1) (f s2)) :
    Dungeon.SameOutcome (a.bind f) (b.bind f) := by
  cases a with
  | none =>
    cases b with
    | none => trivial
    | some _ => exact h.elim
  | some s1 =>
    cases b with
    | none => exact h.elim
    | some s2 => exact hf h.1 h.2

theorem Dungeon.foldlM_same {α : Type} (step : Dungeon → α → Option Dungeon)
    (hstep : ∀ (x : α) {s1 s2 : Dungeon}, s1.SameGround s2 → s1.vision = s2.vision →
      Dungeon.SameOutcome (step s1 x) (step s2 x)) :
    ∀ (l : List α) {s1 s2 : Dungeon}, s1.SameGround s2 → s1.vision = s2.vision →
      Dungeon.SameOutcome (l.foldlM step s1) (l.foldlM step s2)
  | [], _, _, h, hv => ⟨h, hv⟩
  | x :: l, s1, s2, h, hv => by
    rw [List.foldlM_cons, List.foldlM_cons]
    exact (hstep x h hv).bind _ (fun hg hvi => Dungeon.foldlM_same step hstep l hg hvi)

theorem Dungeon.probeBoth_same (fn : Functions) (position : Vector2) (visionReach : Int)
    (neighbour : Vector2 × Vector2 × Vector2) {s1 s2 : Dungeon} (h : s1.SameGround s2)
    (hv : s1.vision = s2.vision) :
    Dungeon.SameOutcome (Dungeon.probeBoth fn position visionReach s1 neighbour)
      (Dungeon.probeBoth fn position visionReach s2 neighbour) := by
  have h1 := Dungeon.probe_same neighbour.1 1
    (fn.BresenhamLine position (position + neighbour.1.scale visionReach)) h hv
  have h2 := h1.bind
    (fun s => s.probe neighbour.1 (-1)
      (fn.BresenhamLine position (position + neighbour.1.scale visionReach)))
    (fun hg hvi => Dungeon.probe_same neighbour.1 (-1) _ hg hvi)
  unfold Dungeon.probeBoth
  dsimp only
  cases hp1 : s1.probe neighbour.1 1
      (fn.BresenhamLine position (position + neighbour.1.scale visionReach)) <;>
    cases hp2 : s2.probe neighbour.1 1
      (fn.BresenhamLine position (position + neighbour.1.scale visionReach)) <;>
    rw [hp1, hp2] at h2 <;> exact h2

theorem Dungeon.deadspot_same (fn : Functions) (position visible : Vector2)
    (neighbour : Vector2 × Vector2 × Vector2) {s1 s2 : Dungeon} (h : s1.SameGround s2)
    (hv : s1.vision = s2.vision) :
    Dungeon.SameOutcome (Dungeon.deadspot fn position visible s1 neighbour)
      (Dungeon.deadspot fn position visible s2 neighbour) := by
  have hvis : ∀ p, s1.Visible p = s2.Visible p := by
    intro p
    unfold Dungeon.Visible
    rw [hv]
  unfold Dungeon.deadspot
  dsimp only
  rw [h.1, hvis, hvis, hvis]
  split
  · split
    · exact Dungeon.LineOfSight_same _ h hv
    · exact ⟨h, hv⟩
  · exact ⟨h, hv⟩

theorem Dungeon.listing_same (fn : Functions) {stored1 stored2 : List Vector2}
    (hrank : ∀ contents p, fn.rank stored1 contents p = fn.rank stored2 contents p)
    {s1 s2 : Dungeon} (hv : s1.vision = s2.vision) :
    s1.listing fn stored1 = s2.listing fn stored2 := by
  unfold Dungeon.listing
  simp only [hrank, hv]

theorem Dungeon.deadspots_same (fn : Functions) {stored1 stored2 : List Vector2}
    (hrank : ∀ contents p, fn.rank stored1 contents p = fn.rank stored2 contents p)
    (position : Vector2) :
    ∀ (fuel : Nat) (visible : Option Vector2) {s1 s2 : Dungeon}, s1.SameGround s2 →
      s1.vision = s2.vision →
      Dungeon.SameOutcome (Dungeon.deadspots fn stored1 position fuel s1 visible)
        (Dungeon.deadspots fn stored2 position fuel s2 visible)
  | fuel, none, s1, s2, h, hv => by
    rw [Dungeon.deadspots_end, Dungeon.deadspots_end]
    exact ⟨h, hv⟩
  | 0, some visible, _, _, _, _ => trivial
  | fuel + 1, some visible, s1, s2, h, hv => by
    rw [Dungeon.deadspots_eq_bind, Dungeon.deadspots_eq_bind]
    have hbody := Dungeon.foldlM_same (Dungeon.deadspot fn position visible)
      (fun neighbour _ _ hg hvi => Dungeon.deadspot_same fn position visible neighbour hg hvi)
      neighbours h hv
    cases hb1 : neighbours.foldlM (Dungeon.deadspot fn position visible) s1 <;>
      cases hb2 : neighbours.foldlM (Dungeon.deadspot fn position visible) s2 <;>
      rw [hb1, hb2] at hbody
    · trivial
    · exact hbody.elim
    · exact hbody.elim
    · next t1 t2 =>
      show Dungeon.SameOutcome
        (Dungeon.deadspots fn stored1 position fuel t1
          (following (t1.listing fn stored1) visible))
        (Dungeon.deadspots fn stored2 position fuel t2
          (following (t2.listing fn stored2) visible))
      rw [Dungeon.listing_same fn hrank hbody.2]
      exact Dungeon.deadspots_same fn hrank position fuel _ hbody.1 hbody.2

theorem Dungeon.BuildVision_same (fn : Functions) (position : Vector2) (visionReach : Int)
    {d1 d2 : Dungeon} (h : d1.SameGround d2)
    (hrank : ∀ contents p, fn.rank d1.vision contents p = fn.rank d2.vision contents p) :
    Dungeon.SameOutcome (d1.BuildVision fn position visionReach)
      (d2.BuildVision fn position visionReach) := by
  have h0 : Dungeon.SameGround { d1 with vision := [] } { d2 with vision := [] } := h
  have hrays := Dungeon.foldlM_same
    (fun s endpoint => s.LineOfSight (fn.BresenhamLine position endpoint))
    (fun endpoint _ _ hg hvi => Dungeon.LineOfSight_same _ hg hvi)
    (fn.BresenhamCircle position visionReach) h0 rfl
  have hrest : ∀ {s1 s2 : Dungeon}, s1.SameGround s2 → s1.vision = s2.vision →
      Dungeon.SameOutcome
        ((neighbours.foldlM (Dungeon.probeBoth fn position visionReach) s1).bind fun t =>
          Dungeon.deadspots fn d1.vision position
            (((gridCells d1.size).length + 1) * ((gridCells d1.size).length + 1)) t
            (t.listing fn d1.vision).head?)
        ((neighbours.foldlM (Dungeon.probeBoth fn position visionReach) s2).bind fun t =>
          Dungeon.deadspots fn d2.vision position
            (((gridCells d2.size).length + 1) * ((gridCells d2.size).length + 1)) t
            (t.listing fn d2.vision).head?) := by
    intro s1 s2 hg hvi
    have hprobe := Dungeon.foldlM_same (Dungeon.probeBoth fn position visionReach)
      (fun neighbour _ _ hg' hv' => Dungeon.probeBoth_same fn position visionReach neighbour
        hg' hv') neighbours hg hvi
    cases hp1 : neighbours.foldlM (Dungeon.probeBoth fn position visionReach) s1 <;>
      cases hp2 : neighbours.foldlM (Dungeon.probeBoth fn position visionReach) s2 <;>
      rw [hp1, hp2] at hprobe
    · trivial
    · exact hprobe.elim
    · exact hprobe.elim
    · next t1 t2 =>
      show Dungeon.SameOutcome
        (Dungeon.deadspots fn d1.vision position
          (((gridCells d1.size).length + 1) * ((gridCells d1.size).length + 1)) t1
          (t1.listing fn d1.vision).head?)
        (Dungeon.deadspots fn d2.vision position
          (((gridCells d2.size).length + 1) * ((gridCells d2.size).length + 1)) t2
          (t2.listing fn d2.vision).head?)
      rw [Dungeon.listing_same fn hrank hprobe.2, h.1]
      exact Dungeon.deadspots_same fn hrank position _ _ hprobe.1 hprobe.2
  have hall : Dungeon.SameOutcome
      (((fn.BresenhamCircle position visionReach).foldlM
        (fun (s : Dungeon) endpoint => s.LineOfSight (fn.BresenhamLine position endpoint))
        { d1 with vision := [] }).bind fun s =>
        (neighbours.foldlM (Dungeon.probeBoth fn position visionReach) s).bind fun t =>
          Dungeon.deadspots fn d1.vision position
            (((gridCells d1.size).length + 1) * ((gridCells d1.size).length + 1)) t
            (t.listing fn d1.vision).head?)
      (((fn.BresenhamCircle position visionReach).foldlM
        (fun (s : Dungeon) endpoint => s.LineOfSight (fn.BresenhamLine position endpoint))
        { d2 with vision := [] }).bind fun s =>
        (neighbours.foldlM (Dungeon.probeBoth fn position visionReach) s).bind fun t =>
          Dungeon.deadspots fn d2.vision position
            (((gridCells d2.size).length + 1) * ((gridCells d2.size).length + 1)) t
            (t.listing fn d2.vision).head?) := by
    revert hrays
    cases (fn.BresenhamCircle position visionReach).foldlM
        (fun (s : Dungeon) endpoint => s.LineOfSight (fn.BresenhamLine position endpoint))
        { d1 with vision := [] } <;>
      cases (fn.BresenhamCircle position visionReach).foldlM
        (fun (s : Dungeon) endpoint => s.LineOfSight (fn.BresenhamLine position endpoint))
        { d2 with vision := [] } <;> intro hrays
    · trivial
    · exact hrays.elim
    · exact hrays.elim
    · exact hrest hrays.1 hrays.2
  rw [Dungeon.BuildVision_eq_bind, Dungeon.BuildVision_eq_bind]
  exact hall

/-- What holds of `Dungeon::BuildVision` and the set stored before: for two dungeon states
that agree on the size, the tiles, the entities and the attributes of the player object, and
for which the set lists its elements alike (`rank` does not tell the two stored sets apart),
the outcome is the same: undefined for both, or the same vision set. -/
theorem BuildVision_same_listing (fn : Functions) (d1 d2 : Dungeon)
    (position : Vector2) (visionReach : Int) (hsize : d1.size = d2.size)
    (htiles : d1.tiles = d2.tiles) (hentities : d1.entities = d2.entities)
    (hplayer : d1.player.base.attributes = d2.player.base.attributes)
    (hrank : ∀ contents p, fn.rank d1.vision contents p = fn.rank d2.vision contents p) :
    (d1.BuildVision fn position visionReach).map (fun s => s.vision) =
      (d2.BuildVision fn position visionReach).map (fun s => s.vision) := by
  have h := Dungeon.BuildVision_same fn position visionReach
    (show d1.SameGround d2 from ⟨hsize, htiles, hentities, hplayer⟩) hrank
  revert h
  cases d1.BuildVision fn position visionReach with
  | none =>
    cases d2.BuildVision fn position visionReach with
    | none => exact fun _ => rfl
    | some _ => exact fun h => h.elim
  | some s1 =>
    cases d2.BuildVision fn position visionReach with
    | none => exact fun h => h.elim
    | some s2 => exact fun h => congrArg some h.2

theorem doorSpacing_getElem? {start : Int} (hstart : 0 ≤ start) (limit : Int) (i : Nat)
    (hi : (i : Int) < limit) :
    (doorSpacing start limit)[i]? = some ((start + (i : Int)) % 4 - 1) := by
  unfold doorSpacing
  rw [List.getElem?_map, List.getElem?_range (by omega)]
  simp only [Option.map_some']
  rw [Int.tmod_eq_emod (by omega) (by omega)]

theorem doorSpacing_small {start : Int} (h0 : 0 ≤ start) (h3 : start ≤ 3) {limit : Int}
    (h4 : limit ≤ 4) :
    (doorSpacing start limit).Nodup ∧
      (limit = 4 → ∀ k : Int, -1 ≤ k → k ≤ 2 → (doorSpacing start limit).count k = 1) := by
  have hs : start = 0 ∨ start = 1 ∨ start = 2 ∨ start = 3 := by omega
  have hn : limit.toNat = 0 ∨ limit.toNat = 1 ∨ limit.toNat = 2 ∨ limit.toNat = 3 ∨
      limit.toNat = 4 := by omega
  have hcount : limit = 4 → ∀ k : Int, -1 ≤ k → k ≤ 2 →
      (doorSpacing start limit).count k = 1 := by
    intro hl k hk1 hk2
    subst hl
    have hk : k = -1 ∨ k = 0 ∨ k = 1 ∨ k = 2 := by omega
    rcases hs with rfl | rfl | rfl | rfl <;> rcases hk with rfl | rfl | rfl | rfl <;> decide
  refine ⟨?_, hcount⟩
  unfold doorSpacing
  rcases hs with rfl | rfl | rfl | rfl <;> rcases hn with h | h | h | h | h <;> rw [h] <;> decide

theorem Build.placeDoors_sides (c : Collaborators) (P : Int → Vector2 → Prop) :
    ∀ (spacing : List Int) (b : Build) (sides : Int → List Vector2) {b' : Build}
      {sides' : Int → List Vector2},
      (∀ k, ∀ p ∈ sides k, P k p) →
      spacing.foldlM (Build.placeDoor c) (b, sides) = some (b', sides') →
      ∃ doors : List Vector2, List.Forall₂ (fun p v => P v p) doors spacing ∧
        b'.dungeon.links = b.dungeon.links ++ doors.map Link.unresolved ∧
        Dungeon.Inserted (fun _ _ e => e = c.Get "Door") b.dungeon
          (doors.map fun p => (p, c.Get "Door")) b'.dungeon
  | [], b, sides, b', sides', _, h => by
    cases h
    exact ⟨[], .nil, by simp, .refl _⟩
  | value :: spacing, b, sides, b', sides', hP, h => by
    rw [List.foldlM_cons] at h
    cases h1 : Build.placeDoor c (b, sides) value with
    | none => simp [h1] at h
    | some st =>
      obtain ⟨b1, sides1⟩ := st
      rw [h1] at h
      obtain ⟨cell, d1, hcell, hins, rfl, rfl⟩ := Build.placeDoor_eq_some h1
      have hstep : Dungeon.Inserted (fun _ _ e => e = c.Get "Door") b.dungeon
          ([] ++ [(cell, c.Get "Door")])
          { d1 with links := d1.links ++ [⟨-1, -1, cell, ⟨-1, -1⟩⟩] } :=
        .linked _ (.step (.refl _) rfl hins)
      have hlinks1 : d1.links = b.dungeon.links := by
        obtain ⟨t, c', _, rfl⟩ := Dungeon.EntityInsert_shape hins
        rfl
      obtain ⟨doors, hforall, hlinks, htrace⟩ := Build.placeDoors_sides c P spacing _ _
        (by
          intro k p hp
          split at hp
          · next hk =>
            subst hk
            exact hP k p ((List.eraseIdx_sublist _ _).subset hp)
          · exact hP k p hp) h
      refine ⟨cell :: doors, .cons (hP value cell (vectorAt_mem hcell)) hforall, ?_, ?_⟩
      · rw [hlinks]
        show (d1.links ++ [⟨-1, -1, cell, ⟨-1, -1⟩⟩]) ++ doors.map Link.unresolved = _
        rw [hlinks1, List.append_assoc]
        rfl
      · have := hstep.append htrace
        simpa using this

theorem Build.GenerateDoors_shape (c : Collaborators) (amount : Int) {b b' : Build}
    (h : b.GenerateDoors c amount = some b') :
    ∃ (sensitivity : Int) (doors : List Vector2),
      doorSensitivity b.dungeon.size = some sensitivity ∧
      List.Forall₂ (fun p v => p ∈ doorSides c b.dungeon.size sensitivity v) doors
        (doorSpacing (c.RandomNumberGenerator b.calls 0 3) (if amount ≠ 0 then amount else 3)) ∧
      b'.dungeon.links = b.dungeon.links ++ doors.map Link.unresolved ∧
      Dungeon.Inserted (fun _ _ e => e = c.Get "Door") b.dungeon
        (doors.map fun p => (p, c.Get "Door")) b'.dungeon := by
  unfold Build.GenerateDoors at h
  dsimp only at h
  cases hs : doorSensitivity b.dungeon.size with
  | none => simp [hs] at h
  | some sensitivity =>
    rw [hs] at h
    dsimp only at h
    obtain ⟨st, hfold, rfl⟩ := Option.map_eq_some'.mp h
    obtain ⟨b1, sides1⟩ := st
    obtain ⟨doors, hforall, hlinks, htrace⟩ := Build.placeDoors_sides c
      (fun v p => p ∈ doorSides c b.dungeon.size sensitivity v) _
      { b with calls := b.calls + 1 } _ (fun _ _ hp => hp) hfold
    exact ⟨sensitivity, doors, rfl, hforall, hlinks, htrace⟩

/-- C22: for a start side `start` in 0..3 and every limit `L`, the element `i` of the vector
`spacing` of `Dungeon::GenerateDoors` (`0 ≤ i < L`) is `((start + i) mod 4) - 1`, one of the
codes -1, 0, 1, 2 of an enumerator; each code follows its predecessor cyclically; for `L ≤ 4`
the codes are pairwise distinct, and for `L = 4` each of the four codes occurs exactly once.
Whenever `GenerateDoors` returns, the cells of the doors it has inserted, in order, are cells
that `Quadrant` classifies with the codes of `spacing`, in order. -/
theorem GenerateDoors_side_codes (c : Collaborators) (start limit : Int) (h0 : 0 ≤ start)
    (h3 : start ≤ 3) :
    (doorSpacing start limit).length = limit.toNat ∧
    (∀ i : Nat, (i : Int) < limit →
      (doorSpacing start limit)[i]? = some ((start + (i : Int)) % 4 - 1) ∧
      -1 ≤ (start + (i : Int)) % 4 - 1 ∧ (start + (i : Int)) % 4 - 1 ≤ 2 ∧
      (Orientation.ofInt ((start + (i : Int)) % 4 - 1)).isSome = true ∧
      ((start + ((i + 1 : Nat) : Int)) % 4 - 1 + 1 =
        ((start + (i : Int)) % 4 - 1 + 1 + 1) % 4)) ∧
    (limit ≤ 4 → (doorSpacing start limit).Nodup) ∧
    (limit = 4 → ∀ k : Int, -1 ≤ k → k ≤ 2 → (doorSpacing start limit).count k = 1) ∧
    (∀ (b b' : Build) (amount : Int), c.RandomNumberGenerator b.calls 0 3 = start →
      (if amount ≠ 0 then amount else 3) = limit → b.GenerateDoors c amount = some b' →
      ∃ doors : List Vector2,
        List.Forall₂ (fun p v => InBounds p b.dungeon.size ∧
          (c.Quadrant p b.dungeon.size).toInt = v) doors (doorSpacing start limit) ∧
        b'.dungeon.entities = b.dungeon.entities ++
          (numbered b.dungeon.fresh (doors.map fun p => (p, c.Get "Door"))).map stored) := by
  refine ⟨by simp [doorSpacing], ?_, ?_, ?_, ?_⟩
  · intro i hi
    refine ⟨doorSpacing_getElem? h0 limit i hi, by omega, by omega, ?_, by omega⟩
    have hv : (start + (i : Int)) % 4 - 1 = -1 ∨ (start + (i : Int)) % 4 - 1 = 0 ∨
        (start + (i : Int)) % 4 - 1 = 1 ∨ (start + (i : Int)) % 4 - 1 = 2 := by omega
    rcases hv with h | h | h | h <;> rw [h] <;> rfl
  · intro h4
    exact (doorSpacing_small h0 h3 h4).1
  · intro h4
    exact (doorSpacing_small h0 h3 (by omega)).2 h4
  · intro b b' amount hstart hlimit hrun
    obtain ⟨sensitivity, doors, _, hforall, _, htrace⟩ := Build.GenerateDoors_shape c amount hrun
    rw [hstart, hlimit] at hforall
    refine ⟨doors, ?_, htrace.entities⟩
    exact hforall.imp (fun _ _ hp => ⟨(mem_doorSides.mp hp).1, (mem_doorSides.mp hp).2.2.2⟩)

/-- Witness for C22: start side 2 and three doors give the codes 1, 2, -1 (east, south, west),
and on the blank 7 × 6 sample, whose draw for the start side is 2, the doors are made on these
sides. -/
theorem GenerateDoors_side_codes_witness :
    doorSpacing 2 3 = [1, 2, -1] ∧ (doorSpacing 2 3).Nodup ∧
    ∃ (b' : Build) (doors : List Vector2),
      sampleBlank.GenerateDoors sampleCollaborators 0 = some b' ∧
      List.Forall₂ (fun p v => InBounds p sampleBlank.dungeon.size ∧
        (sampleCollaborators.Quadrant p sampleBlank.dungeon.size).toInt = v) doors
        (doorSpacing 2 3) := by
  obtain ⟨_, _, hnodup, _, hdoors⟩ :=
    GenerateDoors_side_codes sampleCollaborators 2 3 (by decide) (by decide)
  obtain ⟨b', hrun⟩ := Option.isSome_iff_exists.mp
    (by decide : (sampleBlank.GenerateDoors sampleCollaborators 0).isSome = true)
  obtain ⟨doors, hforall, _⟩ := hdoors sampleBlank b' 0 (by decide) (by decide) hrun
  exact ⟨by decide, hnodup (by decide), b', doors, hrun, hforall⟩
/-! ## Claim C23: segments without a route -/

theorem Dungeon.pathStep_total (c : Collaborators) {d : Dungeon} (hs : d.Sized) {p : Vector2}
    (hp : InBounds p d.size) : ∃ d1, d.pathStep c p = some d1 ∧ d1.Sized ∧ d1.size = d.size := by
  obtain ⟨t, ht⟩ := Dungeon.GetTile_of_inBounds hs hp
  unfold Dungeon.pathStep Dungeon.Unoccupied
  rw [ht]
  cases hocc : t.occupants.isEmpty with
  | false => exact ⟨d, by simp [hocc], hs, rfl⟩
  | true =>
    obtain ⟨d1, h1, hs1⟩ := Dungeon.EntityInsert_sized hs hp (c.Get "Path")
    refine ⟨d1, by simp [hocc, h1], hs1, ?_⟩
    obtain ⟨t1, e1, _, rfl⟩ := Dungeon.EntityInsert_shape h1
    rfl

theorem Dungeon.PathAdd_total (c : Collaborators) :
    ∀ (path : List Vector2) {d : Dungeon}, d.Sized → (∀ p ∈ path, InBounds p d.size) →
      ∃ d1, d.PathAdd c path = some d1 ∧ d1.Sized ∧ d1.size = d.size
  | [], d, hs, _ => ⟨d, rfl, hs, rfl⟩
  | p :: path, d, hs, hin => by
    obtain ⟨d1, h1, hs1, hsize1⟩ := Dungeon.pathStep_total c hs (hin p (List.mem_cons_self _ _))
    obtain ⟨d2, h2, hs2, hsize2⟩ := Dungeon.PathAdd_total c path hs1
      (fun q hq => by rw [hsize1]; exact hin q (List.mem_cons_of_mem _ hq))
    refine ⟨d2, ?_, hs2, by rw [hsize2, hsize1]⟩
    unfold Dungeon.PathAdd at h2 ⊢
    rw [List.foldlM_cons, h1]
    exact h2

/-- What `PathAdd` inserts: clones of the factory's "Path", each on a cell of the path that
was unoccupied at that moment. -/
theorem Dungeon.PathAdd_trace (c : Collaborators) (path : List Vector2) {d d1 : Dungeon}
    (h : d.PathAdd c path = some d1) :
    ∃ log, Dungeon.Inserted
      (fun s p e => e = c.Get "Path" ∧ s.Unoccupied p = some true ∧ p ∈ path) d log d1 := by
  unfold Dungeon.PathAdd at h
  refine Dungeon.Inserted.foldlM (Dungeon.pathStep c) d path ?_ d d1 rfl h
  intro s x s1 hx _ hstep
  unfold Dungeon.pathStep at hstep
  cases hu : s.Unoccupied x with
  | none => simp [hu] at hstep
  | some free =>
    rw [hu] at hstep
    cases free
    · cases hstep
      exact ⟨[], .refl s⟩
    · exact ⟨[] ++ [(x, c.Get "Path")], .step (.refl s) ⟨rfl, hu, hx⟩ hstep⟩

theorem Dungeon.EntityInsert_occupied {d d1 : Dungeon} {p : Vector2} {e : Entity}
    (h : d.EntityInsert p e = some d1) : d1.Unoccupied p = some false := by
  obtain ⟨t, c, ht, rfl⟩ := Dungeon.EntityInsert_shape h
  obtain ⟨h0, h1⟩ := tileAt_lt ht
  unfold Dungeon.Unoccupied Dungeon.GetTile
  show (tileAt (d.tiles.set (tileIndex d.size p).toNat ⟨c, t.occupants ++ [.entity d.fresh]⟩)
    (tileIndex d.size p)).map _ = _
  rw [tileAt_set_self h0 h1]
  simp

theorem Dungeon.PathAdd_occupied (c : Collaborators) :
    ∀ (path : List Vector2) {d d1 : Dungeon}, d.PathAdd c path = some d1 →
      (∀ p, d.Unoccupied p = some false → d1.Unoccupied p = some false) ∧
      ∀ p ∈ path, d1.Unoccupied p = some false
  | [], d, d1, h => by
    cases h
    exact ⟨fun _ hp => hp, fun _ hp => by cases hp⟩
  | q :: path, d, d1, h => by
    have hall := h
    unfold Dungeon.PathAdd at h
    rw [List.foldlM_cons] at h
    cases hq : d.pathStep c q with
    | none => simp [hq] at h
    | some d2 =>
      rw [hq] at h
      have hrest : d2.PathAdd c path = some d1 := h
      obtain ⟨hkeep2, hpath2⟩ := Dungeon.PathAdd_occupied c path hrest
      obtain ⟨log, htrace⟩ := Dungeon.PathAdd_trace c (q :: path) hall
      have hkeep : ∀ p, d.Unoccupied p = some false → d1.Unoccupied p = some false :=
        fun p hp => ((htrace.untouched (fun _ _ _ hQ => hQ.2.1)).occupied hp).1
      refine ⟨hkeep, ?_⟩
      intro p hp
      rcases List.mem_cons.mp hp with rfl | hp
      · apply hkeep2
        unfold Dungeon.pathStep at hq
        cases hu : d.Unoccupied p with
        | none => simp [hu] at hq
        | some free =>
          rw [hu] at hq
          cases free
          · cases hq
            exact hu
          · exact Dungeon.EntityInsert_occupied hq
      · exact hpath2 p hp

theorem Dungeon.PathAdd_flatten (c : Collaborators) :
    ∀ (segments : List (List Vector2)) (d : Dungeon),
      segments.foldlM (Dungeon.PathAdd c) d = d.PathAdd c segments.flatten
  | [], _ => rfl
  | segment :: segments, d => by
    rw [List.foldlM_cons, List.flatten_cons]
    unfold Dungeon.PathAdd
    rw [List.foldlM_append]
    cases hs : segment.foldlM (Dungeon.pathStep c) d with
    | none => rfl
    | some d1 =>
      have h := Dungeon.PathAdd_flatten c segments d1
      unfold Dungeon.PathAdd at h
      exact h

theorem Dungeon.PathAdd_skipping (c : Collaborators) :
    ∀ (segments : List (List Vector2)) (d : Dungeon),
      (segments.filter fun segment => !segment.isEmpty).foldlM (Dungeon.PathAdd c) d =
        segments.foldlM (Dungeon.PathAdd c) d
  | [], _ => rfl
  | [] :: segments, d => by
    rw [List.foldlM_cons]
    show (segments.filter fun segment => !segment.isEmpty).foldlM (Dungeon.PathAdd c) d = _
    exact Dungeon.PathAdd_skipping c segments d
  | (p :: segment) :: segments, d => by
    show ((p :: segment) :: segments.filter fun segment => !segment.isEmpty).foldlM
      (Dungeon.PathAdd c) d = _
    rw [List.foldlM_cons, List.foldlM_cons]
    cases d.PathAdd c (p :: segment) with
    | none => rfl
    | some d1 => exact Dungeon.PathAdd_skipping c segments d1

theorem Dungeon.PathAdd_size (c : Collaborators) {path : List Vector2} {d d1 : Dungeon}
    (h : d.PathAdd c path = some d1) : d1.size = d.size := by
  obtain ⟨log, htrace⟩ := Dungeon.PathAdd_trace c path h
  exact htrace.frame.1

theorem Dungeon.layPaths_segments (c : Collaborators) (size center : Vector2)
    (obstacles : List Vector2) :
    ∀ (redirection : List (Vector2 × Vector2)) (d : Dungeon), d.size = size →
      redirection.foldlM (Dungeon.layPaths c center obstacles) d =
        (c.segments size center obstacles redirection).foldlM (Dungeon.PathAdd c) d
  | [], _, _ => rfl
  | pair :: rest, d, hsize => by
    show _ = ([c.AStarAlgorithm pair.1 pair.2 size obstacles,
      c.AStarAlgorithm pair.2 center size obstacles] ++
        c.segments size center obstacles rest).foldlM (Dungeon.PathAdd c) d
    rw [List.foldlM_cons, List.cons_append, List.foldlM_cons]
    unfold Dungeon.layPaths
    rw [hsize]
    cases h1 : d.PathAdd c (c.AStarAlgorithm pair.1 pair.2 size obstacles) with
    | none => rfl
    | some d1 =>
      have hsize1 : d1.size = size := (Dungeon.PathAdd_size c h1).trans hsize
      show (d1.PathAdd c (c.AStarAlgorithm pair.2 center d1.size obstacles)).bind _ =
        ((c.AStarAlgorithm pair.2 center size obstacles ::
          ([] ++ c.segments size center obstacles rest)).foldlM (Dungeon.PathAdd c) d1)
      rw [hsize1, List.nil_append, List.foldlM_cons]
      cases h2 : d1.PathAdd c (c.AStarAlgorithm pair.2 center size obstacles) with
      | none => rfl
      | some d2 =>
        exact Dungeon.layPaths_segments c size center obstacles rest d2
          ((Dungeon.PathAdd_size c h2).trans hsize1)

theorem Build.GenerateHiddenPath_eq (c : Collaborators) (fuel : Nat) (b : Build) :
    b.GenerateHiddenPath c fuel =
      (Build.redirections c fuel b b.dungeon.links).bind fun r =>
        (b.dungeon.PathAdd c (c.segments b.dungeon.size (b.dungeon.size.divide 2)
          b.dungeon.pathObstacles r.1).flatten).map fun d => { r.2 with dungeon := d } := by
  unfold Build.GenerateHiddenPath
  dsimp only
  cases hr : Build.redirections c fuel b b.dungeon.links with
  | none => rfl
  | some r =>
    obtain ⟨redirection, b1⟩ := r
    have hd := Build.redirections_dungeon c fuel _ b hr
    show Option.map _ (List.foldlM (Dungeon.layPaths c _ _) b1.dungeon redirection) =
      Option.map _ (Dungeon.PathAdd c b.dungeon _)
    rw [hd, Dungeon.layPaths_segments c b.dungeon.size _ _ redirection b.dungeon rfl,
      Dungeon.PathAdd_flatten]

/-- C23: `Dungeon::GenerateHiddenPath` is the stage in the words of the specification,
`Build.hiddenPathSkipping`: the segments that the pathfinder returns empty are passed over,
and the other segments of the same link and of the later links are laid, in order.  Whenever
the stage returns, every cell of every segment is occupied afterwards, and the entities it has
added are clones of the factory's "Path", each on a cell of a segment that was unoccupied at
that moment, so that none belongs to an empty segment; when every segment is empty the dungeon
is unchanged.  On a dungeon whose tile vector has the size of the grid, with a pathfinder that
returns cells of the grid only, the stage returns whenever the loop that draws the cells has
ended, whatever routes are missing. -/
theorem GenerateHiddenPath_skips_empty_segments (c : Collaborators) (fuel : Nat) (b : Build) :
    b.GenerateHiddenPath c fuel = b.hiddenPathSkipping c fuel ∧
    (∀ (redirection : List (Vector2 × Vector2)) (b1 b' : Build),
      Build.redirections c fuel b b.dungeon.links = some (redirection, b1) →
      b.GenerateHiddenPath c fuel = some b' →
      (∀ segment ∈ c.segments b.dungeon.size (b.dungeon.size.divide 2)
          b.dungeon.pathObstacles redirection,
        ∀ p ∈ segment, b'.dungeon.Unoccupied p = some false) ∧
      (∃ log : List (Vector2 × Entity),
        b'.dungeon.entities = b.dungeon.entities ++ (numbered b.dungeon.fresh log).map stored ∧
        ∀ x ∈ log, x.2 = c.Get "Path" ∧
          ∃ segment ∈ c.segments b.dungeon.size (b.dungeon.size.divide 2)
            b.dungeon.pathObstacles redirection, x.1 ∈ segment) ∧
      ((∀ segment ∈ c.segments b.dungeon.size (b.dungeon.size.divide 2)
          b.dungeon.pathObstacles redirection, segment = []) →
        b'.dungeon = b.dungeon)) ∧
    (∀ r : List (Vector2 × Vector2) × Build, b.dungeon.Sized → c.PathsInside →
      Build.redirections c fuel b b.dungeon.links = some r →
      ∃ b', b.GenerateHiddenPath c fuel = some b' ∧ b'.calls = r.2.calls) := by
  refine ⟨?_, ?_, ?_⟩
  · rw [Build.GenerateHiddenPath_eq]
    unfold Build.hiddenPathSkipping
    cases hr : Build.redirections c fuel b b.dungeon.links with
    | none => rfl
    | some r =>
      obtain ⟨redirection, b1⟩ := r
      have hd := Build.redirections_dungeon c fuel _ b hr
      show Option.map _ (Dungeon.PathAdd c b.dungeon _) =
        Option.map _ (List.foldlM (Dungeon.PathAdd c) b1.dungeon _)
      rw [hd, Dungeon.PathAdd_skipping, Dungeon.PathAdd_flatten]
  · intro redirection b1 b' hr hrun
    rw [Build.GenerateHiddenPath_eq, hr] at hrun
    obtain ⟨d', hlay, rfl⟩ := Option.map_eq_some'.mp hrun
    have hlay' : b.dungeon.PathAdd c (c.segments b.dungeon.size (b.dungeon.size.divide 2)
        b.dungeon.pathObstacles redirection).flatten = some d' := hlay
    obtain ⟨log, htrace⟩ := Dungeon.PathAdd_trace c _ hlay'
    refine ⟨?_, ⟨log, htrace.entities, ?_⟩, ?_⟩
    · intro segment hseg p hp
      exact (Dungeon.PathAdd_occupied c _ hlay').2 p (List.mem_flatten.mpr ⟨segment, hseg, hp⟩)
    · intro x hx
      obtain ⟨s, _, hpath, _, hmem⟩ := htrace.calls x hx
      exact ⟨hpath, List.mem_flatten.mp hmem⟩
    · intro hempty
      have hflat : (c.segments b.dungeon.size (b.dungeon.size.divide 2)
          b.dungeon.pathObstacles redirection).flatten = [] := by
        apply List.eq_nil_iff_forall_not_mem.mpr
        intro p hp
        obtain ⟨segment, hseg, hmem⟩ := List.mem_flatten.mp hp
        rw [hempty segment hseg] at hmem
        cases hmem
      rw [hflat] at hlay'
      cases hlay'
      rfl
  · intro r hs hc hr
    obtain ⟨redirection, b1⟩ := r
    obtain ⟨d1, h1, _, _⟩ := Dungeon.PathAdd_total c
      (c.segments b.dungeon.size (b.dungeon.size.divide 2) b.dungeon.pathObstacles
        redirection).flatten hs
      (by
        intro p hp
        obtain ⟨segment, hseg, hmem⟩ := List.mem_flatten.mp hp
        unfold Collaborators.segments at hseg
        obtain ⟨pair, _, hpair⟩ := List.mem_flatMap.mp hseg
        simp only [List.mem_cons, List.mem_singleton, List.not_mem_nil, or_false] at hpair
        rcases hpair with rfl | rfl
        · exact hc _ _ _ _ p hmem
        · exact hc _ _ _ _ p hmem)
    refine ⟨{ b1 with dungeon := d1 }, ?_, rfl⟩
    rw [Build.GenerateHiddenPath_eq, hr]
    show (b.dungeon.PathAdd c _).map _ = _
    rw [h1]
    rfl

/-- Witness for C23: on the 4 × 4 sample with doors in `(1, 0)` and `(3, 1)`, the pathfinder
finds no route from `(1, 0)`: the first segment of the first link is empty.  The stage returns
after four draws; the second segment of the first link has added "Path" markers in `(1, 2)` and
`(2, 2)`, the first segment of the second link one in `(3, 2)`, and these cells are occupied.
With a pathfinder that finds no route at all the stage returns the dungeon as it was. -/
theorem GenerateHiddenPath_skips_empty_segments_witness :
    (sampleHalfRoute.segments ⟨4, 4⟩ ⟨2, 2⟩ [] [(⟨1, 0⟩, ⟨1, 2⟩), (⟨3, 1⟩, ⟨1, 2⟩)]).head? =
      some [] ∧
    (∃ b', sampleTwoDoors.GenerateHiddenPath sampleHalfRoute 3 = some b' ∧ b'.calls = 4 ∧
      b'.dungeon.entities.map (fun en => (en.2.icon, en.2.position)) =
        [('+', ⟨1, 0⟩), ('+', ⟨3, 1⟩), (':', ⟨1, 2⟩), (':', ⟨2, 2⟩), (':', ⟨3, 2⟩)] ∧
      ∀ p ∈ [(⟨1, 2⟩ : Vector2), ⟨2, 2⟩, ⟨3, 2⟩], b'.dungeon.Unoccupied p = some false) ∧
    sampleBuild.GenerateHiddenPath sampleNoRoute 3 = some { sampleBuild with calls := 2 } := by
  obtain ⟨_, hstage, _⟩ :=
    GenerateHiddenPath_skips_empty_segments sampleHalfRoute 3 sampleTwoDoors
  obtain ⟨b', hrun⟩ := Option.isSome_iff_exists.mp
    (by decide : (sampleTwoDoors.GenerateHiddenPath sampleHalfRoute 3).isSome = true)
  obtain ⟨hocc, _, _⟩ := hstage [(⟨1, 0⟩, ⟨1, 2⟩), (⟨3, 1⟩, ⟨1, 2⟩)]
    { sampleTwoDoors with calls := 4 } b' (by decide) hrun
  have hcalls : (sampleTwoDoors.GenerateHiddenPath sampleHalfRoute 3).map (fun b => b.calls) =
      some 4 := by decide
  have hentities : (sampleTwoDoors.GenerateHiddenPath sampleHalfRoute 3).map
      (fun b => b.dungeon.entities.map fun en => (en.2.icon, en.2.position)) =
      some [('+', ⟨1, 0⟩), ('+', ⟨3, 1⟩), (':', ⟨1, 2⟩), (':', ⟨2, 2⟩), (':', ⟨3, 2⟩)] := by
    decide
  rw [hrun] at hcalls hentities
  refine ⟨by decide, ⟨b', hrun, by simpa using hcalls, by simpa using hentities, ?_⟩, by decide⟩
  intro p hp
  simp only [List.mem_cons, List.mem_singleton, List.not_mem_nil, or_false] at hp
  rcases hp with rfl | rfl | rfl
  · exact hocc [⟨1, 2⟩, ⟨1, 2⟩, ⟨2, 2⟩] (by decide) _ (by decide)
  · exact hocc [⟨1, 2⟩, ⟨1, 2⟩, ⟨2, 2⟩] (by decide) _ (by decide)
  · exact hocc [⟨3, 1⟩, ⟨3, 2⟩, ⟨1, 2⟩] (by decide) _ (by decide)
/-! ## Claim C24: the vision set and the tile queries stay in the grid -/

/-- C24: whenever `Dungeon::BuildVision` returns, the dungeon has the size it had and every
position of the vision set is in bounds; the cells for which `TileLacking` is called inside
`BuildVision` (the record of `Dungeon.BuildVisionLogged`, whose outcome is that of
`Dungeon.BuildVision`) are all in bounds: each call stands behind a successful `InBounds` test
of the same cell.  This holds for all rasterisers and for every order in which the set
`_vision` lists its elements, the rounds of the last pass for cells inserted during that pass
included.  On a dungeon with one tile per cell whose occupants can all be dereferenced
`BuildVision` does return. -/
theorem BuildVision_stays_in_bounds (fn : Functions) (d : Dungeon) (position : Vector2)
    (visionReach : Int) :
    (∀ s, d.BuildVision fn position visionReach = some s →
      s.size = d.size ∧ ∀ p ∈ s.vision, InBounds p s.size) ∧
    (d.BuildVisionLogged fn position visionReach).2 = d.BuildVision fn position visionReach ∧
    (∀ c ∈ (d.BuildVisionLogged fn position visionReach).1, InBounds c d.size) ∧
    (d.Sized → d.Live → ∃ v, d.BuildVision fn position visionReach = some (d.withVision v) ∧
      ∀ p ∈ v, InBounds p d.size) := by
  obtain ⟨h2, hlog, hout⟩ := Dungeon.BuildVision_traced fn d position visionReach
  refine ⟨fun s hs => ⟨(hout s hs).1, (hout s hs).2.1⟩, h2, hlog, fun hs hl => ?_⟩
  obtain ⟨v, hv⟩ := Dungeon.BuildVision_frame fn d hs hl position visionReach
  exact ⟨v, hv, (hout _ hv).2.1⟩

/-- Witness for C24: on the 3 × 3 sample without entities, `BuildVision` from `(2, 0)` returns
seven cells; the last pass inserts `(1, 1)`, visits it and inserts `(2, 1)`; `TileLacking` is
called 30 times, for cells of the grid only. -/
theorem BuildVision_stays_in_bounds_witness :
    (sampleOpen.BuildVision sampleChained ⟨2, 0⟩ 2).map (fun s => s.vision) =
      some [⟨2, 0⟩, ⟨0, 1⟩, ⟨1, 0⟩, ⟨1, 2⟩, ⟨2, 2⟩, ⟨1, 1⟩, ⟨2, 1⟩] ∧
    (∀ c ∈ (sampleOpen.BuildVisionLogged sampleChained ⟨2, 0⟩ 2).1,
      InBounds c sampleOpen.size) ∧
    (sampleOpen.BuildVisionLogged sampleChained ⟨2, 0⟩ 2).1.length = 30 ∧
    (⟨2, 1⟩ : Vector2) ∈ (sampleOpen.BuildVisionLogged sampleChained ⟨2, 0⟩ 2).1 :=
  ⟨by decide, (BuildVision_stays_in_bounds sampleChained sampleOpen ⟨2, 0⟩ 2).2.2.1,
    by decide, by decide⟩
/-! ## Claim C25: the doors stay at the entrances of the links -/

theorem numbered_mem_of_mem {α : Type} {x : α} :
    ∀ (n : Nat) {xs : List α}, x ∈ xs → ∃ k, (k, x) ∈ numbered n xs
  | _, [], h => by cases h
  | n, y :: ys, h => by
    rcases List.mem_cons.mp h with rfl | h
    · exact ⟨n, List.mem_cons_self _ _⟩
    · obtain ⟨k, hk⟩ := numbered_mem_of_mem (n + 1) h
      exact ⟨k, List.mem_cons_of_mem _ hk⟩

theorem Build.GenerateDoors_doorsAt (c : Collaborators) (amount : Int) {b b' : Build}
    (hold : b.dungeon.toDungeonMembers.DoorsAt (c.Get "Door"))
    (h : b.GenerateDoors c amount = some b') :
    b'.dungeon.toDungeonMembers.DoorsAt (c.Get "Door") := by
  obtain ⟨_, doors, _, _, hlinks, htrace⟩ := Build.GenerateDoors_shape c amount h
  have hent := htrace.entities
  intro l hl
  have hl' : l ∈ b.dungeon.links ++ doors.map Link.unresolved := by
    rw [← hlinks]
    exact hl
  rcases List.mem_append.mp hl' with hl0 | hl1
  · obtain ⟨en, hen, heq⟩ := hold l hl0
    refine ⟨en, ?_, heq⟩
    show en ∈ b'.dungeon.entities
    rw [hent]
    exact List.mem_append_left _ hen
  · obtain ⟨p, hp, rfl⟩ := List.mem_map.mp hl1
    obtain ⟨k, hk⟩ := numbered_mem_of_mem b.dungeon.fresh
      (List.mem_map_of_mem (fun p => (p, c.Get "Door")) hp)
    refine ⟨stored (k, p, c.Get "Door"), ?_, rfl⟩
    show stored (k, p, c.Get "Door") ∈ b'.dungeon.entities
    rw [hent]
    exact List.mem_append_right _ (List.mem_map_of_mem stored hk)

theorem Game.rotateLink_entrances {g g' : Game} {D : Int} {i : Nat} (size : Vector2)
    (o : Orientation) (h : g.rotateLink D size o i = some g') :
    g'.player = g.player ∧
    (∀ x, (vectorAt g'.dungeons x).map (fun D => { D with links := [] }) =
      (vectorAt g.dungeons x).map (fun D => { D with links := [] })) ∧
    ∀ a b : Int, (g'.getLink a b).map Link.entrance =
      if a = D ∧ b = (i : Int) then
        (g.getLink a b).map fun l => PositionRotate l.entrance size o
      else (g.getLink a b).map Link.entrance := by
  unfold Game.rotateLink at h
  cases hcur : g.getLink D i with
  | none => simp [hcur] at h
  | some current =>
    rw [hcur] at h
    dsimp only at h
    cases hpar : g.getLink current.indexDungeon current.indexLink with
    | none => simp [hpar] at h
    | some partner0 =>
      rw [hpar] at h
      dsimp only at h
      cases hg1 : g.setLink D i
          { current with entrance := PositionRotate current.entrance size o } with
      | none => simp [hg1] at h
      | some g1 =>
        rw [hg1] at h
        dsimp only at h
        cases hp1 : g1.getLink current.indexDungeon current.indexLink with
        | none => simp [hp1] at h
        | some partner =>
          rw [hp1] at h
          dsimp only at h
          refine ⟨by rw [Game.setLink_player h, Game.setLink_player hg1],
            fun x => by rw [Game.setLink_body h, Game.setLink_body hg1], ?_⟩
          intro a b
          have hsecond : (g'.getLink a b).map Link.entrance =
              (g1.getLink a b).map Link.entrance := by
            rw [Game.getLink_setLink h]
            split
            · next hab =>
              rw [hab.1, hab.2, hp1]
              rfl
            · rfl
          rw [hsecond, Game.getLink_setLink hg1]
          split
          · next hab =>
            rw [hab.1, hab.2, hcur]
            rfl
          · rfl

theorem Game.rotateFold_entrances (g : Game) (D : Int) (size : Vector2) (o : Orientation) :
    ∀ (k : Nat) {gk : Game}, (List.range k).foldlM (Game.rotateLink D size o) g = some gk →
      gk.player = g.player ∧
      (∀ x, (vectorAt gk.dungeons x).map (fun D => { D with links := [] }) =
        (vectorAt g.dungeons x).map (fun D => { D with links := [] })) ∧
      ∀ (a : Int) (i : Nat), (gk.getLink a i).map Link.entrance =
        if a = D ∧ i < k then
          (g.getLink a i).map fun l => PositionRotate l.entrance size o
        else (g.getLink a i).map Link.entrance
  | 0, gk, h => by
    cases h
    exact ⟨rfl, fun _ => rfl, fun a i => by simp⟩
  | k + 1, gk, h => by
    rw [List.range_succ, List.foldlM_append] at h
    cases hk : (List.range k).foldlM (Game.rotateLink D size o) g with
    | none => simp [hk] at h
    | some g1 =>
      rw [hk] at h
      have hstep : g1.rotateLink D size o k = some gk := by simpa using h
      obtain ⟨hp1, hb1, hl1⟩ := Game.rotateFold_entrances g D size o k hk
      obtain ⟨hp2, hb2, hl2⟩ := Game.rotateLink_entrances size o hstep
      refine ⟨by rw [hp2, hp1], fun x => by rw [hb2, hb1], ?_⟩
      intro a i
      rw [hl2 a i]
      by_cases ha : a = D
      · by_cases hik : i = k
        · subst hik
          have h1 := hl1 a i
          rw [if_neg (by omega)] at h1
          rw [if_pos ⟨ha, rfl⟩, if_pos ⟨ha, by omega⟩]
          have hmap : ∀ r : Option Link, (r.map fun l => PositionRotate l.entrance size o) =
              (r.map Link.entrance).map fun p => PositionRotate p size o := by
            intro r
            cases r <;> rfl
          rw [hmap, hmap, h1]
        · have hne : ¬ (a = D ∧ (i : Int) = (k : Int)) := by
            intro hc
            exact hik (by exact_mod_cast hc.2)
          rw [if_neg hne, hl1 a i]
          by_cases hlt : i < k
          · rw [if_pos ⟨ha, hlt⟩, if_pos ⟨ha, by omega⟩]
          · rw [if_neg (by intro hc; exact hlt hc.2), if_neg (by intro hc; omega)]
      · rw [if_neg (by intro hc; exact ha hc.1), hl1 a i,
          if_neg (by intro hc; exact ha hc.1), if_neg (by intro hc; exact ha hc.1)]

theorem Dungeon.Rotate_entities_links {d rotated : Dungeon} {o : Orientation}
    (h : d.Rotate o = some rotated) :
    rotated.entities = d.entities.map (fun en =>
      (en.1, { en.2 with position := PositionRotate en.2.position d.size o })) ∧
    rotated.links = d.links := by
  unfold Dungeon.Rotate at h
  dsimp only at h
  split at h
  · cases h
  · cases h
    exact ⟨rfl, rfl⟩

theorem entrances_of_getLink (f : Vector2 → Vector2) (after before : List Link)
    (h : ∀ i : Nat, (after[i]?).map Link.entrance =
      (before[i]?).map fun l => f l.entrance) :
    after.map Link.entrance = before.map fun l => f l.entrance := by
  apply List.ext_getElem?
  intro i
  rw [List.getElem?_map, List.getElem?_map]
  exact h i

theorem DungeonMembers.DoorsAt.of_entrances {door : Entity} {m m' : DungeonMembers}
    (f : Vector2 → Vector2) (h : m.DoorsAt door)
    (hlinks : m'.links.map Link.entrance = m.links.map fun l => f l.entrance)
    (hent : ∀ en ∈ m.entities, (en.1, { en.2 with position := f en.2.position }) ∈ m'.entities) :
    m'.DoorsAt door := by
  intro l' hl'
  have hmem : l'.entrance ∈ m.links.map fun l => f l.entrance := by
    rw [← hlinks]
    exact List.mem_map_of_mem Link.entrance hl'
  obtain ⟨l, hl, heq⟩ := List.mem_map.mp hmem
  obtain ⟨en, hen, hdoor⟩ := h l hl
  refine ⟨_, hent en hen, ?_⟩
  show ({ en.2 with position := f en.2.position } : Entity) = { door with position := l'.entrance }
  rw [hdoor, ← heq]

theorem Game.DungeonRotate_doorsAt (door : Entity) {g g' : Game} {D : Int} {o : Orientation}
    (h : g.DungeonRotate D o = some g') (x : Int) {m : DungeonMembers}
    (hm : vectorAt g.dungeons x = some m) (hdoors : m.DoorsAt door) :
    ∃ m', vectorAt g'.dungeons x = some m' ∧ m'.DoorsAt door := by
  unfold Game.DungeonRotate at h
  cases hD : vectorAt g.dungeons D with
  | none => simp [hD] at h
  | some d =>
    rw [hD] at h
    dsimp only at h
    cases hfold : (List.range d.links.length).foldlM (Game.rotateLink D d.size o) g with
    | none => simp [hfold] at h
    | some gk =>
      rw [hfold] at h
      dsimp only at h
      cases hDk : vectorAt gk.dungeons D with
      | none => simp [hDk] at h
      | some d1 =>
        rw [hDk] at h
        dsimp only at h
        cases hrot : Dungeon.Rotate { toDungeonMembers := d1, player := gk.player } o with
        | none => simp [hrot] at h
        | some rotated =>
          rw [hrot] at h
          cases h
          obtain ⟨_, hbody, hlinks⟩ := Game.rotateFold_entrances g D d.size o d.links.length hfold
          obtain ⟨hrent, hrlinks⟩ := Dungeon.Rotate_entities_links hrot
          obtain ⟨hD0, hDget⟩ := vectorAt_eq_some.mp hDk
          have hDl : D.toNat < gk.dungeons.length := (List.getElem?_eq_some.mp hDget).1
          -- the dungeon `x` after the loop over the links
          have hxk : ∃ mk, vectorAt gk.dungeons x = some mk ∧
              ({ mk with links := [] } : DungeonMembers) = { m with links := [] } := by
            have := hbody x
            rw [hm] at this
            cases hk : vectorAt gk.dungeons x with
            | none => simp [hk] at this
            | some mk =>
              rw [hk] at this
              exact ⟨mk, rfl, by simpa using this⟩
          obtain ⟨mk, hmk, hsame⟩ := hxk
          have hsize : mk.size = m.size := by
            have := congrArg DungeonMembers.size hsame
            exact this
          have hent : mk.entities = m.entities := by
            have := congrArg DungeonMembers.entities hsame
            exact this
          have hget : ∀ i : Nat, (mk.links[i]?).map Link.entrance =
              if x = D ∧ i < d.links.length then
                (m.links[i]?).map fun l => PositionRotate l.entrance d.size o
              else (m.links[i]?).map Link.entrance := by
            intro i
            have := hlinks x i
            rw [Game.getLink_of_links hmk, Game.getLink_of_links hm] at this
            exact this
          have hent2 : (Dungeon.mk mk gk.player).entities = m.entities := hent
          have hsize2 : (Dungeon.mk mk gk.player).size = m.size := hsize
          dsimp only
          rw [vectorAt_set hD0 hDl]
          by_cases hx : x = D
          · subst hx
            rw [hD] at hm
            cases hm
            rw [hDk] at hmk
            cases hmk
            rw [if_pos rfl]
            refine ⟨_, rfl, ?_⟩
            refine DungeonMembers.DoorsAt.of_entrances
              (fun p => PositionRotate p m.size o) hdoors ?_ ?_
            · show rotated.links.map Link.entrance = _
              rw [hrlinks]
              refine entrances_of_getLink (fun p => PositionRotate p m.size o) _ _ ?_
              intro i
              refine (hget i).trans ?_
              split
              · rfl
              · next hc =>
                have hlen : m.links.length ≤ i := by
                  by_contra hlt
                  exact hc ⟨rfl, by omega⟩
                rw [List.getElem?_eq_none hlen]
                rfl
            · intro en hen
              show _ ∈ rotated.entities
              rw [hrent, hent2, hsize2]
              exact List.mem_map_of_mem _ hen
          · rw [if_neg hx]
            refine ⟨mk, hmk, ?_⟩
            refine DungeonMembers.DoorsAt.of_entrances (fun p => p) hdoors ?_ ?_
            · refine entrances_of_getLink (fun p => p) _ _ ?_
              intro i
              rw [hget i, if_neg (by intro hc; exact hx hc.1)]
            · intro en hen
              rw [hent]
              exact hen

/-- C25: when `Dungeon::GenerateDoors` returns on a dungeon in which every link has a clone of
the factory's "Door" stored at its entrance (as in the constructor, where `links` is still
empty), every link of the dungeon has one afterwards: the entrance of each new link is the
stored position of the door inserted with it.  Whenever `Game::DungeonRotate( D, o )` returns,
for every orientation `o`, every dungeon of the game that had a door stored at the entrance of
each of its links still has one, the rotated dungeon `D` included. -/
theorem doors_stay_at_entrances (c : Collaborators) (door : Entity) :
    (∀ (b b' : Build) (amount : Int), b.dungeon.toDungeonMembers.DoorsAt (c.Get "Door") →
      b.GenerateDoors c amount = some b' →
      b'.dungeon.toDungeonMembers.DoorsAt (c.Get "Door")) ∧
    (∀ (player : Player) (config : DungeonConfiguration) (b0 b1 : Build),
      Build.create c player config = some b0 →
      b0.GenerateDoors c config.amount.doors = some b1 →
      b1.dungeon.toDungeonMembers.DoorsAt (c.Get "Door")) ∧
    (∀ (g g' : Game) (D : Int) (o : Orientation) (x : Int) (m : DungeonMembers),
      g.DungeonRotate D o = some g' → vectorAt g.dungeons x = some m → m.DoorsAt door →
      ∃ m', vectorAt g'.dungeons x = some m' ∧ m'.DoorsAt door) := by
  refine ⟨fun b b' amount hold h => Build.GenerateDoors_doorsAt c amount hold h, ?_, ?_⟩
  · intro player config b0 b1 h0 h1
    refine Build.GenerateDoors_doorsAt c _ ?_ h1
    have hnil : b0.dungeon.links = [] := by
      unfold Build.create at h0
      dsimp only at h0
      split_ifs at h0 <;> cases h0 <;> rfl
    intro l hl
    rw [hnil] at hl
    cases hl
  · intro g g' D o x m h hm hdoors
    exact Game.DungeonRotate_doorsAt door h x hm hdoors

/-- Witness for C25: on the blank 7 × 6 sample `GenerateDoors` returns a dungeon with three
links, each with a door at its entrance; in the sample of two linked dungeons, dungeon 0 has
its door at the entrance `(0, 1)` of its link, and after the quarter turn of dungeon 0 the door
is at the entrance of the link again. -/
theorem doors_stay_at_entrances_witness :
    (∃ b', sampleBlank.GenerateDoors sampleCollaborators 0 = some b' ∧
      b'.dungeon.links.length = 3 ∧
      b'.dungeon.toDungeonMembers.DoorsAt (sampleCollaborators.Get "Door")) ∧
    ∃ g' m', sampleLinked.DungeonRotate 0 .East = some g' ∧
      vectorAt g'.dungeons 0 = some m' ∧ m'.links.map Link.entrance = [⟨0, 0⟩] ∧
      m'.DoorsAt (sampleDoor ⟨0, 0⟩) := by
  obtain ⟨hdoors, _, hrotate⟩ := doors_stay_at_entrances sampleCollaborators (sampleDoor ⟨0, 0⟩)
  constructor
  · obtain ⟨b', hrun⟩ := Option.isSome_iff_exists.mp
      (by decide : (sampleBlank.GenerateDoors sampleCollaborators 0).isSome = true)
    have hlen : (sampleBlank.GenerateDoors sampleCollaborators 0).map
        (fun b => b.dungeon.links.length) = some 3 := by decide
    rw [hrun] at hlen
    exact ⟨b', hrun, by simpa using hlen, hdoors sampleBlank b' 0 (by decide) hrun⟩
  · obtain ⟨g', hrun⟩ := Option.isSome_iff_exists.mp
      (by decide : (sampleLinked.DungeonRotate 0 .East).isSome = true)
    obtain ⟨m', hm', hd'⟩ := hrotate sampleLinked g' 0 .East 0
      { sampleGenerated with links := [⟨1, 0, ⟨0, 1⟩, ⟨2, 0⟩⟩] } hrun rfl (by decide)
    have hent : ((sampleLinked.DungeonRotate 0 .East).bind fun g => vectorAt g.dungeons 0).map
        (fun m => m.links.map Link.entrance) = some [⟨0, 0⟩] := by decide
    rw [hrun] at hent
    simp only [Option.some_bind, hm', Option.map_some'] at hent
    exact ⟨g', m', hrun, hm', by simpa using hent, hd'⟩
/-! ## Claim C26: the cells GenerateWallsFiller visits and their neighbours -/

theorem interiorCells_iff (size p : Vector2) :
    p ∈ interiorCells size ↔ 1 ≤ p.x ∧ p.x ≤ size.x - 2 ∧ 1 ≤ p.y ∧ p.y ≤ size.y - 2 := by
  constructor
  · intro h
    obtain ⟨h1, h2, h3, h4⟩ := mem_interiorCells h
    exact ⟨h1, by omega, h3, by omega⟩
  · obtain ⟨x, y⟩ := p
    rintro ⟨h1, h2, h3, h4⟩
    dsimp only at h1 h2 h3 h4
    unfold interiorCells
    simp only [List.mem_flatMap, List.mem_range, List.mem_map]
    refine ⟨(y - 1).toNat, by omega, (x - 1).toNat, by omega, ?_⟩
    simp only [Vector2.mk.injEq]
    constructor <;> omega

theorem interiorCells_narrow {size : Vector2} (h : size.x < 3 ∨ size.y < 3) :
    interiorCells size = [] := by
  apply List.eq_nil_iff_forall_not_mem.mpr
  intro p hp
  obtain ⟨h1, h2, h3, h4⟩ := (interiorCells_iff size p).mp hp
  omega

theorem directionsAround_inBounds {size p direction : Vector2} (hp : p ∈ interiorCells size)
    (hd : direction ∈ directionsAround) : InBounds (p + direction) size := by
  obtain ⟨h1, h2, h3, h4⟩ := (interiorCells_iff size p).mp hp
  have hdir : -1 ≤ direction.x ∧ direction.x ≤ 1 ∧ -1 ≤ direction.y ∧ direction.y ≤ 1 := by
    simp only [directionsAround, List.mem_cons, List.mem_singleton, List.not_mem_nil,
      or_false] at hd
    rcases hd with rfl | rfl | rfl | rfl | rfl | rfl | rfl | rfl <;> decide
  rw [Vector2.add_def]
  exact ⟨by show 0 ≤ p.x + direction.x; omega, by show p.x + direction.x < size.x; omega,
    by show 0 ≤ p.y + direction.y; omega, by show p.y + direction.y < size.y; omega⟩

theorem Dungeon.EntityInsert_live {d : Dungeon} (hs : d.Sized) (hl : d.Live) {p : Vector2}
    (hp : InBounds p d.size) (e : Entity) :
    ∃ d1, d.EntityInsert p e = some d1 ∧ d1.Sized ∧ d1.Live ∧ d1.size = d.size := by
  obtain ⟨d1, h1, hs1⟩ := Dungeon.EntityInsert_sized hs hp e
  refine ⟨d1, h1, hs1, ?_, ?_⟩
  · obtain ⟨t0, c, ht0, rfl⟩ := Dungeon.EntityInsert_shape h1
    have hold : ∀ r : Ref, (d.deref r).isSome = true →
        (Dungeon.deref { d with
          entities := d.entities ++ [(d.fresh, { e with position := p })],
          fresh := d.fresh + 1,
          tiles := d.tiles.set (tileIndex d.size p).toNat
            ⟨c, t0.occupants ++ [.entity d.fresh]⟩ } r).isSome = true := by
      intro r hr
      cases r with
      | player => rfl
      | entity id =>
        show ((d.entities ++ [(d.fresh, { e with position := p })]).lookup id).isSome = true
        rw [List.lookup_append]
        have hr' : (d.entities.lookup id).isSome = true := hr
        cases hlook : d.entities.lookup id with
        | none => rw [hlook] at hr'; cases hr'
        | some e0 => rfl
    intro t ht r hr
    rcases List.mem_or_eq_of_mem_set ht with ht | rfl
    · exact hold r (hl t ht r hr)
    · rcases List.mem_append.mp hr with hr | hr
      · exact hold r (hl t0 (tileAt_mem ht0) r hr)
      · rw [List.mem_singleton] at hr
        subst hr
        show ((d.entities ++ [(d.fresh, { e with position := p })]).lookup d.fresh).isSome = true
        rw [List.lookup_append]
        cases d.entities.lookup d.fresh with
        | none => simp [lookup_cons_ite]
        | some e0 => rfl
  · obtain ⟨t0, c, _, rfl⟩ := Dungeon.EntityInsert_shape h1
    rfl

theorem Dungeon.countAround_total {d : Dungeon} (hs : d.Sized) (hl : d.Live) (position : Vector2) :
    ∀ (around : List Vector2) (count : Int),
      (∀ direction ∈ around, InBounds (position + direction) d.size) →
      ∃ n, around.foldlM
        (fun (count : Int) direction =>
          match d.TileLacking (position + direction) Attributes.Obstacle with
          | none => none
          | some true => some count
          | some false => some (count + 1))
        count = some n
  | [], count, _ => ⟨count, rfl⟩
  | direction :: rest, count, hin => by
    obtain ⟨b, hb⟩ := Dungeon.TileLacking_inBounds hs hl
      (hin direction (List.mem_cons_self _ _)) Attributes.Obstacle
    rw [List.foldlM_cons, hb]
    cases b
    · exact Dungeon.countAround_total hs hl position rest (count + 1)
        (fun x hx => hin x (List.mem_cons_of_mem _ hx))
    · exact Dungeon.countAround_total hs hl position rest count
        (fun x hx => hin x (List.mem_cons_of_mem _ hx))

theorem Dungeon.Surrounded_total {d : Dungeon} (hs : d.Sized) (hl : d.Live) {p : Vector2}
    (hp : p ∈ interiorCells d.size) (threshold : Int) :
    ∃ b, d.Surrounded p threshold = some b := by
  obtain ⟨n, hn⟩ := Dungeon.countAround_total hs hl p directionsAround 0
    (fun direction hd => directionsAround_inBounds hp hd)
  exact ⟨decide (n ≥ threshold), Option.map_eq_some'.mpr ⟨n, hn, rfl⟩⟩

theorem Dungeon.fillStep_total (c : Collaborators) {d : Dungeon} (hs : d.Sized) (hl : d.Live)
    {p : Vector2} (hp : p ∈ interiorCells d.size) :
    ∃ d1, d.fillStep c p = some d1 ∧ d1.Sized ∧ d1.Live ∧ d1.size = d.size := by
  obtain ⟨h1, h2, h3, h4⟩ := (interiorCells_iff d.size p).mp hp
  have hin : InBounds p d.size := ⟨by omega, by omega, by omega, by omega⟩
  obtain ⟨t, ht⟩ := Dungeon.GetTile_of_inBounds hs hin
  obtain ⟨b, hb⟩ := Dungeon.Surrounded_total hs hl hp 5
  unfold Dungeon.fillStep Dungeon.Unoccupied
  rw [ht]
  cases hocc : t.occupants.isEmpty with
  | false => exact ⟨d, by simp [hocc], hs, hl, rfl⟩
  | true =>
    cases b with
    | false => exact ⟨d, by simp [hocc, hb], hs, hl, rfl⟩
    | true =>
      obtain ⟨d1, hd1, hrest⟩ := Dungeon.EntityInsert_live hs hl hin (c.Get "Wall")
      exact ⟨d1, by simp [hocc, hb, hd1], hrest⟩

theorem Dungeon.GenerateWallsFiller_total (c : Collaborators) {d : Dungeon} (hs : d.Sized)
    (hl : d.Live) (amount : Int) :
    ∃ d1, d.GenerateWallsFiller c amount = some d1 ∧ d1.Sized ∧ d1.Live ∧ d1.size = d.size := by
  unfold Dungeon.GenerateWallsFiller
  dsimp only
  obtain ⟨d1, h1, hs1, hl1, hsize1⟩ := Dungeon.foldlM_inv
    (fun s => s.Sized ∧ s.Live ∧ s.size = d.size)
    (fun s (_ : Nat) => (interiorCells s.size).foldlM (Dungeon.fillStep c) s)
    (List.range (if amount ≠ 0 then amount else 5).toNat) d
    (by
      intro s _ _ hP
      obtain ⟨s1, hrun, hs1, hl1, hsize1⟩ := Dungeon.foldlM_inv
        (fun t => t.Sized ∧ t.Live ∧ t.size = s.size) (Dungeon.fillStep c)
        (interiorCells s.size) s
        (by
          intro t x hx hQ
          obtain ⟨t1, hstep, ht1, hl1, hsize1⟩ := Dungeon.fillStep_total c hQ.1 hQ.2.1
            (p := x) (by rw [hQ.2.2]; exact hx)
          exact ⟨t1, hstep, ht1, hl1, hsize1.trans hQ.2.2⟩)
        ⟨hP.1, hP.2.1, rfl⟩
      exact ⟨s1, hrun, hs1, hl1, hsize1.trans hP.2.2⟩)
    ⟨hs, hl, rfl⟩
  exact ⟨d1, h1, hs1, hl1, hsize1⟩

/-- C26: the cells that a pass of `Dungeon::GenerateWallsFiller` visits are the cells with
`1 ≤ x ≤ W - 2` and `1 ≤ y ≤ H - 2`; such a cell and its eight neighbours examined by
`Surrounded` are in bounds, and their tile indices `y * W + x` lie in `[0, W * H)`; when `W < 3` or `H < 3` no cell is visited and the stage returns the dungeon as
it was.  On a dungeon with one tile per cell whose occupants can all be dereferenced, `Surrounded`
is defined for every visited cell and the stage returns, with the same size. -/
theorem GenerateWallsFiller_neighbours_in_bounds (c : Collaborators) (d : Dungeon)
    (amount : Int) :
    (∀ p : Vector2, p ∈ interiorCells d.size ↔
      1 ≤ p.x ∧ p.x ≤ d.size.x - 2 ∧ 1 ≤ p.y ∧ p.y ≤ d.size.y - 2) ∧
    (∀ p ∈ interiorCells d.size, InBounds p d.size ∧
      0 ≤ tileIndex d.size p ∧ tileIndex d.size p < d.size.x * d.size.y ∧
      ∀ direction ∈ directionsAround, InBounds (p + direction) d.size ∧
        0 ≤ tileIndex d.size (p + direction) ∧
        tileIndex d.size (p + direction) < d.size.x * d.size.y) ∧
    (d.size.x < 3 ∨ d.size.y < 3 →
      interiorCells d.size = [] ∧ d.GenerateWallsFiller c amount = some d) ∧
    (d.Sized → d.Live →
      (∀ p ∈ interiorCells d.size, ∃ b, d.Surrounded p 5 = some b) ∧
      ∃ d1, d.GenerateWallsFiller c amount = some d1 ∧ d1.size = d.size) := by
  refine ⟨interiorCells_iff d.size, ?_, ?_, ?_⟩
  · intro p hp
    obtain ⟨h1, h2, h3, h4⟩ := (interiorCells_iff d.size p).mp hp
    have hcell : InBounds p d.size := ⟨by omega, by omega, by omega, by omega⟩
    obtain ⟨hlow, hhigh⟩ := @tileIndex_bounds d.size p (by omega) hcell
    refine ⟨hcell, hlow, hhigh, fun direction hd => ?_⟩
    have hin := directionsAround_inBounds hp hd
    exact ⟨hin, tileIndex_bounds (by omega) hin⟩
  · intro hnarrow
    refine ⟨interiorCells_narrow hnarrow, ?_⟩
    unfold Dungeon.GenerateWallsFiller
    dsimp only
    have hpass : ∀ (l : List Nat),
        l.foldlM (fun s (_ : Nat) => (interiorCells s.size).foldlM (Dungeon.fillStep c) s) d =
          some d := by
      intro l
      induction l with
      | nil => rfl
      | cons x l ih =>
        rw [List.foldlM_cons, interiorCells_narrow hnarrow]
        exact ih
    exact hpass _
  · intro hs hl
    refine ⟨fun p hp => Dungeon.Surrounded_total hs hl hp 5, ?_⟩
    obtain ⟨d1, h1, _, _, hsize⟩ := Dungeon.GenerateWallsFiller_total c hs hl amount
    exact ⟨d1, h1, hsize⟩

/-- Witness for C26: the 4 × 4 sample has the four inner cells, and the stage returns on it;
a 2 × 5 dungeon is returned as it was. -/
theorem GenerateWallsFiller_neighbours_in_bounds_witness :
    interiorCells sampleBuild.dungeon.size = [⟨1, 1⟩, ⟨2, 1⟩, ⟨1, 2⟩, ⟨2, 2⟩] ∧
    (∃ d1, sampleBuild.dungeon.GenerateWallsFiller sampleCollaborators 0 = some d1 ∧
      d1.size = sampleBuild.dungeon.size) ∧
    ({ sampleBuild.dungeon with size := ⟨2, 5⟩ } : Dungeon).GenerateWallsFiller
      sampleCollaborators 0 = some { sampleBuild.dungeon with size := ⟨2, 5⟩ } :=
  ⟨by decide,
    ((GenerateWallsFiller_neighbours_in_bounds sampleCollaborators sampleBuild.dungeon
      0).2.2.2 (by decide) (by decide)).2,
    ((GenerateWallsFiller_neighbours_in_bounds sampleCollaborators
      { sampleBuild.dungeon with size := ⟨2, 5⟩ } 0).2.2.1 (Or.inl (by decide))).2⟩
end Dungeoncrawler
